import Mathlib

/-!
# MIPS toolchain: machine state, instruction model, executor and runtime loop

A shallow embedding of the C++ sources (`machine_state.cpp`, `instruction.cpp`,
`executor.cpp`, `interpreter.cpp`, `parser.cpp`).

Conventions of the embedding:

* `uint8_t`, `uint16_t`, `uint32_t` values are natural numbers; every place where
  the C++ arithmetic wraps is written with an explicit `% 2 ^ w`.
* `size_t` is 64 bits wide on the targets the toolchain is built for, so a sum of a
  32-bit address and an access size never wraps; it is a plain sum of naturals.
* `std::array<uint32_t, 32>` and `std::vector<uint8_t>` are modelled by their
  contents as a function of the index, the vector together with its size.
* a C++ exception is an `Except.error`.
-/

namespace Mips

/-! ## Errors -/

/-- The exceptions the sources throw, one constructor per `throw` site family. -/
inductive Error where
  /-- Exception `std::out_of_range` thrown by the memory accessors of `machine_state`. -/
  | out_of_range
  /-- Message `Memory access violation in <name> instruction`, also the `print_string` one. -/
  | memory_access_violation (name : String)
  /-- Message `Unsupported instruction: <key>` thrown by `InstructionExecutor::execute`. -/
  | unsupported_instruction (key : String)
  /-- Message `Unknown syscall: <n>` thrown by `handle_syscall`. -/
  | unknown_syscall (n : Nat)
  /-- Exception `std::bad_variant_access` of a `std::get` on the wrong alternative. -/
  | bad_variant_access
  /-- Message `reached maximum instruction count limit` of both runtime loops. -/
  | step_limit
  /-- Message `PC out of bounds` of both runtime loops. -/
  | pc_out_of_bounds (pc : Nat)
  /-- Message `Binary is empty.` of `Executor::run_stream`. -/
  | binary_empty
  /-- Message `Start PC is outside loaded binary memory` of `Executor::run_stream`. -/
  | start_pc_outside (pc : Nat)
  /-- Message `main label not found in assembly.` of `Interpreter::run_stream`. -/
  | main_not_found
  /-- Message `Parse error: ...` thrown by `Parser::throw_parse_error`. -/
  | parse_error (message : String)
  /-- An exception of the C++ standard library conversions (`std::stoul` and friends). -/
  | invalid_argument
  /-- The `print_string` walk never ends (memory spans the whole address space, no NUL). -/
  | nontermination
  /-- The division `INT_MIN / -1` on `int32_t`: its quotient does not fit the type, which C++
  leaves undefined (the x86 division instruction traps on it). -/
  | undefined_division
  deriving DecidableEq, Repr

/-! ## Machine state (`machine_state.h`, `machine_state.cpp`) -/

/-- The class `machine_state`: 32 registers, byte memory with its size, PC, HI, LO. -/
structure machine_state where
  /-- Field `std::array<uint32_t, 32> registers`, by index. -/
  registers : Nat → Nat
  /-- Contents of `std::vector<uint8_t> memory`, by index. -/
  memory : Nat → Nat
  /-- The value of `memory.size()`. -/
  memory_size : Nat
  pc : Nat
  hi : Nat
  lo : Nat

namespace machine_state

/-- Constructor `machine_state(size_t memory_size = 1024 * 1024)`. -/
def init (memory_size : Nat := 1024 * 1024) : machine_state :=
  { registers := fun _ => 0, memory := fun _ => 0, memory_size := memory_size,
    pc := 0, hi := 0, lo := 0 }

/-- Method `get_register`: `$zero` always returns 0. -/
def get_register (s : machine_state) (reg : Nat) : Nat :=
  if reg = 0 then 0 else s.registers reg

/-- Method `set_register`: a write to `$zero` is ignored. -/
def set_register (s : machine_state) (reg : Nat) (value : Nat) : machine_state :=
  if reg = 0 then s
  else { s with registers := fun r => if r = reg then value else s.registers r }

def get_pc (s : machine_state) : Nat := s.pc

def set_pc (s : machine_state) (value : Nat) : machine_state := { s with pc := value }

/-- Method `increment_pc`: `pc += 4` on a `uint32_t`. -/
def increment_pc (s : machine_state) : machine_state := { s with pc := (s.pc + 4) % 2 ^ 32 }

def get_hi (s : machine_state) : Nat := s.hi

def get_lo (s : machine_state) : Nat := s.lo

def set_hi (s : machine_state) (value : Nat) : machine_state := { s with hi := value }

def set_lo (s : machine_state) (value : Nat) : machine_state := { s with lo := value }

def get_memory_size (s : machine_state) : Nat := s.memory_size

/-- Method `is_valid_address`: `addr + access_size <= memory.size()`, a `size_t` sum. -/
def is_valid_address (s : machine_state) (addr : Nat) (access_size : Nat) : Bool :=
  decide (addr + access_size ≤ s.memory_size)

def read_memory8 (s : machine_state) (addr : Nat) : Except Error Nat :=
  if !s.is_valid_address addr 1 then .error .out_of_range
  else .ok (s.memory addr)

def write_memory8 (s : machine_state) (addr : Nat) (value : Nat) : Except Error machine_state :=
  if !s.is_valid_address addr 1 then .error .out_of_range
  else .ok { s with memory := fun a => if a = addr then value else s.memory a }

/-- Method `read_memory16`: the index `addr + 1` is a `uint32_t` sum and wraps at 2^32. -/
def read_memory16 (s : machine_state) (addr : Nat) : Except Error Nat :=
  if !s.is_valid_address addr 2 then .error .out_of_range
  else .ok (s.memory addr ||| (s.memory ((addr + 1) % 2 ^ 32) <<< 8))

/-- Method `write_memory16`: the two assignments in source order, low byte first; the index
`addr + 1` is a `uint32_t` sum and wraps at 2^32. -/
def write_memory16 (s : machine_state) (addr : Nat) (value : Nat) : Except Error machine_state :=
  if !s.is_valid_address addr 2 then .error .out_of_range
  else
    let m0 : Nat → Nat := fun a => if a = addr then value &&& 0xFF else s.memory a
    let m1 : Nat → Nat := fun a =>
      if a = (addr + 1) % 2 ^ 32 then (value >>> 8) &&& 0xFF else m0 a
    .ok { s with memory := m1 }

/-- Method `read_memory32`: the indices `addr + k` are `uint32_t` sums and wrap at 2^32. -/
def read_memory32 (s : machine_state) (addr : Nat) : Except Error Nat :=
  if !s.is_valid_address addr 4 then .error .out_of_range
  else .ok (s.memory addr ||| (s.memory ((addr + 1) % 2 ^ 32) <<< 8) |||
            (s.memory ((addr + 2) % 2 ^ 32) <<< 16) ||| (s.memory ((addr + 3) % 2 ^ 32) <<< 24))

/-- Method `write_memory32`: the four assignments in source order, low byte first; the
indices `addr + k` are `uint32_t` sums and wrap at 2^32. -/
def write_memory32 (s : machine_state) (addr : Nat) (value : Nat) : Except Error machine_state :=
  if !s.is_valid_address addr 4 then .error .out_of_range
  else
    let m0 : Nat → Nat := fun a => if a = addr then value &&& 0xFF else s.memory a
    let m1 : Nat → Nat := fun a =>
      if a = (addr + 1) % 2 ^ 32 then (value >>> 8) &&& 0xFF else m0 a
    let m2 : Nat → Nat := fun a =>
      if a = (addr + 2) % 2 ^ 32 then (value >>> 16) &&& 0xFF else m1 a
    let m3 : Nat → Nat := fun a =>
      if a = (addr + 3) % 2 ^ 32 then (value >>> 24) &&& 0xFF else m2 a
    .ok { s with memory := m3 }

/-- Method `resize_memory`: `memory.resize(new_size, 0)`, growth is zero-filled. -/
def resize_memory (s : machine_state) (new_size : Nat) : machine_state :=
  { s with memory := fun a => if a < s.memory_size then s.memory a else 0,
           memory_size := new_size }

/-- Method `load_memory`: bounds check, then `std::copy` of `data` to `addr`. -/
def load_memory (s : machine_state) (addr : Nat) (data : List Nat) : Except Error machine_state :=
  if !s.is_valid_address addr data.length then .error .out_of_range
  else .ok { s with memory := fun a =>
      if addr ≤ a ∧ a < addr + data.length then data.getD (a - addr) 0 else s.memory a }

end machine_state

/-! ## Integer conversions of the C++ sources -/

/-- Conversion `static_cast<int32_t>(v)` of a `uint32_t`. -/
def to_int32 (v : Nat) : Int :=
  if v < 2 ^ 31 then (v : Int) else (v : Int) - 2 ^ 32

/-- Conversion `static_cast<uint32_t>(i)` of a signed integer: reduction modulo 2^32. -/
def to_uint32 (i : Int) : Nat := (i % 2 ^ 32).toNat

/-- Result of an `int32_t` operation whose mathematical value is `i` (two's-complement wrap). -/
def wrap_int32 (i : Int) : Int := to_int32 (to_uint32 i)

/-! ## Instruction model (`instruction.h`) -/

/-- Struct `RInstruction`; `opcode` is always `Opcode::RTYPE` when built by `make`. -/
structure RInstruction where
  opcode : Nat
  rs : Nat
  rt : Nat
  rd : Nat
  shamt : Nat
  funct : Nat
  deriving DecidableEq, Repr

/-- Struct `IInstruction`. -/
structure IInstruction where
  opcode : Nat
  rs : Nat
  rt : Nat
  immediate : Nat
  deriving DecidableEq, Repr

/-- Struct `JInstruction`. -/
structure JInstruction where
  opcode : Nat
  address : Nat
  deriving DecidableEq, Repr

/-- Constructor `RInstruction(rs, rt, rd, shamt, funct)`: the opcode is forced to `RTYPE`. -/
def RInstruction.make (rs rt rd shamt funct : Nat) : RInstruction :=
  { opcode := 0x00, rs := rs, rt := rt, rd := rd, shamt := shamt, funct := funct }

/-- Constructor `IInstruction(opcode, rs, rt, immediate)`. -/
def IInstruction.make (opcode rs rt immediate : Nat) : IInstruction :=
  { opcode := opcode, rs := rs, rt := rt, immediate := immediate }

/-- Constructor `JInstruction(opcode, address)`: the address is masked to 26 bits. -/
def JInstruction.make (opcode address : Nat) : JInstruction :=
  { opcode := opcode, address := address &&& 0x3FFFFFF }

/-- The variant `std::variant<RInstruction, IInstruction, JInstruction>`. -/
inductive Instruction where
  | R (i : RInstruction)
  | I (i : IInstruction)
  | J (i : JInstruction)
  deriving DecidableEq, Repr

/-- Enum `InstructionFormat`. -/
inductive InstructionFormat where
  | R_TYPE
  | I_TYPE
  | J_TYPE
  deriving DecidableEq, Repr

namespace InstructionUtils

def encode_r_type (instr : RInstruction) : Nat :=
  ((instr.opcode <<< 26) % 2 ^ 32) |||
  ((instr.rs <<< 21) % 2 ^ 32) |||
  ((instr.rt <<< 16) % 2 ^ 32) |||
  ((instr.rd <<< 11) % 2 ^ 32) |||
  ((instr.shamt <<< 6) % 2 ^ 32) |||
  instr.funct

def encode_i_type (instr : IInstruction) : Nat :=
  ((instr.opcode <<< 26) % 2 ^ 32) |||
  ((instr.rs <<< 21) % 2 ^ 32) |||
  ((instr.rt <<< 16) % 2 ^ 32) |||
  instr.immediate

def encode_j_type (instr : JInstruction) : Nat :=
  ((instr.opcode <<< 26) % 2 ^ 32) ||| (instr.address &&& 0x3FFFFFF)

def decode_r_type (binary : Nat) : RInstruction :=
  let rs := (binary >>> 21) &&& 0x1F
  let rt := (binary >>> 16) &&& 0x1F
  let rd := (binary >>> 11) &&& 0x1F
  let shamt := (binary >>> 6) &&& 0x1F
  let funct := binary &&& 0x3F
  RInstruction.make rs rt rd shamt funct

def decode_i_type (binary : Nat) : IInstruction :=
  let opcode := (binary >>> 26) &&& 0x3F
  let rs := (binary >>> 21) &&& 0x1F
  let rt := (binary >>> 16) &&& 0x1F
  let immediate := binary &&& 0xFFFF
  IInstruction.make opcode rs rt immediate

def decode_j_type (binary : Nat) : JInstruction :=
  let opcode := (binary >>> 26) &&& 0x3F
  let address := binary &&& 0x3FFFFFF
  JInstruction.make opcode address

def encode : Instruction → Nat
  | .R i => encode_r_type i
  | .I i => encode_i_type i
  | .J i => encode_j_type i

def decode (binary : Nat) : Instruction :=
  let opcode := (binary >>> 26) &&& 0x3F
  if opcode = 0x00 then .R (decode_r_type binary)
  else if opcode = 0x02 ∨ opcode = 0x03 then .J (decode_j_type binary)
  else .I (decode_i_type binary)

def get_format : Instruction → InstructionFormat
  | .R _ => .R_TYPE
  | .I _ => .I_TYPE
  | .J _ => .J_TYPE

def get_name : Instruction → String
  | .R i =>
    match i.funct with
    | 0x00 => "sll"
    | 0x02 => "srl"
    | 0x03 => "sra"
    | 0x04 => "sllv"
    | 0x06 => "srlv"
    | 0x07 => "srav"
    | 0x08 => "jr"
    | 0x09 => "jalr"
    | 0x10 => "mfhi"
    | 0x11 => "mthi"
    | 0x12 => "mflo"
    | 0x13 => "mtlo"
    | 0x18 => "mult"
    | 0x19 => "multu"
    | 0x1A => "div"
    | 0x1B => "divu"
    | 0x20 => "add"
    | 0x21 => "addu"
    | 0x22 => "sub"
    | 0x23 => "subu"
    | 0x24 => "and"
    | 0x25 => "or"
    | 0x26 => "xor"
    | 0x27 => "nor"
    | 0x2A => "slt"
    | 0x2B => "sltu"
    | _ => "unknown_r"
  | .I i =>
    match i.opcode with
    | 0x04 => "beq"
    | 0x05 => "bne"
    | 0x06 => "blez"
    | 0x07 => "bgtz"
    | 0x08 => "addi"
    | 0x09 => "addiu"
    | 0x0A => "slti"
    | 0x0B => "sltiu"
    | 0x0C => "andi"
    | 0x0D => "ori"
    | 0x0E => "xori"
    | 0x18 => "llo"
    | 0x19 => "lhi"
    | 0x20 => "lb"
    | 0x21 => "lh"
    | 0x23 => "lw"
    | 0x24 => "lbu"
    | 0x25 => "lhu"
    | 0x28 => "sb"
    | 0x29 => "sh"
    | 0x2B => "sw"
    | 0x1A => "trap"
    | _ => "unknown_i"
  | .J i =>
    match i.opcode with
    | 0x02 => "j"
    | 0x03 => "jal"
    | _ => "unknown_j"

def sign_extend_16 (value : Nat) : Nat :=
  if value &&& 0x8000 ≠ 0 then value ||| 0xFFFF0000 else value

def zero_extend_16 (value : Nat) : Nat := value

def sign_extend_8 (value : Nat) : Nat :=
  if value &&& 0x80 ≠ 0 then value ||| 0xFFFFFF00 else value

def zero_extend_8 (value : Nat) : Nat := value

end InstructionUtils

/-! ## Instruction executor (`instruction.cpp`) -/

/-- The class `InstructionExecutor`: the two streams the syscalls use, as byte lists
(`input_stream` holds what is still unread, `output_stream` what has been written). -/
structure InstructionExecutor where
  input_stream : List Nat
  output_stream : List Nat
  deriving DecidableEq, Repr

/-- Type `InstructionHandler`: a handler may change the state and the streams, or throw. -/
abbrev InstructionHandler :=
  InstructionExecutor → machine_state → Instruction →
    Except Error (machine_state × InstructionExecutor)

/-! ### Standard-library stream operations used by the syscalls

They are library code, not code of the repository; the definitions below fix one
behaviour for them so that the executor model can be evaluated. The error flags of
the stream are not modelled. -/

/-- Whitespace as skipped by formatted stream extraction. -/
def std_isspace (c : Nat) : Bool :=
  c = 32 ∨ c = 9 ∨ c = 10 ∨ c = 11 ∨ c = 12 ∨ c = 13

/-- The leading decimal digits of a byte list, as a number, and the rest of the list. -/
def std_take_digits : List Nat → Nat → Nat × List Nat
  | [], acc => (acc, [])
  | c :: cs, acc =>
    if 48 ≤ c ∧ c ≤ 57 then std_take_digits cs (acc * 10 + (c - 48)) else (acc, c :: cs)

/-- Formatted extraction `input_stream >> val` of an `int32_t`: skips whitespace, reads
an optional sign and decimal digits, clamps to the `int32_t` range; 0 when no digit. -/
def std_istream_extract_int32 (input : List Nat) : Int × List Nat :=
  let rest := input.dropWhile std_isspace
  let (neg, body) : Bool × List Nat :=
    match rest with
    | 45 :: cs => (true, cs)
    | 43 :: cs => (false, cs)
    | cs => (false, cs)
  let (n, tail) := std_take_digits body 0
  let v : Int := if neg then - (n : Int) else (n : Int)
  (max (-(2 : Int) ^ 31) (min v (2 ^ 31 - 1)), tail)

/-- Unformatted `input_stream.get(ch)`: the next byte; at end of input the byte is 0. -/
def std_istream_get (input : List Nat) : Nat × List Nat :=
  match input with
  | [] => (0, [])
  | c :: cs => (c, cs)

/-- Formatted insertion `output_stream << value` of an `int32_t`: its signed decimal text. -/
def std_ostream_insert_int32 (value : Int) : List Nat :=
  let digits := (Nat.toDigits 10 value.natAbs).map Char.toNat
  if value < 0 then 45 :: digits else digits

namespace InstructionExecutor

/-- Register index `Register::RA`. -/
def RA : Nat := 31

/-- Register index `Register::A0`. -/
def A0 : Nat := 4

/-- Register index `Register::V0`. -/
def V0 : Nat := 2

/-! ### R-type handlers -/

def execute_sll (state : machine_state) (instr : RInstruction) : machine_state :=
  let rt_val := state.get_register instr.rt
  let result := (rt_val <<< instr.shamt) % 2 ^ 32
  state.set_register instr.rd result

def execute_srl (state : machine_state) (instr : RInstruction) : machine_state :=
  let rt_val := state.get_register instr.rt
  let result := rt_val >>> instr.shamt
  state.set_register instr.rd result

def execute_sra (state : machine_state) (instr : RInstruction) : machine_state :=
  let rt_val : Int := to_int32 (state.get_register instr.rt)
  let result : Int := rt_val >>> instr.shamt
  state.set_register instr.rd (to_uint32 result)

def execute_sllv (state : machine_state) (instr : RInstruction) : machine_state :=
  let rt_val := state.get_register instr.rt
  let rs_val := state.get_register instr.rs
  let shift_amount := rs_val &&& 0x1F
  let result := (rt_val <<< shift_amount) % 2 ^ 32
  state.set_register instr.rd result

def execute_srlv (state : machine_state) (instr : RInstruction) : machine_state :=
  let rt_val := state.get_register instr.rt
  let rs_val := state.get_register instr.rs
  let shift_amount := rs_val &&& 0x1F
  let result := rt_val >>> shift_amount
  state.set_register instr.rd result

def execute_srav (state : machine_state) (instr : RInstruction) : machine_state :=
  let rt_val : Int := to_int32 (state.get_register instr.rt)
  let rs_val := state.get_register instr.rs
  let shift_amount := rs_val &&& 0x1F
  let result : Int := rt_val >>> shift_amount
  state.set_register instr.rd (to_uint32 result)

def execute_jr (state : machine_state) (instr : RInstruction) : machine_state :=
  let rs_val := state.get_register instr.rs
  state.set_pc rs_val

def execute_jalr (state : machine_state) (instr : RInstruction) : machine_state :=
  let rs_val := state.get_register instr.rs
  let state := state.set_register RA ((state.get_pc + 4) % 2 ^ 32)
  state.set_pc rs_val

def execute_mfhi (state : machine_state) (instr : RInstruction) : machine_state :=
  let hi_val := state.get_hi
  state.set_register instr.rd hi_val

def execute_mthi (state : machine_state) (instr : RInstruction) : machine_state :=
  let rs_val := state.get_register instr.rs
  state.set_hi rs_val

def execute_mflo (state : machine_state) (instr : RInstruction) : machine_state :=
  let lo_val := state.get_lo
  state.set_register instr.rd lo_val

def execute_mtlo (state : machine_state) (instr : RInstruction) : machine_state :=
  let rs_val := state.get_register instr.rs
  state.set_lo rs_val

/-- Handler `execute_mult`: the product is an `int64_t`; `& 0xFFFFFFFF` and `>> 32` on it. -/
def execute_mult (state : machine_state) (instr : RInstruction) : machine_state :=
  let rs_val : Int := to_int32 (state.get_register instr.rs)
  let rt_val : Int := to_int32 (state.get_register instr.rt)
  let result : Int := rs_val * rt_val
  let state := state.set_lo (to_uint32 (result % 2 ^ 32))
  state.set_hi (to_uint32 ((result >>> 32) % 2 ^ 32))

def execute_multu (state : machine_state) (instr : RInstruction) : machine_state :=
  let rs_val := state.get_register instr.rs
  let rt_val := state.get_register instr.rt
  let result := (rs_val * rt_val) % 2 ^ 64
  let state := state.set_lo ((result &&& 0xFFFFFFFF) % 2 ^ 32)
  state.set_hi (((result >>> 32) &&& 0xFFFFFFFF) % 2 ^ 32)

/-- Handler `execute_div`: C++ `/` and `%` on `int32_t` truncate toward zero. The quotient
of -2^31 by -1 does not fit an `int32_t`: the division is undefined in C++ and the handler, which
guards against `rt_val == 0` only, yields no state for it. -/
def execute_div (state : machine_state) (instr : RInstruction) : Except Error machine_state :=
  let rs_val : Int := to_int32 (state.get_register instr.rs)
  let rt_val : Int := to_int32 (state.get_register instr.rt)
  if rt_val ≠ 0 then
    if rs_val = -(2 : Int) ^ 31 ∧ rt_val = -1 then .error .undefined_division
    else
      let state := state.set_lo (to_uint32 (Int.tdiv rs_val rt_val))
      .ok (state.set_hi (to_uint32 (Int.tmod rs_val rt_val)))
  else .ok state

def execute_divu (state : machine_state) (instr : RInstruction) : machine_state :=
  let rs_val := state.get_register instr.rs
  let rt_val := state.get_register instr.rt
  if rt_val ≠ 0 then
    let state := state.set_lo (rs_val / rt_val)
    state.set_hi (rs_val % rt_val)
  else state

def execute_add (state : machine_state) (instr : RInstruction) : machine_state :=
  let rs_val : Int := to_int32 (state.get_register instr.rs)
  let rt_val : Int := to_int32 (state.get_register instr.rt)
  let result : Int := wrap_int32 (rs_val + rt_val)
  state.set_register instr.rd (to_uint32 result)

def execute_addu (state : machine_state) (instr : RInstruction) : machine_state :=
  let rs_val := state.get_register instr.rs
  let rt_val := state.get_register instr.rt
  let result := (rs_val + rt_val) % 2 ^ 32
  state.set_register instr.rd result

def execute_sub (state : machine_state) (instr : RInstruction) : machine_state :=
  let rs_val : Int := to_int32 (state.get_register instr.rs)
  let rt_val : Int := to_int32 (state.get_register instr.rt)
  let result : Int := wrap_int32 (rs_val - rt_val)
  state.set_register instr.rd (to_uint32 result)

def execute_subu (state : machine_state) (instr : RInstruction) : machine_state :=
  let rs_val := state.get_register instr.rs
  let rt_val := state.get_register instr.rt
  let result := to_uint32 ((rs_val : Int) - (rt_val : Int))
  state.set_register instr.rd result

def execute_and (state : machine_state) (instr : RInstruction) : machine_state :=
  let rs_val := state.get_register instr.rs
  let rt_val := state.get_register instr.rt
  let result := rs_val &&& rt_val
  state.set_register instr.rd result

def execute_or (state : machine_state) (instr : RInstruction) : machine_state :=
  let rs_val := state.get_register instr.rs
  let rt_val := state.get_register instr.rt
  let result := rs_val ||| rt_val
  state.set_register instr.rd result

def execute_xor (state : machine_state) (instr : RInstruction) : machine_state :=
  let rs_val := state.get_register instr.rs
  let rt_val := state.get_register instr.rt
  let result := rs_val ^^^ rt_val
  state.set_register instr.rd result

/-- Handler `execute_nor`: `~x` on a `uint32_t` is `0xFFFFFFFF - x`. -/
def execute_nor (state : machine_state) (instr : RInstruction) : machine_state :=
  let rs_val := state.get_register instr.rs
  let rt_val := state.get_register instr.rt
  let result := 0xFFFFFFFF - ((rs_val ||| rt_val) % 2 ^ 32)
  state.set_register instr.rd result

def execute_slt (state : machine_state) (instr : RInstruction) : machine_state :=
  let rs_val : Int := to_int32 (state.get_register instr.rs)
  let rt_val : Int := to_int32 (state.get_register instr.rt)
  let result := if rs_val < rt_val then 1 else 0
  state.set_register instr.rd result

def execute_sltu (state : machine_state) (instr : RInstruction) : machine_state :=
  let rs_val := state.get_register instr.rs
  let rt_val := state.get_register instr.rt
  let result := if rs_val < rt_val then 1 else 0
  state.set_register instr.rd result

/-! ### I-type handlers -/

/-- The taken path shared by the four branch handlers:
`int32_t offset = sign_extend_16(imm) << 2; set_pc(get_pc() + offset)`. -/
def branch_taken (state : machine_state) (instr : IInstruction) : machine_state :=
  let offset : Int := to_int32 ((InstructionUtils.sign_extend_16 instr.immediate <<< 2) % 2 ^ 32)
  state.set_pc (to_uint32 ((state.get_pc : Int) + offset))

def execute_beq (state : machine_state) (instr : IInstruction) : machine_state :=
  let rs_val := state.get_register instr.rs
  let rt_val := state.get_register instr.rt
  if rs_val = rt_val then branch_taken state instr else state

def execute_bne (state : machine_state) (instr : IInstruction) : machine_state :=
  let rs_val := state.get_register instr.rs
  let rt_val := state.get_register instr.rt
  if rs_val ≠ rt_val then branch_taken state instr else state

def execute_blez (state : machine_state) (instr : IInstruction) : machine_state :=
  let rs_val : Int := to_int32 (state.get_register instr.rs)
  if rs_val ≤ 0 then branch_taken state instr else state

def execute_bgtz (state : machine_state) (instr : IInstruction) : machine_state :=
  let rs_val : Int := to_int32 (state.get_register instr.rs)
  if rs_val > 0 then branch_taken state instr else state

def execute_addi (state : machine_state) (instr : IInstruction) : machine_state :=
  let rs_val : Int := to_int32 (state.get_register instr.rs)
  let imm_val : Int := to_int32 (InstructionUtils.sign_extend_16 instr.immediate)
  let result : Int := wrap_int32 (rs_val + imm_val)
  state.set_register instr.rt (to_uint32 result)

def execute_addiu (state : machine_state) (instr : IInstruction) : machine_state :=
  let rs_val := state.get_register instr.rs
  let imm_val := InstructionUtils.sign_extend_16 instr.immediate
  let result := (rs_val + imm_val) % 2 ^ 32
  state.set_register instr.rt result

def execute_slti (state : machine_state) (instr : IInstruction) : machine_state :=
  let rs_val : Int := to_int32 (state.get_register instr.rs)
  let imm_val : Int := to_int32 (InstructionUtils.sign_extend_16 instr.immediate)
  let result := if rs_val < imm_val then 1 else 0
  state.set_register instr.rt result

def execute_sltiu (state : machine_state) (instr : IInstruction) : machine_state :=
  let rs_val := state.get_register instr.rs
  let imm_val := InstructionUtils.sign_extend_16 instr.immediate
  let result := if rs_val < imm_val then 1 else 0
  state.set_register instr.rt result

def execute_andi (state : machine_state) (instr : IInstruction) : machine_state :=
  let rs_val := state.get_register instr.rs
  let imm_val := InstructionUtils.zero_extend_16 instr.immediate
  let result := rs_val &&& imm_val
  state.set_register instr.rt result

def execute_ori (state : machine_state) (instr : IInstruction) : machine_state :=
  let rs_val := state.get_register instr.rs
  let imm_val := InstructionUtils.zero_extend_16 instr.immediate
  let result := rs_val ||| imm_val
  state.set_register instr.rt result

def execute_xori (state : machine_state) (instr : IInstruction) : machine_state :=
  let rs_val := state.get_register instr.rs
  let imm_val := InstructionUtils.zero_extend_16 instr.immediate
  let result := rs_val ^^^ imm_val
  state.set_register instr.rt result

def execute_llo (state : machine_state) (instr : IInstruction) : machine_state :=
  let rt_val := state.get_register instr.rt
  let result := (rt_val &&& 0xFFFF0000) ||| instr.immediate
  state.set_register instr.rt result

def execute_lhi (state : machine_state) (instr : IInstruction) : machine_state :=
  let rt_val := state.get_register instr.rt
  let result := (rt_val &&& 0x0000FFFF) ||| ((instr.immediate <<< 16) % 2 ^ 32)
  state.set_register instr.rt result

/-- The effective address of loads and stores:
`int32_t offset = sign_extend_16(imm); uint32_t addr = rs_val + offset`. -/
def effective_address (state : machine_state) (instr : IInstruction) : Nat :=
  let rs_val := state.get_register instr.rs
  let offset : Int := to_int32 (InstructionUtils.sign_extend_16 instr.immediate)
  to_uint32 ((rs_val : Int) + offset)

def execute_lb (state : machine_state) (instr : IInstruction) : Except Error machine_state :=
  let addr := effective_address state instr
  match state.read_memory8 addr with
  | .ok byte_val =>
    let result := InstructionUtils.sign_extend_8 byte_val
    .ok (state.set_register instr.rt result)
  | .error _ => .error (.memory_access_violation "lb")

def execute_lh (state : machine_state) (instr : IInstruction) : Except Error machine_state :=
  let addr := effective_address state instr
  match state.read_memory16 addr with
  | .ok half_val =>
    let result := InstructionUtils.sign_extend_16 half_val
    .ok (state.set_register instr.rt result)
  | .error _ => .error (.memory_access_violation "lh")

def execute_lw (state : machine_state) (instr : IInstruction) : Except Error machine_state :=
  let addr := effective_address state instr
  match state.read_memory32 addr with
  | .ok word_val => .ok (state.set_register instr.rt word_val)
  | .error _ => .error (.memory_access_violation "lw")

def execute_lbu (state : machine_state) (instr : IInstruction) : Except Error machine_state :=
  let addr := effective_address state instr
  match state.read_memory8 addr with
  | .ok byte_val =>
    let result := InstructionUtils.zero_extend_8 byte_val
    .ok (state.set_register instr.rt result)
  | .error _ => .error (.memory_access_violation "lbu")

def execute_lhu (state : machine_state) (instr : IInstruction) : Except Error machine_state :=
  let addr := effective_address state instr
  match state.read_memory16 addr with
  | .ok half_val =>
    let result := InstructionUtils.zero_extend_16 half_val
    .ok (state.set_register instr.rt result)
  | .error _ => .error (.memory_access_violation "lhu")

def execute_sb (state : machine_state) (instr : IInstruction) : Except Error machine_state :=
  let addr := effective_address state instr
  let rt_val := state.get_register instr.rt
  match state.write_memory8 addr (rt_val &&& 0xFF) with
  | .ok state => .ok state
  | .error _ => .error (.memory_access_violation "sb")

def execute_sh (state : machine_state) (instr : IInstruction) : Except Error machine_state :=
  let addr := effective_address state instr
  let rt_val := state.get_register instr.rt
  match state.write_memory16 addr (rt_val &&& 0xFFFF) with
  | .ok state => .ok state
  | .error _ => .error (.memory_access_violation "sh")

def execute_sw (state : machine_state) (instr : IInstruction) : Except Error machine_state :=
  let addr := effective_address state instr
  let rt_val := state.get_register instr.rt
  match state.write_memory32 addr rt_val with
  | .ok state => .ok state
  | .error _ => .error (.memory_access_violation "sw")

/-! ### J-type handlers -/

def execute_j (state : machine_state) (instr : JInstruction) : machine_state :=
  let pc_plus_4 := (state.get_pc + 4) % 2 ^ 32
  let jump_addr := (pc_plus_4 &&& 0xF0000000) ||| ((instr.address <<< 2) % 2 ^ 32)
  state.set_pc jump_addr

def execute_jal (state : machine_state) (instr : JInstruction) : machine_state :=
  let state := state.set_register RA ((state.get_pc + 4) % 2 ^ 32)
  let pc_plus_4 := (state.get_pc + 4) % 2 ^ 32
  let jump_addr := (pc_plus_4 &&& 0xF0000000) ||| ((instr.address <<< 2) % 2 ^ 32)
  state.set_pc jump_addr

/-! ### Syscalls -/

/-- The `while (true)` walk of `PRINT_STRING`: read a byte, stop at NUL, else write it and
`addr++` (a `uint32_t`). The first argument bounds the number of iterations; with
`memory_size + 1` it is never exhausted while the memory is smaller than 2^32 bytes. -/
def print_string_loop (state : machine_state) :
    Nat → Nat → List Nat → Except Error (List Nat)
  | 0, _, _ => .error .nontermination
  | fuel + 1, addr, out =>
    match state.read_memory8 addr with
    | .error _ => .error (.memory_access_violation "print_string")
    | .ok ch =>
      if ch = 0 then .ok out
      else print_string_loop state fuel ((addr + 1) % 2 ^ 32) (out ++ [ch])

/-- Method `handle_syscall`; `syscall_num` is the `uint8_t` value of the `Syscall` enum.
A throw carries no streams: what `print_string` wrote before failing is not kept. -/
def handle_syscall (ex : InstructionExecutor) (state : machine_state) (syscall_num : Nat) :
    Except Error (machine_state × InstructionExecutor) :=
  match syscall_num with
  | 0 =>
    let value : Int := to_int32 (state.get_register A0)
    .ok (state, { ex with output_stream := ex.output_stream ++ std_ostream_insert_int32 value })
  | 1 =>
    let ch := state.get_register A0 &&& 0xFF
    .ok (state, { ex with output_stream := ex.output_stream ++ [ch] })
  | 2 =>
    let addr := state.get_register A0
    match print_string_loop state (state.memory_size + 1) addr ex.output_stream with
    | .ok out => .ok (state, { ex with output_stream := out })
    | .error e => .error e
  | 3 =>
    let (val, rest) := std_istream_extract_int32 ex.input_stream
    .ok (state.set_register V0 (to_uint32 val), { ex with input_stream := rest })
  | 4 =>
    let (ch, rest) := std_istream_get ex.input_stream
    .ok (state.set_register V0 (ch &&& 0xFF), { ex with input_stream := rest })
  | 5 => .ok (state, ex)
  | n => .error (.unknown_syscall n)

/-- Method `execute_trap`: `static_cast<Syscall>(instr.immediate)` converts the 16-bit
immediate to the enum's underlying type `uint8_t`. -/
def execute_trap (ex : InstructionExecutor) (state : machine_state) (instr : IInstruction) :
    Except Error (machine_state × InstructionExecutor) :=
  let syscall_num := instr.immediate % 2 ^ 8
  handle_syscall ex state syscall_num

/-! ### Dispatch -/

/-- A handler lambda `[this](s, i) { execute_x(s, std::get<RInstruction>(i)); }`. -/
def r_handler (f : machine_state → RInstruction → machine_state) : InstructionHandler :=
  fun ex s i =>
    match i with
    | .R r => .ok (f s r, ex)
    | _ => .error .bad_variant_access

/-- A handler lambda over `std::get<RInstruction>(i)` for a handler with an undefined case. -/
def r_handler_fallible (f : machine_state → RInstruction → Except Error machine_state) :
    InstructionHandler :=
  fun ex s i =>
    match i with
    | .R r =>
      match f s r with
      | .ok s => .ok (s, ex)
      | .error e => .error e
    | _ => .error .bad_variant_access

/-- A handler lambda over `std::get<IInstruction>(i)` for a handler that does not throw. -/
def i_handler (f : machine_state → IInstruction → machine_state) : InstructionHandler :=
  fun ex s i =>
    match i with
    | .I r => .ok (f s r, ex)
    | _ => .error .bad_variant_access

/-- A handler lambda over `std::get<IInstruction>(i)` for a load or store. -/
def mem_handler (f : machine_state → IInstruction → Except Error machine_state) :
    InstructionHandler :=
  fun ex s i =>
    match i with
    | .I r =>
      match f s r with
      | .ok s => .ok (s, ex)
      | .error e => .error e
    | _ => .error .bad_variant_access

/-- A handler lambda over `std::get<JInstruction>(i)`. -/
def j_handler (f : machine_state → JInstruction → machine_state) : InstructionHandler :=
  fun ex s i =>
    match i with
    | .J r => .ok (f s r, ex)
    | _ => .error .bad_variant_access

/-- The handler lambda of `trap`. -/
def trap_handler : InstructionHandler :=
  fun ex s i =>
    match i with
    | .I r => execute_trap ex s r
    | _ => .error .bad_variant_access

/-- The map `handlers` as filled by `init_handlers`: lookup by instruction name. -/
def handlers (key : String) : Option InstructionHandler :=
  if key = "sll" then some (r_handler execute_sll)
  else if key = "srl" then some (r_handler execute_srl)
  else if key = "sra" then some (r_handler execute_sra)
  else if key = "sllv" then some (r_handler execute_sllv)
  else if key = "srlv" then some (r_handler execute_srlv)
  else if key = "srav" then some (r_handler execute_srav)
  else if key = "jr" then some (r_handler execute_jr)
  else if key = "jalr" then some (r_handler execute_jalr)
  else if key = "mfhi" then some (r_handler execute_mfhi)
  else if key = "mthi" then some (r_handler execute_mthi)
  else if key = "mflo" then some (r_handler execute_mflo)
  else if key = "mtlo" then some (r_handler execute_mtlo)
  else if key = "mult" then some (r_handler execute_mult)
  else if key = "multu" then some (r_handler execute_multu)
  else if key = "div" then some (r_handler_fallible execute_div)
  else if key = "divu" then some (r_handler execute_divu)
  else if key = "add" then some (r_handler execute_add)
  else if key = "addu" then some (r_handler execute_addu)
  else if key = "sub" then some (r_handler execute_sub)
  else if key = "subu" then some (r_handler execute_subu)
  else if key = "and" then some (r_handler execute_and)
  else if key = "or" then some (r_handler execute_or)
  else if key = "xor" then some (r_handler execute_xor)
  else if key = "nor" then some (r_handler execute_nor)
  else if key = "slt" then some (r_handler execute_slt)
  else if key = "sltu" then some (r_handler execute_sltu)
  else if key = "beq" then some (i_handler execute_beq)
  else if key = "bne" then some (i_handler execute_bne)
  else if key = "blez" then some (i_handler execute_blez)
  else if key = "bgtz" then some (i_handler execute_bgtz)
  else if key = "addi" then some (i_handler execute_addi)
  else if key = "addiu" then some (i_handler execute_addiu)
  else if key = "slti" then some (i_handler execute_slti)
  else if key = "sltiu" then some (i_handler execute_sltiu)
  else if key = "andi" then some (i_handler execute_andi)
  else if key = "ori" then some (i_handler execute_ori)
  else if key = "xori" then some (i_handler execute_xori)
  else if key = "llo" then some (i_handler execute_llo)
  else if key = "lhi" then some (i_handler execute_lhi)
  else if key = "lb" then some (mem_handler execute_lb)
  else if key = "lh" then some (mem_handler execute_lh)
  else if key = "lw" then some (mem_handler execute_lw)
  else if key = "lbu" then some (mem_handler execute_lbu)
  else if key = "lhu" then some (mem_handler execute_lhu)
  else if key = "sb" then some (mem_handler execute_sb)
  else if key = "sh" then some (mem_handler execute_sh)
  else if key = "sw" then some (mem_handler execute_sw)
  else if key = "trap" then some trap_handler
  else if key = "j" then some (j_handler execute_j)
  else if key = "jal" then some (j_handler execute_jal)
  else none

def get_instruction_key (instr : Instruction) : String :=
  InstructionUtils.get_name instr

/-- Method `execute`: look the handler up by name, run it, or throw `Unsupported instruction`. -/
def execute (ex : InstructionExecutor) (state : machine_state) (instr : Instruction) :
    Except Error (machine_state × InstructionExecutor) :=
  let key := get_instruction_key instr
  match handlers key with
  | some h => h ex state instr
  | none => .error (.unsupported_instruction key)

end InstructionExecutor

/-! ## Runtime loop (`executor.cpp`, `interpreter.cpp`) -/

/-- What a run hands back: the final `machine_state` the C++ function returns, the streams
of its `InstructionExecutor`, and the value of the local counter `steps` at the `break`. -/
structure RunResult where
  state : machine_state
  executor : InstructionExecutor
  steps : Nat

/-- Constant `UINT32_MAX`, the default `start_address` meaning that no start PC is forced. -/
def UINT32_MAX : Nat := 0xFFFFFFFF

namespace Executor

/-- One pass through the body of the `while (true)` loop of `Executor::run_stream` after
the step check: bounds check of the PC, fetch, decode, trap test, `execute`, PC advance.
The Boolean is `is_trap`. The `verbose` trace is not modelled. -/
def run_iteration (ex : InstructionExecutor) (state : machine_state) :
    Except Error (machine_state × InstructionExecutor × Bool) :=
  let pc := state.get_pc
  if !state.is_valid_address pc 4 then .error (.pc_out_of_bounds pc)
  else
    match state.read_memory32 pc with
    | .error e => .error e
    | .ok word =>
      let instr := InstructionUtils.decode word
      let is_trap : Bool :=
        match instr with
        | .I ii => decide (ii.opcode = 0x1A)
        | _ => false
      let old_pc := pc
      match InstructionExecutor.execute ex state instr with
      | .error e => .error e
      | .ok (state, ex) =>
        let state := if state.get_pc = old_pc then state.increment_pc else state
        .ok (state, ex, is_trap)

/-- The `while (true)` loop of `Executor::run_stream`. The first argument is
`max_steps - steps`, so that `steps++ >= max_steps` is the case 0. -/
def run_loop : Nat → Nat → InstructionExecutor → machine_state → Except Error RunResult
  | 0, _, _, _ => .error .step_limit
  | remaining + 1, steps, ex, state =>
    let steps := steps + 1
    match run_iteration ex state with
    | .error e => .error e
    | .ok (state, ex, is_trap) =>
      if is_trap then .ok { state := state, executor := ex, steps := steps }
      else run_loop remaining steps ex state

/-- The header probe of `Executor::run_stream`: at least 8 bytes, the first four of which
are `'M'`, `'I'`, `'P'`, `'S'`. -/
def header_found (bytes : List Nat) : Bool :=
  decide (bytes.length ≥ 8) && (bytes.getD 0 0 = 77 && bytes.getD 1 0 = 73 &&
    bytes.getD 2 0 = 80 && bytes.getD 3 0 = 83)

/-- The part of `Executor::run_stream` before the loop: empty check, header probe, start PC
override, fresh state, `load_memory`, start PC check, `set_pc`. -/
def load_image (bytes : List Nat) (start_address : Nat) : Except Error machine_state :=
  if bytes.isEmpty then .error .binary_empty
  else
    let header_found : Bool := header_found bytes
    let main_addr := bytes.getD 4 0 ||| (bytes.getD 5 0 <<< 8) |||
      (bytes.getD 6 0 <<< 16) ||| (bytes.getD 7 0 <<< 24)
    let start_pc := if header_found then main_addr else 0
    let bytes := if header_found then bytes.drop 8 else bytes
    let start_pc := if start_address ≠ UINT32_MAX then start_address else start_pc
    let state := machine_state.init
    match state.load_memory 0 bytes with
    | .error e => .error e
    | .ok state =>
      if !state.is_valid_address start_pc 0 then .error (.start_pc_outside start_pc)
      else .ok (state.set_pc start_pc)

/-- Method `Executor::run_stream` on the bytes of the input stream, with the streams `ex`
standing for `std::cin` and `std::cout`. -/
def run_stream (ex : InstructionExecutor) (bytes : List Nat) (max_steps : Nat)
    (start_address : Nat := UINT32_MAX) : Except Error RunResult :=
  match load_image bytes start_address with
  | .error e => .error e
  | .ok state => run_loop max_steps 0 ex state

end Executor

/-! ## Parser (`parser.h`, `parser.cpp`)

A `std::string` is the list of its bytes, each a `Char` below 256. -/

/-- Enum `DirectiveType`. -/
inductive DirectiveType where
  | BYTE
  | HALF
  | WORD
  | ASCII
  | ASCIIZ
  | SPACE
  | ALIGN
  | TEXT
  | DATA
  | FLOAT
  | DOUBLE
  deriving DecidableEq, Repr

/-- Struct `AssemblyDirective`. A `float` or `double` value is held as its IEEE-754 bit
pattern, the only thing `generate_binary` reads from it. -/
structure AssemblyDirective where
  type : DirectiveType
  values : List Nat := []
  float_values : List Nat := []
  double_values : List Nat := []
  text : List Char := []
  alignment : Nat := 0
  raw_operands : List (List Char) := []
  deriving DecidableEq, Repr

/-- The variant `ParsedLine`: an instruction or a directive. -/
inductive ParsedLine where
  | instruction (i : Instruction)
  | directive (d : AssemblyDirective)
  deriving DecidableEq, Repr

/-- The map `std::unordered_map<std::string, uint32_t>` of labels, as an association list
whose first entry for a name is the current one. -/
abbrev LabelMap := List (List Char × Nat)

/-- Assignment `labels[name] = address`. -/
def LabelMap.insert (labels : LabelMap) (name : List Char) (address : Nat) : LabelMap :=
  (name, address) :: labels

/-- Lookup `labels.find(name)`, `labels.at(name)`. -/
def LabelMap.find (labels : LabelMap) (name : List Char) : Option Nat :=
  List.lookup name labels

/-- Struct `ParseResult`. -/
structure ParseResult where
  lines : List ParsedLine := []
  labels : LabelMap := []
  main_address : Nat := 0
  has_main : Bool := false
  deriving DecidableEq, Repr

/-! ### Standard-library text conversions used by the parser

Library code, modelled after the C and C++ standards (`strtoul`, `strtol` with a 64-bit
`long`). The conversions of `std::stof` and `std::stod` are an input of the model. -/

/-- Whitespace in the C locale (`std::isspace`). -/
def std_isspace_char (c : Char) : Bool :=
  c = ' ' || c = '\t' || c = '\n' || c = '\x0b' || c = '\x0c' || c = '\r'

/-- The value of a digit character in a base up to 36, if it is one. -/
def std_digit_value (base : Nat) (c : Char) : Option Nat :=
  let v : Option Nat :=
    if '0' ≤ c ∧ c ≤ '9' then some (c.toNat - 48)
    else if 'a' ≤ c ∧ c ≤ 'z' then some (c.toNat - 87)
    else if 'A' ≤ c ∧ c ≤ 'Z' then some (c.toNat - 55)
    else none
  match v with
  | some d => if d < base then some d else none
  | none => none

/-- The longest run of digits of `base` at the head of a string: its value and length. -/
def std_scan_digits (base : Nat) : List Char → Nat → Nat → Nat × Nat
  | [], acc, n => (acc, n)
  | c :: cs, acc, n =>
    match std_digit_value base c with
    | some d => std_scan_digits base cs (acc * base + d) (n + 1)
    | none => (acc, n)

/-- The common scan of `strtoul` and `strtol`: skip whitespace, read an optional sign, detect
the base (`0x` prefix for 16, leading `0` for 8 when `base = 0`), read the digits. Returns
whether the number is negated and its magnitude, or `none` when there is no digit. -/
def std_scan_integer (s : List Char) (base : Nat) : Option (Bool × Nat) :=
  let s := s.dropWhile std_isspace_char
  let (neg, s) : Bool × List Char :=
    match s with
    | '-' :: cs => (true, cs)
    | '+' :: cs => (false, cs)
    | cs => (false, cs)
  let has_hex : Bool :=
    match s with
    | '0' :: x :: d :: _ => (x = 'x' || x = 'X') && (std_digit_value 16 d).isSome
    | _ => false
  let (base, s) : Nat × List Char :=
    if (base = 0 ∨ base = 16) ∧ has_hex = true then (16, s.drop 2)
    else if base = 0 then
      match s with
      | '0' :: _ => (8, s)
      | _ => (10, s)
    else (base, s)
  let (value, count) := std_scan_digits base s 0 0
  if count = 0 then none else some (neg, value)

/-- Function `std::stoul(s, nullptr, base)`, the `unsigned long` it returns. -/
def std_stoul (s : List Char) (base : Nat) : Except Error Nat :=
  match std_scan_integer s base with
  | none => .error .invalid_argument
  | some (neg, value) =>
    if value ≥ 2 ^ 64 then .error .out_of_range
    else .ok (if neg then (2 ^ 64 - value) % 2 ^ 64 else value)

/-- Function `std::stol(s, nullptr, base)`, the `long` it returns. -/
def std_stol (s : List Char) (base : Nat) : Except Error Int :=
  match std_scan_integer s base with
  | none => .error .invalid_argument
  | some (neg, value) =>
    let v : Int := if neg then - (value : Int) else (value : Int)
    if v < -(2 : Int) ^ 63 ∨ v > 2 ^ 63 - 1 then .error .out_of_range else .ok v

/-- Function `std::stoi(s)`: base 10, the `int` it returns. -/
def std_stoi (s : List Char) : Except Error Int :=
  match std_scan_integer s 10 with
  | none => .error .invalid_argument
  | some (neg, value) =>
    let v : Int := if neg then - (value : Int) else (value : Int)
    if v < -(2 : Int) ^ 31 ∨ v > 2 ^ 31 - 1 then .error .out_of_range else .ok v

/-- The floating-point conversions of the standard library, an input of the model:
`stof` and `stod` give the IEEE-754 bit pattern of the converted value, or throw. -/
structure FloatConversions where
  stof : List Char → Except Error Nat
  stod : List Char → Except Error Nat

/-- Conversions that reject every text; enough wherever no `.float` or `.double` occurs. -/
def FloatConversions.none : FloatConversions :=
  { stof := fun _ => .error .invalid_argument, stod := fun _ => .error .invalid_argument }

/-- The lines `std::getline(stream, token, delimiter)` yields in a `while` loop: the text
is cut at every delimiter, and an empty piece after the last delimiter yields nothing. -/
def std_getline_all (delimiter : Char) : List Char → List Char → List (List Char)
  | [], cur => if cur.isEmpty then [] else [cur.reverse]
  | c :: cs, cur =>
    if c = delimiter then cur.reverse :: std_getline_all delimiter cs []
    else std_getline_all delimiter cs (c :: cur)

/-- Formatted extraction `ss >> token` followed by `std::getline(ss, rest)`: the first
whitespace-delimited word of a line and what follows it. -/
def std_first_word (line : List Char) : List Char × List Char :=
  let s := line.dropWhile std_isspace_char
  (s.takeWhile (fun c => !std_isspace_char c), s.dropWhile (fun c => !std_isspace_char c))

/-- Position `str.find(c, from)`, if any. -/
def std_find (str : List Char) (c : Char) (start : Nat := 0) : Option Nat :=
  match (str.drop start).indexOf? c with
  | some i => some (start + i)
  | none => none

namespace Parser

/-! ### Tables -/

/-- The map `register_map` filled by `init_register_map`. -/
def register_map : List (String × Nat) :=
  [("$zero", 0), ("$0", 0), ("$at", 1), ("$1", 1), ("$v0", 2), ("$2", 2), ("$v1", 3), ("$3", 3),
   ("$a0", 4), ("$4", 4), ("$a1", 5), ("$5", 5), ("$a2", 6), ("$6", 6), ("$a3", 7), ("$7", 7),
   ("$t0", 8), ("$8", 8), ("$t1", 9), ("$9", 9), ("$t2", 10), ("$10", 10), ("$t3", 11),
   ("$11", 11), ("$t4", 12), ("$12", 12), ("$t5", 13), ("$13", 13), ("$t6", 14), ("$14", 14),
   ("$t7", 15), ("$15", 15), ("$s0", 16), ("$16", 16), ("$s1", 17), ("$17", 17), ("$s2", 18),
   ("$18", 18), ("$s3", 19), ("$19", 19), ("$s4", 20), ("$20", 20), ("$s5", 21), ("$21", 21),
   ("$s6", 22), ("$22", 22), ("$s7", 23), ("$23", 23), ("$t8", 24), ("$24", 24), ("$t9", 25),
   ("$25", 25), ("$k0", 26), ("$26", 26), ("$k1", 27), ("$27", 27), ("$gp", 28), ("$28", 28),
   ("$sp", 29), ("$29", 29), ("$s8", 30), ("$30", 30), ("$ra", 31), ("$31", 31)]

/-- The map `instruction_map` filled by `init_instruction_map`: name, opcode, function
code (`FunctionCode::ADD`, 0x20, for the I- and J-type entries). -/
def instruction_map : List (String × Nat × Nat) :=
  [("sll", 0x00, 0x00), ("srl", 0x00, 0x02), ("sra", 0x00, 0x03), ("sllv", 0x00, 0x04),
   ("srlv", 0x00, 0x06), ("srav", 0x00, 0x07), ("jr", 0x00, 0x08), ("jalr", 0x00, 0x09),
   ("mfhi", 0x00, 0x10), ("mthi", 0x00, 0x11), ("mflo", 0x00, 0x12), ("mtlo", 0x00, 0x13),
   ("mult", 0x00, 0x18), ("multu", 0x00, 0x19), ("div", 0x00, 0x1A), ("divu", 0x00, 0x1B),
   ("add", 0x00, 0x20), ("addu", 0x00, 0x21), ("sub", 0x00, 0x22), ("subu", 0x00, 0x23),
   ("and", 0x00, 0x24), ("or", 0x00, 0x25), ("xor", 0x00, 0x26), ("nor", 0x00, 0x27),
   ("slt", 0x00, 0x2A), ("sltu", 0x00, 0x2B),
   ("beq", 0x04, 0x20), ("bne", 0x05, 0x20), ("blez", 0x06, 0x20), ("bgtz", 0x07, 0x20),
   ("addi", 0x08, 0x20), ("addiu", 0x09, 0x20), ("slti", 0x0A, 0x20), ("sltiu", 0x0B, 0x20),
   ("andi", 0x0C, 0x20), ("ori", 0x0D, 0x20), ("xori", 0x0E, 0x20), ("llo", 0x18, 0x20),
   ("lhi", 0x19, 0x20), ("trap", 0x1A, 0x20), ("lb", 0x20, 0x20), ("lh", 0x21, 0x20),
   ("lw", 0x23, 0x20), ("lbu", 0x24, 0x20), ("lhu", 0x25, 0x20), ("sb", 0x28, 0x20),
   ("sh", 0x29, 0x20), ("sw", 0x2B, 0x20),
   ("j", 0x02, 0x20), ("jal", 0x03, 0x20)]

/-- Lookup `register_map.find(name)`. -/
def find_register (name : List Char) : Option Nat :=
  (register_map.find? (fun e => e.1.toList = name)).map (fun e => e.2)

/-- Lookup `instruction_map.find(name)`: opcode and function code. -/
def find_instruction (name : List Char) : Option (Nat × Nat) :=
  (instruction_map.find? (fun e => e.1.toList = name)).map (fun e => e.2)

/-! ### Text helpers -/

/-- Method `throw_parse_error`. -/
def throw_parse_error {α : Type} (message : String) : Except Error α :=
  .error (.parse_error message)

/-- The characters `trim` removes: space, tab, carriage return, newline. -/
def is_trim_char (c : Char) : Bool :=
  c = ' ' || c = '\t' || c = '\r' || c = '\n'

/-- Method `trim`: the text between the first and the last character not in `" \t\r\n"`. -/
def trim (str : List Char) : List Char :=
  ((str.dropWhile is_trim_char).reverse.dropWhile is_trim_char).reverse

/-- Method `split`: the `getline` pieces, each trimmed. -/
def split (str : List Char) (delimiter : Char) : List (List Char) :=
  (std_getline_all delimiter str []).map trim

/-- Method `remove_comments`: cut at the first `#`, then trim. -/
def remove_comments (line : List Char) : List Char :=
  match std_find line '#' with
  | none => trim line
  | some pos => trim (line.take pos)

/-- Method `to_lower`. -/
def to_lower (s : List Char) : List Char := s.map Char.toLower

def contains_label (line : List Char) : Bool := (std_find line ':').isSome

def extract_label (line : List Char) : List Char :=
  match std_find line ':' with
  | none => []
  | some pos => trim (line.take pos)

def is_directive (line : List Char) : Bool :=
  !line.isEmpty && line.head? = some '.'

def is_instruction (line : List Char) : Bool :=
  !line.isEmpty && !is_directive line


/-! ### Operands -/

/-- Method `parse_register`. -/
def parse_register (reg_str : List Char) : Except Error Nat :=
  let r := trim reg_str
  if r.isEmpty then throw_parse_error "Empty register"
  else
    let r := if r.head? ≠ some '$' then '$' :: r else r
    match find_register r with
    | none => throw_parse_error "Unknown register"
    | some reg => .ok reg

/-- The unescape loop of `parse_string_literal`. -/
def unescape : List Char → List Char
  | [] => []
  | '\\' :: c :: cs =>
    (match c with
      | 'n' => '\n'
      | 't' => '\t'
      | '\\' => '\\'
      | '"' => '"'
      | '0' => '\x00'
      | c => c) :: unescape cs
  | c :: cs => c :: unescape cs

/-- Method `parse_string_literal`. -/
def parse_string_literal (str_literal : List Char) : Except Error (List Char) :=
  let s := trim str_literal
  if s.length ≥ 2 ∧ s.head? = some '"' ∧ s.getLast? = some '"' then
    let inner := (s.drop 1).take (s.length - 2)
    .ok (unescape inner)
  else throw_parse_error "Invalid string literal"

/-- The test `s.size() > 2 && s[0] == '0' && (s[1] == 'x' || s[1] == 'X')`. -/
def has_hex_marker (s : List Char) : Bool :=
  decide (s.length > 2) && s.head? = some '0' && (s.get? 1 = some 'x' || s.get? 1 = some 'X')

/-- The value `labels.at(a)` when `a` is a label, `static_cast<uint32_t>(std::stoul(a, 0))`
otherwise. -/
def label_or_stoul (labels : LabelMap) (a : List Char) : Except Error Nat :=
  match labels.find a with
  | some v => .ok v
  | none =>
    match std_stoul a 0 with
    | .ok v => .ok (v % 2 ^ 32)
    | .error e => .error e

/-- Method `parse_immediate`. -/
def parse_immediate (imm_str : List Char) (labels : LabelMap) : Except Error Nat :=
  let s := trim imm_str
  if s.isEmpty then throw_parse_error "Empty immediate"
  else
    match labels.find s with
    | some v => .ok v
    | none =>
      let numeric := if has_hex_marker s then std_stoul s 16 else std_stoul s 0
      match numeric with
      | .ok v => .ok (v % 2 ^ 32)
      | .error _ =>
        let plus := std_find s '+'
        let minus := std_find s '-' 1
        match plus, minus with
        | some plus, _ =>
          let a := trim (s.take plus)
          let b := trim (s.drop (plus + 1))
          match label_or_stoul labels a with
          | .error e => .error e
          | .ok aval =>
            match std_stoul b 0 with
            | .error e => .error e
            | .ok bval => .ok ((aval + bval % 2 ^ 32) % 2 ^ 32)
        | none, some minus =>
          let a := trim (s.take minus)
          let b := trim (s.drop (minus + 1))
          match label_or_stoul labels a with
          | .error e => .error e
          | .ok aval =>
            match std_stoul b 0 with
            | .error e => .error e
            | .ok bval => .ok (to_uint32 ((aval : Int) - ((bval % 2 ^ 32 : Nat) : Int)))
        | none, none => throw_parse_error "Unable to parse immediate"

/-- The value `static_cast<int32_t>(labels.at(a))` when `a` is a label,
`static_cast<int32_t>(std::stol(a, 0))` otherwise. -/
def label_or_stol (labels : LabelMap) (a : List Char) : Except Error Int :=
  match labels.find a with
  | some v => .ok (to_int32 v)
  | none =>
    match std_stol a 0 with
    | .ok v => .ok (wrap_int32 v)
    | .error e => .error e

/-- Method `parse_signed_immediate`; the result is an `int32_t`. -/
def parse_signed_immediate (imm_str : List Char) (labels : LabelMap) : Except Error Int :=
  let s := trim imm_str
  if s.isEmpty then throw_parse_error "Empty signed immediate"
  else
    match labels.find s with
    | some v => .ok (to_int32 v)
    | none =>
      let numeric := if has_hex_marker s then std_stol s 16 else std_stol s 0
      match numeric with
      | .ok v => .ok (wrap_int32 v)
      | .error _ =>
        let plus := std_find s '+'
        let minus := std_find s '-' 1
        match plus, minus with
        | some plus, _ =>
          let a := trim (s.take plus)
          let b := trim (s.drop (plus + 1))
          match label_or_stol labels a with
          | .error e => .error e
          | .ok aval =>
            match std_stol b 0 with
            | .error e => .error e
            | .ok bval => .ok (wrap_int32 (aval + wrap_int32 bval))
        | none, some minus =>
          let a := trim (s.take minus)
          let b := trim (s.drop (minus + 1))
          match label_or_stol labels a with
          | .error e => .error e
          | .ok aval =>
            match std_stol b 0 with
            | .error e => .error e
            | .ok bval => .ok (wrap_int32 (aval - wrap_int32 bval))
        | none, none => throw_parse_error "Unable to parse signed immediate"

/-- Struct `MemoryOperand`. -/
structure MemoryOperand where
  offset : Int
  base_register : Nat
  deriving DecidableEq, Repr

/-- Method `parse_memory_operand`. -/
def parse_memory_operand (mem_str : List Char) : Except Error MemoryOperand :=
  let s := trim mem_str
  match std_find s '(', std_find s ')' with
  | some lparen, some rparen =>
    if rparen ≤ lparen then throw_parse_error "Invalid memory operand"
    else
      let offset_str := trim (s.take lparen)
      let offset : Except Error Int := if !offset_str.isEmpty then std_stoi offset_str else .ok 0
      match offset with
      | .error e => .error e
      | .ok offset =>
        let base_reg := trim ((s.drop (lparen + 1)).take (rparen - lparen - 1))
        match parse_register base_reg with
        | .error e => .error e
        | .ok reg => .ok { offset := offset, base_register := reg }
  | _, _ => throw_parse_error "Invalid memory operand"

/-! ### Directives -/

/-- The loop `for (auto &v : vals) d.values.push_back(f(v))`: the first throw ends it. -/
def map_values {α : Type} (f : List Char → Except Error α) :
    List (List Char) → Except Error (List α)
  | [] => .ok []
  | v :: vs =>
    match f v with
    | .error e => .error e
    | .ok x =>
      match map_values f vs with
      | .error e => .error e
      | .ok xs => .ok (x :: xs)

/-- Method `parse_directive`. -/
def parse_directive (fc : FloatConversions) (line : List Char) (labels : LabelMap) :
    Except Error AssemblyDirective :=
  let (dir, rest) := std_first_word line
  let rest := trim rest
  let ldir := to_lower dir
  if ldir = ".byte".toList then
    if !rest.isEmpty then
      let vals := split rest ','
      match map_values (fun v =>
          match parse_signed_immediate v labels with
          | .ok x => .ok (to_uint32 x &&& 0xFF)
          | .error e => .error e) vals with
      | .error e => .error e
      | .ok values => .ok { type := .BYTE, values := values, raw_operands := vals }
    else .ok { type := .BYTE }
  else if ldir = ".half".toList then
    if !rest.isEmpty then
      let vals := split rest ','
      match map_values (fun v =>
          match parse_signed_immediate v labels with
          | .ok x => .ok (to_uint32 x &&& 0xFFFF)
          | .error e => .error e) vals with
      | .error e => .error e
      | .ok values => .ok { type := .HALF, values := values, raw_operands := vals }
    else .ok { type := .HALF }
  else if ldir = ".word".toList then
    if !rest.isEmpty then
      let vals := split rest ','
      match map_values (fun v => parse_immediate v labels) vals with
      | .error e => .error e
      | .ok values => .ok { type := .WORD, values := values, raw_operands := vals }
    else .ok { type := .WORD }
  else if ldir = ".ascii".toList ∨ ldir = ".asciiz".toList then
    let type : DirectiveType := if ldir = ".ascii".toList then .ASCII else .ASCIIZ
    if !rest.isEmpty then
      match parse_string_literal rest with
      | .error e => .error e
      | .ok text => .ok { type := type, text := text }
    else .ok { type := type, text := [] }
  else if ldir = ".space".toList then
    if !rest.isEmpty then
      match parse_immediate rest labels with
      | .error e => .error e
      | .ok n => .ok { type := .SPACE, values := [n], raw_operands := [rest] }
    else .ok { type := .SPACE }
  else if ldir = ".align".toList then
    if !rest.isEmpty then
      match parse_immediate rest labels with
      | .error e => .error e
      | .ok n => .ok { type := .ALIGN, alignment := n }
    else .ok { type := .ALIGN, alignment := 0 }
  else if ldir = ".text".toList then .ok { type := .TEXT }
  else if ldir = ".data".toList then .ok { type := .DATA }
  else if ldir = ".float".toList then
    if !rest.isEmpty then
      let vals := split rest ','
      match map_values fc.stof vals with
      | .error e => .error e
      | .ok values => .ok { type := .FLOAT, float_values := values, raw_operands := vals }
    else .ok { type := .FLOAT }
  else if ldir = ".double".toList then
    if !rest.isEmpty then
      let vals := split rest ','
      match map_values fc.stod vals with
      | .error e => .error e
      | .ok values => .ok { type := .DOUBLE, double_values := values, raw_operands := vals }
    else .ok { type := .DOUBLE }
  else throw_parse_error "Unknown directive"

/-- Method `get_directive_size_for_first_pass`; sizes are `uint32_t`. -/
def get_directive_size_for_first_pass (line : List Char) (current_pc : Nat) : Except Error Nat :=
  let (dir, rest) := std_first_word line
  let rest := trim rest
  let ldir := to_lower dir
  if ldir = ".byte".toList then
    if rest.isEmpty then .ok 0 else .ok ((split rest ',').length % 2 ^ 32)
  else if ldir = ".half".toList then
    if rest.isEmpty then .ok 0 else .ok (((split rest ',').length * 2) % 2 ^ 32)
  else if ldir = ".word".toList then
    if rest.isEmpty then .ok 0 else .ok (((split rest ',').length * 4) % 2 ^ 32)
  else if ldir = ".ascii".toList then
    if rest.isEmpty then .ok 0
    else
      match parse_string_literal rest with
      | .error e => .error e
      | .ok text => .ok (text.length % 2 ^ 32)
  else if ldir = ".asciiz".toList then
    if rest.isEmpty then .ok 1
    else
      match parse_string_literal rest with
      | .error e => .error e
      | .ok text => .ok ((text.length + 1) % 2 ^ 32)
  else if ldir = ".space".toList then
    if rest.isEmpty then .ok 0
    else
      match std_stoul rest 0 with
      | .error e => .error e
      | .ok n => .ok (n % 2 ^ 32)
  else if ldir = ".align".toList then
    if rest.isEmpty then .ok 0
    else
      match std_stoul rest 0 with
      | .error e => .error e
      | .ok n =>
        let n := n % 2 ^ 32
        let align_bytes := if n ≥ 31 then 0 else (1 <<< n) % 2 ^ 32
        if align_bytes = 0 then .ok 0
        else .ok ((align_bytes - (current_pc % align_bytes)) % align_bytes)
  else if ldir = ".text".toList ∨ ldir = ".data".toList then .ok 0
  else if ldir = ".float".toList then
    if rest.isEmpty then .ok 0 else .ok (((split rest ',').length * 4) % 2 ^ 32)
  else if ldir = ".double".toList then
    if rest.isEmpty then .ok 0 else .ok (((split rest ',').length * 8) % 2 ^ 32)
  else throw_parse_error "Unknown directive (size calc)"

/-- Method `get_directive_size`. -/
def get_directive_size (d : AssemblyDirective) (current_pc : Nat) : Nat :=
  match d.type with
  | .BYTE => d.values.length % 2 ^ 32
  | .HALF => (d.values.length * 2) % 2 ^ 32
  | .WORD => (d.values.length * 4) % 2 ^ 32
  | .ASCII => d.text.length % 2 ^ 32
  | .ASCIIZ => (d.text.length + 1) % 2 ^ 32
  | .SPACE => if d.values.isEmpty then 0 else d.values.getD 0 0
  | .ALIGN =>
    if d.alignment = 0 then 0
    else
      let align_bytes := if d.alignment ≥ 31 then 0 else (1 <<< d.alignment) % 2 ^ 32
      if align_bytes = 0 then 0
      else (align_bytes - (current_pc % align_bytes)) % align_bytes
  | .TEXT => 0
  | .DATA => 0
  | .FLOAT => (d.float_values.length * 4) % 2 ^ 32
  | .DOUBLE => (d.double_values.length * 8) % 2 ^ 32


/-! ### Instructions -/

/-- Method `detect_instruction_format`. -/
def detect_instruction_format (mnemonic : List Char) : Except Error InstructionFormat :=
  match find_instruction mnemonic with
  | none => throw_parse_error "Unknown instruction format"
  | some (op, _) =>
    if op = 0x00 then .ok .R_TYPE
    else if op = 0x02 ∨ op = 0x03 then .ok .J_TYPE
    else .ok .I_TYPE

/-- The lambda `get` of the instruction parsers: operand `idx`, or a parse error. -/
def get_operand (operands : List (List Char)) (idx : Nat) : Except Error (List Char) :=
  match operands.get? idx with
  | none => throw_parse_error "Missing operand"
  | some o => .ok o

/-- Method `parse_r_instruction`. -/
def parse_r_instruction (mnemonic : List Char) (operands : List (List Char)) :
    Except Error RInstruction :=
  match find_instruction mnemonic with
  | none => throw_parse_error "Unknown R instruction"
  | some (_, funct) =>
    if mnemonic = "sll".toList ∨ mnemonic = "srl".toList ∨ mnemonic = "sra".toList then do
      let rd ← get_operand operands 0
      let rt ← get_operand operands 1
      let sh ← get_operand operands 2
      let shv ← std_stoul sh 0
      let shamt := shv &&& 0x1F
      let rt ← parse_register rt
      let rd ← parse_register rd
      pure (RInstruction.make 0 rt rd shamt funct)
    else if mnemonic = "sllv".toList ∨ mnemonic = "srlv".toList ∨ mnemonic = "srav".toList then do
      let rd ← get_operand operands 0
      let rt ← get_operand operands 1
      let rs ← get_operand operands 2
      let rs ← parse_register rs
      let rt ← parse_register rt
      let rd ← parse_register rd
      pure (RInstruction.make rs rt rd 0 funct)
    else if mnemonic = "jr".toList then do
      let rs ← get_operand operands 0
      let rs ← parse_register rs
      pure (RInstruction.make rs 0 0 0 funct)
    else if mnemonic = "jalr".toList then
      if operands.length = 1 then do
        let rs ← get_operand operands 0
        let rs ← parse_register rs
        pure (RInstruction.make rs 0 InstructionExecutor.RA 0 funct)
      else do
        let rd ← get_operand operands 0
        let rs ← get_operand operands 1
        let rs ← parse_register rs
        let rd ← parse_register rd
        pure (RInstruction.make rs 0 rd 0 funct)
    else if mnemonic = "mfhi".toList ∨ mnemonic = "mflo".toList then do
      let rd ← get_operand operands 0
      let rd ← parse_register rd
      pure (RInstruction.make 0 0 rd 0 funct)
    else if mnemonic = "mthi".toList ∨ mnemonic = "mtlo".toList then do
      let rs ← get_operand operands 0
      let rs ← parse_register rs
      pure (RInstruction.make rs 0 0 0 funct)
    else if mnemonic = "mult".toList ∨ mnemonic = "multu".toList ∨ mnemonic = "div".toList ∨
        mnemonic = "divu".toList then do
      let rs ← get_operand operands 0
      let rt ← get_operand operands 1
      let rs ← parse_register rs
      let rt ← parse_register rt
      pure (RInstruction.make rs rt 0 0 funct)
    else do
      let rd ← get_operand operands 0
      let rs ← get_operand operands 1
      let rt ← get_operand operands 2
      let rs ← parse_register rs
      let rt ← parse_register rt
      let rd ← parse_register rd
      pure (RInstruction.make rs rt rd 0 funct)

/-- The immediate of a branch: `diff = int32(target) - (int32(current_pc) + 4)`,
`offset = diff / 4` (truncating), `static_cast<uint16_t>(offset & 0xFFFF)`. -/
def branch_offset (target current_pc : Nat) : Nat :=
  let diff : Int := wrap_int32 (to_int32 target - wrap_int32 (to_int32 current_pc + 4))
  let offset : Int := Int.tdiv diff 4
  to_uint32 offset &&& 0xFFFF

/-- Method `parse_i_instruction`. -/
def parse_i_instruction (mnemonic : List Char) (operands : List (List Char))
    (labels : LabelMap) (current_pc : Nat) : Except Error IInstruction :=
  match find_instruction mnemonic with
  | none => throw_parse_error "Unknown I instruction"
  | some (opcode, _) =>
    if mnemonic = "lw".toList ∨ mnemonic = "sw".toList ∨ mnemonic = "lb".toList ∨
        mnemonic = "lbu".toList ∨ mnemonic = "lh".toList ∨ mnemonic = "lhu".toList ∨
        mnemonic = "sb".toList ∨ mnemonic = "sh".toList then do
      let rt ← get_operand operands 0
      let mem ← get_operand operands 1
      let mo ← parse_memory_operand mem
      let rt ← parse_register rt
      pure (IInstruction.make opcode mo.base_register rt (to_uint32 mo.offset &&& 0xFFFF))
    else if mnemonic = "beq".toList ∨ mnemonic = "bne".toList then do
      let rs ← get_operand operands 0
      let rt ← get_operand operands 1
      let label ← get_operand operands 2
      match labels.find label with
      | none => throw_parse_error "Unknown label in branch"
      | some target =>
        let rs ← parse_register rs
        let rt ← parse_register rt
        pure (IInstruction.make opcode rs rt (branch_offset target current_pc))
    else if mnemonic = "blez".toList ∨ mnemonic = "bgtz".toList then do
      let rs ← get_operand operands 0
      let label ← get_operand operands 1
      match labels.find label with
      | none => throw_parse_error "Unknown label in branch"
      | some target =>
        let rs ← parse_register rs
        pure (IInstruction.make opcode rs 0 (branch_offset target current_pc))
    else if mnemonic = "trap".toList then
      match operands with
      | [] => pure (IInstruction.make opcode 0 0 0)
      | op0 :: _ => do
        let v ← parse_immediate op0 labels
        pure (IInstruction.make opcode 0 0 (v &&& 0xFFFF))
    else if mnemonic = "addi".toList ∨ mnemonic = "addiu".toList ∨ mnemonic = "slti".toList ∨
        mnemonic = "sltiu".toList ∨ mnemonic = "andi".toList ∨ mnemonic = "ori".toList ∨
        mnemonic = "xori".toList ∨ mnemonic = "llo".toList ∨ mnemonic = "lhi".toList then do
      let rt ← get_operand operands 0
      let rs ← get_operand operands 1
      let imm_str ← get_operand operands 2
      let imm ←
        if mnemonic = "andi".toList ∨ mnemonic = "ori".toList ∨ mnemonic = "xori".toList then
          (parse_immediate imm_str labels).map (fun v => v &&& 0xFFFF)
        else
          (parse_signed_immediate imm_str labels).map (fun v => to_uint32 v &&& 0xFFFF)
      let rs ← parse_register rs
      let rt ← parse_register rt
      pure (IInstruction.make opcode rs rt (imm &&& 0xFFFF))
    else throw_parse_error "Unhandled I-type instruction parsing"

/-- Method `parse_j_instruction`. -/
def parse_j_instruction (mnemonic : List Char) (operands : List (List Char))
    (labels : LabelMap) : Except Error JInstruction :=
  match find_instruction mnemonic with
  | none => throw_parse_error "Unknown J instruction"
  | some (opcode, _) =>
    match operands with
    | [] => throw_parse_error "Missing target in jump"
    | target :: _ => do
      let addr ←
        match labels.find target with
        | none => parse_immediate target labels
        | some a => pure a
      let encoded_addr := (addr >>> 2) &&& 0x03FFFFFF
      pure (JInstruction.make opcode encoded_addr)

/-- Method `parse_instruction`. -/
def parse_instruction (line : List Char) (labels : LabelMap) (current_pc : Nat) :
    Except Error Instruction :=
  let s := trim line
  if s.isEmpty then throw_parse_error "Empty instruction line"
  else
    let pos := s.findIdx? (fun c => c = ' ' || c = '\t')
    let mnemonic :=
      match pos with
      | none => s
      | some pos => s.take pos
    let rest :=
      match pos with
      | none => []
      | some pos => trim (s.drop (pos + 1))
    let mnemonic := to_lower mnemonic
    match find_instruction mnemonic with
    | none => throw_parse_error "Unknown instruction"
    | some _ =>
      let operands := if !rest.isEmpty then split rest ',' else []
      match detect_instruction_format mnemonic with
      | .error e => .error e
      | .ok .R_TYPE => (parse_r_instruction mnemonic operands).map Instruction.R
      | .ok .I_TYPE =>
        (parse_i_instruction mnemonic operands labels current_pc).map Instruction.I
      | .ok .J_TYPE => (parse_j_instruction mnemonic operands labels).map Instruction.J

/-! ### The two passes -/

/-- An element of `items` in `first_pass`: content, in_text, offset in its section,
is_directive. -/
structure Item where
  content : List Char
  in_text : Bool
  offset : Nat
  is_directive : Bool
  deriving DecidableEq, Repr

/-- An element of `labels_raw` in `first_pass`: name, in_text, offset in its section. -/
structure RawLabel where
  name : List Char
  in_text : Bool
  offset : Nat
  deriving DecidableEq, Repr

/-- The local variables of the loop of `first_pass`. -/
structure FirstPassState where
  items : List Item := []
  labels_raw : List RawLabel := []
  text_pc : Nat := 0
  data_pc : Nat := 0
  current_in_text : Bool := true
  deriving DecidableEq, Repr

/-- The `while (again)` loop of `first_pass` that peels the labels off a line: at every
colon the trimmed text before it is recorded as a label when it is not empty. The first
argument bounds the iterations; the length of the line plus one is never exhausted. -/
def peel_labels (in_text : Bool) (pc : Nat) :
    Nat → List Char → List RawLabel → List Char × List RawLabel
  | 0, line, acc => (line, acc)
  | fuel + 1, line, acc =>
    match std_find line ':' with
    | none => (line, acc)
    | some colon =>
      let label := trim (line.take colon)
      let raw : RawLabel := { name := label, in_text := in_text, offset := pc }
      let acc := if !label.isEmpty then acc ++ [raw] else acc
      peel_labels in_text pc fuel (trim (line.drop (colon + 1))) acc

/-- The body of the `for` loop of `first_pass` for one line. -/
def first_pass_line (st : FirstPassState) (raw_line : List Char) : Except Error FirstPassState :=
  let line := trim raw_line
  if line.isEmpty then .ok st
  else
    let pc := if st.current_in_text then st.text_pc else st.data_pc
    let (line, labels_raw) :=
      peel_labels st.current_in_text pc (line.length + 1) line st.labels_raw
    let st := { st with labels_raw := labels_raw }
    if line.isEmpty then .ok st
    else
      let lfirst := to_lower (std_first_word line).1
      if lfirst = ".text".toList then
        let item : Item :=
          { content := line, in_text := true, offset := st.text_pc, is_directive := true }
        .ok { st with current_in_text := true, items := st.items ++ [item] }
      else if lfirst = ".data".toList then
        let item : Item :=
          { content := line, in_text := false, offset := st.data_pc, is_directive := true }
        .ok { st with current_in_text := false, items := st.items ++ [item] }
      else if is_directive line then
        match get_directive_size_for_first_pass line pc with
        | .error e => .error e
        | .ok size =>
          let item : Item :=
            { content := line, in_text := st.current_in_text, offset := pc, is_directive := true }
          if st.current_in_text then
            .ok { st with items := st.items ++ [item], text_pc := (st.text_pc + size) % 2 ^ 32 }
          else
            .ok { st with items := st.items ++ [item], data_pc := (st.data_pc + size) % 2 ^ 32 }
      else
        let item : Item :=
          { content := line, in_text := true, offset := st.text_pc, is_directive := false }
        .ok { st with items := st.items ++ [item], text_pc := (st.text_pc + 4) % 2 ^ 32 }

/-- The `for` loop of `first_pass` over the lines. -/
def first_pass_loop : List (List Char) → FirstPassState → Except Error FirstPassState
  | [], st => .ok st
  | l :: ls, st =>
    match first_pass_line st l with
    | .error e => .error e
    | .ok st => first_pass_loop ls st

/-- Method `first_pass`: the final state holds `items`, `labels_raw`, and `text_size`,
`data_size` as `text_pc`, `data_pc`. -/
def first_pass (lines : List (List Char)) : Except Error FirstPassState :=
  first_pass_loop lines {}

/-- Method `second_pass` over `(content, in_text, absolute address)` triples. -/
def second_pass (fc : FloatConversions) (labels : LabelMap) :
    List (List Char × Bool × Nat) → Except Error (List ParsedLine)
  | [] => .ok []
  | (content, _, abs) :: rest =>
    let parsed : Except Error ParsedLine :=
      if is_directive content then (parse_directive fc content labels).map ParsedLine.directive
      else (parse_instruction content labels abs).map ParsedLine.instruction
    match parsed with
    | .error e => .error e
    | .ok p =>
      match second_pass fc labels rest with
      | .error e => .error e
      | .ok ps => .ok (p :: ps)

/-- Method `two_pass_parse`. -/
def two_pass_parse (fc : FloatConversions) (lines : List (List Char)) : Except Error ParseResult :=
  match first_pass lines with
  | .error e => .error e
  | .ok fp =>
    let text_size := fp.text_pc
    let text_base := 0
    let data_base := text_size
    let labels : LabelMap := fp.labels_raw.foldl (fun labels l =>
      let abs := if l.in_text then (text_base + l.offset) % 2 ^ 32
        else (data_base + l.offset) % 2 ^ 32
      labels.insert l.name abs) []
    let ordered_items : List (List Char × Bool × Nat) := fp.items.map (fun it =>
      let abs := if it.in_text then (text_base + it.offset) % 2 ^ 32
        else (data_base + it.offset) % 2 ^ 32
      (it.content, it.in_text, abs))
    let final_order := ordered_items.filter (fun t => t.2.1) ++
      ordered_items.filter (fun t => !t.2.1)
    match second_pass fc labels final_order with
    | .error e => .error e
    | .ok parsed_lines =>
      match labels.find "main".toList with
      | some a =>
        .ok { lines := parsed_lines, labels := labels, main_address := a, has_main := true }
      | none => .ok { lines := parsed_lines, labels := labels }

/-- Method `parse_assembly` on the text of the input stream. -/
def parse_assembly (fc : FloatConversions) (assembly_text : List Char) : Except Error ParseResult :=
  let lines := (std_getline_all '\n' assembly_text []).map remove_comments
  two_pass_parse fc lines

/-! ### Binary emission -/

/-- The four bytes of a 32-bit value, least significant first. -/
def le_bytes32 (v : Nat) : List Nat :=
  [v &&& 0xFF, (v >>> 8) &&& 0xFF, (v >>> 16) &&& 0xFF, (v >>> 24) &&& 0xFF]

/-- The loop `while (binary.size() % alignment != 0) binary.push_back(0)`; the first
argument bounds the iterations, `alignment` is never exhausted. -/
def align_loop (alignment : Nat) : Nat → List Nat → List Nat
  | 0, binary => binary
  | fuel + 1, binary =>
    if binary.length % alignment ≠ 0 then align_loop alignment fuel (binary ++ [0]) else binary

/-- The body of the loop of `generate_binary` for one parsed line. -/
def emit_line (binary : List Nat) : ParsedLine → List Nat
  | .instruction i => binary ++ le_bytes32 (InstructionUtils.encode i)
  | .directive dir =>
    match dir.type with
    | .BYTE => binary ++ dir.values.map (fun v => v &&& 0xFF)
    | .HALF => binary ++ (dir.values.map (fun v =>
        let val := v &&& 0xFFFF
        [val &&& 0xFF, (val >>> 8) &&& 0xFF])).flatten
    | .WORD => binary ++ (dir.values.map le_bytes32).flatten
    | .ASCII => binary ++ dir.text.map (fun c => c.toNat % 256)
    | .ASCIIZ => binary ++ dir.text.map (fun c => c.toNat % 256) ++ [0]
    | .SPACE => if !dir.values.isEmpty then binary ++ List.replicate (dir.values.getD 0 0) 0
        else binary
    | .ALIGN => if dir.alignment > 0 then align_loop dir.alignment dir.alignment binary
        else binary
    | .TEXT => binary
    | .DATA => binary
    | .FLOAT => binary ++ (dir.float_values.map le_bytes32).flatten
    | .DOUBLE => binary ++ (dir.double_values.map (fun bits =>
        (List.range 8).map (fun i => (bits >>> (i * 8)) &&& 0xFF))).flatten

/-- Method `generate_binary`. -/
def generate_binary (result : ParseResult) : List Nat :=
  result.lines.foldl emit_line []

/-- Method `calculate_memory_size`. -/
def calculate_memory_size (result : ParseResult) : Nat :=
  (generate_binary result).length % 2 ^ 32

end Parser

/-! ## Front ends (`assembler.cpp`, `interpreter.cpp`) -/

namespace Assembler

/-- Method `Assembler::assemble_stream`. -/
def assemble_stream (fc : FloatConversions) (input : List Char) : Except Error (List Nat) :=
  match Parser.parse_assembly fc input with
  | .error e => .error e
  | .ok result => .ok (Parser.generate_binary result)

end Assembler

namespace Interpreter

/-- One pass through the body of the `while (true)` loop of `Interpreter::run_stream`
after the step check; the trap test comes after `execute` here. -/
def run_iteration (ex : InstructionExecutor) (state : machine_state) :
    Except Error (machine_state × InstructionExecutor × Bool) :=
  let pc := state.get_pc
  if !state.is_valid_address pc 4 then .error (.pc_out_of_bounds pc)
  else
    match state.read_memory32 pc with
    | .error e => .error e
    | .ok instr_word =>
      let instr := InstructionUtils.decode instr_word
      let old_pc := pc
      match InstructionExecutor.execute ex state instr with
      | .error e => .error e
      | .ok (state, ex) =>
        let state := if state.get_pc = old_pc then state.increment_pc else state
        let is_trap : Bool :=
          match InstructionUtils.get_format instr, instr with
          | .I_TYPE, .I iinstr => decide (iinstr.opcode = 0x1A)
          | _, _ => false
        .ok (state, ex, is_trap)

/-- The `while (true)` loop of `Interpreter::run_stream`; the first argument is
`max_steps - steps`. -/
def run_loop : Nat → Nat → InstructionExecutor → machine_state → Except Error RunResult
  | 0, _, _, _ => .error .step_limit
  | remaining + 1, steps, ex, state =>
    let steps := steps + 1
    match run_iteration ex state with
    | .error e => .error e
    | .ok (state, ex, is_trap) =>
      if is_trap then .ok { state := state, executor := ex, steps := steps }
      else run_loop remaining steps ex state

/-- Method `Interpreter::run_stream` on the text of the input stream. -/
def run_stream (fc : FloatConversions) (ex : InstructionExecutor) (input : List Char)
    (max_steps : Nat) : Except Error RunResult :=
  match Parser.parse_assembly fc input with
  | .error e => .error e
  | .ok result =>
    if !result.has_main then .error .main_not_found
    else
      let bin := Parser.generate_binary result
      let state := machine_state.init
      let loaded : Except Error machine_state :=
        if !bin.isEmpty then state.load_memory 0 bin else .ok state
      match loaded with
      | .error e => .error e
      | .ok state =>
        let state := state.set_pc result.main_address
        run_loop max_steps 0 ex state

end Interpreter

/-! ## Specification-side predicates -/

/-- A well-formed instruction, in the words of the specification: R-form with opcode 0,
register and shift fields below 32 and a 6-bit function code; I-form with a 6-bit opcode
other than 0, 2 and 3, register fields below 32 and a 16-bit immediate; J-form with
opcode 2 or 3 and a 26-bit address. -/
def Instruction.well_formed : Instruction → Prop
  | .R i => i.opcode = 0 ∧ i.rs < 32 ∧ i.rt < 32 ∧ i.rd < 32 ∧ i.shamt < 32 ∧ i.funct < 64
  | .I i => i.opcode < 64 ∧ i.opcode ≠ 0 ∧ i.opcode ≠ 2 ∧ i.opcode ≠ 3 ∧
      i.rs < 32 ∧ i.rt < 32 ∧ i.immediate < 2 ^ 16
  | .J i => (i.opcode = 2 ∨ i.opcode = 3) ∧ i.address < 2 ^ 26

/-- The control transfer the specification attributes to an instruction executed in state
`s`: a taken branch goes to `PC + (sign_extend_16 imm << 2)`, `j` and `jal` go to
`((PC + 4) & 0xF0000000) | (address << 2)`, `jr` and `jalr` go to the value of `rs`; every
other instruction, a branch that is not taken included, transfers nowhere. -/
def control_target (s : machine_state) : Instruction → Option Nat
  | .R i =>
    if i.funct = 0x08 ∨ i.funct = 0x09 then some (s.get_register i.rs) else none
  | .I i =>
    let target := (s.pc + (InstructionUtils.sign_extend_16 i.immediate <<< 2)) % 2 ^ 32
    if i.opcode = 0x04 then
      if s.get_register i.rs = s.get_register i.rt then some target else none
    else if i.opcode = 0x05 then
      if s.get_register i.rs ≠ s.get_register i.rt then some target else none
    else if i.opcode = 0x06 then
      if to_int32 (s.get_register i.rs) ≤ 0 then some target else none
    else if i.opcode = 0x07 then
      if to_int32 (s.get_register i.rs) > 0 then some target else none
    else none
  | .J i =>
    if i.opcode = 0x02 ∨ i.opcode = 0x03 then
      some ((((s.pc + 4) % 2 ^ 32) &&& 0xF0000000) ||| ((i.address <<< 2) % 2 ^ 32))
    else none

/-- The state after `k` consecutive iterations of the runtime loop from `(ex, state)`, when
each of them completes without an error and none of them is a `trap`; `none` otherwise. -/
def exec_steps : Nat → InstructionExecutor → machine_state →
    Option (machine_state × InstructionExecutor)
  | 0, ex, state => some (state, ex)
  | k + 1, ex, state =>
    match Executor.run_iteration ex state with
    | .ok (state, ex, false) => exec_steps k ex state
    | _ => none

/-- The outcomes of two runs agree, in the words of the specification: both fail, or both
return and the final registers, PC, HI, LO and memory are the same. -/
def same_outcome (a b : Except Error RunResult) : Prop :=
  match a, b with
  | .ok r1, .ok r2 =>
    r1.state.registers = r2.state.registers ∧ r1.state.pc = r2.state.pc ∧
    r1.state.hi = r2.state.hi ∧ r1.state.lo = r2.state.lo ∧
    r1.state.memory = r2.state.memory ∧ r1.state.memory_size = r2.state.memory_size
  | .error _, .error _ => True
  | _, _ => False

/-- Assembling a text with `Assembler::assemble_stream` and running the bytes with
`Executor::run_stream`, no start PC forced. -/
def assemble_then_execute (fc : FloatConversions) (ex : InstructionExecutor)
    (input : List Char) (max_steps : Nat) : Except Error RunResult :=
  match Assembler.assemble_stream fc input with
  | .error e => .error e
  | .ok bytes => Executor.run_stream ex bytes max_steps UINT32_MAX

/-- The absolute address of a label declaration `(name, section, offset)` in a program whose
text has size `text_size`: `(section == text ? 0 : text_size) + offset` as a 32-bit value. -/
def label_address (text_size : Nat) (l : Parser.RawLabel) : Nat :=
  ((if l.in_text then 0 else text_size) + l.offset) % 2 ^ 32

/-- The last declaration of `name` among the label declarations of pass 1, which are in
source order. -/
def last_declaration (name : List Char) (ls : List Parser.RawLabel) : Option Parser.RawLabel :=
  ls.reverse.find? (fun l => name == l.name)

/-- The absolute address of a pass 1 item `(content, section, offset)` in a program whose
text has size `text_size`: `(section == text ? 0 : text_size) + offset` as a 32-bit value. -/
def item_address (text_size : Nat) (it : Parser.Item) : Nat :=
  ((if it.in_text then 0 else text_size) + it.offset) % 2 ^ 32

/-- The parsed line that pass 2 produces for one item: a directive when the content is a
directive, otherwise an instruction parsed at the absolute address of the item. -/
def parse_item (fc : FloatConversions) (labels : LabelMap) (content : List Char) (abs : Nat) :
    Except Error ParsedLine :=
  if Parser.is_directive content then
    (Parser.parse_directive fc content labels).map ParsedLine.directive
  else (Parser.parse_instruction content labels abs).map ParsedLine.instruction

/-- The label table `two_pass_parse` hands to pass 2: one entry per declaration of pass 1,
the latest first, each with its absolute address. -/
def label_table (fp : Parser.FirstPassState) : LabelMap :=
  (fp.labels_raw.map (fun l => (l.name, label_address fp.text_pc l))).reverse

/-- The mnemonic `parse_instruction` reads from a line: the text before the first space or
tab of the trimmed line, in lower case. -/
def instruction_mnemonic (line : List Char) : List Char :=
  let s := Parser.trim line
  Parser.to_lower
    (match s.findIdx? (fun c => c = ' ' || c = '\t') with
      | none => s
      | some pos => s.take pos)

/-- The operands `parse_instruction` reads from a line: the comma-separated pieces of the
text after the mnemonic, each trimmed. -/
def instruction_operands (line : List Char) : List (List Char) :=
  let s := Parser.trim line
  let rest :=
    match s.findIdx? (fun c => c = ' ' || c = '\t') with
    | none => []
    | some pos => Parser.trim (s.drop (pos + 1))
  if !rest.isEmpty then Parser.split rest ',' else []

/-- The operand shapes of the specification, per mnemonic: the least and the greatest
number of comma-separated operands of its source syntax (`jalr rs` or `jalr rd, rs`,
`trap` or `trap imm`). -/
def operand_shapes : List (List Char × Nat × Nat) :=
  [("add".toList, 3, 3), ("addu".toList, 3, 3), ("sub".toList, 3, 3), ("subu".toList, 3, 3),
   ("and".toList, 3, 3), ("or".toList, 3, 3), ("xor".toList, 3, 3), ("nor".toList, 3, 3),
   ("slt".toList, 3, 3), ("sltu".toList, 3, 3), ("sll".toList, 3, 3), ("srl".toList, 3, 3),
   ("sra".toList, 3, 3), ("sllv".toList, 3, 3), ("srlv".toList, 3, 3), ("srav".toList, 3, 3),
   ("mfhi".toList, 1, 1), ("mflo".toList, 1, 1), ("mthi".toList, 1, 1), ("mtlo".toList, 1, 1),
   ("mult".toList, 2, 2), ("multu".toList, 2, 2), ("div".toList, 2, 2), ("divu".toList, 2, 2),
   ("jr".toList, 1, 1), ("jalr".toList, 1, 2), ("addi".toList, 3, 3), ("addiu".toList, 3, 3),
   ("slti".toList, 3, 3), ("sltiu".toList, 3, 3), ("andi".toList, 3, 3), ("ori".toList, 3, 3),
   ("xori".toList, 3, 3), ("llo".toList, 3, 3), ("lhi".toList, 3, 3), ("beq".toList, 3, 3),
   ("bne".toList, 3, 3), ("blez".toList, 2, 2), ("bgtz".toList, 2, 2), ("lb".toList, 2, 2),
   ("lbu".toList, 2, 2), ("lh".toList, 2, 2), ("lhu".toList, 2, 2), ("lw".toList, 2, 2),
   ("sb".toList, 2, 2), ("sh".toList, 2, 2), ("sw".toList, 2, 2), ("j".toList, 1, 1),
   ("jal".toList, 1, 1), ("trap".toList, 0, 1)]

/-- The part of `parse_instruction` after the line is split into mnemonic and operands:
lookup of the mnemonic, format detection, and the parser of the format. -/
def parse_operands (mnemonic : List Char) (operands : List (List Char)) (labels : LabelMap)
    (current_pc : Nat) : Except Error Instruction :=
  match Parser.find_instruction mnemonic with
  | none => Parser.throw_parse_error "Unknown instruction"
  | some _ =>
    match Parser.detect_instruction_format mnemonic with
    | .error e => .error e
    | .ok .R_TYPE => (Parser.parse_r_instruction mnemonic operands).map Instruction.R
    | .ok .I_TYPE =>
      (Parser.parse_i_instruction mnemonic operands labels current_pc).map Instruction.I
    | .ok .J_TYPE => (Parser.parse_j_instruction mnemonic operands labels).map Instruction.J

/-- The fields of an instruction hold values of their C++ types: `uint8_t` for the opcode,
the register numbers, the shift amount and the function code, `uint16_t` for the immediate,
`uint32_t` for the jump address. -/
def Instruction.typed : Instruction → Prop
  | .R i => i.opcode < 2 ^ 8 ∧ i.rs < 2 ^ 8 ∧ i.rt < 2 ^ 8 ∧ i.rd < 2 ^ 8 ∧ i.shamt < 2 ^ 8 ∧
      i.funct < 2 ^ 8
  | .I i => i.opcode < 2 ^ 8 ∧ i.rs < 2 ^ 8 ∧ i.rt < 2 ^ 8 ∧ i.immediate < 2 ^ 16
  | .J i => i.opcode < 2 ^ 8 ∧ i.address < 2 ^ 32

/-- The state with every register cell outside the 32-entry register file cleared; all
other components are kept. Two states with the same `low_registers` differ only in cells
that `std::array<uint32_t, 32>` does not have. -/
def machine_state.low_registers (s : machine_state) : machine_state :=
  { s with registers := fun r => if r < 32 then s.registers r else 0 }

/-- The result of `execute` with the register cells outside 0..31 cleared. -/
def low_result (p : machine_state × InstructionExecutor) : machine_state × InstructionExecutor :=
  (p.1.low_registers, p.2)

/-- The number of bytes `generate_binary` appends to the image for one parsed line. -/
def emitted_size (p : ParsedLine) : Nat := (Parser.emit_line [] p).length

/-- The size pass 1 assigns to an item it has recorded: 4 for an instruction,
`get_directive_size_for_first_pass` at the item's offset for a directive. -/
def first_pass_size (it : Parser.Item) : Except Error Nat :=
  if it.is_directive then Parser.get_directive_size_for_first_pass it.content it.offset
  else .ok 4

/-- The size of an item as a number, 0 when pass 1 could not size it. -/
def item_size (it : Parser.Item) : Nat :=
  match first_pass_size it with
  | .ok n => n
  | .error _ => 0

/-- The sum of the pass 1 sizes of the items of one section. -/
def section_size (in_text : Bool) (items : List Parser.Item) : Nat :=
  ((items.filter (fun it => it.in_text == in_text)).map item_size).sum

/-- The image offset at which the bytes of line `k` of a parse result begin: the number of
bytes `generate_binary` emits for the lines before it. -/
def image_offset (r : ParseResult) (k : Nat) : Nat :=
  (Parser.generate_binary { r with lines := r.lines.take k }).length

/-- The index, among the parsed lines, of the line that the next item of the current section
will produce, for a pass 1 state `st` reached on the way to the final state `fp`: the text
lines come first, in source order, then the data lines. -/
def next_line_index (fp st : Parser.FirstPassState) : Nat :=
  if st.current_in_text then (st.items.filter (fun it => it.in_text)).length
  else (fp.items.filter (fun it => it.in_text)).length +
    (st.items.filter (fun it => !it.in_text)).length

/-- The characters an identifier may start with: the letters and the underscore. -/
def identifier_start : List Char :=
  "abcdefghijklmnopqrstuvwxyzABCDEFGHIJKLMNOPQRSTUVWXYZ_".toList

/-- A label name that is an identifier: a letter or an underscore, followed by letters,
digits and underscores. -/
def is_identifier (name : List Char) : Bool :=
  match name with
  | [] => false
  | c :: cs => decide (c ∈ identifier_start) &&
      cs.all (fun d => decide (d ∈ identifier_start) || decide (d ∈ "0123456789".toList))

/-- The counters of a pass 1 state account for its items: each counter is, as a 32-bit
value, the sum of the pass 1 sizes of the items of its section; every item has a size; and an
item recorded as an instruction is not a directive line. -/
def counters_account (st : Parser.FirstPassState) : Prop :=
  st.text_pc % 2 ^ 32 = section_size true st.items % 2 ^ 32 ∧
  st.data_pc % 2 ^ 32 = section_size false st.items % 2 ^ 32 ∧
  ∀ it ∈ st.items, (∃ sz, first_pass_size it = .ok sz) ∧
    (it.is_directive = false → Parser.is_directive it.content = false)

/-! ## Sample inputs -/

/-- The machine state `Executor::run_stream` starts its loop in for the image `bytes`
(the fresh default state when the image is rejected). -/
def loaded_state (bytes : List Nat) (start_address : Nat := UINT32_MAX) : machine_state :=
  match Executor.load_image bytes start_address with
  | .ok s => s
  | .error _ => machine_state.init

/-- Empty standard input, nothing written yet. -/
def no_streams : InstructionExecutor := { input_stream := [], output_stream := [] }

/-- A program whose `main` label is not its first instruction. -/
def main_second_text : List Char := "addi $t0, $zero, 5\nmain: trap 5\n".toList

/-- A program whose `main` label is at address 0. -/
def main_first_text : List Char := "main: addi $t0, $zero, 5\ntrap 5\n".toList

/-- The header scenario of the specification: `4D 49 50 53 10 00 00 00`, four NOP words
and `trap 5`. -/
def header_image : List Nat :=
  [0x4D, 0x49, 0x50, 0x53, 0x10, 0, 0, 0, 0, 0, 0, 0, 0, 0, 0, 0, 0, 0, 0, 0, 0, 0, 0, 0,
   5, 0, 0, 0x68]

/-- The assembly text of the parser test of the repository. -/
def parser_test_text : List Char :=
  "\n".toList ++
   "            .text\n".toList ++
   "            main:\n".toList ++
   "                add $t0, $t1, $t2\n".toList ++
   "                loop: lw $a0, 4($sp)\n".toList ++
   "                beq $t0, $t1, loop\n".toList ++
   "                j end\n".toList ++
   "            .data\n".toList ++
   "                arr: .word 1, 2, 3\n".toList ++
   "                msg: .asciiz \"hi\"\n".toList ++
   "            .text\n".toList ++
   "            end: sll $t3, $t4, 2\n".toList ++
   "        ".toList

/-- The result of `parse_assembly` on `text` (the empty result when parsing fails). -/
def parsed (text : List Char) : ParseResult :=
  match Parser.parse_assembly FloatConversions.none text with
  | .ok r => r
  | .error _ => {}

/-- The state pass 1 ends in on `text` (the initial state when pass 1 fails). -/
def first_pass_of (text : List Char) : Parser.FirstPassState :=
  match Parser.first_pass ((std_getline_all '\n' text []).map Parser.remove_comments) with
  | .ok fp => fp
  | .error _ => {}

/-- The multiply scenario of the specification, one instruction per line. -/
def mult_scenario_text : List Char :=
  "addi $t0, $zero, -1\n".toList ++ "addi $t1, $zero, -1\n".toList ++
  "mult $t0, $t1\n".toList ++ "mfhi $a0\n".toList ++ "trap 0\n".toList ++
  "mflo $a0\n".toList ++ "trap 0\n".toList ++ "trap 5".toList

/-- A taken branch over one instruction to the label `L`. -/
def branch_over_text : List Char :=
  "beq $0, $0, L\naddi $t0, $zero, 1\nL: trap 5".toList

/-- The instructions `add $t0, $t1, $t2` and `trap 5`. -/
def add_then_trap : List Instruction := [.R ⟨0, 9, 10, 8, 0, 0x20⟩, .I ⟨0x1A, 0, 0, 5⟩]

/-- A parse result whose lines are the instructions of `add_then_trap` only. -/
def add_then_trap_result : ParseResult :=
  { lines := add_then_trap.map ParsedLine.instruction }

/-- Two `.space` directives of 2^32 - 1 bytes each, in the text section. -/
def two_big_spaces_text : List Char := ".space 4294967295\n.space 4294967295\n".toList

/-- The directive `.space 4294967295` as parsed. -/
def big_space : AssemblyDirective :=
  { type := .SPACE, values := [4294967295], raw_operands := ["4294967295".toList] }

/-- A 2048-byte machine with `$t0` = 1004 and the halfword 0x8001 stored little-endian
at address 1000. -/
def half_at_1000 : machine_state :=
  { registers := fun r => if r = 8 then 1004 else 0,
    memory := fun a => if a = 1000 then 0x01 else if a = 1001 then 0x80 else 0,
    memory_size := 2048, pc := 0, hi := 0, lo := 0 }

/-- A program that divides -2^31 by -1: `$t0` = 0x80000000, `$t1` = 0xFFFFFFFF. -/
def div_overflow_text : List Char :=
  "addi $t0, $zero, 1\nsll $t0, $t0, 31\naddi $t1, $zero, -1\ndiv $t0, $t1\ntrap 5".toList

/-! # Theorems -/

deriving instance DecidableEq for Except

/-! ## Bit-level arithmetic -/

theorem lor_shiftLeft_of_lt (x b k : Nat) (hx : x < 2 ^ k) :
    x ||| (b <<< k) = x + b * 2 ^ k := by
  rw [Nat.shiftLeft_eq, Nat.lor_comm, Nat.mul_comm b, ← Nat.mul_add_lt_is_or hx, Nat.add_comm]

theorem lor_of_dvd_of_lt (x y k : Nat) (hx : 2 ^ k ∣ x) (hy : y < 2 ^ k) : x ||| y = x + y := by
  obtain ⟨a, rfl⟩ := hx
  exact (Nat.mul_add_lt_is_or hy a).symm

theorem and_0xFF (v : Nat) : v &&& 0xFF = v % 256 := by
  simpa using Nat.and_pow_two_sub_one_eq_mod v 8

theorem and_0x1F (v : Nat) : v &&& 0x1F = v % 32 := by
  simpa using Nat.and_pow_two_sub_one_eq_mod v 5

theorem and_0x3F (v : Nat) : v &&& 0x3F = v % 64 := by
  simpa using Nat.and_pow_two_sub_one_eq_mod v 6

theorem and_0xFFFF (v : Nat) : v &&& 0xFFFF = v % 65536 := by
  simpa using Nat.and_pow_two_sub_one_eq_mod v 16

theorem and_0x3FFFFFF (v : Nat) : v &&& 0x3FFFFFF = v % 67108864 := by
  simpa using Nat.and_pow_two_sub_one_eq_mod v 26

theorem compose16 (v : Nat) (h : v < 2 ^ 16) :
    (v &&& 0xFF) ||| (((v >>> 8) &&& 0xFF) <<< 8) = v := by
  rw [and_0xFF, and_0xFF, Nat.shiftRight_eq_div_pow, lor_shiftLeft_of_lt _ _ 8 (by omega)]
  omega

theorem compose32 (v : Nat) (h : v < 2 ^ 32) :
    (v &&& 0xFF) ||| (((v >>> 8) &&& 0xFF) <<< 8) ||| (((v >>> 16) &&& 0xFF) <<< 16) |||
      (((v >>> 24) &&& 0xFF) <<< 24) = v := by
  simp only [and_0xFF, Nat.shiftRight_eq_div_pow]
  rw [lor_shiftLeft_of_lt _ _ 8 (by omega), lor_shiftLeft_of_lt _ _ 16 (by omega),
    lor_shiftLeft_of_lt _ _ 24 (by omega)]
  omega

theorem to_uint32_add_to_int32 (p x : Nat) :
    to_uint32 ((p : Int) + to_int32 (x % 2 ^ 32)) = (p + x) % 2 ^ 32 := by
  unfold to_uint32 to_int32
  split <;> omega

theorem to_uint32_natCast (n : Nat) : to_uint32 (n : Int) = n % 2 ^ 32 := by
  unfold to_uint32
  omega

/-! ## Machine state -/

namespace machine_state

/-- Claim C6. After any finite sequence of `set_register` calls (any registers, any values,
writes to register 0 included) `get_register` of register 0 returns 0, the slot 0 of the
register file is the one the sequence started from, and a `set_register` on register 0
returns the machine state unchanged. -/
theorem zero_register_reads_zero (s : machine_state) (writes : List (Nat × Nat)) (v : Nat) :
    (writes.foldl (fun st w => st.set_register w.1 w.2) s).get_register 0 = 0 ∧
    (writes.foldl (fun st w => st.set_register w.1 w.2) s).registers 0 = s.registers 0 ∧
    s.set_register 0 v = s := by
  refine ⟨rfl, ?_, rfl⟩
  induction writes generalizing s with
  | nil => rfl
  | cons w ws ih =>
    rw [List.foldl_cons, ih]
    unfold set_register
    split
    · rfl
    · rename_i h
      have h0 : ¬ (0 = w.1) := fun e => h e.symm
      simp [h0]

/-- Claim C7. Every accessor succeeds exactly when `addr + size <= memory_size` (a sum of
naturals, no 32-bit wrap) and otherwise fails with the out-of-range error, before any byte
is assigned; with 1000 bytes of memory `read_memory8 1000` and `read_memory32 999` fail. -/
theorem access_succeeds_iff_in_bounds (s : machine_state) (a v : Nat) :
    (read_memory8 s a = (if a + 1 ≤ s.memory_size then .ok (s.memory a)
        else .error .out_of_range)) ∧
    (read_memory16 s a = (if a + 2 ≤ s.memory_size
        then .ok (s.memory a ||| (s.memory ((a + 1) % 2 ^ 32) <<< 8))
        else .error .out_of_range)) ∧
    (read_memory32 s a = (if a + 4 ≤ s.memory_size
        then .ok (s.memory a ||| (s.memory ((a + 1) % 2 ^ 32) <<< 8) |||
              (s.memory ((a + 2) % 2 ^ 32) <<< 16) ||| (s.memory ((a + 3) % 2 ^ 32) <<< 24))
        else .error .out_of_range)) ∧
    ((a + 1 ≤ s.memory_size ↔ ∃ s', write_memory8 s a v = .ok s') ∧
      (¬ a + 1 ≤ s.memory_size ↔ write_memory8 s a v = .error .out_of_range)) ∧
    ((a + 2 ≤ s.memory_size ↔ ∃ s', write_memory16 s a v = .ok s') ∧
      (¬ a + 2 ≤ s.memory_size ↔ write_memory16 s a v = .error .out_of_range)) ∧
    ((a + 4 ≤ s.memory_size ↔ ∃ s', write_memory32 s a v = .ok s') ∧
      (¬ a + 4 ≤ s.memory_size ↔ write_memory32 s a v = .error .out_of_range)) ∧
    read_memory8 (init 1000) 1000 = .error .out_of_range ∧
    read_memory32 (init 1000) 999 = .error .out_of_range := by
  refine ⟨?_, ?_, ?_, ⟨?_, ?_⟩, ⟨?_, ?_⟩, ⟨?_, ?_⟩, ?_, ?_⟩
  · by_cases h : a + 1 ≤ s.memory_size <;> simp [read_memory8, is_valid_address, h]
  · by_cases h : a + 2 ≤ s.memory_size <;> simp [read_memory16, is_valid_address, h]
  · by_cases h : a + 4 ≤ s.memory_size <;> simp [read_memory32, is_valid_address, h]
  · by_cases h : a + 1 ≤ s.memory_size <;> simp [write_memory8, is_valid_address, h]
  · by_cases h : a + 1 ≤ s.memory_size <;> simp [write_memory8, is_valid_address, h]
  · by_cases h : a + 2 ≤ s.memory_size <;> simp [write_memory16, is_valid_address, h]
  · by_cases h : a + 2 ≤ s.memory_size <;> simp [write_memory16, is_valid_address, h]
  · by_cases h : a + 4 ≤ s.memory_size <;> simp [write_memory32, is_valid_address, h]
  · by_cases h : a + 4 ≤ s.memory_size <;> simp [write_memory32, is_valid_address, h]
  · decide
  · decide

/-- The state `write_memory16` returns in bounds: the cell `a`, then the cell
`(a + 1) mod 2^32`. -/
theorem write_memory16_ok (s : machine_state) (a v : Nat) (h : a + 2 ≤ s.memory_size) :
    write_memory16 s a v = .ok { s with memory := fun x =>
      if x = (a + 1) % 2 ^ 32 then (v >>> 8) &&& 0xFF
      else if x = a then v &&& 0xFF else (s.memory x) } := by
  simp [write_memory16, is_valid_address, h]

/-- The state `write_memory32` returns in bounds: the cell `a`, then the cells
`(a + k) mod 2^32` for k = 1, 2, 3. -/
theorem write_memory32_ok (s : machine_state) (a v : Nat) (h : a + 4 ≤ s.memory_size) :
    write_memory32 s a v = .ok { s with memory := fun x =>
      if x = (a + 3) % 2 ^ 32 then (v >>> 24) &&& 0xFF
      else if x = (a + 2) % 2 ^ 32 then (v >>> 16) &&& 0xFF
      else if x = (a + 1) % 2 ^ 32 then (v >>> 8) &&& 0xFF
      else if x = a then v &&& 0xFF else (s.memory x) } := by
  simp [write_memory32, is_valid_address, h]

/-- The four cells of a word access are pairwise distinct, wrapped or not. -/
theorem word_cells_distinct (a : Nat) :
    a ≠ (a + 1) % 2 ^ 32 ∧ a ≠ (a + 2) % 2 ^ 32 ∧ a ≠ (a + 3) % 2 ^ 32 ∧
    (a + 1) % 2 ^ 32 ≠ (a + 2) % 2 ^ 32 ∧ (a + 1) % 2 ^ 32 ≠ (a + 3) % 2 ^ 32 ∧
    (a + 2) % 2 ^ 32 ≠ (a + 3) % 2 ^ 32 := by
  refine ⟨?_, ?_, ?_, ?_, ?_, ?_⟩ <;> omega

/-- Claim C8. When `a + 4 <= memory_size`, `write_memory32 a v` succeeds and afterwards
`read_memory8 (a + k)` returns `(v >> 8k) & 0xFF` for k = 0, 1, 2, 3 (little-endian); the
address `a + k` is the 32-bit sum the caller passes to `read_memory8`. -/
theorem write32_bytes_little_endian (s : machine_state) (a v : Nat)
    (h : a + 4 ≤ s.memory_size) :
    ∃ s', write_memory32 s a v = .ok s' ∧
      read_memory8 s' a = .ok (v &&& 0xFF) ∧
      read_memory8 s' ((a + 1) % 2 ^ 32) = .ok ((v >>> 8) &&& 0xFF) ∧
      read_memory8 s' ((a + 2) % 2 ^ 32) = .ok ((v >>> 16) &&& 0xFF) ∧
      read_memory8 s' ((a + 3) % 2 ^ 32) = .ok ((v >>> 24) &&& 0xFF) := by
  have h0 : a + 1 ≤ s.memory_size := by omega
  have h1 : (a + 1) % 2 ^ 32 + 1 ≤ s.memory_size := by omega
  have h2 : (a + 2) % 2 ^ 32 + 1 ≤ s.memory_size := by omega
  have h3 : (a + 3) % 2 ^ 32 + 1 ≤ s.memory_size := by omega
  obtain ⟨d1, d2, d3, d4, d5, d6⟩ := word_cells_distinct a
  refine ⟨_, write_memory32_ok s a v h, ?_, ?_, ?_, ?_⟩ <;>
    simp only [Nat.reducePow] at h1 h2 h3 d1 d2 d3 d4 d5 d6
  · simp [read_memory8, is_valid_address, h0, d1, d2, d3]
  · simp [read_memory8, is_valid_address, h1, d4, d5]
  · simp [read_memory8, is_valid_address, h2, d6]
  · simp [read_memory8, is_valid_address, h3]

/-- Witness of claim C8 at `a = 0`, `v = 0x12345678` in a 16-byte memory: the four bytes
read back are 0x78, 0x56, 0x34, 0x12. -/
theorem write32_bytes_little_endian_witness :
    0 + 4 ≤ (init 16).memory_size ∧
    ∃ s', write_memory32 (init 16) 0 0x12345678 = .ok s' ∧
      read_memory8 s' 0 = .ok 0x78 ∧
      read_memory8 s' 1 = .ok 0x56 ∧
      read_memory8 s' 2 = .ok 0x34 ∧
      read_memory8 s' 3 = .ok 0x12 :=
  ⟨by decide, write32_bytes_little_endian (init 16) 0 0x12345678 (by decide)⟩

/-- Counterexample to claim C9 as written. In a memory of 2^32 + 1 bytes the halfword
write at address 0xFFFFFFFF is in bounds, yet its high byte goes to the index
`0xFFFFFFFF + 1` taken in 32 bits, which is cell 0: a byte outside `[a, a + 2)` changes
from 0 to 0x12, and the cell `a + 1 = 2^32` keeps its 0. -/
theorem write16_wraps_to_cell_zero :
    0xFFFFFFFF + 2 ≤ (init (2 ^ 32 + 1)).memory_size ∧
    (0 : Nat) < 0xFFFFFFFF ∧
    (init (2 ^ 32 + 1)).memory 0 = 0 ∧
    (write_memory16 (init (2 ^ 32 + 1)) 0xFFFFFFFF 0x1234).map (fun s' => s'.memory 0) =
      .ok 0x12 ∧
    (write_memory16 (init (2 ^ 32 + 1)) 0xFFFFFFFF 0x1234).map
      (fun s' => s'.memory (0xFFFFFFFF + 1)) = .ok 0 := by
  decide

/-- Claim C9, amended. For N in 8, 16, 32 and an in-bounds address `a`, writing an N-bit
value `v` with `write_memoryN` and reading it back at once with `read_memoryN` returns `v`;
the write changes no register and neither PC, HI, LO nor the size; and when
`a + N/8 <= 2^32`, as every in-bounds access satisfies in a memory of at most 2^32 bytes,
it changes no byte outside `[a, a + N/8)`. For every in-bounds `a` the only cells it can
change are `a` and `(a + k) mod 2^32` for `0 < k < N/8`. -/
theorem read_after_write_below_4GiB (s : machine_state) (a v : Nat) :
    (a + 1 ≤ s.memory_size → v < 2 ^ 8 →
      ∃ s', write_memory8 s a v = .ok s' ∧ read_memory8 s' a = .ok v ∧
        (∀ b, b < a ∨ a + 1 ≤ b → s'.memory b = s.memory b) ∧
        s'.registers = s.registers ∧ s'.pc = s.pc ∧ s'.hi = s.hi ∧ s'.lo = s.lo ∧
        s'.memory_size = s.memory_size) ∧
    (a + 2 ≤ s.memory_size → v < 2 ^ 16 →
      ∃ s', write_memory16 s a v = .ok s' ∧ read_memory16 s' a = .ok v ∧
        (a + 2 ≤ 2 ^ 32 → ∀ b, b < a ∨ a + 2 ≤ b → s'.memory b = s.memory b) ∧
        (∀ b, b ≠ a → b ≠ (a + 1) % 2 ^ 32 → s'.memory b = s.memory b) ∧
        s'.registers = s.registers ∧ s'.pc = s.pc ∧ s'.hi = s.hi ∧ s'.lo = s.lo ∧
        s'.memory_size = s.memory_size) ∧
    (a + 4 ≤ s.memory_size → v < 2 ^ 32 →
      ∃ s', write_memory32 s a v = .ok s' ∧ read_memory32 s' a = .ok v ∧
        (a + 4 ≤ 2 ^ 32 → ∀ b, b < a ∨ a + 4 ≤ b → s'.memory b = s.memory b) ∧
        (∀ b, b ≠ a → b ≠ (a + 1) % 2 ^ 32 → b ≠ (a + 2) % 2 ^ 32 →
          b ≠ (a + 3) % 2 ^ 32 → s'.memory b = s.memory b) ∧
        s'.registers = s.registers ∧ s'.pc = s.pc ∧ s'.hi = s.hi ∧ s'.lo = s.lo ∧
        s'.memory_size = s.memory_size) := by
  obtain ⟨d1, d2, d3, d4, d5, d6⟩ := word_cells_distinct a
  simp only [Nat.reducePow] at d1 d2 d3 d4 d5 d6
  refine ⟨?_, ?_, ?_⟩
  · intro h _
    have hw : write_memory8 s a v = .ok { s with memory := fun x =>
        if x = a then v else (s.memory x) } := by
      simp [write_memory8, is_valid_address, h]
    refine ⟨_, hw, ?_, ?_, rfl, rfl, rfl, rfl, rfl⟩
    · simp [read_memory8, is_valid_address, h]
    · intro b hb
      have : b ≠ a := by omega
      simp [this]
  · intro h hv
    refine ⟨_, write_memory16_ok s a v h, ?_, ?_, ?_, rfl, rfl, rfl, rfl, rfl⟩
    · have := compose16 v hv
      simpa [read_memory16, is_valid_address, h, d1] using this
    · intro hb b hb
      have h0 : b ≠ a := by omega
      have h1 : b ≠ (a + 1) % 4294967296 := by omega
      simp [h0, h1]
    · intro b h0 h1
      simp only [Nat.reducePow] at h1
      simp [h0, h1]
  · intro h hv
    refine ⟨_, write_memory32_ok s a v h, ?_, ?_, ?_, rfl, rfl, rfl, rfl, rfl⟩
    · have := compose32 v hv
      simpa [read_memory32, is_valid_address, h, d1, d2, d3, d4, d5, d6, d4.symm, d5.symm,
        d6.symm] using this
    · intro hb b hb
      have h0 : b ≠ a := by omega
      have h1 : b ≠ (a + 1) % 4294967296 := by omega
      have h2 : b ≠ (a + 2) % 4294967296 := by omega
      have h3 : b ≠ (a + 3) % 4294967296 := by omega
      simp [h0, h1, h2, h3]
    · intro b h0 h1 h2 h3
      simp only [Nat.reducePow] at h1 h2 h3
      simp [h0, h1, h2, h3]

/-- Witness of the amended claim C9 in a 16-byte memory: at the last byte, halfword and
word the values 0xAB, 0xBEEF and 0xDEADBEEF read back unchanged, and cell 0, which lies
outside each written range, keeps its value. -/
theorem read_after_write_below_4GiB_witness :
    (∃ s', write_memory8 (init 16) 15 0xAB = .ok s' ∧ read_memory8 s' 15 = .ok 0xAB ∧
      s'.memory 0 = (init 16).memory 0) ∧
    (∃ s', write_memory16 (init 16) 14 0xBEEF = .ok s' ∧ read_memory16 s' 14 = .ok 0xBEEF ∧
      s'.memory 0 = (init 16).memory 0) ∧
    (∃ s', write_memory32 (init 16) 12 0xDEADBEEF = .ok s' ∧
      read_memory32 s' 12 = .ok 0xDEADBEEF ∧ s'.memory 0 = (init 16).memory 0) := by
  refine ⟨?_, ?_, ?_⟩
  · obtain ⟨s', h1, h2, h3, _⟩ :=
      (read_after_write_below_4GiB (init 16) 15 0xAB).1 (by decide) (by decide)
    exact ⟨s', h1, h2, h3 0 (by decide)⟩
  · obtain ⟨s', h1, h2, h3, _⟩ :=
      (read_after_write_below_4GiB (init 16) 14 0xBEEF).2.1 (by decide) (by decide)
    exact ⟨s', h1, h2, h3 (by simp) 0 (by decide)⟩
  · obtain ⟨s', h1, h2, h3, _⟩ :=
      (read_after_write_below_4GiB (init 16) 12 0xDEADBEEF).2.2 (by decide) (by decide)
    exact ⟨s', h1, h2, h3 (by simp) 0 (by decide)⟩

end machine_state

/-! ## Instruction encoding -/

namespace InstructionUtils

theorem decode_of_encode (i : Instruction) (h : i.well_formed) :
    decode (encode i) = i := by
  cases i with
  | R r =>
    obtain ⟨op, rs, rt, rd, sh, fn⟩ := r
    simp only [Instruction.well_formed] at h
    obtain ⟨hop, hrs, hrt, hrd, hsh, hfn⟩ := h
    subst hop
    have e : encode (.R ⟨0, rs, rt, rd, sh, fn⟩) =
        rs * 2 ^ 21 + rt * 2 ^ 16 + rd * 2 ^ 11 + sh * 2 ^ 6 + fn := by
      simp only [encode, encode_r_type, Nat.shiftLeft_eq, Nat.zero_mul, Nat.zero_mod,
        Nat.zero_or]
      rw [Nat.mod_eq_of_lt (by omega), Nat.mod_eq_of_lt (by omega), Nat.mod_eq_of_lt (by omega),
        Nat.mod_eq_of_lt (by omega)]
      have e1 : rs * 2 ^ 21 ||| rt * 2 ^ 16 = rs * 2 ^ 21 + rt * 2 ^ 16 :=
        lor_of_dvd_of_lt _ _ 21 (by omega) (by omega)
      have e2 : (rs * 2 ^ 21 + rt * 2 ^ 16) ||| rd * 2 ^ 11 =
          rs * 2 ^ 21 + rt * 2 ^ 16 + rd * 2 ^ 11 :=
        lor_of_dvd_of_lt _ _ 16 (by omega) (by omega)
      have e3 : (rs * 2 ^ 21 + rt * 2 ^ 16 + rd * 2 ^ 11) ||| sh * 2 ^ 6 =
          rs * 2 ^ 21 + rt * 2 ^ 16 + rd * 2 ^ 11 + sh * 2 ^ 6 :=
        lor_of_dvd_of_lt _ _ 11 (by omega) (by omega)
      have e4 : (rs * 2 ^ 21 + rt * 2 ^ 16 + rd * 2 ^ 11 + sh * 2 ^ 6) ||| fn =
          rs * 2 ^ 21 + rt * 2 ^ 16 + rd * 2 ^ 11 + sh * 2 ^ 6 + fn :=
        lor_of_dvd_of_lt _ _ 6 (by omega) (by omega)
      rw [e1, e2, e3, e4]
    rw [e]
    simp only [decode, decode_r_type, RInstruction.make, and_0x3F, and_0x1F,
      Nat.shiftRight_eq_div_pow]
    have h0 : (rs * 2 ^ 21 + rt * 2 ^ 16 + rd * 2 ^ 11 + sh * 2 ^ 6 + fn) / 2 ^ 26 % 64 = 0 := by
      omega
    rw [if_pos h0]
    congr 2 <;> omega
  | I r =>
    obtain ⟨op, rs, rt, imm⟩ := r
    simp only [Instruction.well_formed] at h
    obtain ⟨hop, h0, h2, h3, hrs, hrt, himm⟩ := h
    have e : encode (.I ⟨op, rs, rt, imm⟩) = op * 2 ^ 26 + rs * 2 ^ 21 + rt * 2 ^ 16 + imm := by
      simp only [encode, encode_i_type, Nat.shiftLeft_eq]
      rw [Nat.mod_eq_of_lt (by omega), Nat.mod_eq_of_lt (by omega), Nat.mod_eq_of_lt (by omega)]
      have e1 : op * 2 ^ 26 ||| rs * 2 ^ 21 = op * 2 ^ 26 + rs * 2 ^ 21 :=
        lor_of_dvd_of_lt _ _ 26 (by omega) (by omega)
      have e2 : (op * 2 ^ 26 + rs * 2 ^ 21) ||| rt * 2 ^ 16 =
          op * 2 ^ 26 + rs * 2 ^ 21 + rt * 2 ^ 16 :=
        lor_of_dvd_of_lt _ _ 21 (by omega) (by omega)
      have e3 : (op * 2 ^ 26 + rs * 2 ^ 21 + rt * 2 ^ 16) ||| imm =
          op * 2 ^ 26 + rs * 2 ^ 21 + rt * 2 ^ 16 + imm :=
        lor_of_dvd_of_lt _ _ 16 (by omega) (by omega)
      rw [e1, e2, e3]
    rw [e]
    simp only [decode, decode_i_type, IInstruction.make, and_0x3F, and_0x1F, and_0xFFFF,
      Nat.shiftRight_eq_div_pow]
    have hq : (op * 2 ^ 26 + rs * 2 ^ 21 + rt * 2 ^ 16 + imm) / 2 ^ 26 % 64 = op := by omega
    rw [hq, if_neg h0, if_neg (by omega)]
    congr 2 <;> omega
  | J r =>
    obtain ⟨op, addr⟩ := r
    simp only [Instruction.well_formed] at h
    obtain ⟨hop, haddr⟩ := h
    have e : encode (.J ⟨op, addr⟩) = op * 2 ^ 26 + addr := by
      simp only [encode, encode_j_type, Nat.shiftLeft_eq, and_0x3FFFFFF]
      rw [Nat.mod_eq_of_lt (by omega), Nat.mod_eq_of_lt (by omega)]
      rw [lor_of_dvd_of_lt _ _ 26 (by omega) (by omega)]
    rw [e]
    simp only [decode, decode_j_type, JInstruction.make, and_0x3F, and_0x3FFFFFF,
      Nat.shiftRight_eq_div_pow]
    have hq : (op * 2 ^ 26 + addr) / 2 ^ 26 % 64 = op := by omega
    rw [hq, if_neg (by omega), if_pos hop]
    congr 2
    omega

/-- Claim C1. For every well-formed instruction `i`, `decode (encode i)` is `i`: the same
variant with the same fields. -/
theorem decode_encode_well_formed (i : Instruction) (h : i.well_formed) :
    decode (encode i) = i :=
  decode_of_encode i h

/-- Witness of claim C1: `add $t0, $t1, $t2`, `addi $t0, $t1, 0xFFFF` and `jal 0x3FFFFFF`
are well-formed and are returned by `decode` after `encode`. -/
theorem decode_encode_well_formed_witness :
    decode (encode (.R ⟨0, 9, 10, 8, 0, 0x20⟩)) = .R ⟨0, 9, 10, 8, 0, 0x20⟩ ∧
    decode (encode (.I ⟨0x08, 9, 8, 0xFFFF⟩)) = .I ⟨0x08, 9, 8, 0xFFFF⟩ ∧
    decode (encode (.J ⟨0x03, 0x3FFFFFF⟩)) = .J ⟨0x03, 0x3FFFFFF⟩ :=
  ⟨decode_encode_well_formed _ (by simp [Instruction.well_formed]),
   decode_encode_well_formed _ (by simp [Instruction.well_formed]),
   decode_encode_well_formed _ (by simp [Instruction.well_formed])⟩

end InstructionUtils

/-! ## PC discipline of the handlers -/

namespace machine_state

@[simp] theorem set_register_pc (s : machine_state) (r v : Nat) : (s.set_register r v).pc = s.pc := by
  unfold set_register; split <;> rfl
@[simp] theorem set_hi_pc (s : machine_state) (v : Nat) : (s.set_hi v).pc = s.pc := rfl
@[simp] theorem set_lo_pc (s : machine_state) (v : Nat) : (s.set_lo v).pc = s.pc := rfl
@[simp] theorem set_pc_pc (s : machine_state) (v : Nat) : (s.set_pc v).pc = v := rfl
end machine_state

namespace InstructionExecutor
open InstructionUtils

/-- A successful `div` is the quotient and remainder written to LO and HI, or the state
itself when the divisor is zero. -/
theorem execute_div_ok (s s1 : machine_state) (i : RInstruction)
    (h : execute_div s i = .ok s1) :
    s1 = (if to_int32 (s.get_register i.rt) ≠ 0 then
      (s.set_lo (to_uint32 (Int.tdiv (to_int32 (s.get_register i.rs))
        (to_int32 (s.get_register i.rt))))).set_hi
        (to_uint32 (Int.tmod (to_int32 (s.get_register i.rs))
          (to_int32 (s.get_register i.rt))))
      else s) := by
  unfold execute_div at h
  simp only at h
  split at h
  · split at h
    · cases h
    · rename_i h0 _
      rw [if_pos h0]
      exact (Except.ok.inj h).symm
  · rename_i h0
    rw [if_neg h0]
    exact (Except.ok.inj h).symm

/-- A successful fallible R-form handler returns the state of its body and the executor it
was given. -/
theorem r_handler_fallible_ok (f : machine_state → RInstruction → Except Error machine_state)
    (ex ex1 : InstructionExecutor) (s s1 : machine_state) (i : RInstruction)
    (h : r_handler_fallible f ex s (.R i) = .ok (s1, ex1)) : f s i = .ok s1 ∧ ex1 = ex := by
  unfold r_handler_fallible at h
  simp only at h
  cases hf : f s i with
  | error e => rw [hf] at h; cases h
  | ok s2 =>
    rw [hf] at h
    simp only [Except.ok.injEq, Prod.mk.injEq] at h
    exact ⟨by rw [h.1], h.2.symm⟩

theorem execute_R_pc (ex ex1 : InstructionExecutor) (s s1 : machine_state) (i : RInstruction)
    (h : execute ex s (.R i) = .ok (s1, ex1)) :
    s1.pc = (control_target s (.R i)).getD s.pc ∧ ex1 = ex := by
  unfold execute get_instruction_key at h
  simp only at h
  generalize hk : InstructionUtils.get_name (.R i) = key at h
  unfold InstructionUtils.get_name at hk
  simp only at hk
  split at hk
  all_goals
    subst hk
    simp [handlers, r_handler] at h
  case h_15 hf =>
    obtain ⟨hd, he⟩ := r_handler_fallible_ok execute_div ex ex1 s s1 i h
    have hs := execute_div_ok s s1 i hd
    subst he
    refine ⟨?_, rfl⟩
    rw [hs]
    simp only [control_target, hf]
    split <;> rfl
  all_goals
    obtain ⟨h1, h2⟩ := h
    subst h1 h2
    simp_all [control_target, execute_sll, execute_srl, execute_sra, execute_sllv, execute_srlv,
      execute_srav, execute_jr, execute_jalr, execute_mfhi, execute_mthi, execute_mflo,
      execute_mtlo, execute_mult, execute_multu, execute_divu, execute_add,
      execute_addu, execute_sub, execute_subu, execute_and, execute_or, execute_xor,
      execute_nor, execute_slt, execute_sltu]
  all_goals
    split <;> simp

theorem execute_J_pc (ex ex1 : InstructionExecutor) (s s1 : machine_state) (i : JInstruction)
    (h : execute ex s (.J i) = .ok (s1, ex1)) :
    s1.pc = (control_target s (.J i)).getD s.pc ∧ ex1 = ex := by
  unfold execute get_instruction_key at h
  simp only at h
  generalize hk : InstructionUtils.get_name (.J i) = key at h
  unfold InstructionUtils.get_name at hk
  simp only at hk
  split at hk
  all_goals
    subst hk
    simp [handlers, j_handler] at h
  all_goals
    obtain ⟨h1, h2⟩ := h
    subst h1 h2
    simp_all [control_target, execute_j, execute_jal, machine_state.get_pc]

@[simp] theorem write_memory8_pc (s s1 : machine_state) (a v : Nat)
    (h : s.write_memory8 a v = .ok s1) : s1.pc = s.pc := by
  unfold machine_state.write_memory8 at h
  split at h
  · cases h
  · cases h; rfl

@[simp] theorem write_memory16_pc (s s1 : machine_state) (a v : Nat)
    (h : s.write_memory16 a v = .ok s1) : s1.pc = s.pc := by
  unfold machine_state.write_memory16 at h
  split at h
  · cases h
  · cases h; rfl

@[simp] theorem write_memory32_pc (s s1 : machine_state) (a v : Nat)
    (h : s.write_memory32 a v = .ok s1) : s1.pc = s.pc := by
  unfold machine_state.write_memory32 at h
  split at h
  · cases h
  · cases h; rfl

theorem handle_syscall_pc (ex ex1 : InstructionExecutor) (s s1 : machine_state) (n : Nat)
    (h : handle_syscall ex s n = .ok (s1, ex1)) : s1.pc = s.pc := by
  unfold handle_syscall at h
  split at h
  · cases h; rfl
  · cases h; rfl
  · simp only at h
    split at h
    · cases h; rfl
    · cases h
  · cases h; simp
  · cases h; simp
  · cases h; rfl
  · cases h

theorem mem_pc (f : machine_state → IInstruction → Except Error machine_state)
    (hf : ∀ s i s1, f s i = .ok s1 → s1.pc = s.pc)
    (ex ex1 : InstructionExecutor) (s s1 : machine_state) (i : IInstruction)
    (h : (match f s i with
      | .ok s => (.ok (s, ex) : Except Error (machine_state × InstructionExecutor))
      | .error e => .error e) = .ok (s1, ex1)) : s1.pc = s.pc := by
  split at h
  · rename_i s2 h2
    cases h
    exact hf _ _ _ h2
  · cases h

theorem execute_lb_pc (s : machine_state) (i : IInstruction) (s1 : machine_state)
    (h : execute_lb s i = .ok s1) : s1.pc = s.pc := by
  unfold execute_lb at h
  simp only at h
  split at h
  · cases h; simp
  · cases h

theorem execute_lh_pc (s : machine_state) (i : IInstruction) (s1 : machine_state)
    (h : execute_lh s i = .ok s1) : s1.pc = s.pc := by
  unfold execute_lh at h
  simp only at h
  split at h
  · cases h; simp
  · cases h

theorem execute_lw_pc (s : machine_state) (i : IInstruction) (s1 : machine_state)
    (h : execute_lw s i = .ok s1) : s1.pc = s.pc := by
  unfold execute_lw at h
  simp only at h
  split at h
  · cases h; simp
  · cases h

theorem execute_lbu_pc (s : machine_state) (i : IInstruction) (s1 : machine_state)
    (h : execute_lbu s i = .ok s1) : s1.pc = s.pc := by
  unfold execute_lbu at h
  simp only at h
  split at h
  · cases h; simp
  · cases h

theorem execute_lhu_pc (s : machine_state) (i : IInstruction) (s1 : machine_state)
    (h : execute_lhu s i = .ok s1) : s1.pc = s.pc := by
  unfold execute_lhu at h
  simp only at h
  split at h
  · cases h; simp
  · cases h

theorem execute_sb_pc (s : machine_state) (i : IInstruction) (s1 : machine_state)
    (h : execute_sb s i = .ok s1) : s1.pc = s.pc := by
  unfold execute_sb at h
  simp only at h
  split at h
  · rename_i s2 h2
    cases h
    exact write_memory8_pc _ _ _ _ h2
  · cases h

theorem execute_sh_pc (s : machine_state) (i : IInstruction) (s1 : machine_state)
    (h : execute_sh s i = .ok s1) : s1.pc = s.pc := by
  unfold execute_sh at h
  simp only at h
  split at h
  · rename_i s2 h2
    cases h
    exact write_memory16_pc _ _ _ _ h2
  · cases h

theorem execute_sw_pc (s : machine_state) (i : IInstruction) (s1 : machine_state)
    (h : execute_sw s i = .ok s1) : s1.pc = s.pc := by
  unfold execute_sw at h
  simp only at h
  split at h
  · rename_i s2 h2
    cases h
    exact write_memory32_pc _ _ _ _ h2
  · cases h

theorem branch_taken_pc (s : machine_state) (i : IInstruction) :
    (branch_taken s i).pc = (s.pc + (InstructionUtils.sign_extend_16 i.immediate <<< 2)) % 2 ^ 32 := by
  simp only [branch_taken, machine_state.set_pc, machine_state.get_pc]
  rw [to_uint32_add_to_int32]

theorem execute_I_pc (ex ex1 : InstructionExecutor) (s s1 : machine_state) (i : IInstruction)
    (h : execute ex s (.I i) = .ok (s1, ex1)) :
    s1.pc = (control_target s (.I i)).getD s.pc := by
  unfold execute get_instruction_key at h
  simp only at h
  generalize hk : InstructionUtils.get_name (.I i) = key at h
  unfold InstructionUtils.get_name at hk
  simp only at hk
  split at hk
  all_goals
    subst hk
    simp only [handlers, i_handler, mem_handler, trap_handler, String.reduceEq, if_true,
      if_false, reduceIte] at h
  case h_1 =>
    cases h
    rename_i he
    simp only [control_target, he, execute_beq, if_true]
    split <;> simp [branch_taken_pc]
  case h_2 =>
    cases h
    rename_i he
    simp only [control_target, he, execute_bne]
    split <;> simp [branch_taken_pc]
  case h_3 =>
    cases h
    rename_i he
    simp only [control_target, he, execute_blez]
    split <;> simp [branch_taken_pc]
  case h_4 =>
    cases h
    rename_i he
    simp only [control_target, he, execute_bgtz]
    split <;> simp [branch_taken_pc]
  case h_5 =>
    cases h
    rename_i he
    simp [control_target, he, execute_addi]
  case h_6 =>
    cases h
    rename_i he
    simp [control_target, he, execute_addiu]
  case h_7 =>
    cases h
    rename_i he
    simp [control_target, he, execute_slti]
  case h_8 =>
    cases h
    rename_i he
    simp [control_target, he, execute_sltiu]
  case h_9 =>
    cases h
    rename_i he
    simp [control_target, he, execute_andi]
  case h_10 =>
    cases h
    rename_i he
    simp [control_target, he, execute_ori]
  case h_11 =>
    cases h
    rename_i he
    simp [control_target, he, execute_xori]
  case h_12 =>
    cases h
    rename_i he
    simp [control_target, he, execute_llo]
  case h_13 =>
    cases h
    rename_i he
    simp [control_target, he, execute_lhi]
  case h_14 =>
    rename_i he
    have hp := mem_pc execute_lb execute_lb_pc _ _ _ _ _ h
    simp [control_target, he, hp]
  case h_15 =>
    rename_i he
    have hp := mem_pc execute_lh execute_lh_pc _ _ _ _ _ h
    simp [control_target, he, hp]
  case h_16 =>
    rename_i he
    have hp := mem_pc execute_lw execute_lw_pc _ _ _ _ _ h
    simp [control_target, he, hp]
  case h_17 =>
    rename_i he
    have hp := mem_pc execute_lbu execute_lbu_pc _ _ _ _ _ h
    simp [control_target, he, hp]
  case h_18 =>
    rename_i he
    have hp := mem_pc execute_lhu execute_lhu_pc _ _ _ _ _ h
    simp [control_target, he, hp]
  case h_19 =>
    rename_i he
    have hp := mem_pc execute_sb execute_sb_pc _ _ _ _ _ h
    simp [control_target, he, hp]
  case h_20 =>
    rename_i he
    have hp := mem_pc execute_sh execute_sh_pc _ _ _ _ _ h
    simp [control_target, he, hp]
  case h_21 =>
    rename_i he
    have hp := mem_pc execute_sw execute_sw_pc _ _ _ _ _ h
    simp [control_target, he, hp]
  case h_22 =>
    rename_i he
    have hp := handle_syscall_pc _ _ _ _ _ h
    simp [control_target, he, hp]
  case h_23 =>
    cases h

theorem execute_pc (ex ex1 : InstructionExecutor) (s s1 : machine_state) (instr : Instruction)
    (h : execute ex s instr = .ok (s1, ex1)) :
    s1.pc = (control_target s instr).getD s.pc := by
  cases instr with
  | R i => exact (execute_R_pc ex ex1 s s1 i h).1
  | I i => exact execute_I_pc ex ex1 s s1 i h
  | J i => exact (execute_J_pc ex ex1 s s1 i h).1

end InstructionExecutor

/-! ## Runtime loop -/

namespace Executor

open InstructionUtils InstructionExecutor

/-- Claim C2, as amended. One iteration of the runtime loop that fetches `word` at
`old_pc = s.pc` and whose `execute` succeeds ends with: the handler's target when the
instruction transfers control (taken branch, `j`, `jal`, `jr`, `jalr`) to an address other
than `old_pc`; `old_pc + 4` (mod 2^32) when it transfers control to `old_pc` itself; and
`old_pc + 4` (mod 2^32) for every other instruction. -/
theorem run_iteration_pc (ex ex1 : InstructionExecutor) (s s1 : machine_state) (word : Nat)
    (hfetch : s.read_memory32 s.pc = .ok word)
    (hexec : execute ex s (decode word) = .ok (s1, ex1)) :
    ∃ s2 t, run_iteration ex s = .ok (s2, ex1, t) ∧
      s2.pc = (match control_target s (decode word) with
        | some target => if target = s.pc then (s.pc + 4) % 2 ^ 32 else target
        | none => (s.pc + 4) % 2 ^ 32) := by
  have hv : s.is_valid_address s.pc 4 = true := by
    unfold machine_state.read_memory32 at hfetch
    by_cases hv : s.is_valid_address s.pc 4 = true
    · exact hv
    · simp [hv] at hfetch
  have hpc := execute_pc ex ex1 s s1 (decode word) hexec
  unfold run_iteration
  simp only [machine_state.get_pc, hv, hfetch, hexec, Bool.not_true, Bool.false_eq_true,
    if_false]
  refine ⟨_, _, rfl, ?_⟩
  cases hc : control_target s (decode word) with
  | none =>
    rw [hc] at hpc
    simp only [Option.getD_none] at hpc
    simp [hpc, machine_state.increment_pc]
  | some target =>
    rw [hc] at hpc
    simp only [Option.getD_some] at hpc
    by_cases ht : target = s.pc
    · simp [hpc, ht, machine_state.increment_pc]
    · simp [hpc, ht]


/-- Witness of claim C2 as amended: the image holding `j 3` at address 0; the iteration at
PC 0 ends with PC = 12, the jump target. -/
theorem run_iteration_pc_witness :
    (loaded_state [3, 0, 0, 8]).read_memory32 (loaded_state [3, 0, 0, 8]).pc = .ok 0x08000003 ∧
    ∃ s2 t, run_iteration no_streams (loaded_state [3, 0, 0, 8]) = .ok (s2, no_streams, t) ∧
      s2.pc = 12 := by
  have hfetch : (loaded_state [3, 0, 0, 8]).read_memory32 (loaded_state [3, 0, 0, 8]).pc =
      .ok 0x08000003 := by decide
  have hexec : execute no_streams (loaded_state [3, 0, 0, 8]) (decode 0x08000003) =
      .ok (execute_j (loaded_state [3, 0, 0, 8]) ⟨0x02, 3⟩, no_streams) := by rfl
  obtain ⟨s2, t, h1, h2⟩ := run_iteration_pc no_streams no_streams (loaded_state [3, 0, 0, 8])
    _ 0x08000003 hfetch hexec
  refine ⟨hfetch, s2, t, h1, ?_⟩
  rw [h2]
  decide

/-- Counterexample to claim C2 as stated: the image holding `beq $0, $0, 0` at address 0.
The branch is taken and its handler computes the target 0 (it leaves PC = 0), yet the PC
after the iteration is 4: the fall-through advance was applied to a taken branch. -/
theorem taken_branch_to_own_address_advances :
    decode 0x10000000 = .I ⟨0x04, 0, 0, 0⟩ ∧
    (loaded_state [0, 0, 0, 0x10]).read_memory32 (loaded_state [0, 0, 0, 0x10]).pc =
      .ok 0x10000000 ∧
    control_target (loaded_state [0, 0, 0, 0x10]) (decode 0x10000000) = some 0 ∧
    (execute no_streams (loaded_state [0, 0, 0, 0x10]) (decode 0x10000000)).map
      (fun r => r.1.pc) = .ok 0 ∧
    (run_iteration no_streams (loaded_state [0, 0, 0, 0x10])).map (fun r => r.1.pc) = .ok 4 := by
  decide


theorem execute_trap_eq (ex : InstructionExecutor) (s : machine_state) (i : IInstruction)
    (h : i.opcode = 0x1A) :
    execute ex s (.I i) = handle_syscall ex s (i.immediate % 256) := by
  simp [execute, get_instruction_key, get_name, h, handlers, trap_handler, execute_trap]

theorem run_iteration_trap (ex : InstructionExecutor) (s : machine_state) (word : Nat)
    (i : IInstruction) (hfetch : s.read_memory32 s.pc = .ok word)
    (hdec : decode word = .I i) (htrap : i.opcode = 0x1A) :
    run_iteration ex s =
      match handle_syscall ex s (i.immediate % 256) with
      | .ok (s1, ex1) => .ok ({ s1 with pc := (s.pc + 4) % 2 ^ 32 }, ex1, true)
      | .error e => .error e := by
  have hv : s.is_valid_address s.pc 4 = true := by
    unfold machine_state.read_memory32 at hfetch
    by_cases hv : s.is_valid_address s.pc 4 = true
    · exact hv
    · simp [hv] at hfetch
  unfold run_iteration
  simp only [machine_state.get_pc, hv, hfetch, hdec, execute_trap_eq ex s i htrap,
    Bool.not_true, Bool.false_eq_true, if_false]
  cases hs : handle_syscall ex s (i.immediate % 256) with
  | error e => rfl
  | ok r =>
    obtain ⟨s1, ex1⟩ := r
    have hp := handle_syscall_pc ex ex1 s s1 _ hs
    simp [hp, machine_state.increment_pc, htrap]

/-- Claim C4, as amended. Let the image load and the word at the start PC decode to a
`trap`, and let `max_steps >= 1`. The syscall number is the low 8 bits of the immediate.
When the syscall succeeds the run returns after exactly one instruction (step count 1)
the state the syscall left, with PC = start PC + 4; when it fails the run fails with the
same error. Syscalls 0, 1, 3, 4 and 5 always succeed; a number of 6 or more fails with the
unknown-syscall error. -/
theorem trap_first_instruction (ex : InstructionExecutor) (bytes : List Nat)
    (start_address max_steps : Nat) (s : machine_state) (word : Nat) (i : IInstruction)
    (hload : load_image bytes start_address = .ok s)
    (hfetch : s.read_memory32 s.pc = .ok word)
    (hdec : decode word = .I i) (htrap : i.opcode = 0x1A) (hsteps : 1 ≤ max_steps) :
    (∀ s1 ex1, handle_syscall ex s (i.immediate % 256) = .ok (s1, ex1) →
      run_stream ex bytes max_steps start_address =
        .ok { state := { s1 with pc := (s.pc + 4) % 2 ^ 32 }, executor := ex1, steps := 1 }) ∧
    (∀ e, handle_syscall ex s (i.immediate % 256) = .error e →
      run_stream ex bytes max_steps start_address = .error e) ∧
    (i.immediate % 256 ∈ [0, 1, 3, 4, 5] →
      ∃ s1 ex1, handle_syscall ex s (i.immediate % 256) = .ok (s1, ex1)) ∧
    (6 ≤ i.immediate % 256 →
      handle_syscall ex s (i.immediate % 256) = .error (.unknown_syscall (i.immediate % 256))) := by
  obtain ⟨m, rfl⟩ : ∃ m, max_steps = m + 1 := ⟨max_steps - 1, by omega⟩
  have hit := run_iteration_trap ex s word i hfetch hdec htrap
  refine ⟨?_, ?_, ?_, ?_⟩
  · intro s1 ex1 hs
    rw [hs] at hit
    simp [run_stream, hload, run_loop, hit]
  · intro e hs
    rw [hs] at hit
    simp [run_stream, hload, run_loop, hit]
  · intro hmem
    simp only [List.mem_cons, List.mem_singleton, List.not_mem_nil, or_false] at hmem
    rcases hmem with h | h | h | h | h <;> rw [h] <;> simp [handle_syscall]
  · intro h6
    generalize i.immediate % 256 = n at h6
    match n, h6 with
    | n + 6, _ => simp [handle_syscall]

/-- Witness of claim C4 as amended: the image that is the single word `trap 5`, run with
`max_steps = 1`, returns with step count 1 and PC = 4. -/
theorem trap_first_instruction_witness :
    load_image [5, 0, 0, 0x68] UINT32_MAX = .ok (loaded_state [5, 0, 0, 0x68]) ∧
    decode 0x68000005 = .I ⟨0x1A, 0, 0, 5⟩ ∧
    run_stream no_streams [5, 0, 0, 0x68] 1 UINT32_MAX =
      .ok { state := { loaded_state [5, 0, 0, 0x68] with pc := 4 },
            executor := no_streams, steps := 1 } :=
  ⟨rfl, by decide,
   (trap_first_instruction no_streams [5, 0, 0, 0x68] UINT32_MAX 1 (loaded_state [5, 0, 0, 0x68])
      0x68000005 ⟨0x1A, 0, 0, 5⟩ rfl (by decide) (by decide) rfl (by decide)).1
      (loaded_state [5, 0, 0, 0x68]) no_streams rfl⟩

/-- Counterexample to claim C4 as stated: the image that is the single word `trap 6`. The
first executed instruction decodes to a `trap`, `max_steps` is 1, and the run does not
return a machine state: it fails with the unknown-syscall error. -/
theorem trap_with_unknown_syscall_fails :
    decode 0x68000006 = .I ⟨0x1A, 0, 0, 6⟩ ∧
    (loaded_state [6, 0, 0, 0x68]).read_memory32 (loaded_state [6, 0, 0, 0x68]).pc =
      .ok 0x68000006 ∧
    (run_stream no_streams [6, 0, 0, 0x68] 1).map (fun r => r.steps) =
      .error (.unknown_syscall 6) := by
  decide


theorem run_loop_succ (m n : Nat) (ex : InstructionExecutor) (s : machine_state) :
    run_loop (m + 1) n ex s =
      match run_iteration ex s with
      | .error e => .error e
      | .ok (state, ex, is_trap) =>
        if is_trap then .ok { state := state, executor := ex, steps := n + 1 }
        else run_loop m (n + 1) ex state := rfl

theorem run_loop_after_steps (k m n : Nat) (ex ex1 : InstructionExecutor)
    (s s1 : machine_state) (h : exec_steps k ex s = some (s1, ex1)) :
    run_loop (k + m) n ex s = run_loop m (n + k) ex1 s1 := by
  induction k generalizing n ex s with
  | zero =>
    simp only [exec_steps, Option.some.injEq, Prod.mk.injEq] at h
    obtain ⟨rfl, rfl⟩ := h
    simp
  | succ k ih =>
    unfold exec_steps at h
    split at h
    · rename_i s' ex' hit
      have e : k + 1 + m = (k + m) + 1 := by omega
      rw [e, run_loop_succ]
      simp only [hit, Bool.false_eq_true, if_false]
      rw [ih (n + 1) ex' s' h]
      have e2 : n + 1 + k = n + (k + 1) := by omega
      rw [e2]
    · cases h

theorem run_loop_steps_bound (m n : Nat) (ex : InstructionExecutor) (s : machine_state)
    (r : RunResult) (h : run_loop m n ex s = .ok r) : n + 1 ≤ r.steps ∧ r.steps ≤ n + m := by
  induction m generalizing n ex s with
  | zero => simp [run_loop] at h
  | succ m ih =>
    rw [run_loop_succ] at h
    split at h
    · cases h
    · rename_i s' ex' t hit
      split at h
      · cases h
        simp
      · have := ih (n + 1) ex' s' h
        omega

/-- Claim C5, as amended. The runtime loop is a total function with `max_steps` as fuel.
With `max_steps = 0` it fails with the step-limit error before any fetch. A run that
returns has executed between 1 and `max_steps` instructions. A run whose first `max_steps`
iterations complete without error and without a `trap` fails with the step-limit error.
A run whose first `k` iterations complete without error and without a `trap` and whose
next iteration is a `trap` that completes, with `k + 1 <= max_steps`, returns normally with
step count `k + 1`; when that next iteration fails instead, the run fails with its error. -/
theorem run_loop_fuel (max_steps : Nat) (ex : InstructionExecutor) (s : machine_state) :
    run_loop 0 0 ex s = .error .step_limit ∧
    (∀ bytes start_address, ∃ e, run_stream ex bytes 0 start_address = .error e) ∧
    (∀ r, run_loop max_steps 0 ex s = .ok r → 1 ≤ r.steps ∧ r.steps ≤ max_steps) ∧
    (∀ s1 ex1, exec_steps max_steps ex s = some (s1, ex1) →
      run_loop max_steps 0 ex s = .error .step_limit) ∧
    (∀ k s1 ex1 s2 ex2, k + 1 ≤ max_steps → exec_steps k ex s = some (s1, ex1) →
      run_iteration ex1 s1 = .ok (s2, ex2, true) →
      run_loop max_steps 0 ex s = .ok { state := s2, executor := ex2, steps := k + 1 }) ∧
    (∀ k s1 ex1 e, k + 1 ≤ max_steps → exec_steps k ex s = some (s1, ex1) →
      run_iteration ex1 s1 = .error e → run_loop max_steps 0 ex s = .error e) := by
  refine ⟨rfl, ?_, ?_, ?_, ?_, ?_⟩
  · intro bytes start_address
    unfold run_stream
    cases load_image bytes start_address with
    | error e => exact ⟨e, rfl⟩
    | ok s0 => exact ⟨.step_limit, rfl⟩
  · intro r h
    have := run_loop_steps_bound max_steps 0 ex s r h
    omega
  · intro s1 ex1 h
    have := run_loop_after_steps max_steps 0 0 ex ex1 s s1 h
    simp only [Nat.add_zero, Nat.zero_add] at this
    rw [this]
    rfl
  · intro k s1 ex1 s2 ex2 hk hp hit
    obtain ⟨m, rfl⟩ : ∃ m, max_steps = k + (m + 1) := ⟨max_steps - k - 1, by omega⟩
    rw [run_loop_after_steps k (m + 1) 0 ex ex1 s s1 hp, run_loop_succ]
    simp [hit]
  · intro k s1 ex1 e hk hp hit
    obtain ⟨m, rfl⟩ : ∃ m, max_steps = k + (m + 1) := ⟨max_steps - k - 1, by omega⟩
    rw [run_loop_after_steps k (m + 1) 0 ex ex1 s s1 hp, run_loop_succ]
    simp [hit]

/-- Witness of claim C5 as amended: the image `sll $0, $0, 0; trap 5`. Its first iteration
is not a trap, its second is a `trap` that completes; with `max_steps = 5` the run returns
with step count 2 and PC = 8, and with `max_steps = 1` it fails with the step-limit error. -/
theorem run_loop_fuel_witness :
    (exec_steps 1 no_streams (loaded_state [0, 0, 0, 0, 5, 0, 0, 0x68])).isSome = true ∧
    (run_loop 5 0 no_streams (loaded_state [0, 0, 0, 0, 5, 0, 0, 0x68])).map
      (fun r => (r.steps, r.state.pc)) = .ok (2, 8) ∧
    run_loop 1 0 no_streams (loaded_state [0, 0, 0, 0, 5, 0, 0, 0x68]) = .error .step_limit := by
  have h5 := run_loop_fuel 5 no_streams (loaded_state [0, 0, 0, 0, 5, 0, 0, 0x68])
  have h1 := run_loop_fuel 1 no_streams (loaded_state [0, 0, 0, 0, 5, 0, 0, 0x68])
  refine ⟨by decide, ?_, ?_⟩
  · rw [h5.2.2.2.2.1 1
      { loaded_state [0, 0, 0, 0, 5, 0, 0, 0x68] with pc := 4 } no_streams
      { loaded_state [0, 0, 0, 0, 5, 0, 0, 0x68] with pc := 8 } no_streams
      (by decide) rfl rfl]
    rfl
  · exact h1.2.2.2.1 { loaded_state [0, 0, 0, 0, 5, 0, 0, 0x68] with pc := 4 } no_streams rfl

/-- Counterexample to claim C5 as stated: the image `sll $0, $0, 0; trap 7` run with
`max_steps = 5`. The first trap is the 2nd instruction and 2 <= 5, yet the run does not
return normally: it fails with the unknown-syscall error. -/
theorem first_trap_within_limit_can_fail :
    ((exec_steps 1 no_streams (loaded_state [0, 0, 0, 0, 7, 0, 0, 0x68])).map
      fun p => (p.1.pc, p.1.read_memory32 p.1.pc)) = some (4, .ok 0x68000007) ∧
    decode 0x68000007 = .I ⟨0x1A, 0, 0, 7⟩ ∧
    (run_stream no_streams [0, 0, 0, 0, 7, 0, 0, 0x68] 5).map (fun r => r.steps) =
      .error (.unknown_syscall 7) := by
  decide

end Executor

/-! ## Interpreter against assembler and executor -/

namespace Interpreter

open InstructionUtils InstructionExecutor

theorem run_iteration_eq (ex : InstructionExecutor) (s : machine_state) :
    Interpreter.run_iteration ex s = Executor.run_iteration ex s := by
  unfold Interpreter.run_iteration Executor.run_iteration
  simp only
  split
  · rfl
  · split
    · rfl
    · rename_i word _
      cases hd : decode word with
      | R i => simp [get_format]
      | I i => simp [get_format]
      | J i => simp [get_format]

theorem run_loop_eq (m n : Nat) (ex : InstructionExecutor) (s : machine_state) :
    Interpreter.run_loop m n ex s = Executor.run_loop m n ex s := by
  induction m generalizing n ex s with
  | zero => rfl
  | succ m ih =>
    unfold Interpreter.run_loop Executor.run_loop
    simp only [run_iteration_eq]
    split
    · rfl
    · split
      · rfl
      · exact ih _ _ _

/-- Counterexample to claim C3 as stated: the text `addi $t0, $zero, 5` / `main: trap 5`
defines `main`. The interpreter starts at `main` (address 4), executes one instruction and
leaves `$t0` = 0; the executor run on the assembled bytes starts at address 0, executes two
instructions and leaves `$t0` = 5. -/
theorem interpreter_starts_at_main_executor_at_zero :
    Assembler.assemble_stream FloatConversions.none main_second_text =
      .ok [5, 0, 8, 32, 5, 0, 0, 104] ∧
    (Interpreter.run_stream FloatConversions.none no_streams main_second_text 10).map
      (fun r => (r.steps, r.state.get_register 8)) = .ok (1, 0) ∧
    (assemble_then_execute FloatConversions.none no_streams main_second_text 10).map
      (fun r => (r.steps, r.state.get_register 8)) = .ok (2, 5) ∧
    ¬ same_outcome
      (Interpreter.run_stream FloatConversions.none no_streams main_second_text 10)
      (assemble_then_execute FloatConversions.none no_streams main_second_text 10) := by
  have h1 : (Interpreter.run_stream FloatConversions.none no_streams main_second_text 10).map
      (fun r => (r.steps, r.state.get_register 8)) = .ok (1, 0) := by decide
  have h2 : (assemble_then_execute FloatConversions.none no_streams main_second_text 10).map
      (fun r => (r.steps, r.state.get_register 8)) = .ok (2, 5) := by decide
  refine ⟨by decide, h1, h2, ?_⟩
  intro h
  generalize Interpreter.run_stream FloatConversions.none no_streams main_second_text 10 = a
    at h h1
  generalize assemble_then_execute FloatConversions.none no_streams main_second_text 10 = b
    at h h2
  cases a with
  | error e => cases h1
  | ok r1 =>
    cases b with
    | error e => cases h2
    | ok r2 =>
      simp only [Except.map, Except.ok.injEq, Prod.mk.injEq] at h1 h2
      have hr := congrFun h.1 8
      simp only [machine_state.get_register] at h1 h2
      simp at h1 h2
      omega


theorem same_outcome_refl (a : Except Error RunResult) : same_outcome a a := by
  cases a with
  | error e => trivial
  | ok r => exact ⟨rfl, rfl, rfl, rfl, rfl, rfl⟩

theorem execute_nop (ex : InstructionExecutor) (s : machine_state) :
    execute ex s (.R ⟨0, 0, 0, 0, 0, 0⟩) = .ok (s, ex) := by
  simp [execute, get_instruction_key, get_name, handlers, r_handler, execute_sll,
    machine_state.set_register]

theorem nop_iteration (ex : InstructionExecutor) (p : Nat) (h : p + 4 ≤ 1024 * 1024) :
    Executor.run_iteration ex { machine_state.init with pc := p } =
      .ok ({ machine_state.init with pc := (p + 4) % 2 ^ 32 }, ex, false) := by
  have hd : decode 0 = .R ⟨0, 0, 0, 0, 0, 0⟩ := by decide
  have hv : ({ machine_state.init with pc := p } : machine_state).is_valid_address p 4 = true := by
    simp only [machine_state.is_valid_address, machine_state.init, decide_eq_true_eq]
    exact h
  have hr : ({ machine_state.init with pc := p } : machine_state).read_memory32 p = .ok 0 := by
    unfold machine_state.read_memory32
    simp only [hv, Bool.not_true, Bool.false_eq_true, if_false]
    simp [machine_state.init]
  unfold Executor.run_iteration
  simp only [machine_state.get_pc, hv, hr, hd, execute_nop, Bool.not_true, Bool.false_eq_true,
    if_false, if_true, machine_state.increment_pc]

theorem zero_memory_run_fails (m n : Nat) (ex : InstructionExecutor) (p : Nat) :
    ∃ e, Executor.run_loop m n ex { machine_state.init with pc := p } = .error e := by
  induction m generalizing n p with
  | zero => exact ⟨.step_limit, rfl⟩
  | succ m ih =>
    rw [Executor.run_loop_succ]
    by_cases h : p + 4 ≤ 1024 * 1024
    · rw [nop_iteration ex p h]
      simp only [Bool.false_eq_true, if_false]
      exact ih (n + 1) ((p + 4) % 2 ^ 32)
    · refine ⟨.pc_out_of_bounds p, ?_⟩
      have hv : ({ machine_state.init with pc := p } : machine_state).is_valid_address p 4
          = false := by
        simp only [machine_state.is_valid_address, machine_state.init, decide_eq_false_iff_not]
        exact h
      unfold Executor.run_iteration
      simp [machine_state.get_pc, hv]

/-- Claim C3, as amended. For every assembly text that parses and defines `main` at
address 0, and whose assembled image does not start with the `MIPS` header, and for every
`max_steps`, `Interpreter::run_stream` and `Executor::run_stream` (no start PC forced)
applied to the bytes of `Assembler::assemble_stream` have the same outcome: both fail, or
both return the same final registers, PC, HI, LO and memory. When the image is not empty
the two results are equal, output and step count included. -/
theorem interpreter_matches_executor (fc : FloatConversions) (ex : InstructionExecutor)
    (text : List Char) (max_steps : Nat) (result : ParseResult)
    (hparse : Parser.parse_assembly fc text = .ok result)
    (hmain : result.has_main = true)
    (haddr : result.main_address = 0)
    (hhdr : Executor.header_found (Parser.generate_binary result) = false) :
    same_outcome (Interpreter.run_stream fc ex text max_steps)
      (assemble_then_execute fc ex text max_steps) ∧
    (Parser.generate_binary result ≠ [] →
      Interpreter.run_stream fc ex text max_steps =
        assemble_then_execute fc ex text max_steps) := by
  have hne : Parser.generate_binary result ≠ [] →
      Interpreter.run_stream fc ex text max_steps =
        assemble_then_execute fc ex text max_steps := by
    intro hb
    have hb' : (Parser.generate_binary result).isEmpty = false := by
      cases hg : Parser.generate_binary result with
      | nil => exact absurd hg hb
      | cons x xs => rfl
    simp only [Interpreter.run_stream, assemble_then_execute, Assembler.assemble_stream,
      Executor.run_stream, Executor.load_image, hparse, hmain, haddr, hhdr, hb',
      Bool.not_true, Bool.not_false, Bool.false_eq_true, if_false, if_true, ne_eq,
      not_true_eq_false]
    cases hl : machine_state.init.load_memory 0 (Parser.generate_binary result) with
    | error e => rfl
    | ok s0 =>
      have hv : s0.is_valid_address 0 0 = true := by
        simp [machine_state.is_valid_address]
      simp only [hv, Bool.not_true, Bool.false_eq_true, if_false]
      exact run_loop_eq _ _ _ _
  refine ⟨?_, hne⟩
  by_cases hb : Parser.generate_binary result = []
  · have hi : Interpreter.run_stream fc ex text max_steps =
        Executor.run_loop max_steps 0 ex { machine_state.init with pc := 0 } := by
      simp only [Interpreter.run_stream, hparse, hmain, haddr, hb, List.isEmpty_nil,
        Bool.not_true, Bool.false_eq_true, if_false, machine_state.set_pc]
      exact run_loop_eq _ _ _ _
    have he : assemble_then_execute fc ex text max_steps = .error .binary_empty := by
      simp [assemble_then_execute, Assembler.assemble_stream, Executor.run_stream,
        Executor.load_image, hparse, hb]
    obtain ⟨e, hz⟩ := zero_memory_run_fails max_steps 0 ex 0
    rw [hi, he, hz]
    trivial
  · rw [hne hb]
    exact same_outcome_refl _

/-- Witness of claim C3 as amended: the text `main: addi $t0, $zero, 5` / `trap 5` parses,
has `main` at address 0 and no header; both runs return after 2 steps with `$t0` = 5. -/
theorem interpreter_matches_executor_witness :
    (Parser.parse_assembly FloatConversions.none main_first_text).map
      (fun r => (r.has_main, r.main_address, Parser.generate_binary r)) =
      .ok (true, 0, [5, 0, 8, 32, 5, 0, 0, 104]) ∧
    same_outcome (Interpreter.run_stream FloatConversions.none no_streams main_first_text 10)
      (assemble_then_execute FloatConversions.none no_streams main_first_text 10) ∧
    (Interpreter.run_stream FloatConversions.none no_streams main_first_text 10).map
      (fun r => (r.steps, r.state.get_register 8)) = .ok (2, 5) := by
  have hp : (Parser.parse_assembly FloatConversions.none main_first_text).map
      (fun r => (r.has_main, r.main_address, Parser.generate_binary r)) =
      .ok (true, 0, [5, 0, 8, 32, 5, 0, 0, 104]) := by decide
  refine ⟨hp, ?_, by decide⟩
  cases hr : Parser.parse_assembly FloatConversions.none main_first_text with
  | error e =>
    rw [hr] at hp
    cases hp
  | ok result =>
    rw [hr] at hp
    simp only [Except.map, Except.ok.injEq, Prod.mk.injEq] at hp
    obtain ⟨h1, h2, h3⟩ := hp
    exact (interpreter_matches_executor FloatConversions.none no_streams main_first_text 10
      result hr h1 h2 (by rw [h3]; decide)).1

end Interpreter

/-! ## Sign extension and masks -/

theorem and_two_pow_eq (v k : Nat) : v &&& 2 ^ k = if v.testBit k then 2 ^ k else 0 := by
  apply Nat.eq_of_testBit_eq
  intro i
  by_cases h : v.testBit k = true
  · rw [if_pos h, Nat.testBit_and, Nat.testBit_two_pow]
    by_cases hi : k = i
    · subst hi; simp [h]
    · simp [hi]
  · rw [if_neg h, Nat.testBit_and, Nat.testBit_two_pow, Nat.zero_testBit]
    by_cases hi : k = i
    · subst hi; simp [h]
    · simp [hi]

theorem and_0x8000_ne_zero (v : Nat) : v &&& 0x8000 ≠ 0 ↔ v / 32768 % 2 = 1 := by
  have h := and_two_pow_eq v 15
  have ht : v.testBit 15 = decide (v / 2 ^ 15 % 2 = 1) := Nat.testBit_to_div_mod
  norm_num at h ht
  rw [h]
  by_cases hb : v.testBit 15 = true
  · simp [hb]
    simpa [hb] using ht
  · simp [hb]
    simp [hb] at ht
    omega

theorem and_0x80_ne_zero (v : Nat) : v &&& 0x80 ≠ 0 ↔ v / 128 % 2 = 1 := by
  have h := and_two_pow_eq v 7
  have ht : v.testBit 7 = decide (v / 2 ^ 7 % 2 = 1) := Nat.testBit_to_div_mod
  norm_num at h ht
  rw [h]
  by_cases hb : v.testBit 7 = true
  · simp [hb]
    simpa [hb] using ht
  · simp [hb]
    simp [hb] at ht
    omega

theorem sign_extend_16_eq (v : Nat) (h : v < 2 ^ 16) :
    InstructionUtils.sign_extend_16 v = if 2 ^ 15 ≤ v then v + 0xFFFF0000 else v := by
  unfold InstructionUtils.sign_extend_16
  by_cases hb : 2 ^ 15 ≤ v
  · rw [if_pos ((and_0x8000_ne_zero v).2 (by omega)), if_pos hb, Nat.lor_comm,
      lor_of_dvd_of_lt _ _ 16 (by omega) h]
    omega
  · rw [if_neg (fun hc => by have := (and_0x8000_ne_zero v).1 hc; omega), if_neg hb]

theorem sign_extend_8_eq (v : Nat) (h : v < 2 ^ 8) :
    InstructionUtils.sign_extend_8 v = if 2 ^ 7 ≤ v then v + 0xFFFFFF00 else v := by
  unfold InstructionUtils.sign_extend_8
  by_cases hb : 2 ^ 7 ≤ v
  · rw [if_pos ((and_0x80_ne_zero v).2 (by omega)), if_pos hb, Nat.lor_comm,
      lor_of_dvd_of_lt _ _ 8 (by omega) h]
    omega
  · rw [if_neg (fun hc => by have := (and_0x80_ne_zero v).1 hc; omega), if_neg hb]

theorem mod_and_0xF0000000 (x : Nat) : (x % 2 ^ 32) &&& 0xF0000000 = x &&& 0xF0000000 := by
  apply Nat.eq_of_testBit_eq
  intro i
  rw [Nat.testBit_and, Nat.testBit_and, Nat.testBit_mod_two_pow]
  by_cases hi : i < 32
  · simp [hi]
  · have hm : Nat.testBit 0xF0000000 i = false :=
      Nat.testBit_lt_two_pow (Nat.lt_of_lt_of_le (by norm_num)
        (Nat.pow_le_pow_right (by norm_num) (Nat.le_of_not_lt hi)))
    simp [hm]

theorem to_uint32_add_to_int32_any (p x : Nat) :
    to_uint32 ((p : Int) + to_int32 x) = (p + x) % 2 ^ 32 := by
  unfold to_uint32 to_int32
  split <;> omega

/-! ## Branch handlers -/

namespace InstructionExecutor

/-- Claim C10. Each branch handler (`beq`: rs = rt; `bne`: rs ≠ rt; `blez`: rs ≤ 0 signed;
`bgtz`: rs > 0 signed), when its condition holds, sets PC to
`(PC + (sign_extend_16 immediate << 2)) mod 2^32` and changes nothing else; when the
condition does not hold it returns the machine state unchanged, PC included. The signed
reading `to_int32 v <= 0` of a 32-bit `v` is `v = 0` or bit 31 of `v` set. For a 16-bit
immediate `m` that target is the integer `PC + 4 * m'` reduced into `[0, 2^32)`, where
`m'` is `m` when `m < 2^15` and `m - 2^16` otherwise: the immediate counts words, signed. -/
theorem branch_handlers_pc (s : machine_state) (i : IInstruction) :
    (execute_beq s i =
      if s.get_register i.rs = s.get_register i.rt
      then { s with pc := (s.pc + (InstructionUtils.sign_extend_16 i.immediate <<< 2)) % 2 ^ 32 }
      else s) ∧
    (execute_bne s i =
      if s.get_register i.rs ≠ s.get_register i.rt
      then { s with pc := (s.pc + (InstructionUtils.sign_extend_16 i.immediate <<< 2)) % 2 ^ 32 }
      else s) ∧
    (execute_blez s i =
      if to_int32 (s.get_register i.rs) ≤ 0
      then { s with pc := (s.pc + (InstructionUtils.sign_extend_16 i.immediate <<< 2)) % 2 ^ 32 }
      else s) ∧
    (execute_bgtz s i =
      if to_int32 (s.get_register i.rs) > 0
      then { s with pc := (s.pc + (InstructionUtils.sign_extend_16 i.immediate <<< 2)) % 2 ^ 32 }
      else s) ∧
    (∀ v : Nat, v < 2 ^ 32 → (to_int32 v ≤ 0 ↔ v = 0 ∨ 2 ^ 31 ≤ v)) ∧
    (i.immediate < 2 ^ 16 →
      (((s.pc + (InstructionUtils.sign_extend_16 i.immediate <<< 2)) % 2 ^ 32 : Nat) : Int) =
        ((s.pc : Int) + 4 * (if i.immediate < 2 ^ 15 then (i.immediate : Int)
          else (i.immediate : Int) - 2 ^ 16)) % 2 ^ 32) := by
  have hb : branch_taken s i =
      { s with pc := (s.pc + (InstructionUtils.sign_extend_16 i.immediate <<< 2)) % 2 ^ 32 } := by
    simp only [branch_taken, machine_state.set_pc, machine_state.get_pc]
    rw [to_uint32_add_to_int32]
  refine ⟨?_, ?_, ?_, ?_, ?_, ?_⟩
  · simp only [execute_beq, hb]
  · simp only [execute_bne, hb]
  · simp only [execute_blez, hb]
  · simp only [execute_bgtz, hb]
  · intro v hv
    unfold to_int32
    split <;> omega
  · intro hm
    rw [sign_extend_16_eq _ hm, Nat.shiftLeft_eq]
    split <;> split <;> omega

/-- Witness of claim C10 with the immediate 0xFFFF (minus one word) at PC 0x100: the target
is 0xFC, four bytes back, and a taken `beq $zero, $zero` lands there. -/
theorem branch_handlers_pc_witness :
    (0xFFFF : Nat) < 2 ^ 16 ∧
    (((0x100 + (InstructionUtils.sign_extend_16 0xFFFF <<< 2)) % 2 ^ 32 : Nat) : Int) = 0xFC ∧
    (execute_beq ((machine_state.init 16).set_pc 0x100) ⟨4, 0, 0, 0xFFFF⟩).pc = 0xFC :=
  ⟨by decide,
    ((branch_handlers_pc ((machine_state.init 16).set_pc 0x100) ⟨4, 0, 0, 0xFFFF⟩).2.2.2.2.2
      (by decide)).trans (by decide),
    by rw [(branch_handlers_pc ((machine_state.init 16).set_pc 0x100) ⟨4, 0, 0, 0xFFFF⟩).1]
       decide⟩

end InstructionExecutor

/-! ## Jumps -/

namespace InstructionExecutor

/-- Claim C12. Executing `j` at PC `P` with a 26-bit address field `A` leaves
PC = `((P + 4) & 0xF0000000) | (A << 2)` and changes nothing else; executing `jal` leaves
the same PC, register 31 equal to `(P + 4) mod 2^32`, and changes nothing else. -/
theorem jump_handlers (s : machine_state) (i : JInstruction) (hA : i.address < 2 ^ 26) :
    execute_j s i = { s with pc := ((s.pc + 4) &&& 0xF0000000) ||| (i.address <<< 2) } ∧
    execute_jal s i =
      { s with pc := ((s.pc + 4) &&& 0xF0000000) ||| (i.address <<< 2),
               registers := fun r => if r = 31 then (s.pc + 4) % 2 ^ 32 else s.registers r } ∧
    (execute_jal s i).get_register 31 = (s.pc + 4) % 2 ^ 32 := by
  have hs : (i.address <<< 2) % 2 ^ 32 = i.address <<< 2 := by
    rw [Nat.shiftLeft_eq]
    exact Nat.mod_eq_of_lt (by omega)
  refine ⟨?_, ?_, ?_⟩
  · simp only [execute_j, machine_state.set_pc, machine_state.get_pc, hs, mod_and_0xF0000000]
  · simp only [execute_jal, machine_state.set_pc, machine_state.get_pc, hs,
      mod_and_0xF0000000, machine_state.set_register, RA]
    simp
  · simp [execute_jal, machine_state.set_pc, machine_state.get_pc, machine_state.set_register,
      machine_state.get_register, RA]

/-- Witness of claim C12: PC = 0x20000000 and address field 0x789ABC, the values of the
repository's jump test; `jal` leaves PC = 0x21E26AF0 and register 31 = 0x20000004. -/
theorem jump_handlers_witness :
    (execute_jal { machine_state.init 16 with pc := 0x20000000 } ⟨0x03, 0x789ABC⟩).pc =
      0x21E26AF0 ∧
    (execute_jal { machine_state.init 16 with pc := 0x20000000 } ⟨0x03, 0x789ABC⟩).get_register
      31 = 0x20000004 := by
  have h := jump_handlers { machine_state.init 16 with pc := 0x20000000 } ⟨0x03, 0x789ABC⟩
    (by decide)
  refine ⟨?_, ?_⟩
  · rw [h.2.1]
    decide
  · rw [h.2.2]
    decide

end InstructionExecutor

namespace InstructionExecutor

theorem execute_jalr_eq (s : machine_state) (i : RInstruction) :
    execute_jalr s i =
      { s with pc := s.get_register i.rs,
               registers := fun r => if r = 31 then (s.pc + 4) % 2 ^ 32 else s.registers r } := by
  simp [execute_jalr, machine_state.set_pc, machine_state.get_pc, machine_state.set_register, RA]

/-- Claim C13, the code at the failing input. `jalr $t0, $t1` (rs = 9, rd = 8) is parsed
with rd = 8 and `jalr $t1` with rd = 31, as the claim says; but executed at PC = 100 with
`$t1` = 200, `jalr $t0, $t1` leaves PC = 200, register 8 (rd) still 0 and register 31
equal to 104: the handler stores PC + 4 into `$ra` whatever rd is. -/
theorem jalr_links_ra_not_rd :
    Parser.parse_instruction "jalr $t0, $t1".toList [] 0 = .ok (.R ⟨0, 9, 0, 8, 0, 0x09⟩) ∧
    Parser.parse_instruction "jalr $t1".toList [] 0 = .ok (.R ⟨0, 9, 0, 31, 0, 0x09⟩) ∧
    ((execute no_streams
        (({ machine_state.init 16 with pc := 100 } : machine_state).set_register 9 200)
        (.R ⟨0, 9, 0, 8, 0, 0x09⟩)).map
      fun r => (r.1.pc, r.1.get_register 8, r.1.get_register 31)) = .ok (200, 0, 104) := by
  decide

/-- Claim C20, the code at the failing input. The immediate 256 is not one of 0..5, yet
`trap 256` (word 0x68000100) does not fail: the cast to the 8-bit `Syscall` enum keeps the
low byte 0, so `print_int` runs and writes `0`. An immediate whose low byte is 6 or more
does fail with the unknown-syscall error, carrying the low byte only. -/
theorem trap_syscall_uses_low_byte :
    InstructionUtils.decode 0x68000100 = .I ⟨0x1A, 0, 0, 256⟩ ∧
    ((execute no_streams (machine_state.init 16) (.I ⟨0x1A, 0, 0, 256⟩)).map
      fun r => r.2.output_stream) = .ok [48] ∧
    ((execute no_streams (machine_state.init 16) (.I ⟨0x1A, 0, 0, 0x0105⟩)).map
      fun r => r.2.output_stream) = .ok [] ∧
    ((execute no_streams (machine_state.init 16) (.I ⟨0x1A, 0, 0, 0x0106⟩)).map
      fun r => r.2.output_stream) = .error (.unknown_syscall 6) := by
  decide

end InstructionExecutor

/-! ## Loads and stores -/

namespace InstructionExecutor

open InstructionUtils

theorem effective_address_eq (s : machine_state) (i : IInstruction) :
    effective_address s i = (s.get_register i.rs + sign_extend_16 i.immediate) % 2 ^ 32 := by
  simp only [effective_address]
  exact to_uint32_add_to_int32_any _ _

/-- Claim C19. A load or store whose effective address `EA` and access size `n` satisfy
`EA + n > memory_size` fails with the memory-access error of its mnemonic, from the handler
and from `execute` alike; the handler returns no new state, so registers, PC, HI, LO and
memory stay as they were. `lw $t0, 0($zero)` on a memory of 2 bytes fails. -/
theorem out_of_bounds_access_fails (ex : InstructionExecutor) (s : machine_state)
    (i : IInstruction) :
    (s.memory_size < effective_address s i + 1 →
      execute_lb s i = .error (.memory_access_violation "lb") ∧
      execute_lbu s i = .error (.memory_access_violation "lbu") ∧
      execute_sb s i = .error (.memory_access_violation "sb") ∧
      (i.opcode = 0x20 → execute ex s (.I i) = .error (.memory_access_violation "lb")) ∧
      (i.opcode = 0x24 → execute ex s (.I i) = .error (.memory_access_violation "lbu")) ∧
      (i.opcode = 0x28 → execute ex s (.I i) = .error (.memory_access_violation "sb"))) ∧
    (s.memory_size < effective_address s i + 2 →
      execute_lh s i = .error (.memory_access_violation "lh") ∧
      execute_lhu s i = .error (.memory_access_violation "lhu") ∧
      execute_sh s i = .error (.memory_access_violation "sh") ∧
      (i.opcode = 0x21 → execute ex s (.I i) = .error (.memory_access_violation "lh")) ∧
      (i.opcode = 0x25 → execute ex s (.I i) = .error (.memory_access_violation "lhu")) ∧
      (i.opcode = 0x29 → execute ex s (.I i) = .error (.memory_access_violation "sh"))) ∧
    (s.memory_size < effective_address s i + 4 →
      execute_lw s i = .error (.memory_access_violation "lw") ∧
      execute_sw s i = .error (.memory_access_violation "sw") ∧
      (i.opcode = 0x23 → execute ex s (.I i) = .error (.memory_access_violation "lw")) ∧
      (i.opcode = 0x2B → execute ex s (.I i) = .error (.memory_access_violation "sw"))) := by
  refine ⟨?_, ?_, ?_⟩
  · intro h
    have hv : s.is_valid_address (effective_address s i) 1 = false := by
      simp only [machine_state.is_valid_address, decide_eq_false_iff_not]
      omega
    have h1 : execute_lb s i = .error (.memory_access_violation "lb") := by
      simp [execute_lb, machine_state.read_memory8, hv]
    have h2 : execute_lbu s i = .error (.memory_access_violation "lbu") := by
      simp [execute_lbu, machine_state.read_memory8, hv]
    have h3 : execute_sb s i = .error (.memory_access_violation "sb") := by
      simp [execute_sb, machine_state.write_memory8, hv]
    refine ⟨h1, h2, h3, ?_, ?_, ?_⟩ <;> intro ho <;>
      simp [execute, get_instruction_key, get_name, ho, handlers, mem_handler, h1, h2, h3]
  · intro h
    have hv : s.is_valid_address (effective_address s i) 2 = false := by
      simp only [machine_state.is_valid_address, decide_eq_false_iff_not]
      omega
    have h1 : execute_lh s i = .error (.memory_access_violation "lh") := by
      simp [execute_lh, machine_state.read_memory16, hv]
    have h2 : execute_lhu s i = .error (.memory_access_violation "lhu") := by
      simp [execute_lhu, machine_state.read_memory16, hv]
    have h3 : execute_sh s i = .error (.memory_access_violation "sh") := by
      simp [execute_sh, machine_state.write_memory16, hv]
    refine ⟨h1, h2, h3, ?_, ?_, ?_⟩ <;> intro ho <;>
      simp [execute, get_instruction_key, get_name, ho, handlers, mem_handler, h1, h2, h3]
  · intro h
    have hv : s.is_valid_address (effective_address s i) 4 = false := by
      simp only [machine_state.is_valid_address, decide_eq_false_iff_not]
      omega
    have h1 : execute_lw s i = .error (.memory_access_violation "lw") := by
      simp [execute_lw, machine_state.read_memory32, hv]
    have h3 : execute_sw s i = .error (.memory_access_violation "sw") := by
      simp [execute_sw, machine_state.write_memory32, hv]
    refine ⟨h1, h3, ?_, ?_⟩ <;> intro ho <;>
      simp [execute, get_instruction_key, get_name, ho, handlers, mem_handler, h1, h3]

/-- Witness of claim C19: `lw $t0, 0($zero)` on a memory of 2 bytes; the effective address
is 0, 0 + 4 > 2, and both the handler and `execute` fail with the `lw` error. -/
theorem out_of_bounds_access_fails_witness :
    (machine_state.init 2).memory_size < effective_address (machine_state.init 2)
      ⟨0x23, 0, 8, 0⟩ + 4 ∧
    execute_lw (machine_state.init 2) ⟨0x23, 0, 8, 0⟩ = .error (.memory_access_violation "lw") ∧
    (execute no_streams (machine_state.init 2) (.I ⟨0x23, 0, 8, 0⟩)).map (fun r => r.1.pc) =
      .error (.memory_access_violation "lw") := by
  have h := (out_of_bounds_access_fails no_streams (machine_state.init 2) ⟨0x23, 0, 8, 0⟩).2.2
    (by decide)
  refine ⟨by decide, h.1, ?_⟩
  rw [h.2.2.1 rfl]
  rfl

end InstructionExecutor

namespace InstructionExecutor

open InstructionUtils

theorem half_bytes (v : Nat) :
    (v &&& 0xFFFF) &&& 0xFF = v % 256 ∧ ((v &&& 0xFFFF) >>> 8) &&& 0xFF = v / 256 % 256 := by
  simp only [and_0xFF, and_0xFFFF, Nat.shiftRight_eq_div_pow]
  refine ⟨?_, ?_⟩ <;> omega

theorem word_bytes (v : Nat) :
    v &&& 0xFF = v % 256 ∧ (v >>> 8) &&& 0xFF = v / 256 % 256 ∧
    (v >>> 16) &&& 0xFF = v / 65536 % 256 ∧ (v >>> 24) &&& 0xFF = v / 16777216 % 256 := by
  refine ⟨and_0xFF v, ?_, ?_, ?_⟩ <;> rw [and_0xFF, Nat.shiftRight_eq_div_pow]

theorem word_of_bytes (v : Nat) (h : v < 2 ^ 32) :
    v % 256 ||| (v / 256 % 256) <<< 8 ||| (v / 65536 % 256) <<< 16 |||
      (v / 16777216 % 256) <<< 24 = v := by
  rw [lor_shiftLeft_of_lt _ _ 8 (by omega), lor_shiftLeft_of_lt _ _ 16 (by omega),
    lor_shiftLeft_of_lt _ _ 24 (by omega)]
  omega

/-- Little-endian composition of two and of four bytes, in arithmetic. -/
theorem bytes_compose (b0 b1 b2 b3 : Nat) (h0 : b0 < 2 ^ 8) (h1 : b1 < 2 ^ 8)
    (h2 : b2 < 2 ^ 8) :
    b0 ||| (b1 <<< 8) = b0 + 256 * b1 ∧
    b0 ||| (b1 <<< 8) ||| (b2 <<< 16) ||| (b3 <<< 24) =
      b0 + 256 * b1 + 65536 * b2 + 16777216 * b3 := by
  rw [lor_shiftLeft_of_lt _ _ 8 h0, lor_shiftLeft_of_lt _ _ 16 (by omega),
    lor_shiftLeft_of_lt _ _ 24 (by omega)]
  refine ⟨?_, ?_⟩ <;> omega

theorem execute_lb_ok (s : machine_state) (i : IInstruction)
    (h : effective_address s i + 1 ≤ s.memory_size) :
    execute_lb s i =
      .ok (s.set_register i.rt (sign_extend_8 (s.memory (effective_address s i)))) := by
  simp [execute_lb, machine_state.read_memory8, machine_state.is_valid_address, h]

theorem execute_lbu_ok (s : machine_state) (i : IInstruction)
    (h : effective_address s i + 1 ≤ s.memory_size) :
    execute_lbu s i = .ok (s.set_register i.rt (s.memory (effective_address s i))) := by
  simp [execute_lbu, machine_state.read_memory8, machine_state.is_valid_address, h,
    zero_extend_8]

theorem execute_lh_ok (s : machine_state) (i : IInstruction)
    (h : effective_address s i + 2 ≤ s.memory_size) :
    execute_lh s i = .ok (s.set_register i.rt (sign_extend_16
      (s.memory (effective_address s i) |||
        (s.memory ((effective_address s i + 1) % 2 ^ 32) <<< 8)))) := by
  simp [execute_lh, machine_state.read_memory16, machine_state.is_valid_address, h]

theorem execute_lhu_ok (s : machine_state) (i : IInstruction)
    (h : effective_address s i + 2 ≤ s.memory_size) :
    execute_lhu s i = .ok (s.set_register i.rt
      (s.memory (effective_address s i) |||
        (s.memory ((effective_address s i + 1) % 2 ^ 32) <<< 8))) := by
  simp [execute_lhu, machine_state.read_memory16, machine_state.is_valid_address, h,
    zero_extend_16]

theorem execute_lw_ok (s : machine_state) (i : IInstruction)
    (h : effective_address s i + 4 ≤ s.memory_size) :
    execute_lw s i = .ok (s.set_register i.rt
      (s.memory (effective_address s i) |||
        (s.memory ((effective_address s i + 1) % 2 ^ 32) <<< 8) |||
        (s.memory ((effective_address s i + 2) % 2 ^ 32) <<< 16) |||
        (s.memory ((effective_address s i + 3) % 2 ^ 32) <<< 24))) := by
  simp [execute_lw, machine_state.read_memory32, machine_state.is_valid_address, h]

theorem execute_sb_ok (s : machine_state) (i : IInstruction)
    (h : effective_address s i + 1 ≤ s.memory_size) :
    execute_sb s i = .ok { s with memory := fun a =>
      if a = (effective_address s i) then s.get_register i.rt % 256 else (s.memory a) } := by
  simp [execute_sb, machine_state.write_memory8, machine_state.is_valid_address, h, and_0xFF]

theorem execute_sh_ok (s : machine_state) (i : IInstruction)
    (h : effective_address s i + 2 ≤ s.memory_size) :
    execute_sh s i = .ok { s with memory := fun a =>
      if a = (effective_address s i + 1) % 2 ^ 32 then s.get_register i.rt / 256 % 256
      else if a = (effective_address s i) then s.get_register i.rt % 256 else (s.memory a) } := by
  have hb := half_bytes (s.get_register i.rt)
  simp only [execute_sh, machine_state.write_memory16, machine_state.is_valid_address, h,
    decide_True, Bool.not_true, Bool.false_eq_true, if_false, hb.1, hb.2]

theorem execute_sw_ok (s : machine_state) (i : IInstruction)
    (h : effective_address s i + 4 ≤ s.memory_size) :
    execute_sw s i = .ok { s with memory := fun a =>
      if a = (effective_address s i + 3) % 2 ^ 32 then s.get_register i.rt / 16777216 % 256
      else if a = (effective_address s i + 2) % 2 ^ 32 then s.get_register i.rt / 65536 % 256
      else if a = (effective_address s i + 1) % 2 ^ 32 then s.get_register i.rt / 256 % 256
      else if a = (effective_address s i) then s.get_register i.rt % 256 else (s.memory a) } := by
  have hb := word_bytes (s.get_register i.rt)
  simp only [execute_sw, machine_state.write_memory32, machine_state.is_valid_address, h,
    decide_True, Bool.not_true, Bool.false_eq_true, if_false, hb.1, hb.2.1, hb.2.2.1,
    hb.2.2.2]

theorem store_then_load_word (s s1 : machine_state) (i : IInstruction) (rt2 : Nat)
    (hs : execute_sw s i = .ok s1)
    (h : effective_address s i + 4 ≤ s.memory_size) (hv : s.get_register i.rt < 2 ^ 32) :
    execute_lw s1 { i with rt := rt2 } = .ok (s1.set_register rt2 (s.get_register i.rt)) := by
  rw [execute_sw_ok s i h] at hs
  have hs1 := (Except.ok.inj hs).symm
  have hea : effective_address s1 { i with rt := rt2 } = effective_address s i := by
    subst hs1; rfl
  have hsz : s1.memory_size = s.memory_size := by subst hs1; rfl
  rw [execute_lw_ok _ _ (by rw [hea, hsz]; exact h), hea]
  obtain ⟨d1, d2, d3, d4, d5, d6⟩ := machine_state.word_cells_distinct (effective_address s i)
  simp only [Nat.reducePow] at d1 d2 d3 d4 d5 d6
  have hw := word_of_bytes _ hv
  subst hs1
  simp only [Nat.reducePow, if_true, if_neg d1, if_neg d2, if_neg d3, if_neg d4, if_neg d5,
    if_neg d6, if_neg d4.symm, if_neg d5.symm, if_neg d6.symm, hw]

theorem store_then_load_byte (s s1 : machine_state) (i : IInstruction) (rt2 : Nat)
    (hs : execute_sb s i = .ok s1)
    (h : effective_address s i + 1 ≤ s.memory_size) :
    execute_lb s1 { i with rt := rt2 } =
      .ok (s1.set_register rt2 (sign_extend_8 (s.get_register i.rt % 256))) ∧
    execute_lbu s1 { i with rt := rt2 } = .ok (s1.set_register rt2 (s.get_register i.rt % 256)) := by
  rw [execute_sb_ok s i h] at hs
  have hs1 := (Except.ok.inj hs).symm
  have hea : effective_address s1 { i with rt := rt2 } = effective_address s i := by
    subst hs1; rfl
  have hsz : s1.memory_size = s.memory_size := by subst hs1; rfl
  rw [execute_lb_ok _ _ (by rw [hea, hsz]; exact h),
    execute_lbu_ok _ _ (by rw [hea, hsz]; exact h), hea]
  subst hs1
  simp only [if_true, and_self]

/-- Claim C18. The effective address is `EA = (rs + sign_extend_16 immediate) mod 2^32`;
for a 16-bit immediate `m` that is the integer `rs + m'` reduced into `[0, 2^32)`, with
`m'` equal to `m` below 2^15 and to `m - 2^16` from 2^15 on. With `EA` in bounds for the
access: `lb`/`lh` write to rt the byte/halfword at `EA` sign-extended (a byte `b >= 2^7`
becomes `b + 0xFFFFFF00`, a halfword `h >= 2^15` becomes `h + 0xFFFF0000`), `lbu`/`lhu`
write it zero-extended, `lw` writes the little-endian word
`b0 + 2^8 b1 + 2^16 b2 + 2^24 b3`; `sb`/`sh`/`sw` store the low 8/16/32 bits of rt at `EA`,
low byte first, and change nothing else; the cell of byte `k` is `(EA + k) mod 2^32`, the
index the accessors compute. Hence `sw` followed by `lw` at the same address gives back the
32-bit value of rt, and `sb` of a value with low byte 0xFF followed by `lb` gives
0xFFFFFFFF while `lbu` gives 0xFF. -/
theorem load_store_in_bounds (s : machine_state) (i : IInstruction) :
    effective_address s i = (s.get_register i.rs + sign_extend_16 i.immediate) % 2 ^ 32 ∧
    (i.immediate < 2 ^ 16 →
      ((effective_address s i : Nat) : Int) =
        ((s.get_register i.rs : Int) + (if i.immediate < 2 ^ 15 then (i.immediate : Int)
          else (i.immediate : Int) - 2 ^ 16)) % 2 ^ 32) ∧
    (effective_address s i + 1 ≤ s.memory_size →
      execute_lb s i =
        .ok (s.set_register i.rt (sign_extend_8 (s.memory (effective_address s i)))) ∧
      (s.memory (effective_address s i) < 2 ^ 8 →
        execute_lb s i = .ok (s.set_register i.rt
          (if s.memory (effective_address s i) < 2 ^ 7 then s.memory (effective_address s i)
           else s.memory (effective_address s i) + 0xFFFFFF00))) ∧
      execute_lbu s i = .ok (s.set_register i.rt (s.memory (effective_address s i))) ∧
      execute_sb s i = .ok { s with memory := fun a =>
        if a = (effective_address s i) then s.get_register i.rt % 256 else (s.memory a) }) ∧
    (effective_address s i + 2 ≤ s.memory_size →
      execute_lh s i = .ok (s.set_register i.rt (sign_extend_16
        (s.memory (effective_address s i) |||
          (s.memory ((effective_address s i + 1) % 2 ^ 32) <<< 8)))) ∧
      execute_lhu s i = .ok (s.set_register i.rt
        (s.memory (effective_address s i) |||
          (s.memory ((effective_address s i + 1) % 2 ^ 32) <<< 8))) ∧
      (s.memory (effective_address s i) < 2 ^ 8 →
        s.memory ((effective_address s i + 1) % 2 ^ 32) < 2 ^ 8 →
        execute_lh s i = .ok (s.set_register i.rt
          (if s.memory (effective_address s i) +
              256 * s.memory ((effective_address s i + 1) % 2 ^ 32) < 2 ^ 15
           then s.memory (effective_address s i) +
              256 * s.memory ((effective_address s i + 1) % 2 ^ 32)
           else s.memory (effective_address s i) +
              256 * s.memory ((effective_address s i + 1) % 2 ^ 32) + 0xFFFF0000)) ∧
        execute_lhu s i = .ok (s.set_register i.rt
          (s.memory (effective_address s i) +
            256 * s.memory ((effective_address s i + 1) % 2 ^ 32)))) ∧
      execute_sh s i = .ok { s with memory := fun a =>
        if a = (effective_address s i + 1) % 2 ^ 32 then s.get_register i.rt / 256 % 256
        else if a = effective_address s i then s.get_register i.rt % 256
        else (s.memory a) }) ∧
    (effective_address s i + 4 ≤ s.memory_size →
      execute_lw s i = .ok (s.set_register i.rt
        (s.memory (effective_address s i) |||
          (s.memory ((effective_address s i + 1) % 2 ^ 32) <<< 8) |||
          (s.memory ((effective_address s i + 2) % 2 ^ 32) <<< 16) |||
          (s.memory ((effective_address s i + 3) % 2 ^ 32) <<< 24))) ∧
      (s.memory (effective_address s i) < 2 ^ 8 →
        s.memory ((effective_address s i + 1) % 2 ^ 32) < 2 ^ 8 →
        s.memory ((effective_address s i + 2) % 2 ^ 32) < 2 ^ 8 →
        execute_lw s i = .ok (s.set_register i.rt
          (s.memory (effective_address s i) +
            256 * s.memory ((effective_address s i + 1) % 2 ^ 32) +
            65536 * s.memory ((effective_address s i + 2) % 2 ^ 32) +
            16777216 * s.memory ((effective_address s i + 3) % 2 ^ 32)))) ∧
      execute_sw s i = .ok { s with memory := fun a =>
        if a = (effective_address s i + 3) % 2 ^ 32 then s.get_register i.rt / 16777216 % 256
        else if a = (effective_address s i + 2) % 2 ^ 32 then s.get_register i.rt / 65536 % 256
        else if a = (effective_address s i + 1) % 2 ^ 32 then s.get_register i.rt / 256 % 256
        else if a = effective_address s i then s.get_register i.rt % 256
        else (s.memory a) }) ∧
    (effective_address s i + 4 ≤ s.memory_size → s.get_register i.rt < 2 ^ 32 →
      ∀ rt2, ∃ s1, execute_sw s i = .ok s1 ∧
        execute_lw s1 { i with rt := rt2 } = .ok (s1.set_register rt2 (s.get_register i.rt))) ∧
    (effective_address s i + 1 ≤ s.memory_size → s.get_register i.rt % 256 = 0xFF →
      ∀ rt2, ∃ s1, execute_sb s i = .ok s1 ∧
        execute_lb s1 { i with rt := rt2 } = .ok (s1.set_register rt2 0xFFFFFFFF) ∧
        execute_lbu s1 { i with rt := rt2 } = .ok (s1.set_register rt2 0xFF)) := by
  refine ⟨effective_address_eq s i, ?_, ?_, ?_, ?_, ?_, ?_⟩
  · intro hm
    rw [effective_address_eq, sign_extend_16_eq _ hm]
    split <;> split <;> omega
  · intro h
    refine ⟨execute_lb_ok s i h, ?_, execute_lbu_ok s i h, execute_sb_ok s i h⟩
    intro hb
    rw [execute_lb_ok s i h, sign_extend_8_eq _ hb]
    split <;> split <;> first | rfl | omega
  · intro h
    refine ⟨execute_lh_ok s i h, execute_lhu_ok s i h, ?_, execute_sh_ok s i h⟩
    intro h0 h1
    have hc := (bytes_compose _ _ 0 0 h0 h1 (by norm_num)).1
    rw [execute_lh_ok s i h, execute_lhu_ok s i h, hc, sign_extend_16_eq _ (by omega)]
    refine ⟨?_, rfl⟩
    split <;> split <;> first | rfl | omega
  · intro h
    refine ⟨execute_lw_ok s i h, ?_, execute_sw_ok s i h⟩
    intro h0 h1 h2
    rw [execute_lw_ok s i h, (bytes_compose _ _ _ _ h0 h1 h2).2]
  · intro h hv rt2
    exact ⟨_, execute_sw_ok s i h, store_then_load_word s _ i rt2 (execute_sw_ok s i h) h hv⟩
  · intro h hv rt2
    have hl := store_then_load_byte s _ i rt2 (execute_sb_ok s i h) h
    have he : sign_extend_8 (s.get_register i.rt % 256) = 0xFFFFFFFF := by rw [hv]; rfl
    rw [he] at hl
    refine ⟨_, execute_sb_ok s i h, hl.1, ?_⟩
    rw [hl.2, hv]

end InstructionExecutor

namespace InstructionExecutor

open InstructionUtils

/-- Witness of claim C18. The repository's memory test: `$t0` = 1000, `$t1` = 0x12345678,
`sw $t1, 4($t0)` then `lw $t2, 4($t0)` leaves `$t2` = 0x12345678. A negative offset and a
negative halfword: with `$t0` = 1004 and the bytes 0x01, 0x80 at 1000, the immediate 0xFFFC
(minus four) gives the effective address 1000, `lh` loads 0xFFFF8001 and `lhu` 0x8001. -/
theorem load_store_in_bounds_witness :
    (effective_address ((machine_state.init.set_register 8 1000).set_register 9 0x12345678)
      ⟨0x2B, 8, 9, 4⟩ = 1004 ∧
    ∃ s1, execute_sw ((machine_state.init.set_register 8 1000).set_register 9 0x12345678)
        ⟨0x2B, 8, 9, 4⟩ = .ok s1 ∧
      (execute_lw s1 ⟨0x2B, 8, 10, 4⟩).map (fun s2 => s2.get_register 10) =
        .ok 0x12345678) ∧
    ((effective_address half_at_1000 ⟨0x21, 8, 10, 0xFFFC⟩ : Nat) : Int) = 1000 ∧
    (execute_lh half_at_1000 ⟨0x21, 8, 10, 0xFFFC⟩).map (fun s2 => s2.get_register 10) =
      .ok 0xFFFF8001 ∧
    (execute_lhu half_at_1000 ⟨0x25, 8, 10, 0xFFFC⟩).map (fun s2 => s2.get_register 10) =
      .ok 0x8001 := by
  obtain ⟨s1, h1, h2⟩ := (load_store_in_bounds
    ((machine_state.init.set_register 8 1000).set_register 9 0x12345678)
    ⟨0x2B, 8, 9, 4⟩).2.2.2.2.2.1 (by decide) (by decide) 10
  have hea := (load_store_in_bounds half_at_1000 ⟨0x21, 8, 10, 0xFFFC⟩).2.1 (by decide)
  have hlh := ((load_store_in_bounds half_at_1000 ⟨0x21, 8, 10, 0xFFFC⟩).2.2.2.1
    (by decide)).2.2.1 (by decide) (by decide)
  have hlhu := ((load_store_in_bounds half_at_1000 ⟨0x25, 8, 10, 0xFFFC⟩).2.2.2.1
    (by decide)).2.2.1 (by decide) (by decide)
  refine ⟨⟨by decide, s1, h1, ?_⟩, hea.trans (by decide), ?_, ?_⟩
  · have h3 : execute_lw s1 ⟨0x2B, 8, 10, 4⟩ = .ok (s1.set_register 10 0x12345678) := h2
    rw [h3]
    simp [Except.map, machine_state.set_register, machine_state.get_register]
  · rw [hlh.1]
    decide
  · rw [hlhu.2]
    decide

end InstructionExecutor


/-! ## Image loading -/

namespace Executor

theorem header_found_iff (bytes : List Nat) :
    header_found bytes = true ↔ 8 ≤ bytes.length ∧ bytes.take 4 = [77, 73, 80, 83] := by
  unfold header_found
  match bytes with
  | [] => simp
  | [_] => simp
  | [_, _] => simp
  | [_, _, _] => simp
  | b0 :: b1 :: b2 :: b3 :: rest =>
    simp only [List.length_cons, List.getD_cons_zero, List.getD_cons_succ, List.take_succ_cons,
      List.take_zero, Bool.and_eq_true, decide_eq_true_eq, List.cons.injEq, and_true]
    tauto

theorem load_memory_zero (data : List Nat) (s : machine_state)
    (h : machine_state.init.load_memory 0 data = .ok s) :
    data.length ≤ 1024 * 1024 ∧ (∀ a, s.memory a = data.getD a 0) ∧
    s.memory_size = 1024 * 1024 ∧ (∀ r, s.registers r = 0) ∧ s.hi = 0 ∧ s.lo = 0 ∧
    s.pc = 0 := by
  unfold machine_state.load_memory at h
  by_cases hv : machine_state.init.is_valid_address 0 data.length = true
  · simp only [hv, Bool.not_true, Bool.false_eq_true, if_false, Except.ok.injEq] at h
    subst h
    refine ⟨?_, ?_, rfl, fun _ => rfl, rfl, rfl, rfl⟩
    · simpa [machine_state.is_valid_address, machine_state.init] using hv
    · intro a
      simp only [machine_state.init, Nat.zero_le, true_and, Nat.zero_add, Nat.sub_zero]
      split
      · rfl
      · rename_i hlt
        rw [List.getD_eq_default _ _ (Nat.le_of_not_lt hlt)]
  · simp [hv] at h

end Executor

namespace Executor

/-- Claim C17, as amended. Let the run accept the byte sequence `b` (it is not empty, the
image fits the memory and the start PC is not beyond it). When `b` has at least 8 bytes and
starts with `M`, `I`, `P`, `S`, the memory holds `b` without its first 8 bytes from address
0 on and, absent an override, the start PC is `b[4] | b[5]<<8 | b[6]<<16 | b[7]<<24`. For
every other `b`, a `b` of fewer than 8 bytes that starts with `MIPS` included, the memory
holds `b` unchanged and the start PC is 0. An override (`start_address` other than
`UINT32_MAX`) replaces the start PC in both cases. Registers, HI and LO are 0. -/
theorem load_image_header (bytes : List Nat) (start_address : Nat) (s : machine_state)
    (hload : load_image bytes start_address = .ok s) :
    (header_found bytes = true ↔ 8 ≤ bytes.length ∧ bytes.take 4 = [77, 73, 80, 83]) ∧
    (∀ a, s.memory a = (if header_found bytes then bytes.drop 8 else bytes).getD a 0) ∧
    s.pc = (if start_address ≠ UINT32_MAX then start_address
      else if header_found bytes then
        bytes.getD 4 0 ||| (bytes.getD 5 0 <<< 8) ||| (bytes.getD 6 0 <<< 16) |||
          (bytes.getD 7 0 <<< 24)
      else 0) ∧
    s.memory_size = 1024 * 1024 ∧ (∀ r, s.registers r = 0) ∧ s.hi = 0 ∧ s.lo = 0 := by
  refine ⟨header_found_iff bytes, ?_⟩
  unfold load_image at hload
  by_cases he : bytes.isEmpty = true
  · simp [he] at hload
  · simp only [he, Bool.false_eq_true, if_false] at hload
    cases hl : machine_state.init.load_memory 0
        (if header_found bytes = true then bytes.drop 8 else bytes) with
    | error e => simp [hl] at hload
    | ok s0 =>
      simp only [hl] at hload
      obtain ⟨_, hm, hsz, hr, hhi, hlo, _⟩ := load_memory_zero _ s0 hl
      generalize hpc : (if start_address ≠ UINT32_MAX then start_address
        else if header_found bytes = true then
          bytes.getD 4 0 ||| (bytes.getD 5 0 <<< 8) ||| (bytes.getD 6 0 <<< 16) |||
            (bytes.getD 7 0 <<< 24)
        else 0) = pc at hload ⊢
      by_cases hv : s0.is_valid_address pc 0 = true
      · simp only [hv, Bool.not_true, Bool.false_eq_true, if_false, Except.ok.injEq] at hload
        subst hload
        exact ⟨hm, rfl, hsz, hr, hhi, hlo⟩
      · simp [hv] at hload

/-- Witness of claim C17 as amended, the scenario of the specification: the header
`4D 49 50 53 10 00 00 00`, four NOP words and `trap 5`. The run starts at PC = 0x10 on the
image without its header and stops after one step with PC = 0x14. -/
theorem load_image_header_witness :
    load_image header_image UINT32_MAX = .ok (loaded_state header_image) ∧
    (loaded_state header_image).pc = 0x10 ∧
    (loaded_state header_image).memory 0x10 = 5 ∧
    (run_stream no_streams header_image 10).map (fun r => (r.steps, r.state.pc)) =
      .ok (1, 0x14) := by
  have h := load_image_header header_image UINT32_MAX (loaded_state header_image) rfl
  refine ⟨rfl, ?_, ?_, by decide⟩
  · rw [h.2.2.1]
    decide
  · rw [h.2.1]
    decide

/-- Counterexample to claim C17 as stated: the 7 bytes `4D 49 50 53 10 00 00` start with
`M`, `I`, `P`, `S`, yet nothing is stripped and the start PC is 0: address 0 holds 0x4D
and address 4 holds 0x10, where the sequence without its first 8 bytes is empty. -/
theorem short_header_is_not_stripped :
    [0x4D, 0x49, 0x50, 0x53, 0x10, 0, 0].take 4 = [77, 73, 80, 83] ∧
    ([0x4D, 0x49, 0x50, 0x53, 0x10, 0, 0].drop 8).getD 0 0 = 0 ∧
    header_found [0x4D, 0x49, 0x50, 0x53, 0x10, 0, 0] = false ∧
    (load_image [0x4D, 0x49, 0x50, 0x53, 0x10, 0, 0] UINT32_MAX).map
      (fun s => (s.pc, s.memory 0, s.memory 4)) = .ok (0, 0x4D, 0x10) := by
  decide

end Executor

/-! ## Alignment directive -/

namespace Parser

/-- Claim C16, the code at the failing input `.byte 1` / `.align 2` / `L: .byte 2`. Pass 1
reserves 3 padding bytes for `.align 2` (the next item and the label `L` are at offset 4,
the text size is 5), but `generate_binary` emits 1 padding byte: the image is `01 00 02`,
padded to a multiple of 2, not of 2^2. For `.byte 1` / `.align 31` pass 1 reserves nothing
and `generate_binary` emits 30 zero bytes. -/
theorem align_pads_to_multiple_of_n :
    (first_pass ((std_getline_all '\n' ".byte 1\n.align 2\nL: .byte 2".toList []).map
        remove_comments)).map
      (fun fp => (fp.items.map (fun it => it.offset), fp.text_pc,
        fp.labels_raw.map (fun l => l.offset))) = .ok ([0, 1, 4], 5, [4]) ∧
    (parse_assembly FloatConversions.none ".byte 1\n.align 2\nL: .byte 2".toList).map
      generate_binary = .ok [1, 0, 2] ∧
    (first_pass ((std_getline_all '\n' ".byte 1\n.align 31".toList []).map
        remove_comments)).map (fun fp => fp.text_pc) = .ok 1 ∧
    (parse_assembly FloatConversions.none ".byte 1\n.align 31".toList).map
      (fun r => (generate_binary r).length) = .ok 31 := by
  decide

end Parser


/-! ## Branch offsets -/

namespace Parser

open InstructionUtils

end Parser

namespace Parser

open InstructionUtils

theorem find_instruction_branch (mnemonic : List Char)
    (hm : mnemonic = "beq".toList ∨ mnemonic = "bne".toList ∨ mnemonic = "blez".toList ∨
      mnemonic = "bgtz".toList) : ∃ op, find_instruction mnemonic = some op := by
  rcases hm with rfl | rfl | rfl | rfl <;> exact ⟨_, rfl⟩

end Parser

/-! ## Label addresses -/

namespace Parser

theorem peel_labels_bound (in_text : Bool) (pc : Nat) (hpc : pc < 2 ^ 32) (fuel : Nat) :
    ∀ (line : List Char) (acc : List RawLabel), (∀ l ∈ acc, l.offset < 2 ^ 32) →
      ∀ l ∈ (peel_labels in_text pc fuel line acc).2, l.offset < 2 ^ 32 := by
  induction fuel with
  | zero => intro line acc hacc; exact hacc
  | succ n ih =>
    intro line acc hacc
    unfold peel_labels
    split
    · exact hacc
    · apply ih
      intro l hl
      split at hl
      · rcases List.mem_append.1 hl with h | h
        · exact hacc l h
        · simp only [List.mem_singleton] at h
          subst h
          exact hpc
      · exact hacc l hl

theorem first_pass_line_bound (st st1 : FirstPassState) (raw_line : List Char)
    (h : first_pass_line st raw_line = .ok st1)
    (hinv : st.text_pc < 2 ^ 32 ∧ st.data_pc < 2 ^ 32 ∧ ∀ l ∈ st.labels_raw, l.offset < 2 ^ 32) :
    st1.text_pc < 2 ^ 32 ∧ st1.data_pc < 2 ^ 32 ∧ ∀ l ∈ st1.labels_raw, l.offset < 2 ^ 32 := by
  obtain ⟨ht, hd, hl⟩ := hinv
  have hpc : (if st.current_in_text then st.text_pc else st.data_pc) < 2 ^ 32 := by
    split <;> assumption
  have hp := peel_labels_bound st.current_in_text _ hpc ((trim raw_line).length + 1)
    (trim raw_line) st.labels_raw hl
  unfold first_pass_line at h
  simp only at h
  generalize peel_labels st.current_in_text _ ((trim raw_line).length + 1)
    (trim raw_line) st.labels_raw = p at h hp
  obtain ⟨line, lr⟩ := p
  simp only at h hp
  have hm : ∀ x : Nat, x % 2 ^ 32 < 2 ^ 32 := fun x => Nat.mod_lt _ (by norm_num)
  split_ifs at h <;> (try split at h) <;> (try cases h) <;>
    first
    | exact ⟨ht, hd, hl⟩
    | exact ⟨ht, hd, hp⟩
    | exact ⟨hm _, hd, hp⟩
    | exact ⟨ht, hm _, hp⟩

theorem first_pass_loop_bound (lines : List (List Char)) :
    ∀ (st st1 : FirstPassState), first_pass_loop lines st = .ok st1 →
      (st.text_pc < 2 ^ 32 ∧ st.data_pc < 2 ^ 32 ∧ ∀ l ∈ st.labels_raw, l.offset < 2 ^ 32) →
      st1.text_pc < 2 ^ 32 ∧ st1.data_pc < 2 ^ 32 ∧
        ∀ l ∈ st1.labels_raw, l.offset < 2 ^ 32 := by
  induction lines with
  | nil => intro st st1 h hinv; cases h; exact hinv
  | cons l ls ih =>
    intro st st1 h hinv
    unfold first_pass_loop at h
    split at h
    · cases h
    · rename_i st2 h2
      exact ih st2 st1 h (first_pass_line_bound st st2 l h2 hinv)

theorem first_pass_bound (lines : List (List Char)) (fp : FirstPassState)
    (h : first_pass lines = .ok fp) :
    fp.text_pc < 2 ^ 32 ∧ fp.data_pc < 2 ^ 32 ∧ ∀ l ∈ fp.labels_raw, l.offset < 2 ^ 32 :=
  first_pass_loop_bound lines {} fp h ⟨by decide, by decide, by intro l hl; cases hl⟩

theorem labels_fold (text_size : Nat) (ls : List RawLabel) :
    ∀ init : LabelMap,
      ls.foldl (fun labels l =>
        let abs := if l.in_text then (0 + l.offset) % 2 ^ 32
          else (text_size + l.offset) % 2 ^ 32
        LabelMap.insert labels l.name abs) init =
      (ls.map (fun l => (l.name, label_address text_size l))).reverse ++ init := by
  induction ls with
  | nil => intro init; rfl
  | cons l ls ih =>
    intro init
    rw [List.foldl_cons, ih, List.map_cons, List.reverse_cons, List.append_assoc]
    congr 1
    simp only [LabelMap.insert, label_address, List.singleton_append]
    split <;> rfl

theorem lookup_map_label (name : List Char) (f : RawLabel → Nat) (ls : List RawLabel) :
    List.lookup name (ls.map (fun l => (l.name, f l))) =
      (ls.find? (fun l => name == l.name)).map f := by
  induction ls with
  | nil => rfl
  | cons l ls ih =>
    rw [List.map_cons, List.lookup_cons, List.find?_cons]
    cases name == l.name
    · exact ih
    · rfl

theorem find_labels_fold (text_size : Nat) (ls : List RawLabel) (name : List Char) :
    LabelMap.find (ls.foldl (fun labels l =>
        let abs := if l.in_text then (0 + l.offset) % 2 ^ 32
          else (text_size + l.offset) % 2 ^ 32
        LabelMap.insert labels l.name abs) []) name =
      (last_declaration name ls).map (label_address text_size) := by
  rw [labels_fold, List.append_nil, LabelMap.find, ← List.map_reverse, lookup_map_label]
  rfl

theorem two_pass_parse_ok (fc : FloatConversions) (lines : List (List Char)) (r : ParseResult)
    (h : two_pass_parse fc lines = .ok r) :
    ∃ fp, first_pass lines = .ok fp ∧
      r.labels = fp.labels_raw.foldl (fun labels l =>
        let abs := if l.in_text then (0 + l.offset) % 2 ^ 32
          else (fp.text_pc + l.offset) % 2 ^ 32
        LabelMap.insert labels l.name abs) [] ∧
      second_pass fc r.labels
        ((fp.items.map (fun it =>
          let abs := if it.in_text then (0 + it.offset) % 2 ^ 32
            else (fp.text_pc + it.offset) % 2 ^ 32
          (it.content, it.in_text, abs))).filter (fun t => t.2.1) ++
         (fp.items.map (fun it =>
          let abs := if it.in_text then (0 + it.offset) % 2 ^ 32
            else (fp.text_pc + it.offset) % 2 ^ 32
          (it.content, it.in_text, abs))).filter (fun t => !t.2.1)) = .ok r.lines := by
  unfold two_pass_parse at h
  split at h
  · cases h
  · rename_i fp hfp
    refine ⟨fp, hfp, ?_⟩
    simp only at h
    split at h
    · cases h
    · rename_i ps hps
      split at h <;> cases h <;> exact ⟨rfl, hps⟩

end Parser

namespace Parser

theorem find_unique_label (l : RawLabel) (ls : List RawLabel) (hl : l ∈ ls)
    (hu : ∀ l2 ∈ ls, l2.name = l.name → l2 = l) :
    ls.find? (fun x => l.name == x.name) = some l := by
  induction ls with
  | nil => cases hl
  | cons x xs ih =>
    rw [List.find?_cons]
    by_cases hx : x.name = l.name
    · have hxl : x = l := hu x (List.mem_cons_self _ _) hx
      subst hxl
      simp
    · have hne : (l.name == x.name) = false := by
        simpa using fun e => hx e.symm
      rw [hne]
      have hmem : l ∈ xs := by
        rcases List.mem_cons.1 hl with e | e
        · exact absurd (by rw [e]) hx
        · exact e
      exact ih hmem (fun l2 h2 => hu l2 (List.mem_cons_of_mem _ h2))

/-- Claim C14 (as amended). For every parseable program the label table maps every name to
the address of its last declaration, which is `(section == text ? 0 : text_size) + offset`
as a 32-bit value: the text offset for a label declared in text, `text_size` plus the data
offset modulo 2^32 for a label declared in data, where `text_size` is the text size pass 1
found over the whole source. A label whose name is declared once gets the address of that
declaration. -/
theorem label_addresses (fc : FloatConversions) (text : List Char) (r : ParseResult)
    (h : parse_assembly fc text = .ok r) :
    ∃ fp, first_pass ((std_getline_all '\n' text []).map remove_comments) = .ok fp ∧
      (∀ l ∈ fp.labels_raw, label_address fp.text_pc l =
        if l.in_text then l.offset else (fp.text_pc + l.offset) % 2 ^ 32) ∧
      (∀ name, r.labels.find name =
        (last_declaration name fp.labels_raw).map (label_address fp.text_pc)) ∧
      (∀ l ∈ fp.labels_raw, (∀ l2 ∈ fp.labels_raw, l2.name = l.name → l2 = l) →
        r.labels.find l.name = some (label_address fp.text_pc l)) := by
  obtain ⟨fp, hfp, hlab, _⟩ := two_pass_parse_ok fc _ r h
  have hb := first_pass_bound _ fp hfp
  have hfind : ∀ name, r.labels.find name =
      (last_declaration name fp.labels_raw).map (label_address fp.text_pc) := by
    intro name
    rw [hlab]
    exact find_labels_fold fp.text_pc fp.labels_raw name
  refine ⟨fp, hfp, ?_, hfind, ?_⟩
  · intro l hl
    have := hb.2.2 l hl
    unfold label_address
    split
    · omega
    · rfl
  · intro l hl hu
    rw [hfind, last_declaration,
      find_unique_label l fp.labels_raw.reverse (List.mem_reverse.2 hl)
        (fun l2 h2 => hu l2 (List.mem_reverse.1 h2))]
    rfl

theorem label_addresses_witness :
    parse_assembly FloatConversions.none parser_test_text = .ok (parsed parser_test_text) ∧
    ((parsed parser_test_text).labels.find "main".toList,
      (parsed parser_test_text).labels.find "loop".toList,
      (parsed parser_test_text).labels.find "end".toList,
      (parsed parser_test_text).labels.find "arr".toList,
      (parsed parser_test_text).labels.find "msg".toList) =
      (some 0, some 4, some 16, some 20, some 32) ∧
    ∃ fp, first_pass ((std_getline_all '\n' parser_test_text []).map remove_comments) =
        .ok fp ∧
      (∀ l ∈ fp.labels_raw, label_address fp.text_pc l =
        if l.in_text then l.offset else (fp.text_pc + l.offset) % 2 ^ 32) ∧
      (∀ name, (parsed parser_test_text).labels.find name =
        (last_declaration name fp.labels_raw).map (label_address fp.text_pc)) ∧
      (∀ l ∈ fp.labels_raw, (∀ l2 ∈ fp.labels_raw, l2.name = l.name → l2 = l) →
        (parsed parser_test_text).labels.find l.name = some (label_address fp.text_pc l)) :=
  ⟨by decide, by decide,
    label_addresses FloatConversions.none parser_test_text (parsed parser_test_text)
      (by decide)⟩

/-- Claim C14, counterexample. In `L: add $t0, $t0, $t0` / `L: add $t0, $t0, $t0` / `j L`
the label `L` is declared in text at offsets 0 and 4; the label table holds 4 for `L` and
the jump is encoded with address field 1, so the declaration at text offset 0 does not get
address 0. -/
theorem redeclared_label_takes_last_address :
    (first_pass ((std_getline_all '\n'
        "L: add $t0, $t0, $t0\nL: add $t0, $t0, $t0\nj L".toList []).map remove_comments)).map
      (fun fp => fp.labels_raw) =
      .ok [{ name := "L".toList, in_text := true, offset := 0 },
        { name := "L".toList, in_text := true, offset := 4 }] ∧
    (parse_assembly FloatConversions.none
        "L: add $t0, $t0, $t0\nL: add $t0, $t0, $t0\nj L".toList).map
      (fun r => (r.labels.find "L".toList, r.lines.getLast?)) =
      .ok (some 4, some (ParsedLine.instruction (Instruction.J (JInstruction.make 2 1)))) := by
  decide

end Parser

/-! ## Order of the parsed lines -/

namespace Parser

theorem second_pass_forall2 (fc : FloatConversions) (labels : LabelMap) :
    ∀ (items : List (List Char × Bool × Nat)) (ps : List ParsedLine),
      second_pass fc labels items = .ok ps →
      List.Forall₂ (fun t p => parse_item fc labels t.1 t.2.2 = .ok p) items ps := by
  intro items
  induction items with
  | nil =>
    intro ps h
    cases h
    exact List.Forall₂.nil
  | cons t rest ih =>
    intro ps h
    obtain ⟨content, in_text, abs⟩ := t
    unfold second_pass at h
    simp only at h
    split at h
    · cases h
    · rename_i p hp
      split at h
      · cases h
      · rename_i qs hq
        cases h
        exact List.Forall₂.cons hp (ih qs hq)

theorem length_filter_partition {α : Type} (p : α → Bool) (l : List α) :
    (l.filter p ++ l.filter (fun a => !p a)).length = l.length := by
  induction l with
  | nil => rfl
  | cons a l ih =>
    simp only [List.length_append, List.length_cons] at ih ⊢
    cases hp : p a <;> simp [List.filter_cons, hp] <;> omega

/-- Claim C15. For every parseable program the parsed lines are the items of pass 1 in a
stable partition: the text items in their source order, then the data items in their source
order, each parsed at its absolute address; there are as many lines as items. -/
theorem lines_stable_partition (fc : FloatConversions) (text : List Char) (r : ParseResult)
    (h : parse_assembly fc text = .ok r) :
    ∃ fp, first_pass ((std_getline_all '\n' text []).map remove_comments) = .ok fp ∧
      List.Forall₂
        (fun it p => parse_item fc r.labels it.content (item_address fp.text_pc it) = .ok p)
        (fp.items.filter (fun it => it.in_text) ++ fp.items.filter (fun it => !it.in_text))
        r.lines ∧
      r.lines.length = fp.items.length := by
  obtain ⟨fp, hfp, _, hsp⟩ := two_pass_parse_ok fc _ r h
  have h2 := second_pass_forall2 fc r.labels _ _ hsp
  rw [List.filter_map, List.filter_map, ← List.map_append, List.forall₂_map_left_iff] at h2
  have h3 : List.Forall₂
      (fun it p => parse_item fc r.labels it.content (item_address fp.text_pc it) = .ok p)
      (fp.items.filter (fun it => it.in_text) ++ fp.items.filter (fun it => !it.in_text))
      r.lines := by
    refine List.Forall₂.imp ?_ h2
    intro it p hp
    have e : item_address fp.text_pc it =
        (if it.in_text then (0 + it.offset) % 2 ^ 32 else (fp.text_pc + it.offset) % 2 ^ 32) := by
      unfold item_address
      split <;> rfl
    rw [e]
    exact hp
  refine ⟨fp, hfp, h3, ?_⟩
  rw [← h3.length_eq]
  exact length_filter_partition (fun it => it.in_text) fp.items

theorem lines_stable_partition_witness :
    parse_assembly FloatConversions.none parser_test_text = .ok (parsed parser_test_text) ∧
    (parsed parser_test_text).lines.length = 10 ∧
    ∃ fp, first_pass ((std_getline_all '\n' parser_test_text []).map remove_comments) =
        .ok fp ∧
      List.Forall₂
        (fun it p => parse_item FloatConversions.none (parsed parser_test_text).labels
          it.content (item_address fp.text_pc it) = .ok p)
        (fp.items.filter (fun it => it.in_text) ++ fp.items.filter (fun it => !it.in_text))
        (parsed parser_test_text).lines ∧
      (parsed parser_test_text).lines.length = fp.items.length :=
  ⟨by decide, by decide,
    lines_stable_partition FloatConversions.none parser_test_text (parsed parser_test_text)
      (by decide)⟩

end Parser


/-! ## Sign and zero extension -/

namespace InstructionUtils

theorem testBit_0xFFFF0000 (k : Nat) (h1 : 16 ≤ k) (h2 : k < 32) :
    Nat.testBit 0xFFFF0000 k = true := by
  interval_cases k <;> decide

theorem testBit_0xFFFFFF00 (k : Nat) (h1 : 8 ≤ k) (h2 : k < 32) :
    Nat.testBit 0xFFFFFF00 k = true := by
  interval_cases k <;> decide

theorem testBit_of_lt_of_le (v j k : Nat) (hv : v < 2 ^ j) (hk : j ≤ k) :
    v.testBit k = false :=
  Nat.testBit_lt_two_pow (Nat.lt_of_lt_of_le hv (Nat.pow_le_pow_right (by norm_num) hk))

/-- Claim C27. For a 16-bit `v`, `sign_extend_16 v` is a 32-bit value whose low 16 bits are
`v` and whose bits 16..31 all equal bit 15 of `v`; for an 8-bit `v`, `sign_extend_8 v` is a
32-bit value whose low 8 bits are `v` and whose bits 8..31 all equal bit 7 of `v`;
`zero_extend_16` and `zero_extend_8` return `v`, whose higher bits are all zero. The three
values of the specification are evaluated. -/
theorem extension_bits (v : Nat) :
    (v < 2 ^ 16 →
      sign_extend_16 v % 2 ^ 16 = v ∧ sign_extend_16 v < 2 ^ 32 ∧
      (∀ k, 16 ≤ k → k < 32 → (sign_extend_16 v).testBit k = v.testBit 15) ∧
      zero_extend_16 v = v ∧ (∀ k, 16 ≤ k → (zero_extend_16 v).testBit k = false)) ∧
    (v < 2 ^ 8 →
      sign_extend_8 v % 2 ^ 8 = v ∧ sign_extend_8 v < 2 ^ 32 ∧
      (∀ k, 8 ≤ k → k < 32 → (sign_extend_8 v).testBit k = v.testBit 7) ∧
      zero_extend_8 v = v ∧ (∀ k, 8 ≤ k → (zero_extend_8 v).testBit k = false)) ∧
    sign_extend_16 0x8000 = 0xFFFF8000 ∧ sign_extend_16 0x7FFF = 0x00007FFF ∧
    zero_extend_16 0xFFFF = 0x0000FFFF := by
  refine ⟨?_, ?_, by decide, by decide, by decide⟩
  · intro hv
    have he := sign_extend_16_eq v hv
    have hb : v.testBit 15 = decide (v / 2 ^ 15 % 2 = 1) := Nat.testBit_to_div_mod
    refine ⟨?_, ?_, ?_, rfl, fun k hk => testBit_of_lt_of_le v 16 k hv hk⟩
    · rw [he]; split <;> omega
    · rw [he]; split <;> omega
    · intro k h1 h2
      unfold sign_extend_16
      by_cases hc : v &&& 0x8000 ≠ 0
      · rw [if_pos hc, Nat.testBit_or, testBit_0xFFFF0000 k h1 h2, Bool.or_true, hb]
        have := (and_0x8000_ne_zero v).1 hc
        simp only [decide_eq_true_eq, eq_comm]
        norm_num
        omega
      · rw [if_neg hc, testBit_of_lt_of_le v 16 k hv h1, hb]
        have : ¬ (v / 32768 % 2 = 1) := fun h => hc ((and_0x8000_ne_zero v).2 h)
        simp only [eq_comm, decide_eq_false_iff_not]
        norm_num
        omega
  · intro hv
    have he := sign_extend_8_eq v hv
    have hb : v.testBit 7 = decide (v / 2 ^ 7 % 2 = 1) := Nat.testBit_to_div_mod
    refine ⟨?_, ?_, ?_, rfl, fun k hk => testBit_of_lt_of_le v 8 k hv hk⟩
    · rw [he]; split <;> omega
    · rw [he]; split <;> omega
    · intro k h1 h2
      unfold sign_extend_8
      by_cases hc : v &&& 0x80 ≠ 0
      · rw [if_pos hc, Nat.testBit_or, testBit_0xFFFFFF00 k h1 h2, Bool.or_true, hb]
        have := (and_0x80_ne_zero v).1 hc
        simp only [decide_eq_true_eq, eq_comm]
        norm_num
        omega
      · rw [if_neg hc, testBit_of_lt_of_le v 8 k hv h1, hb]
        have : ¬ (v / 128 % 2 = 1) := fun h => hc ((and_0x80_ne_zero v).2 h)
        simp only [eq_comm, decide_eq_false_iff_not]
        norm_num
        omega

theorem extension_bits_witness :
    sign_extend_16 0x8000 % 2 ^ 16 = 0x8000 ∧ (sign_extend_16 0x8000).testBit 31 = true ∧
    sign_extend_8 0x7F % 2 ^ 8 = 0x7F ∧ (sign_extend_8 0x7F).testBit 31 = false :=
  ⟨((extension_bits 0x8000).1 (by decide)).1,
    (((extension_bits 0x8000).1 (by decide)).2.2.1 31 (by decide) (by decide)).trans
      (by decide),
    ((extension_bits 0x7F).2.1 (by decide)).1,
    (((extension_bits 0x7F).2.1 (by decide)).2.2.1 31 (by decide) (by decide)).trans
      (by decide)⟩

end InstructionUtils

/-! ## Wrapping addition and subtraction -/

namespace InstructionExecutor

open InstructionUtils

theorem to_uint32_wrap_int32 (x : Int) : to_uint32 (wrap_int32 x) = to_uint32 x := by
  unfold wrap_int32 to_int32 to_uint32
  split <;> omega

theorem to_uint32_to_int32_add (a b : Nat) :
    to_uint32 (to_int32 a + to_int32 b) = (a + b) % 2 ^ 32 := by
  unfold to_uint32 to_int32
  split <;> split <;> omega

theorem to_uint32_to_int32_sub (a b : Nat) :
    to_uint32 (to_int32 a - to_int32 b) = to_uint32 ((a : Int) - (b : Int)) := by
  unfold to_uint32 to_int32
  split <;> split <;> omega

theorem get_register_set_register (s : machine_state) (r v : Nat) (hr : r ≠ 0) :
    (s.set_register r v).get_register r = v := by
  simp [machine_state.set_register, machine_state.get_register, hr]

theorem get_register_set_register_ne (s : machine_state) (r q v : Nat) (hq : q ≠ r) :
    (s.set_register r v).get_register q = s.get_register q := by
  unfold machine_state.set_register machine_state.get_register
  by_cases hr : r = 0
  · rw [if_pos hr]
  · rw [if_neg hr]
    simp only [if_neg hq]

/-- Claim C23. `add` and `addu` are the same function of the state, writing
`(rs + rt) mod 2^32` to rd; `sub` and `subu` are the same function, writing
`(rs - rt) mod 2^32`; `addi` and `addiu` are the same function, writing
`(rs + sign_extend_16 imm) mod 2^32` to rt. Dispatched through `execute`, each of the six
returns normally with that state: none fails, on signed overflow or otherwise. Read back
with `get_register`: a destination other than register 0 holds the sum, the integer
difference reduced into `[0, 2^32)`, or for a 16-bit immediate `m` the integer `rs + m'`
reduced into `[0, 2^32)` (`m'` is `m` below 2^15 and `m - 2^16` from there on); every other
register reads as before, and PC, HI, LO and memory are those of the state before. -/
theorem add_sub_wrap (ex : InstructionExecutor) (s : machine_state) (r : RInstruction)
    (i : IInstruction) :
    execute_add s r = execute_addu s r ∧
    execute_addu s r =
      s.set_register r.rd ((s.get_register r.rs + s.get_register r.rt) % 2 ^ 32) ∧
    execute_sub s r = execute_subu s r ∧
    execute_subu s r = s.set_register r.rd
      ((((s.get_register r.rs : Int) - (s.get_register r.rt : Int)) % 2 ^ 32).toNat) ∧
    execute_addi s i = execute_addiu s i ∧
    execute_addiu s i =
      s.set_register i.rt ((s.get_register i.rs + sign_extend_16 i.immediate) % 2 ^ 32) ∧
    execute ex s (.R { r with funct := 0x20 }) = .ok (execute_add s r, ex) ∧
    execute ex s (.R { r with funct := 0x21 }) = .ok (execute_addu s r, ex) ∧
    execute ex s (.R { r with funct := 0x22 }) = .ok (execute_sub s r, ex) ∧
    execute ex s (.R { r with funct := 0x23 }) = .ok (execute_subu s r, ex) ∧
    execute ex s (.I { i with opcode := 0x08 }) = .ok (execute_addi s i, ex) ∧
    execute ex s (.I { i with opcode := 0x09 }) = .ok (execute_addiu s i, ex) ∧
    (r.rd ≠ 0 →
      (execute_add s r).get_register r.rd =
        (s.get_register r.rs + s.get_register r.rt) % 2 ^ 32 ∧
      (((execute_sub s r).get_register r.rd : Nat) : Int) =
        ((s.get_register r.rs : Int) - (s.get_register r.rt : Int)) % 2 ^ 32) ∧
    (i.rt ≠ 0 → i.immediate < 2 ^ 16 →
      (((execute_addi s i).get_register i.rt : Nat) : Int) =
        ((s.get_register i.rs : Int) + (if i.immediate < 2 ^ 15 then (i.immediate : Int)
          else (i.immediate : Int) - 2 ^ 16)) % 2 ^ 32) ∧
    (∀ q, q ≠ r.rd →
      (execute_add s r).get_register q = s.get_register q ∧
      (execute_sub s r).get_register q = s.get_register q) ∧
    (∀ q, q ≠ i.rt → (execute_addi s i).get_register q = s.get_register q) ∧
    ((execute_add s r).pc = s.pc ∧ (execute_add s r).hi = s.hi ∧
      (execute_add s r).lo = s.lo ∧ (execute_add s r).memory = s.memory) ∧
    ((execute_sub s r).pc = s.pc ∧ (execute_sub s r).hi = s.hi ∧
      (execute_sub s r).lo = s.lo ∧ (execute_sub s r).memory = s.memory) ∧
    ((execute_addi s i).pc = s.pc ∧ (execute_addi s i).hi = s.hi ∧
      (execute_addi s i).lo = s.lo ∧ (execute_addi s i).memory = s.memory) := by
  have hadd : execute_add s r = execute_addu s r := by
    simp only [execute_add, execute_addu, to_uint32_wrap_int32, to_uint32_to_int32_add]
  have hsub : execute_sub s r = execute_subu s r := by
    simp only [execute_sub, execute_subu, to_uint32_wrap_int32, to_uint32_to_int32_sub]
  have haddi : execute_addi s i = execute_addiu s i := by
    simp only [execute_addi, execute_addiu, to_uint32_wrap_int32, to_uint32_to_int32_add]
  have hframe : ∀ (d v : Nat), (s.set_register d v).pc = s.pc ∧ (s.set_register d v).hi = s.hi ∧
      (s.set_register d v).lo = s.lo ∧ (s.set_register d v).memory = s.memory := by
    intro d v
    unfold machine_state.set_register
    split <;> exact ⟨rfl, rfl, rfl, rfl⟩
  refine ⟨hadd, rfl, hsub, rfl, haddi, rfl, rfl, rfl, rfl, rfl, rfl, rfl, ?_, ?_, ?_, ?_, ?_, ?_,
    ?_⟩
  · intro hd
    rw [hadd, hsub]
    refine ⟨get_register_set_register _ _ _ hd, ?_⟩
    simp only [execute_subu, get_register_set_register _ _ _ hd, to_uint32]
    omega
  · intro ht hm
    rw [haddi]
    simp only [execute_addiu, get_register_set_register _ _ _ ht, sign_extend_16_eq _ hm]
    split <;> split <;> omega
  · intro q hq
    rw [hadd, hsub]
    exact ⟨get_register_set_register_ne _ _ _ _ hq, get_register_set_register_ne _ _ _ _ hq⟩
  · intro q hq
    rw [haddi]
    exact get_register_set_register_ne _ _ _ _ hq
  · rw [hadd]
    exact hframe _ _
  · rw [hsub]
    exact hframe _ _
  · rw [haddi]
    exact hframe _ _

/-- Witness of claim C23 with `$t0` = 0x7FFFFFFF and `$t1` = 1: `add $t2, $t0, $t1` leaves
0x80000000 in `$t2` (the signed sum overflows and wraps), `sub $t2, $t1, $t0` leaves
0x80000002, and `addi $t2, $t1, 0xFFFF` (minus one) leaves 0. -/
theorem add_sub_wrap_witness :
    (10 : Nat) ≠ 0 ∧ (0xFFFF : Nat) < 2 ^ 16 ∧
    (execute_add ((machine_state.init.set_register 8 0x7FFFFFFF).set_register 9 1)
      ⟨0, 8, 9, 10, 0, 0x20⟩).get_register 10 = 0x80000000 ∧
    (((execute_sub ((machine_state.init.set_register 8 0x7FFFFFFF).set_register 9 1)
      ⟨0, 9, 8, 10, 0, 0x22⟩).get_register 10 : Nat) : Int) = 0x80000002 ∧
    (((execute_addi ((machine_state.init.set_register 8 0x7FFFFFFF).set_register 9 1)
      ⟨0x08, 9, 10, 0xFFFF⟩).get_register 10 : Nat) : Int) = 0 :=
  ⟨by decide, by decide,
    ((add_sub_wrap no_streams ((machine_state.init.set_register 8 0x7FFFFFFF).set_register 9 1)
      ⟨0, 8, 9, 10, 0, 0x20⟩ ⟨0x08, 9, 10, 0xFFFF⟩).2.2.2.2.2.2.2.2.2.2.2.2.1
        (by decide)).1.trans (by decide),
    ((add_sub_wrap no_streams ((machine_state.init.set_register 8 0x7FFFFFFF).set_register 9 1)
      ⟨0, 9, 8, 10, 0, 0x22⟩ ⟨0x08, 9, 10, 0xFFFF⟩).2.2.2.2.2.2.2.2.2.2.2.2.1
        (by decide)).2.trans (by decide),
    ((add_sub_wrap no_streams ((machine_state.init.set_register 8 0x7FFFFFFF).set_register 9 1)
      ⟨0, 8, 9, 10, 0, 0x20⟩ ⟨0x08, 9, 10, 0xFFFF⟩).2.2.2.2.2.2.2.2.2.2.2.2.2.1
        (by decide) (by decide)).trans (by decide)⟩

end InstructionExecutor

/-! ## Multiplication and division -/

namespace InstructionExecutor

theorem and_0xFFFFFFFF (v : Nat) : v &&& 0xFFFFFFFF = v % 2 ^ 32 := by
  simpa using Nat.and_pow_two_sub_one_eq_mod v 32

theorem shiftRight_32 (p : Int) : p >>> (32 : Int) = p / 2 ^ 32 := by
  have h : p >>> (32 : Int) = p >>> (32 : Nat) := by
    cases p
    · exact Int.shiftRight_coe_nat _ 32
    · exact Int.shiftRight_negSucc _ 32
  rw [h, Int.shiftRight_eq_div_pow]
  norm_num

theorem hi_lo_of_int (p : Int) :
    (to_uint32 ((p >>> 32) % 2 ^ 32) <<< 32) ||| to_uint32 (p % 2 ^ 32) = (p % 2 ^ 64).toNat ∧
    to_uint32 ((p >>> 32) % 2 ^ 32) < 2 ^ 32 ∧ to_uint32 (p % 2 ^ 32) < 2 ^ 32 := by
  have hl : to_uint32 (p % 2 ^ 32) < 2 ^ 32 := by unfold to_uint32; omega
  have hh : to_uint32 ((p >>> 32) % 2 ^ 32) < 2 ^ 32 := by unfold to_uint32; omega
  refine ⟨?_, hh, hl⟩
  rw [Nat.lor_comm, lor_shiftLeft_of_lt _ _ 32 hl, shiftRight_32]
  unfold to_uint32
  omega

theorem hi_lo_of_nat (p : Nat) (hp : p < 2 ^ 64) :
    (((((p % 2 ^ 64) >>> 32) &&& 0xFFFFFFFF) % 2 ^ 32) <<< 32) |||
      (((p % 2 ^ 64) &&& 0xFFFFFFFF) % 2 ^ 32) = p ∧
    (((p % 2 ^ 64) >>> 32) &&& 0xFFFFFFFF) % 2 ^ 32 < 2 ^ 32 ∧
    ((p % 2 ^ 64) &&& 0xFFFFFFFF) % 2 ^ 32 < 2 ^ 32 := by
  have hl : ((p % 2 ^ 64) &&& 0xFFFFFFFF) % 2 ^ 32 < 2 ^ 32 := Nat.mod_lt _ (by norm_num)
  refine ⟨?_, Nat.mod_lt _ (by norm_num), hl⟩
  rw [Nat.lor_comm, lor_shiftLeft_of_lt _ _ 32 hl, and_0xFFFFFFFF, and_0xFFFFFFFF,
    Nat.shiftRight_eq_div_pow]
  omega

/-- Claim C21. After `mult` the 64-bit value `(HI << 32) | LO` is the two's-complement
64-bit product of rs and rt read as signed 32-bit integers; after `multu` it is the product
of rs and rt read as unsigned. HI and LO are 32-bit values, and the registers, the PC and
the memory are those of the state before. -/
theorem mult_hi_lo (s : machine_state) (i : RInstruction)
    (hrs : s.get_register i.rs < 2 ^ 32) (hrt : s.get_register i.rt < 2 ^ 32) :
    ((execute_mult s i).hi <<< 32) ||| (execute_mult s i).lo =
      ((to_int32 (s.get_register i.rs) * to_int32 (s.get_register i.rt)) % 2 ^ 64).toNat ∧
    ((execute_multu s i).hi <<< 32) ||| (execute_multu s i).lo =
      s.get_register i.rs * s.get_register i.rt ∧
    (execute_mult s i).hi < 2 ^ 32 ∧ (execute_mult s i).lo < 2 ^ 32 ∧
    (execute_multu s i).hi < 2 ^ 32 ∧ (execute_multu s i).lo < 2 ^ 32 ∧
    execute_mult s i = { s with hi := (execute_mult s i).hi, lo := (execute_mult s i).lo } ∧
    execute_multu s i =
      { s with hi := (execute_multu s i).hi, lo := (execute_multu s i).lo } := by
  have hp : s.get_register i.rs * s.get_register i.rt < 2 ^ 64 := by
    calc s.get_register i.rs * s.get_register i.rt < 2 ^ 32 * 2 ^ 32 :=
          Nat.mul_lt_mul'' hrs hrt
      _ = 2 ^ 64 := by norm_num
  have hi := hi_lo_of_int (to_int32 (s.get_register i.rs) * to_int32 (s.get_register i.rt))
  have hn := hi_lo_of_nat _ hp
  simp only [execute_mult, execute_multu, machine_state.set_hi, machine_state.set_lo]
  exact ⟨hi.1, hn.1, hi.2.1, hi.2.2, hn.2.1, hn.2.2, trivial, trivial⟩

/-- Witness of claim C21, the values of the claim: `0xFFFFFFFF` times `0xFFFFFFFF` read as
signed is 1 (HI = 0, LO = 1); 1000 times 2000 gives LO = 2000000 and HI = 0, the
repository's test. -/
theorem mult_hi_lo_witness :
    ((execute_mult ((machine_state.init.set_register 8 0xFFFFFFFF).set_register 9 0xFFFFFFFF)
        ⟨0, 8, 9, 0, 0, 0x18⟩).hi,
      (execute_mult ((machine_state.init.set_register 8 0xFFFFFFFF).set_register 9 0xFFFFFFFF)
        ⟨0, 8, 9, 0, 0, 0x18⟩).lo) = (0, 1) ∧
    ((execute_mult ((machine_state.init.set_register 8 1000).set_register 9 2000)
        ⟨0, 8, 9, 0, 0, 0x18⟩).hi,
      (execute_mult ((machine_state.init.set_register 8 1000).set_register 9 2000)
        ⟨0, 8, 9, 0, 0, 0x18⟩).lo) = (0, 2000000) ∧
    ((execute_multu ((machine_state.init.set_register 8 0xFFFFFFFF).set_register 9 0xFFFFFFFF)
        ⟨0, 8, 9, 0, 0, 0x19⟩).hi <<< 32) |||
      (execute_multu ((machine_state.init.set_register 8 0xFFFFFFFF).set_register 9 0xFFFFFFFF)
        ⟨0, 8, 9, 0, 0, 0x19⟩).lo = 0xFFFFFFFF * 0xFFFFFFFF :=
  ⟨by decide, by decide,
    (mult_hi_lo ((machine_state.init.set_register 8 0xFFFFFFFF).set_register 9 0xFFFFFFFF)
      ⟨0, 8, 9, 0, 0, 0x19⟩ (by decide) (by decide)).2.1⟩

end InstructionExecutor

namespace InstructionExecutor

theorem to_int32_eq_zero (v : Nat) (h : v < 2 ^ 32) : to_int32 v = 0 ↔ v = 0 := by
  unfold to_int32
  split <;> omega

theorem to_int32_to_uint32 (x : Int) (h1 : -(2 : Int) ^ 31 ≤ x) (h2 : x < (2 : Int) ^ 31) :
    to_int32 (to_uint32 x) = x := by
  unfold to_int32 to_uint32
  split <;> omega

theorem natAbs_tmod_lt (a b : Int) (hb : b ≠ 0) : (Int.tmod a b).natAbs < b.natAbs := by
  have h : (Int.tmod a b).natAbs = a.natAbs % b.natAbs := by
    cases a <;> cases b <;> simp [Int.tmod, Int.natAbs_neg] <;> norm_cast
  rw [h]
  exact Nat.mod_lt _ (by omega)

theorem tdiv_range (a b : Int) (ha1 : -(2 : Int) ^ 31 ≤ a) (ha2 : a < (2 : Int) ^ 31)
    (hb : b ≠ 0) (hne : ¬(a = -(2 : Int) ^ 31 ∧ b = -1)) :
    -(2 : Int) ^ 31 ≤ Int.tdiv a b ∧ Int.tdiv a b < (2 : Int) ^ 31 := by
  have hq : (Int.tdiv a b).natAbs = a.natAbs / b.natAbs := Int.natAbs_tdiv a b
  by_cases h1 : b = 1
  · subst h1
    rw [Int.tdiv_one]
    exact ⟨ha1, ha2⟩
  by_cases h2 : b = -1
  · subst h2
    have e : Int.tdiv a (-1) = -a := by rw [Int.tdiv_neg, Int.tdiv_one]
    rw [e]
    refine ⟨by omega, ?_⟩
    have : a ≠ -(2 : Int) ^ 31 := fun h => hne ⟨h, rfl⟩
    omega
  · have hb2 : 2 ≤ b.natAbs := by omega
    have hle : a.natAbs / b.natAbs ≤ a.natAbs / 2 := Nat.div_le_div_left hb2 (by norm_num)
    refine ⟨?_, ?_⟩ <;> omega

theorem mul_add_mod_of_int (rs rt lo hi : Nat) (a b q r : Int) (hrs : rs < 2 ^ 32)
    (ha : (rs : Int) % 2 ^ 32 = a % 2 ^ 32) (hb : (rt : Int) % 2 ^ 32 = b % 2 ^ 32)
    (hq : (lo : Int) = q % 2 ^ 32) (hr : (hi : Int) = r % 2 ^ 32) (h : b * q + r = a) :
    (rt * lo + hi) % 2 ^ 32 = rs := by
  have e : ((rt * lo + hi : Nat) : Int) % 2 ^ 32 = (rs : Int) % 2 ^ 32 := by
    rw [Nat.cast_add, Nat.cast_mul, hq, hr, ha, ← h, Int.add_emod, Int.mul_emod, hb,
      Int.emod_emod_of_dvd _ (dvd_refl _), Int.emod_emod_of_dvd _ (dvd_refl _),
      ← Int.mul_emod, ← Int.add_emod]
  omega

end InstructionExecutor

namespace InstructionExecutor

theorem tmod_nonpos (a b : Int) (ha : a ≤ 0) : Int.tmod a b ≤ 0 := by
  cases a with
  | ofNat m =>
    have hm : m = 0 := by
      have : (m : Int) ≤ 0 := ha
      omega
    subst hm
    simp
  | negSucc m =>
    cases b with
    | ofNat n =>
      show -((((m + 1 : Nat) % n : Nat) : Int)) ≤ 0
      omega
    | negSucc n =>
      show -((((m + 1 : Nat) % (n + 1) : Nat) : Int)) ≤ 0
      omega

/-- Division away from the one signed quotient that does not fit 32 bits. For 32-bit
register values rs and rt with rt not zero and (rs, rt) other than (-2^31, -1), `div`
returns LO and HI equal to the 32-bit values of the quotient truncated toward zero and of
its remainder (which has the sign of rs and is smaller than rt in absolute value) of rs by
rt read as signed; `divu` leaves LO = rs / rt and HI = rs % rt for every rt not zero; in
both cases `rt * LO + HI == rs` modulo 2^32 and nothing else changes. When rt is zero both
leave the state as it was. -/
theorem div_quotient_remainder (s : machine_state) (i : RInstruction)
    (hrs : s.get_register i.rs < 2 ^ 32) (hrt : s.get_register i.rt < 2 ^ 32) :
    (s.get_register i.rt ≠ 0 →
      ¬(s.get_register i.rs = 0x80000000 ∧ s.get_register i.rt = 0xFFFFFFFF) →
      execute_div s i = .ok { s with
        lo := to_uint32
          (Int.tdiv (to_int32 (s.get_register i.rs)) (to_int32 (s.get_register i.rt))),
        hi := to_uint32
          (Int.tmod (to_int32 (s.get_register i.rs)) (to_int32 (s.get_register i.rt))) } ∧
      to_int32 (s.get_register i.rt) *
          Int.tdiv (to_int32 (s.get_register i.rs)) (to_int32 (s.get_register i.rt)) +
        Int.tmod (to_int32 (s.get_register i.rs)) (to_int32 (s.get_register i.rt)) =
        to_int32 (s.get_register i.rs) ∧
      (Int.tmod (to_int32 (s.get_register i.rs)) (to_int32 (s.get_register i.rt))).natAbs <
        (to_int32 (s.get_register i.rt)).natAbs ∧
      (0 ≤ to_int32 (s.get_register i.rs) →
        0 ≤ Int.tmod (to_int32 (s.get_register i.rs)) (to_int32 (s.get_register i.rt))) ∧
      (to_int32 (s.get_register i.rs) ≤ 0 →
        Int.tmod (to_int32 (s.get_register i.rs)) (to_int32 (s.get_register i.rt)) ≤ 0) ∧
      (execute_div s i).map (fun s1 => to_int32 s1.hi) = .ok
        (Int.tmod (to_int32 (s.get_register i.rs)) (to_int32 (s.get_register i.rt))) ∧
      (execute_div s i).map (fun s1 => to_int32 s1.lo) = .ok
        (Int.tdiv (to_int32 (s.get_register i.rs)) (to_int32 (s.get_register i.rt))) ∧
      (execute_div s i).map (fun s1 => (s.get_register i.rt * s1.lo + s1.hi) % 2 ^ 32) =
        .ok (s.get_register i.rs)) ∧
    (s.get_register i.rt ≠ 0 →
      execute_divu s i = { s with
        lo := s.get_register i.rs / s.get_register i.rt,
        hi := s.get_register i.rs % s.get_register i.rt } ∧
      s.get_register i.rt * (s.get_register i.rs / s.get_register i.rt) +
        s.get_register i.rs % s.get_register i.rt = s.get_register i.rs) ∧
    (s.get_register i.rt = 0 → execute_div s i = .ok s ∧ execute_divu s i = s) := by
  generalize hrsv : s.get_register i.rs = rs at hrs ⊢
  generalize hrtv : s.get_register i.rt = rt at hrt ⊢
  have hz := to_int32_eq_zero rt hrt
  have ha1 : -(2 : Int) ^ 31 ≤ to_int32 rs ∧ to_int32 rs < (2 : Int) ^ 31 := by
    unfold to_int32; split <;> omega
  have hb1 : -(2 : Int) ^ 31 ≤ to_int32 rt ∧ to_int32 rt < (2 : Int) ^ 31 := by
    unfold to_int32; split <;> omega
  refine ⟨?_, ?_, ?_⟩
  · intro hne hov
    have hb : to_int32 rt ≠ 0 := fun h => hne (hz.1 h)
    have hpair : ¬(to_int32 rs = -(2 : Int) ^ 31 ∧ to_int32 rt = -1) := by
      intro hc
      apply hov
      have h1 := hc.1
      have h2 := hc.2
      unfold to_int32 at h1 h2
      refine ⟨?_, ?_⟩
      · split at h1 <;> omega
      · split at h2 <;> omega
    have hdiv : execute_div s i = .ok { s with
        lo := to_uint32 (Int.tdiv (to_int32 rs) (to_int32 rt)),
        hi := to_uint32 (Int.tmod (to_int32 rs) (to_int32 rt)) } := by
      simp only [execute_div, hrsv, hrtv, machine_state.set_hi, machine_state.set_lo]
      rw [if_pos hb, if_neg hpair]
    have hid := Int.tdiv_add_tmod (to_int32 rs) (to_int32 rt)
    have hlt := natAbs_tmod_lt (to_int32 rs) (to_int32 rt) hb
    have hrr : -(2 : Int) ^ 31 ≤ Int.tmod (to_int32 rs) (to_int32 rt) ∧
        Int.tmod (to_int32 rs) (to_int32 rt) < (2 : Int) ^ 31 := by
      refine ⟨?_, ?_⟩ <;> omega
    have hq := tdiv_range (to_int32 rs) (to_int32 rt) ha1.1 ha1.2 hb hpair
    refine ⟨hdiv, hid, hlt, fun h => Int.tmod_nonneg _ h, tmod_nonpos _ _, ?_, ?_, ?_⟩
    · rw [hdiv]
      exact congrArg Except.ok (to_int32_to_uint32 _ hrr.1 hrr.2)
    · rw [hdiv]
      exact congrArg Except.ok (to_int32_to_uint32 _ hq.1 hq.2)
    · rw [hdiv]
      refine congrArg Except.ok ?_
      refine mul_add_mod_of_int rs rt _ _ (to_int32 rs) (to_int32 rt) _ _ hrs ?_ ?_ ?_ ?_ hid
      · unfold to_int32; split <;> omega
      · unfold to_int32; split <;> omega
      · show ((to_uint32 _ : Nat) : Int) = _
        unfold to_uint32; omega
      · show ((to_uint32 _ : Nat) : Int) = _
        unfold to_uint32; omega
  · intro hne
    have hdivu : execute_divu s i = { s with lo := rs / rt, hi := rs % rt } := by
      simp only [execute_divu, hrsv, hrtv, machine_state.set_hi, machine_state.set_lo]
      rw [if_pos hne]
    exact ⟨hdivu, Nat.div_add_mod rs rt⟩
  · intro h0
    subst h0
    refine ⟨?_, ?_⟩
    · simp only [execute_div, hrtv]
      rw [if_neg (by simp [to_int32])]
    · simp only [execute_divu, hrtv]
      rw [if_neg (by simp)]

/-- An instance of the division lemma: -7 divided by 2 gives LO = -3 and HI = -1 as 32-bit
values; 7 divided by 0 leaves the state as it was. -/
theorem div_quotient_remainder_sample :
    (execute_div ((machine_state.init.set_register 8 0xFFFFFFF9).set_register 9 2)
      ⟨0, 8, 9, 0, 0, 0x1A⟩).map (fun s1 => (s1.lo, s1.hi)) =
      .ok (0xFFFFFFFD, 0xFFFFFFFF) ∧
    (execute_div ((machine_state.init.set_register 8 0xFFFFFFF9).set_register 9 2)
      ⟨0, 8, 9, 0, 0, 0x1A⟩).map (fun s1 => (2 * s1.lo + s1.hi) % 2 ^ 32) =
      .ok 0xFFFFFFF9 ∧
    execute_div (machine_state.init.set_register 8 7) ⟨0, 8, 9, 0, 0, 0x1A⟩ =
      .ok (machine_state.init.set_register 8 7) :=
  ⟨by decide,
    ((div_quotient_remainder ((machine_state.init.set_register 8 0xFFFFFFF9).set_register 9 2)
      ⟨0, 8, 9, 0, 0, 0x1A⟩ (by decide) (by decide)).1 (by decide) (by decide)).2.2.2.2.2.2.2,
    ((div_quotient_remainder (machine_state.init.set_register 8 7)
      ⟨0, 8, 9, 0, 0, 0x1A⟩ (by decide) (by decide)).2.2 (by decide)).1⟩

end InstructionExecutor

namespace Executor

/-- Claim C22, the code at the failing input `div $t0, $t1` with `$t0` = 0x80000000 (-2^31)
and `$t1` = 0xFFFFFFFF (-1). The divisor is not zero, so the guard of `execute_div` lets the
`int32_t` division run; its quotient 2^31 does not fit the type and the handler returns no
state (no LO, no HI), from the handler, from `execute` and from a whole run of
`addi $t0, $zero, 1` / `sll $t0, $t0, 31` / `addi $t1, $zero, -1` / `div $t0, $t1` /
`trap 5` alike (the run reaches the `div` with those two register values), where the
claim has LO = 0x80000000 and HI = 0. The unsigned sibling `divu` on the same registers
returns LO = 0 and HI = 0x80000000. -/
theorem div_int_min_by_minus_one_has_no_result :
    (InstructionExecutor.execute_div
      ((machine_state.init.set_register 8 0x80000000).set_register 9 0xFFFFFFFF)
      ⟨0, 8, 9, 0, 0, 0x1A⟩).map (fun s1 => (s1.lo, s1.hi)) = .error .undefined_division ∧
    (InstructionExecutor.execute no_streams
      ((machine_state.init.set_register 8 0x80000000).set_register 9 0xFFFFFFFF)
      (.R ⟨0, 8, 9, 0, 0, 0x1A⟩)).map (fun r => (r.1.lo, r.1.hi)) =
      .error .undefined_division ∧
    Assembler.assemble_stream FloatConversions.none div_overflow_text =
      .ok [1, 0, 8, 32, 192, 71, 8, 0, 255, 255, 9, 32, 26, 0, 9, 1, 5, 0, 0, 104] ∧
    ((run_iteration no_streams (loaded_state
        [1, 0, 8, 32, 192, 71, 8, 0, 255, 255, 9, 32, 26, 0, 9, 1, 5, 0, 0, 104])).bind
      (fun a => (run_iteration a.2.1 a.1).bind
        (fun b => (run_iteration b.2.1 b.1).map
          (fun c => (c.1.get_register 8, c.1.get_register 9, c.1.pc))))) =
      .ok (0x80000000, 0xFFFFFFFF, 12) ∧
    (assemble_then_execute FloatConversions.none no_streams div_overflow_text 100).map
      (fun r => (r.state.lo, r.state.hi)) = .error .undefined_division ∧
    ((InstructionExecutor.execute_divu
      ((machine_state.init.set_register 8 0x80000000).set_register 9 0xFFFFFFFF)
      ⟨0, 8, 9, 0, 0, 0x1B⟩).lo,
     (InstructionExecutor.execute_divu
      ((machine_state.init.set_register 8 0x80000000).set_register 9 0xFFFFFFFF)
      ⟨0, 8, 9, 0, 0, 0x1B⟩).hi) = (0, 0x80000000) := by
  decide

end Executor

/-! ## Shifts -/

namespace InstructionExecutor

theorem and_0x1F_lt (v : Nat) : v &&& 0x1F < 32 := by
  rw [and_0x1F]
  omega

theorem sra_quotient (x c : Nat) (hx : x < 2 ^ 32) (hc : c < 32) :
    to_int32 x >>> c =
      ((x / 2 ^ c : Nat) : Int) - (if 2 ^ 31 ≤ x then ((2 ^ (32 - c) : Nat) : Int) else 0) := by
  rw [Int.shiftRight_eq_div_pow]
  have hM : ((2 ^ c : Nat) : Int) ≠ 0 := by
    have : 0 < 2 ^ c := Nat.pow_pos (by norm_num)
    omega
  have hMN : ((2 ^ (32 - c) : Nat) : Int) * ((2 ^ c : Nat) : Int) = 2 ^ 32 := by
    rw [← Nat.cast_mul, ← Nat.pow_add, show 32 - c + c = 32 by omega]
    norm_num
  unfold to_int32
  by_cases hs : x < 2 ^ 31
  · rw [if_pos hs, if_neg (by omega), Int.natCast_div]
    simp
  · rw [if_neg hs, if_pos (by omega), ← hMN,
      show (x : Int) - ((2 ^ (32 - c) : Nat) : Int) * ((2 ^ c : Nat) : Int) =
        (x : Int) + (-((2 ^ (32 - c) : Nat) : Int)) * ((2 ^ c : Nat) : Int) by ring,
      Int.add_mul_ediv_right _ _ hM, Int.natCast_div]
    ring

theorem sra_value (x c : Nat) (hx : x < 2 ^ 32) (hc : c < 32) :
    to_uint32 (to_int32 x >>> c) =
      x / 2 ^ c + (if 2 ^ 31 ≤ x then 2 ^ 32 - 2 ^ (32 - c) else 0) ∧
    to_int32 (to_uint32 (to_int32 x >>> c)) = to_int32 x / 2 ^ c := by
  have hq := sra_quotient x c hx hc
  have hfloor : to_int32 x >>> c = to_int32 x / 2 ^ c := by
    rw [Int.shiftRight_eq_div_pow]
    norm_num
  have hMpos : 0 < 2 ^ c := Nat.pow_pos (by norm_num)
  have hMK : 2 ^ (31 - c) * 2 ^ c = 2 ^ 31 := by
    rw [← Nat.pow_add, show 31 - c + c = 31 by omega]
  have hN : 2 ^ (32 - c) = 2 * 2 ^ (31 - c) := by
    rw [show 32 - c = (31 - c) + 1 by omega, Nat.pow_succ]
    omega
  have hKpos : 0 < 2 ^ (31 - c) := Nat.pow_pos (by norm_num)
  have hK1 : 2 ^ (31 - c) ≤ 2 ^ 31 := Nat.pow_le_pow_right (by norm_num) (by omega)
  have hd1 : x / 2 ^ c < 2 * 2 ^ (31 - c) := by
    apply Nat.div_lt_of_lt_mul
    calc x < 2 ^ 32 := hx
      _ = 2 ^ c * (2 * 2 ^ (31 - c)) := by
          rw [← hN, ← Nat.pow_add, show c + (32 - c) = 32 by omega]
  have hd2 : 2 ^ 31 ≤ x → 2 ^ (31 - c) ≤ x / 2 ^ c := fun h =>
    (Nat.le_div_iff_mul_le hMpos).2 (by rw [hMK]; exact h)
  have hdle : x / 2 ^ c ≤ x := Nat.div_le_self _ _
  rw [← hfloor, hq, hN]
  generalize x / 2 ^ c = d at hd1 hd2 hdle ⊢
  generalize 2 ^ (31 - c) = K at hd1 hd2 hKpos hK1 ⊢
  unfold to_int32 to_uint32
  refine ⟨?_, ?_⟩
  · split_ifs <;> omega
  · split_ifs <;> omega

end InstructionExecutor

namespace InstructionExecutor

/-- Claim C24. For a 32-bit value of rt: `sll`, `srl`, `sra` shift it by `shamt` (0..31)
and `sllv`, `srlv`, `srav` by `rs & 0x1F`, which is rs modulo 32. The left shifts write
`rt * 2^c mod 2^32` and the logical right shifts write `rt / 2^c`, so the vacated bits are
zero; the arithmetic right shifts write `rt / 2^c` with the vacated top `c` bits all ones
when bit 31 of rt is set, and the result read as signed is `floor(signed(rt) / 2^c)`. -/
theorem shift_handlers (s : machine_state) (i : RInstruction)
    (hrt : s.get_register i.rt < 2 ^ 32) :
    (i.shamt < 32 →
      execute_sll s i =
        s.set_register i.rd ((s.get_register i.rt * 2 ^ i.shamt) % 2 ^ 32) ∧
      execute_srl s i = s.set_register i.rd (s.get_register i.rt / 2 ^ i.shamt) ∧
      execute_sra s i = s.set_register i.rd (s.get_register i.rt / 2 ^ i.shamt +
        (if 2 ^ 31 ≤ s.get_register i.rt then 2 ^ 32 - 2 ^ (32 - i.shamt) else 0)) ∧
      to_int32 (s.get_register i.rt / 2 ^ i.shamt +
        (if 2 ^ 31 ≤ s.get_register i.rt then 2 ^ 32 - 2 ^ (32 - i.shamt) else 0)) =
        to_int32 (s.get_register i.rt) / 2 ^ i.shamt) ∧
    s.get_register i.rs &&& 0x1F = s.get_register i.rs % 32 ∧
    execute_sllv s i = s.set_register i.rd
      ((s.get_register i.rt * 2 ^ (s.get_register i.rs % 32)) % 2 ^ 32) ∧
    execute_srlv s i =
      s.set_register i.rd (s.get_register i.rt / 2 ^ (s.get_register i.rs % 32)) ∧
    execute_srav s i = s.set_register i.rd
      (s.get_register i.rt / 2 ^ (s.get_register i.rs % 32) +
        (if 2 ^ 31 ≤ s.get_register i.rt
          then 2 ^ 32 - 2 ^ (32 - s.get_register i.rs % 32) else 0)) ∧
    to_int32 (s.get_register i.rt / 2 ^ (s.get_register i.rs % 32) +
        (if 2 ^ 31 ≤ s.get_register i.rt
          then 2 ^ 32 - 2 ^ (32 - s.get_register i.rs % 32) else 0)) =
      to_int32 (s.get_register i.rt) / 2 ^ (s.get_register i.rs % 32) ∧
    (∀ c k, ((s.get_register i.rt * 2 ^ c) % 2 ^ 32).testBit k =
      (decide (k < 32) && (decide (c ≤ k) && (s.get_register i.rt).testBit (k - c)))) ∧
    (∀ c k, (s.get_register i.rt / 2 ^ c).testBit k = (s.get_register i.rt).testBit (c + k)) := by
  have hm : s.get_register i.rs % 32 < 32 := Nat.mod_lt _ (by norm_num)
  have h1 := fun c hc => sra_value (s.get_register i.rt) c hrt hc
  refine ⟨?_, and_0x1F _, ?_, ?_, ?_, ?_, ?_, ?_⟩
  · intro hc
    refine ⟨?_, ?_, ?_, ?_⟩
    · simp only [execute_sll, Nat.shiftLeft_eq]
    · simp only [execute_srl, Nat.shiftRight_eq_div_pow]
    · simp only [execute_sra, (h1 _ hc).1]
    · rw [← (h1 _ hc).1]
      exact (h1 _ hc).2
  · simp only [execute_sllv, Nat.shiftLeft_eq, and_0x1F]
  · simp only [execute_srlv, Nat.shiftRight_eq_div_pow, and_0x1F]
  · simp only [execute_srav, and_0x1F, (h1 _ hm).1]
  · rw [← (h1 _ hm).1]
    exact (h1 _ hm).2
  · intro c k
    rw [← Nat.shiftLeft_eq, Nat.testBit_mod_two_pow, Nat.testBit_shiftLeft]
  · intro c k
    rw [← Nat.shiftRight_eq_div_pow, Nat.testBit_shiftRight]

/-- Witness of claim C24: the repository's test `8 << 2 = 32`, and 0x80000000 shifted right
by 4, which gives 0x08000000 logically and 0xF8000000 arithmetically (-2^31 / 16 = -2^27). -/
theorem shift_handlers_witness :
    (execute_sll (machine_state.init.set_register 8 8) ⟨0, 0, 8, 9, 2, 0x00⟩).get_register 9
      = 32 ∧
    (execute_srl (machine_state.init.set_register 8 0x80000000)
      ⟨0, 0, 8, 9, 4, 0x02⟩).get_register 9 = 0x08000000 ∧
    (execute_sra (machine_state.init.set_register 8 0x80000000)
      ⟨0, 0, 8, 9, 4, 0x03⟩).get_register 9 = 0xF8000000 ∧
    to_int32 0xF8000000 = to_int32 0x80000000 / 2 ^ 4 := by
  have h := (shift_handlers (machine_state.init.set_register 8 0x80000000)
    ⟨0, 0, 8, 9, 4, 0x03⟩ (by decide)).1 (by decide)
  refine ⟨by decide, by decide, ?_, by decide⟩
  rw [h.2.2.1]
  decide

end InstructionExecutor


/-! ## Immediate comparisons and logic -/

namespace InstructionExecutor

open InstructionUtils

/-- Claim C25. For a 32-bit value of rs and a 16-bit immediate: `slti` writes 1 to rt when
rs is less than the sign-extended immediate, both read as signed, and 0 otherwise; `sltiu`
compares the same two 32-bit values as unsigned; `andi`, `ori`, `xori` combine rs with the
immediate itself (zero-extended), so the `andi` result is below 2^16 and `ori`, `xori`
leave the high 16 bits of rs as they were. -/
theorem immediate_compare_logic (s : machine_state) (i : IInstruction)
    (himm : i.immediate < 2 ^ 16) :
    execute_slti s i = s.set_register i.rt
      (if to_int32 (s.get_register i.rs) < to_int32 (sign_extend_16 i.immediate)
        then 1 else 0) ∧
    to_int32 (sign_extend_16 i.immediate) =
      (if 2 ^ 15 ≤ i.immediate then (i.immediate : Int) - 2 ^ 16 else (i.immediate : Int)) ∧
    execute_sltiu s i = s.set_register i.rt
      (if s.get_register i.rs < sign_extend_16 i.immediate then 1 else 0) ∧
    zero_extend_16 i.immediate = i.immediate ∧
    execute_andi s i = s.set_register i.rt (s.get_register i.rs &&& i.immediate) ∧
    s.get_register i.rs &&& i.immediate < 2 ^ 16 ∧
    execute_ori s i = s.set_register i.rt (s.get_register i.rs ||| i.immediate) ∧
    (s.get_register i.rs ||| i.immediate) / 2 ^ 16 = s.get_register i.rs / 2 ^ 16 ∧
    execute_xori s i = s.set_register i.rt (s.get_register i.rs ^^^ i.immediate) ∧
    (s.get_register i.rs ^^^ i.immediate) / 2 ^ 16 = s.get_register i.rs / 2 ^ 16 := by
  refine ⟨rfl, ?_, rfl, rfl, rfl, ?_, rfl, ?_, rfl, ?_⟩
  · rw [sign_extend_16_eq _ himm]
    unfold to_int32
    split_ifs <;> omega
  · exact Nat.lt_of_le_of_lt Nat.and_le_right himm
  · rw [← Nat.shiftRight_eq_div_pow, ← Nat.shiftRight_eq_div_pow]
    apply Nat.eq_of_testBit_eq
    intro k
    rw [Nat.testBit_shiftRight, Nat.testBit_shiftRight, Nat.testBit_or,
      testBit_of_lt_of_le _ 16 (16 + k) himm (by omega), Bool.or_false]
  · rw [← Nat.shiftRight_eq_div_pow, ← Nat.shiftRight_eq_div_pow]
    apply Nat.eq_of_testBit_eq
    intro k
    rw [Nat.testBit_shiftRight, Nat.testBit_shiftRight, Nat.testBit_xor,
      testBit_of_lt_of_le _ 16 (16 + k) himm (by omega), Bool.xor_false]

/-- Witness of claim C25: rs = 5 against the immediate 0xFFFF, which is -1 signed and
0xFFFFFFFF unsigned, gives 0 for `slti` and 1 for `sltiu`; the repository's tests
`0xFF andi 0x0F = 0x0F` and `0xF0 ori 0x0F = 0xFF`. -/
theorem immediate_compare_logic_witness :
    (execute_slti (machine_state.init.set_register 8 5) ⟨0x0A, 8, 9, 0xFFFF⟩).get_register 9
      = 0 ∧
    (execute_sltiu (machine_state.init.set_register 8 5) ⟨0x0B, 8, 9, 0xFFFF⟩).get_register 9
      = 1 ∧
    (execute_andi (machine_state.init.set_register 8 0xFF) ⟨0x0C, 8, 9, 0x0F⟩).get_register 9
      = 0x0F ∧
    (execute_ori (machine_state.init.set_register 8 0xF0) ⟨0x0D, 8, 9, 0x0F⟩).get_register 9
      = 0xFF := by
  have h := immediate_compare_logic (machine_state.init.set_register 8 5)
    ⟨0x0A, 8, 9, 0xFFFF⟩ (by decide)
  refine ⟨?_, by decide, by decide, by decide⟩
  rw [h.1]
  decide

end InstructionExecutor

/-! ## Loading the halves of a register -/

namespace InstructionExecutor

open InstructionUtils

theorem testBit_0xFFFF (k : Nat) : Nat.testBit 0xFFFF k = decide (k < 16) := by
  simpa using Nat.testBit_two_pow_sub_one 16 k

theorem testBit_0xFFFF0000_iff (k : Nat) :
    Nat.testBit 0xFFFF0000 k = (decide (16 ≤ k) && decide (k < 32)) := by
  have h : (0xFFFF0000 : Nat) = 0xFFFF <<< 16 := by decide
  rw [h, Nat.testBit_shiftLeft, testBit_0xFFFF]
  by_cases h1 : 16 ≤ k <;> by_cases h2 : k < 32 <;> simp [h1, h2] <;> omega

theorem lhi_then_llo_value (v h l : Nat) (hh : h < 2 ^ 16) :
    (((v &&& 0x0000FFFF) ||| ((h <<< 16) % 2 ^ 32)) &&& 0xFFFF0000) ||| l = (h <<< 16) ||| l := by
  have hs : (h <<< 16) % 2 ^ 32 = h <<< 16 := by
    rw [Nat.shiftLeft_eq]
    exact Nat.mod_eq_of_lt (by omega)
  rw [hs]
  apply Nat.eq_of_testBit_eq
  intro k
  simp only [Nat.testBit_or, Nat.testBit_and, Nat.testBit_shiftLeft, testBit_0xFFFF,
    testBit_0xFFFF0000_iff]
  by_cases h1 : 16 ≤ k
  · by_cases h2 : k < 32
    · have : ¬ k < 16 := by omega
      simp [h1, h2, this]
    · have h3 : h.testBit (k - 16) = false := testBit_of_lt_of_le h 16 _ hh (by omega)
      simp [h1, h2, h3]
  · simp [h1]

theorem llo_then_lhi_value (v h l : Nat) (hl : l < 2 ^ 16) :
    (((v &&& 0xFFFF0000) ||| l) &&& 0x0000FFFF) ||| ((h <<< 16) % 2 ^ 32) =
      ((h <<< 16) % 2 ^ 32) ||| l := by
  apply Nat.eq_of_testBit_eq
  intro k
  simp only [Nat.testBit_or, Nat.testBit_and, testBit_0xFFFF, testBit_0xFFFF0000_iff]
  by_cases h1 : k < 16
  · have : ¬ 16 ≤ k := by omega
    simp [h1, this, Bool.or_comm]
  · have h3 : l.testBit k = false := testBit_of_lt_of_le l 16 _ hl (by omega)
    simp [h1, h3]

/-- Claim C26. For a register rt other than `$zero` holding `v` and 16-bit immediates:
`llo` leaves rt = `(v & 0xFFFF0000) | imm` and `lhi` leaves rt = `(v & 0x0000FFFF) |
(imm << 16)`, neither reading rs nor changing anything else; `lhi` with `h` and `llo` with
`l` on the same rt, in either order, leave rt = `(h << 16) | l` whatever `v` was. -/
theorem llo_lhi (s : machine_state) (rt h l : Nat) (hrt : rt ≠ 0) (hh : h < 2 ^ 16)
    (hl : l < 2 ^ 16) :
    (∀ op rs, execute_llo s ⟨op, rs, rt, l⟩ =
      s.set_register rt ((s.get_register rt &&& 0xFFFF0000) ||| l)) ∧
    (∀ op rs, (execute_llo s ⟨op, rs, rt, l⟩).get_register rt =
      (s.get_register rt &&& 0xFFFF0000) ||| l) ∧
    (∀ op rs, execute_lhi s ⟨op, rs, rt, h⟩ =
      s.set_register rt ((s.get_register rt &&& 0x0000FFFF) ||| (h <<< 16))) ∧
    (∀ op rs, (execute_lhi s ⟨op, rs, rt, h⟩).get_register rt =
      (s.get_register rt &&& 0x0000FFFF) ||| (h <<< 16)) ∧
    (∀ op1 rs1 op2 rs2,
      (execute_llo (execute_lhi s ⟨op1, rs1, rt, h⟩) ⟨op2, rs2, rt, l⟩).get_register rt =
        (h <<< 16) ||| l) ∧
    (∀ op1 rs1 op2 rs2,
      (execute_lhi (execute_llo s ⟨op1, rs1, rt, l⟩) ⟨op2, rs2, rt, h⟩).get_register rt =
        (h <<< 16) ||| l) := by
  have hs : (h <<< 16) % 2 ^ 32 = h <<< 16 := by
    rw [Nat.shiftLeft_eq]
    exact Nat.mod_eq_of_lt (by omega)
  have e1 : ∀ op rs, execute_llo s ⟨op, rs, rt, l⟩ =
      s.set_register rt ((s.get_register rt &&& 0xFFFF0000) ||| l) := fun _ _ => rfl
  have e2 : ∀ op rs, execute_lhi s ⟨op, rs, rt, h⟩ =
      s.set_register rt ((s.get_register rt &&& 0x0000FFFF) ||| (h <<< 16)) := by
    intro op rs
    simp only [execute_lhi, hs]
  refine ⟨e1, ?_, e2, ?_, ?_, ?_⟩
  · intro op rs
    rw [e1, get_register_set_register _ _ _ hrt]
  · intro op rs
    rw [e2, get_register_set_register _ _ _ hrt]
  · intro op1 rs1 op2 rs2
    simp only [execute_llo, execute_lhi, get_register_set_register _ _ _ hrt]
    exact lhi_then_llo_value _ h l hh
  · intro op1 rs1 op2 rs2
    simp only [execute_llo, execute_lhi, get_register_set_register _ _ _ hrt]
    rw [llo_then_lhi_value _ h l hl, hs]

/-- Witness of claim C26, the repository's tests: `llo 0x1234` on 0xFFFF0000 gives
0xFFFF1234, `lhi 0x1234` on 0x0000FFFF gives 0x1234FFFF. -/
theorem llo_lhi_witness :
    (execute_llo (machine_state.init.set_register 8 0xFFFF0000)
      ⟨0x18, 0, 8, 0x1234⟩).get_register 8 = 0xFFFF1234 ∧
    (execute_lhi (machine_state.init.set_register 8 0x0000FFFF)
      ⟨0x19, 0, 8, 0x1234⟩).get_register 8 = 0x1234FFFF := by
  refine ⟨?_, ?_⟩
  · rw [(llo_lhi (machine_state.init.set_register 8 0xFFFF0000) 8 0x1234 0x1234 (by decide)
      (by decide) (by decide)).2.1 0x18 0]
    decide
  · rw [(llo_lhi (machine_state.init.set_register 8 0x0000FFFF) 8 0x1234 0x1234 (by decide)
      (by decide) (by decide)).2.2.2.1 0x19 0]
    decide

end InstructionExecutor


/-! ## Comments -/

namespace Parser

theorem take_indexOf (c : Char) (l : List Char) :
    (match l.indexOf? c with
      | none => l
      | some pos => l.take pos) = l.takeWhile (fun x => x != c) := by
  induction l with
  | nil => rfl
  | cons a l ih =>
    rw [List.indexOf?_cons]
    by_cases h : a = c
    · subst h
      simp
    · have hb : (a == c) = false := by simpa using h
      rw [hb]
      simp only [Bool.false_eq_true, if_false]
      rw [List.takeWhile_cons_of_pos (by simpa using h), ← ih]
      cases l.indexOf? c <;> rfl

theorem std_find_take (c : Char) (l : List Char) :
    (match std_find l c with
      | none => l
      | some pos => l.take pos) = l.takeWhile (fun x => x != c) := by
  rw [← take_indexOf]
  unfold std_find
  simp only [List.drop_zero, Nat.zero_add]
  cases l.indexOf? c <;> rfl

theorem trim_spec (str : List Char) :
    (∃ pre post, (∀ c ∈ pre, is_trim_char c = true) ∧ (∀ c ∈ post, is_trim_char c = true) ∧
      str = pre ++ trim str ++ post) ∧
    (∀ c, (trim str).head? = some c → is_trim_char c = false) ∧
    (∀ c, (trim str).getLast? = some c → is_trim_char c = false) := by
  have h1 := List.takeWhile_append_dropWhile is_trim_char str
  have h2 := List.takeWhile_append_dropWhile is_trim_char (str.dropWhile is_trim_char).reverse
  have h3 : str.dropWhile is_trim_char =
      trim str ++ ((str.dropWhile is_trim_char).reverse.takeWhile is_trim_char).reverse := by
    have := congrArg List.reverse h2
    rw [List.reverse_append, List.reverse_reverse] at this
    exact this.symm
  have hlast : ∀ c, (trim str).getLast? = some c → is_trim_char c = false := by
    intro c hc
    unfold trim at hc
    rw [List.getLast?_reverse] at hc
    have := List.head?_dropWhile_not is_trim_char (str.dropWhile is_trim_char).reverse
    rw [hc] at this
    exact this
  have hhead : ∀ c, (trim str).head? = some c → is_trim_char c = false := by
    intro c hc
    have := List.head?_dropWhile_not is_trim_char str
    rw [h3] at this
    cases ht : trim str with
    | nil => rw [ht] at hc; cases hc
    | cons a as =>
      rw [ht] at hc this
      simp only [List.head?_cons, Option.some.injEq] at hc
      simp only [List.cons_append, List.head?_cons] at this
      rw [← hc]
      exact this
  refine ⟨⟨str.takeWhile is_trim_char,
    ((str.dropWhile is_trim_char).reverse.takeWhile is_trim_char).reverse, ?_, ?_, ?_⟩,
    hhead, hlast⟩
  · intro c hc
    exact List.mem_takeWhile_imp hc
  · intro c hc
    exact List.mem_takeWhile_imp (List.mem_reverse.1 hc)
  · rw [List.append_assoc, ← h3, h1]

/-- Claim C28 (as amended). Comment removal cuts the line at its first `#`, wherever that
`#` lies, and strips the surrounding whitespace (space, tab, carriage return, newline):
the result is the text before the first `#` without a leading and a trailing run of
whitespace, it contains no `#`, and it neither starts nor ends with whitespace. -/
theorem remove_comments_cuts_at_first_hash (line : List Char) :
    remove_comments line = trim (line.takeWhile (fun c => c != '#')) ∧
    (∃ pre post, (∀ c ∈ pre, is_trim_char c = true) ∧ (∀ c ∈ post, is_trim_char c = true) ∧
      line.takeWhile (fun c => c != '#') = pre ++ remove_comments line ++ post) ∧
    '#' ∉ remove_comments line ∧
    (∀ c, (remove_comments line).head? = some c → is_trim_char c = false) ∧
    (∀ c, (remove_comments line).getLast? = some c → is_trim_char c = false) := by
  have e : remove_comments line = trim (line.takeWhile (fun c => c != '#')) := by
    rw [← std_find_take]
    unfold remove_comments
    cases std_find line '#' <;> rfl
  have ht := trim_spec (line.takeWhile (fun c => c != '#'))
  rw [← e] at ht
  obtain ⟨⟨pre, post, hpre, hpost, hsplit⟩, hh, hl⟩ := ht
  refine ⟨e, ⟨pre, post, hpre, hpost, hsplit⟩, ?_, hh, hl⟩
  intro hmem
  have hm : '#' ∈ line.takeWhile (fun c => c != '#') := by
    rw [hsplit]
    exact List.mem_append_left _ (List.mem_append_right _ hmem)
  have := List.mem_takeWhile_imp hm
  simp at this

/-- Witness of claim C28 as amended: the comment after a string literal is cut and the
directive assembles to the two bytes of the literal. -/
theorem remove_comments_cuts_at_first_hash_witness :
    remove_comments "  .ascii \"ab\" # c".toList = ".ascii \"ab\"".toList ∧
    (parse_assembly FloatConversions.none ".ascii \"ab\" # c".toList).map generate_binary =
      .ok [97, 98] :=
  ⟨(remove_comments_cuts_at_first_hash "  .ascii \"ab\" # c".toList).1.trans (by decide),
    by decide⟩

/-- Claim C28, counterexample. The `#` of `.ascii "a#b"` lies inside a string literal, yet
the line is cut there: what remains is `.ascii "a`, and the program does not assemble to the
bytes `a`, `#`, `b` but is rejected as an invalid string literal. -/
theorem hash_inside_string_starts_comment :
    remove_comments ".ascii \"a#b\"".toList = ".ascii \"a".toList ∧
    (parse_assembly FloatConversions.none ".ascii \"a#b\"".toList).map generate_binary =
      .error (.parse_error "Invalid string literal") := by
  decide

end Parser

/-! ## String literals -/

namespace Parser

end Parser

namespace Parser

end Parser


/-! ## Label references -/

namespace Parser

theorem parse_instruction_eq (line : List Char) (labels : LabelMap) (current_pc : Nat)
    (h : instruction_mnemonic line ≠ []) :
    parse_instruction line labels current_pc =
      match find_instruction (instruction_mnemonic line) with
      | none => throw_parse_error "Unknown instruction"
      | some _ =>
        match detect_instruction_format (instruction_mnemonic line) with
        | .error e => .error e
        | .ok .R_TYPE =>
          (parse_r_instruction (instruction_mnemonic line) (instruction_operands line)).map
            Instruction.R
        | .ok .I_TYPE =>
          (parse_i_instruction (instruction_mnemonic line) (instruction_operands line) labels
            current_pc).map Instruction.I
        | .ok .J_TYPE =>
          (parse_j_instruction (instruction_mnemonic line) (instruction_operands line)
            labels).map Instruction.J := by
  have hs : (trim line).isEmpty = false := by
    cases ht : trim line with
    | nil =>
      exfalso
      apply h
      simp [instruction_mnemonic, ht, to_lower]
    | cons a l => rfl
  unfold parse_instruction
  simp only [hs, Bool.false_eq_true, if_false]
  rfl

theorem branch_unknown_label (mnemonic : List Char) (operands : List (List Char))
    (labels : LabelMap) (pc : Nat) (label : List Char)
    (hm : mnemonic = "beq".toList ∨ mnemonic = "bne".toList ∨ mnemonic = "blez".toList ∨
      mnemonic = "bgtz".toList)
    (hl : get_operand operands
      (if mnemonic = "beq".toList ∨ mnemonic = "bne".toList then 2 else 1) = .ok label)
    (hT : labels.find label = none) :
    parse_i_instruction mnemonic operands labels pc =
      .error (.parse_error "Unknown label in branch") := by
  obtain ⟨op, hf⟩ := find_instruction_branch mnemonic hm
  unfold parse_i_instruction
  rw [hf]
  have h01 : ∀ k, k ≤ (if mnemonic = "beq".toList ∨ mnemonic = "bne".toList then 2 else 1) →
      ∃ o, get_operand operands k = .ok o := by
    intro k hk
    unfold get_operand at hl ⊢
    cases hg : operands.get? (if mnemonic = "beq".toList ∨ mnemonic = "bne".toList
      then 2 else 1) with
    | none => rw [hg] at hl; cases hl
    | some o =>
      have hlen := (List.get?_eq_some.1 hg).1
      have : k < operands.length := by omega
      rw [List.get?_eq_get this]
      exact ⟨_, rfl⟩
  rcases hm with rfl | rfl | rfl | rfl
  · simp +decide only [reduceIte] at hl h01 ⊢
    obtain ⟨o0, h0⟩ := h01 0 (by omega)
    obtain ⟨o1, h1⟩ := h01 1 (by omega)
    simp only [h0, h1, hl, hT, Except.bind, bind]
    rfl
  · simp +decide only [reduceIte] at hl h01 ⊢
    obtain ⟨o0, h0⟩ := h01 0 (by omega)
    obtain ⟨o1, h1⟩ := h01 1 (by omega)
    simp only [h0, h1, hl, hT, Except.bind, bind]
    rfl
  · simp +decide only [reduceIte] at hl h01 ⊢
    obtain ⟨o0, h0⟩ := h01 0 (by omega)
    simp only [h0, hl, hT, Except.bind, bind]
    rfl
  · simp +decide only [reduceIte] at hl h01 ⊢
    obtain ⟨o0, h0⟩ := h01 0 (by omega)
    simp only [h0, hl, hT, Except.bind, bind]
    rfl

end Parser

namespace Parser

theorem jump_unresolved (mnemonic : List Char) (operands : List (List Char))
    (labels : LabelMap) (target : List Char) (e : Error)
    (hm : mnemonic = "j".toList ∨ mnemonic = "jal".toList)
    (hl : get_operand operands 0 = .ok target) (hT : labels.find target = none)
    (hi : parse_immediate target labels = .error e) :
    parse_j_instruction mnemonic operands labels = .error e := by
  have hf : ∃ op, find_instruction mnemonic = some op := by
    rcases hm with rfl | rfl <;> exact ⟨_, rfl⟩
  obtain ⟨op, hf⟩ := hf
  unfold parse_j_instruction
  rw [hf]
  cases operands with
  | nil => cases hl
  | cons t rest =>
    have ht : t = target := by
      simp only [get_operand, List.get?_cons_zero, Except.ok.injEq] at hl
      exact hl
    subst ht
    simp only [hT, hi, Except.bind, bind]

theorem reference_line_fails (line : List Char) (labels : LabelMap) (pc : Nat)
    (label : List Char)
    (href : ((instruction_mnemonic line = "beq".toList ∨
          instruction_mnemonic line = "bne".toList) ∧
        get_operand (instruction_operands line) 2 = .ok label ∧ labels.find label = none) ∨
      ((instruction_mnemonic line = "blez".toList ∨
          instruction_mnemonic line = "bgtz".toList) ∧
        get_operand (instruction_operands line) 1 = .ok label ∧ labels.find label = none) ∨
      ((instruction_mnemonic line = "j".toList ∨ instruction_mnemonic line = "jal".toList) ∧
        get_operand (instruction_operands line) 0 = .ok label ∧ labels.find label = none ∧
        ∃ e, parse_immediate label labels = .error e)) :
    ∃ e, parse_instruction line labels pc = .error e ∧
      (instruction_mnemonic line ≠ "j".toList → instruction_mnemonic line ≠ "jal".toList →
        e = .parse_error "Unknown label in branch") ∧
      (∀ e2, parse_immediate label labels = .error e2 →
        (instruction_mnemonic line = "j".toList ∨ instruction_mnemonic line = "jal".toList) →
        e = e2) := by
  have hne : instruction_mnemonic line ≠ [] := by
    rcases href with ⟨h | h, _⟩ | ⟨h | h, _⟩ | ⟨h | h, _⟩ <;> rw [h] <;> decide
  rw [parse_instruction_eq line labels pc hne]
  rcases href with ⟨hm, hl, hT⟩ | ⟨hm, hl, hT⟩ | ⟨hm, hl, hT, e, he⟩
  · have hb := branch_unknown_label (instruction_mnemonic line) (instruction_operands line)
      labels pc label (by tauto) (by rw [if_pos hm]; exact hl) hT
    refine ⟨_, ?_, fun _ _ => rfl, ?_⟩
    · rcases hm with h | h <;> rw [h] at hb ⊢ <;> simp +decide only [hb] <;> rfl
    · intro e2 _ hj
      rcases hm with h | h <;> rw [h] at hj <;> exact absurd hj (by decide)
  · have hb := branch_unknown_label (instruction_mnemonic line) (instruction_operands line)
      labels pc label (by tauto) (by
        rw [if_neg (by rcases hm with h | h <;> rw [h] <;> decide)]; exact hl) hT
    refine ⟨_, ?_, fun _ _ => rfl, ?_⟩
    · rcases hm with h | h <;> rw [h] at hb ⊢ <;> simp +decide only [hb] <;> rfl
    · intro e2 _ hj
      rcases hm with h | h <;> rw [h] at hj <;> exact absurd hj (by decide)
  · have hb := jump_unresolved (instruction_mnemonic line) (instruction_operands line)
      labels label e hm hl hT he
    refine ⟨e, ?_, ?_, ?_⟩
    · rcases hm with h | h <;> rw [h] at hb ⊢ <;> simp +decide only [hb] <;> rfl
    · intro h1 h2
      rcases hm with h | h
      · exact absurd h h1
      · exact absurd h h2
    · intro e2 he2 _
      rw [he] at he2
      cases he2
      rfl

end Parser

namespace Parser

theorem forall2_mem_left {α β : Type} {R : α → β → Prop} {l : List α} {ps : List β}
    (h : List.Forall₂ R l ps) : ∀ t ∈ l, ∃ p ∈ ps, R t p := by
  induction h with
  | nil => intro t ht; cases ht
  | cons hr _ ih =>
    intro t ht
    rcases List.mem_cons.1 ht with e | e
    · subst e
      exact ⟨_, List.mem_cons_self _ _, hr⟩
    · obtain ⟨p, hp, hR⟩ := ih t e
      exact ⟨p, List.mem_cons_of_mem _ hp, hR⟩

theorem label_table_find (fp : FirstPassState) (name : List Char) :
    (label_table fp).find name =
      (last_declaration name fp.labels_raw).map (label_address fp.text_pc) := by
  unfold label_table LabelMap.find last_declaration
  rw [← List.map_reverse, lookup_map_label]

theorem label_table_find_none (fp : FirstPassState) (label : List Char)
    (h : ∀ l ∈ fp.labels_raw, l.name ≠ label) : (label_table fp).find label = none := by
  rw [label_table_find, last_declaration]
  have : fp.labels_raw.reverse.find? (fun l => label == l.name) = none := by
    rw [List.find?_eq_none]
    intro l hl
    have := h l (List.mem_reverse.1 hl)
    simpa using fun e => this e.symm
  rw [this]
  rfl

theorem label_table_find_some (fp : FirstPassState) (l : RawLabel) (hl : l ∈ fp.labels_raw) :
    ∃ a, (label_table fp).find l.name = some a := by
  rw [label_table_find, last_declaration]
  cases hf : fp.labels_raw.reverse.find? (fun x => l.name == x.name) with
  | none =>
    rw [List.find?_eq_none] at hf
    have := hf l (List.mem_reverse.2 hl)
    simp at this
  | some x => exact ⟨_, rfl⟩

theorem parse_ok_items (fc : FloatConversions) (text : List Char) (r : ParseResult)
    (fp : FirstPassState) (h : parse_assembly fc text = .ok r)
    (hfp : first_pass ((std_getline_all '\n' text []).map remove_comments) = .ok fp) :
    r.labels = label_table fp ∧
    ∀ it ∈ fp.items, ∃ p ∈ r.lines,
      parse_item fc r.labels it.content (item_address fp.text_pc it) = .ok p := by
  obtain ⟨fp2, hfp2, hlab, hsp⟩ := two_pass_parse_ok fc _ r h
  rw [hfp] at hfp2
  cases hfp2
  refine ⟨?_, ?_⟩
  · rw [hlab, labels_fold, List.append_nil]
    rfl
  · intro it hit
    have h2 := forall2_mem_left (second_pass_forall2 fc r.labels _ _ hsp)
    have hmem : (it.content, it.in_text,
        if it.in_text then (0 + it.offset) % 2 ^ 32 else (fp.text_pc + it.offset) % 2 ^ 32) ∈
        (fp.items.map (fun it => (it.content, it.in_text,
          if it.in_text then (0 + it.offset) % 2 ^ 32
          else (fp.text_pc + it.offset) % 2 ^ 32))) :=
      List.mem_map.2 ⟨it, hit, rfl⟩
    obtain ⟨p, hp, hR⟩ := h2 _ (by
      rw [List.mem_append, List.mem_filter, List.mem_filter]
      cases hin : it.in_text
      · exact Or.inr ⟨hmem, by simp [hin]⟩
      · exact Or.inl ⟨hmem, by simp [hin]⟩)
    refine ⟨p, hp, ?_⟩
    have e : item_address fp.text_pc it =
        (if it.in_text then (0 + it.offset) % 2 ^ 32 else (fp.text_pc + it.offset) % 2 ^ 32) := by
      unfold item_address
      split <;> rfl
    rw [e]
    exact hR

end Parser

namespace Parser

/-- Claim C30 (as amended). When pass 1 fails the parse fails. Otherwise, if an instruction
item of the program is a `beq`/`bne`/`blez`/`bgtz` whose label operand is declared nowhere
in the source, the item is rejected with the parse error `Unknown label in branch`; if it
is a `j`/`jal` whose operand is declared nowhere and is rejected by the immediate parser,
the item is rejected with that error; in both cases `parse_assembly` fails and produces no
result. Conversely, when the parse succeeds every item was parsed against the complete
label table, which holds an address for every label declared anywhere in the source, before
or after the item. -/
theorem label_references (fc : FloatConversions) (text : List Char) :
    (∀ e, first_pass ((std_getline_all '\n' text []).map remove_comments) = .error e →
      parse_assembly fc text = .error e) ∧
    (∀ fp, first_pass ((std_getline_all '\n' text []).map remove_comments) = .ok fp →
      (∀ it ∈ fp.items, ∀ label, is_directive it.content = false →
        (((instruction_mnemonic it.content = "beq".toList ∨
              instruction_mnemonic it.content = "bne".toList) ∧
            get_operand (instruction_operands it.content) 2 = .ok label ∧
            ∀ l ∈ fp.labels_raw, l.name ≠ label) ∨
          ((instruction_mnemonic it.content = "blez".toList ∨
              instruction_mnemonic it.content = "bgtz".toList) ∧
            get_operand (instruction_operands it.content) 1 = .ok label ∧
            ∀ l ∈ fp.labels_raw, l.name ≠ label) ∨
          ((instruction_mnemonic it.content = "j".toList ∨
              instruction_mnemonic it.content = "jal".toList) ∧
            get_operand (instruction_operands it.content) 0 = .ok label ∧
            (∀ l ∈ fp.labels_raw, l.name ≠ label) ∧
            ∃ e, parse_immediate label (label_table fp) = .error e)) →
        (∃ e, parse_item fc (label_table fp) it.content (item_address fp.text_pc it) =
            .error e ∧
          (instruction_mnemonic it.content ≠ "j".toList →
            instruction_mnemonic it.content ≠ "jal".toList →
            e = .parse_error "Unknown label in branch") ∧
          (∀ e2, parse_immediate label (label_table fp) = .error e2 →
            (instruction_mnemonic it.content = "j".toList ∨
              instruction_mnemonic it.content = "jal".toList) → e = e2)) ∧
        ∃ e, parse_assembly fc text = .error e) ∧
      (∀ r, parse_assembly fc text = .ok r →
        r.labels = label_table fp ∧
        (∀ l ∈ fp.labels_raw, ∃ a, r.labels.find l.name = some a) ∧
        ∀ it ∈ fp.items, ∃ p ∈ r.lines,
          parse_item fc r.labels it.content (item_address fp.text_pc it) = .ok p)) := by
  refine ⟨?_, ?_⟩
  · intro e he
    unfold parse_assembly two_pass_parse
    simp only [he]
  · intro fp hfp
    refine ⟨?_, ?_⟩
    · intro it hit label hnd href
      have href2 : ((instruction_mnemonic it.content = "beq".toList ∨
            instruction_mnemonic it.content = "bne".toList) ∧
          get_operand (instruction_operands it.content) 2 = .ok label ∧
          (label_table fp).find label = none) ∨
        ((instruction_mnemonic it.content = "blez".toList ∨
            instruction_mnemonic it.content = "bgtz".toList) ∧
          get_operand (instruction_operands it.content) 1 = .ok label ∧
          (label_table fp).find label = none) ∨
        ((instruction_mnemonic it.content = "j".toList ∨
            instruction_mnemonic it.content = "jal".toList) ∧
          get_operand (instruction_operands it.content) 0 = .ok label ∧
          (label_table fp).find label = none ∧
          ∃ e, parse_immediate label (label_table fp) = .error e) := by
        rcases href with ⟨a, b, c⟩ | ⟨a, b, c⟩ | ⟨a, b, c, d⟩
        · exact Or.inl ⟨a, b, label_table_find_none fp label c⟩
        · exact Or.inr (Or.inl ⟨a, b, label_table_find_none fp label c⟩)
        · exact Or.inr (Or.inr ⟨a, b, label_table_find_none fp label c, d⟩)
      obtain ⟨e, he, hk1, hk2⟩ := reference_line_fails it.content (label_table fp)
        (item_address fp.text_pc it) label href2
      have hitem : parse_item fc (label_table fp) it.content (item_address fp.text_pc it) =
          .error e := by
        unfold parse_item
        rw [if_neg (by rw [hnd]; decide), he]
        rfl
      refine ⟨⟨e, hitem, hk1, hk2⟩, ?_⟩
      cases hp : parse_assembly fc text with
      | error e2 => exact ⟨e2, rfl⟩
      | ok r =>
        exfalso
        obtain ⟨hlab, hitems⟩ := parse_ok_items fc text r fp hp hfp
        obtain ⟨p, _, hpi⟩ := hitems it hit
        rw [hlab, hitem] at hpi
        cases hpi
    · intro r hr
      obtain ⟨hlab, hitems⟩ := parse_ok_items fc text r fp hr hfp
      refine ⟨hlab, ?_, hitems⟩
      intro l hl
      rw [hlab]
      exact label_table_find_some fp l hl

/-- Witness of claim C30 as amended: `beq $t0, $t1, nowhere` fails to parse, its label
being declared nowhere; in `j end` / `beq $0, $0, end` / `end: trap 5` both forward
references are resolved, to the address 8 of `end`. -/
theorem label_references_witness :
    (∃ e, parse_assembly FloatConversions.none "beq $t0, $t1, nowhere".toList = .error e) ∧
    (parse_assembly FloatConversions.none
        "j end\nbeq $0, $0, end\nend: trap 5".toList).map (fun r => r.lines) =
      .ok [.instruction (.J ⟨2, 2⟩), .instruction (.I ⟨4, 0, 0, 0⟩),
        .instruction (.I ⟨0x1A, 0, 0, 5⟩)] :=
  ⟨(((label_references FloatConversions.none "beq $t0, $t1, nowhere".toList).2
      (first_pass_of "beq $t0, $t1, nowhere".toList) (by decide)).1
      { content := "beq $t0, $t1, nowhere".toList, in_text := true, offset := 0,
        is_directive := false }
      (by decide) "nowhere".toList (by decide)
      (Or.inl ⟨by decide, by decide, by decide⟩)).2,
    by decide⟩

/-- Claim C30, counterexamples. In `main: j main+4` the operand `main+4` is neither a
declared label nor a number (`std::stoul` rejects it), yet the program parses: the
immediate parser reads it as the expression `main` plus 4 and the jump is encoded with
address field 1. The program `j foo+4` fails, but with the conversion error of
`std::stoul`, not with a parse error. -/
theorem jump_expression_operand_parses :
    instruction_operands "j main+4".toList = ["main+4".toList] ∧
    (label_table (first_pass_of "main: j main+4".toList)).find "main+4".toList = none ∧
    std_stoul "main+4".toList 0 = .error .invalid_argument ∧
    (parse_assembly FloatConversions.none "main: j main+4".toList).map (fun r => r.lines) =
      .ok [.instruction (.J ⟨2, 1⟩)] ∧
    (parse_assembly FloatConversions.none "j foo+4".toList).map (fun r => r.lines) =
      .error .invalid_argument := by
  decide

end Parser


/-! ## Whole-program scenarios -/

namespace Executor

theorem run_loop_mono (n : Nat) :
    ∀ (m steps : Nat) (ex : InstructionExecutor) (s : machine_state) (r : RunResult),
      run_loop n steps ex s = .ok r → run_loop (n + m) steps ex s = .ok r := by
  induction n with
  | zero => intro m steps ex s r h; cases h
  | succ n ih =>
    intro m steps ex s r h
    rw [show n + 1 + m = (n + m) + 1 by omega, run_loop_succ]
    rw [run_loop_succ] at h
    cases hi : run_iteration ex s with
    | error e => rw [hi] at h; cases h
    | ok t =>
      obtain ⟨s1, ex1, is_trap⟩ := t
      rw [hi] at h
      simp only at h ⊢
      cases is_trap
      · simp only [Bool.false_eq_true, if_false] at h ⊢
        exact ih m _ ex1 s1 r h
      · simp only [if_true] at h ⊢
        exact h

theorem run_stream_mono (ex : InstructionExecutor) (bytes : List Nat) (n m : Nat)
    (r : RunResult) (h : run_stream ex bytes n = .ok r) :
    run_stream ex bytes (n + m) = .ok r := by
  unfold run_stream at h ⊢
  cases hl : load_image bytes UINT32_MAX with
  | error e => rw [hl] at h; cases h
  | ok s =>
    rw [hl] at h
    exact run_loop_mono n m 0 ex s r h

end Executor

namespace Executor

theorem assemble_then_execute_mono (fc : FloatConversions) (ex : InstructionExecutor)
    (input : List Char) (n m : Nat) (r : RunResult)
    (h : assemble_then_execute fc ex input n = .ok r) :
    assemble_then_execute fc ex input (n + m) = .ok r := by
  unfold assemble_then_execute at h ⊢
  cases ha : Assembler.assemble_stream fc input with
  | error e => rw [ha] at h; cases h
  | ok bytes =>
    rw [ha] at h
    exact run_stream_mono ex bytes n m r h

/-- Claim C34 (as amended). Assembling the multiply scenario and executing the image from
address 0, with any step limit of 5 or more, writes exactly the character `0` to the output
sink: the run ends at the first `trap`, its fifth instruction, which prints HI = 0. -/
theorem mult_scenario_prints_zero (max_steps : Nat) (h : 5 ≤ max_steps) :
    (assemble_then_execute FloatConversions.none no_streams mult_scenario_text max_steps).map
      (fun r => (r.executor.output_stream, r.steps)) = .ok ("0".toList.map Char.toNat, 5) := by
  have h5 : (assemble_then_execute FloatConversions.none no_streams mult_scenario_text 5).map
      (fun r => (r.executor.output_stream, r.steps)) = .ok ("0".toList.map Char.toNat, 5) := by
    decide
  obtain ⟨m, rfl⟩ : ∃ m, max_steps = 5 + m := ⟨max_steps - 5, by omega⟩
  cases hr : assemble_then_execute FloatConversions.none no_streams mult_scenario_text 5 with
  | error e => rw [hr] at h5; cases h5
  | ok r =>
    rw [assemble_then_execute_mono _ _ _ 5 m r hr]
    rw [hr] at h5
    exact h5

theorem mult_scenario_prints_zero_witness :
    (assemble_then_execute FloatConversions.none no_streams mult_scenario_text 1000).map
      (fun r => (r.executor.output_stream, r.steps)) = .ok ([48], 5) :=
  mult_scenario_prints_zero 1000 (by decide)

/-- Claim C34, counterexample. The multiply scenario, assembled and executed from address 0
with a step limit of 100, stops after 5 instructions at PC = 20 having written `0` only,
not `01`: the instructions after the first `trap` are never executed. -/
theorem mult_scenario_does_not_print_01 :
    (assemble_then_execute FloatConversions.none no_streams mult_scenario_text 100).map
      (fun r => (r.executor.output_stream, r.steps, r.state.pc)) = .ok ([48], 5, 20) ∧
    ([48] : List Nat) ≠ "01".toList.map Char.toNat := by
  decide

/-- Claim C36, the code at the failing input `beq $0, $0, L` / `addi $t0, $zero, 1` /
`L: trap 5`. The branch is at `B = 0`, the label `L` at `T = 8`, the assembled immediate is
1 and the condition is true; one iteration of the runtime loop on the assembled image leaves
PC = 4, not 8, and the run executes the `addi` the branch should skip: it ends after 3
instructions with `$t0` = 1. -/
theorem assembled_branch_lands_before_label :
    (Parser.parse_assembly FloatConversions.none branch_over_text).map
      (fun r => (r.labels.find "L".toList, r.lines.head?)) =
      .ok (some 8, some (.instruction (.I ⟨4, 0, 0, 1⟩))) ∧
    Assembler.assemble_stream FloatConversions.none branch_over_text =
      .ok [1, 0, 0, 16, 1, 0, 8, 32, 5, 0, 0, 104] ∧
    (loaded_state [1, 0, 0, 16, 1, 0, 8, 32, 5, 0, 0, 104]).pc = 0 ∧
    (run_iteration no_streams (loaded_state [1, 0, 0, 16, 1, 0, 8, 32, 5, 0, 0, 104])).map
      (fun r => r.1.pc) = .ok 4 ∧
    (assemble_then_execute FloatConversions.none no_streams branch_over_text 100).map
      (fun r => (r.steps, r.state.pc, r.state.get_register 8)) = .ok (3, 12, 1) := by
  decide

end Executor

namespace Parser

/-- Claim C32, the code at the failing input `lw $t0, 0x10($t0)`. The offset text `0x10` is
read by `std::stoi` in base 10, which stops at the `x`: the offset is 0, not 16, and the
assembled immediate is 0. The decimal offsets of the claim are read as claimed, and
`parse_immediate` reads the same text `0x10` as 16. -/
theorem hex_offset_reads_as_zero :
    parse_memory_operand "0x10($t0)".toList = .ok { offset := 0, base_register := 8 } ∧
    parse_instruction "lw $t0, 0x10($t0)".toList [] 0 = .ok (.I ⟨0x23, 8, 8, 0⟩) ∧
    parse_instruction "lw $t0, 16($t0)".toList [] 0 = .ok (.I ⟨0x23, 8, 8, 16⟩) ∧
    parse_memory_operand "-8($t1)".toList = .ok { offset := -8, base_register := 9 } ∧
    parse_memory_operand "($t1)".toList = .ok { offset := 0, base_register := 9 } ∧
    parse_immediate "0x10".toList [] = .ok 16 := by
  decide

end Parser


/-! ## Operand counts -/

namespace Parser

theorem parse_instruction_operands (line : List Char) (labels : LabelMap) (current_pc : Nat)
    (h : instruction_mnemonic line ≠ []) :
    parse_instruction line labels current_pc =
      parse_operands (instruction_mnemonic line) (instruction_operands line) labels
        current_pc :=
  parse_instruction_eq line labels current_pc h

theorem shape_cases (m : List Char) (lo hi : Nat) (hs : (m, lo, hi) ∈ operand_shapes) :
    m ≠ [] ∧ lo ≤ hi ∧ hi ≤ 3 := by
  simp only [operand_shapes, List.mem_cons, Prod.mk.injEq, List.mem_singleton,
    List.not_mem_nil, or_false] at hs
  rcases hs with ⟨hm, rfl, rfl⟩ | ⟨hm, rfl, rfl⟩ | ⟨hm, rfl, rfl⟩ | ⟨hm, rfl, rfl⟩ | ⟨hm, rfl, rfl⟩ | ⟨hm, rfl, rfl⟩ | ⟨hm, rfl, rfl⟩ | ⟨hm, rfl, rfl⟩ | ⟨hm, rfl, rfl⟩ | ⟨hm, rfl, rfl⟩ | ⟨hm, rfl, rfl⟩ | ⟨hm, rfl, rfl⟩ | ⟨hm, rfl, rfl⟩ | ⟨hm, rfl, rfl⟩ | ⟨hm, rfl, rfl⟩ | ⟨hm, rfl, rfl⟩ | ⟨hm, rfl, rfl⟩ | ⟨hm, rfl, rfl⟩ | ⟨hm, rfl, rfl⟩ | ⟨hm, rfl, rfl⟩ | ⟨hm, rfl, rfl⟩ | ⟨hm, rfl, rfl⟩ | ⟨hm, rfl, rfl⟩ | ⟨hm, rfl, rfl⟩ | ⟨hm, rfl, rfl⟩ | ⟨hm, rfl, rfl⟩ | ⟨hm, rfl, rfl⟩ | ⟨hm, rfl, rfl⟩ | ⟨hm, rfl, rfl⟩ | ⟨hm, rfl, rfl⟩ | ⟨hm, rfl, rfl⟩ | ⟨hm, rfl, rfl⟩ | ⟨hm, rfl, rfl⟩ | ⟨hm, rfl, rfl⟩ | ⟨hm, rfl, rfl⟩ | ⟨hm, rfl, rfl⟩ | ⟨hm, rfl, rfl⟩ | ⟨hm, rfl, rfl⟩ | ⟨hm, rfl, rfl⟩ | ⟨hm, rfl, rfl⟩ | ⟨hm, rfl, rfl⟩ | ⟨hm, rfl, rfl⟩ | ⟨hm, rfl, rfl⟩ | ⟨hm, rfl, rfl⟩ | ⟨hm, rfl, rfl⟩ | ⟨hm, rfl, rfl⟩ | ⟨hm, rfl, rfl⟩ | ⟨hm, rfl, rfl⟩ | ⟨hm, rfl, rfl⟩ | ⟨hm, rfl, rfl⟩ <;>
    (subst hm; exact ⟨by decide, by decide, by decide⟩)

theorem too_few_operands_fail (m : List Char) (ops : List (List Char)) (labels : LabelMap)
    (pc lo hi : Nat) (hs : (m, lo, hi) ∈ operand_shapes) (hlen : ops.length < lo) :
    ∃ msg, parse_operands m ops labels pc = .error (.parse_error msg) := by
  simp only [operand_shapes, List.mem_cons, Prod.mk.injEq, List.mem_singleton,
    List.not_mem_nil, or_false] at hs
  rcases hs with ⟨hm, rfl, rfl⟩ | ⟨hm, rfl, rfl⟩ | ⟨hm, rfl, rfl⟩ | ⟨hm, rfl, rfl⟩ | ⟨hm, rfl, rfl⟩ | ⟨hm, rfl, rfl⟩ | ⟨hm, rfl, rfl⟩ | ⟨hm, rfl, rfl⟩ | ⟨hm, rfl, rfl⟩ | ⟨hm, rfl, rfl⟩ | ⟨hm, rfl, rfl⟩ | ⟨hm, rfl, rfl⟩ | ⟨hm, rfl, rfl⟩ | ⟨hm, rfl, rfl⟩ | ⟨hm, rfl, rfl⟩ | ⟨hm, rfl, rfl⟩ | ⟨hm, rfl, rfl⟩ | ⟨hm, rfl, rfl⟩ | ⟨hm, rfl, rfl⟩ | ⟨hm, rfl, rfl⟩ | ⟨hm, rfl, rfl⟩ | ⟨hm, rfl, rfl⟩ | ⟨hm, rfl, rfl⟩ | ⟨hm, rfl, rfl⟩ | ⟨hm, rfl, rfl⟩ | ⟨hm, rfl, rfl⟩ | ⟨hm, rfl, rfl⟩ | ⟨hm, rfl, rfl⟩ | ⟨hm, rfl, rfl⟩ | ⟨hm, rfl, rfl⟩ | ⟨hm, rfl, rfl⟩ | ⟨hm, rfl, rfl⟩ | ⟨hm, rfl, rfl⟩ | ⟨hm, rfl, rfl⟩ | ⟨hm, rfl, rfl⟩ | ⟨hm, rfl, rfl⟩ | ⟨hm, rfl, rfl⟩ | ⟨hm, rfl, rfl⟩ | ⟨hm, rfl, rfl⟩ | ⟨hm, rfl, rfl⟩ | ⟨hm, rfl, rfl⟩ | ⟨hm, rfl, rfl⟩ | ⟨hm, rfl, rfl⟩ | ⟨hm, rfl, rfl⟩ | ⟨hm, rfl, rfl⟩ | ⟨hm, rfl, rfl⟩ | ⟨hm, rfl, rfl⟩ | ⟨hm, rfl, rfl⟩ | ⟨hm, rfl, rfl⟩ | ⟨hm, rfl, rfl⟩ <;>
    (subst hm
     rcases ops with _ | ⟨a, _ | ⟨b, _ | ⟨c, t⟩⟩⟩ <;>
       first
       | exact ⟨_, rfl⟩
       | (exfalso; simp at hlen; done)
       | (exfalso; simp at hlen; omega))

theorem extra_operands_ignored (m : List Char) (ops : List (List Char)) (labels : LabelMap)
    (pc lo hi : Nat) (hs : (m, lo, hi) ∈ operand_shapes) :
    parse_operands m ops labels pc = parse_operands m (ops.take hi) labels pc := by
  simp only [operand_shapes, List.mem_cons, Prod.mk.injEq, List.mem_singleton,
    List.not_mem_nil, or_false] at hs
  rcases hs with ⟨hm, rfl, rfl⟩ | ⟨hm, rfl, rfl⟩ | ⟨hm, rfl, rfl⟩ | ⟨hm, rfl, rfl⟩ | ⟨hm, rfl, rfl⟩ | ⟨hm, rfl, rfl⟩ | ⟨hm, rfl, rfl⟩ | ⟨hm, rfl, rfl⟩ | ⟨hm, rfl, rfl⟩ | ⟨hm, rfl, rfl⟩ | ⟨hm, rfl, rfl⟩ | ⟨hm, rfl, rfl⟩ | ⟨hm, rfl, rfl⟩ | ⟨hm, rfl, rfl⟩ | ⟨hm, rfl, rfl⟩ | ⟨hm, rfl, rfl⟩ | ⟨hm, rfl, rfl⟩ | ⟨hm, rfl, rfl⟩ | ⟨hm, rfl, rfl⟩ | ⟨hm, rfl, rfl⟩ | ⟨hm, rfl, rfl⟩ | ⟨hm, rfl, rfl⟩ | ⟨hm, rfl, rfl⟩ | ⟨hm, rfl, rfl⟩ | ⟨hm, rfl, rfl⟩ | ⟨hm, rfl, rfl⟩ | ⟨hm, rfl, rfl⟩ | ⟨hm, rfl, rfl⟩ | ⟨hm, rfl, rfl⟩ | ⟨hm, rfl, rfl⟩ | ⟨hm, rfl, rfl⟩ | ⟨hm, rfl, rfl⟩ | ⟨hm, rfl, rfl⟩ | ⟨hm, rfl, rfl⟩ | ⟨hm, rfl, rfl⟩ | ⟨hm, rfl, rfl⟩ | ⟨hm, rfl, rfl⟩ | ⟨hm, rfl, rfl⟩ | ⟨hm, rfl, rfl⟩ | ⟨hm, rfl, rfl⟩ | ⟨hm, rfl, rfl⟩ | ⟨hm, rfl, rfl⟩ | ⟨hm, rfl, rfl⟩ | ⟨hm, rfl, rfl⟩ | ⟨hm, rfl, rfl⟩ | ⟨hm, rfl, rfl⟩ | ⟨hm, rfl, rfl⟩ | ⟨hm, rfl, rfl⟩ | ⟨hm, rfl, rfl⟩ | ⟨hm, rfl, rfl⟩ <;>
    (subst hm
     rcases ops with _ | ⟨a, _ | ⟨b, _ | ⟨c, t⟩⟩⟩ <;> rfl)

/-- Claim C31 (as amended). For an instruction line whose mnemonic has an operand shape in
the specification: when the line has fewer comma-separated operands than the shape requires,
parsing fails with a parse error; operands beyond those of the shape are ignored, the line
is parsed as if it ended after the last operand of the shape. -/
theorem operand_count (line : List Char) (labels : LabelMap) (pc lo hi : Nat)
    (hs : (instruction_mnemonic line, lo, hi) ∈ operand_shapes) :
    ((instruction_operands line).length < lo →
      ∃ msg, parse_instruction line labels pc = .error (.parse_error msg)) ∧
    parse_instruction line labels pc =
      parse_operands (instruction_mnemonic line) ((instruction_operands line).take hi)
        labels pc := by
  have hne := (shape_cases _ lo hi hs).1
  rw [parse_instruction_operands line labels pc hne]
  exact ⟨too_few_operands_fail _ _ labels pc lo hi hs,
    extra_operands_ignored _ _ labels pc lo hi hs⟩

/-- Witness of claim C31 as amended: `add $t0, $t1` lacks an operand and is rejected;
`add $t0, $t1, $t2, $t3` is parsed from its first three operands. -/
theorem operand_count_witness :
    (∃ msg, parse_instruction "add $t0, $t1".toList [] 0 = .error (.parse_error msg)) ∧
    parse_instruction "add $t0, $t1, $t2, $t3".toList [] 0 =
      parse_operands "add".toList ["$t0".toList, "$t1".toList, "$t2".toList] [] 0 :=
  ⟨(operand_count "add $t0, $t1".toList [] 0 3 3 (by decide)).1 (by decide),
    (operand_count "add $t0, $t1, $t2, $t3".toList [] 0 3 3 (by decide)).2⟩

/-- Claim C31, counterexample. The line `add $t0, $t1, $t2, $t3` has four operands where
the shape of `add` has three, yet it parses, to `add $t0, $t1, $t2`; likewise `trap 1, 2`
and `j 4, 8` parse. -/
theorem extra_operand_is_accepted :
    (instruction_operands "add $t0, $t1, $t2, $t3".toList).length = 4 ∧
    ("add".toList, 3, 3) ∈ operand_shapes ∧
    parse_instruction "add $t0, $t1, $t2, $t3".toList [] 0 = .ok (.R ⟨0, 9, 10, 8, 0, 0x20⟩) ∧
    parse_instruction "trap 1, 2".toList [] 0 = .ok (.I ⟨0x1A, 0, 0, 1⟩) ∧
    parse_instruction "j 4, 8".toList [] 0 = .ok (.J ⟨2, 1⟩) := by
  decide

end Parser


/-! ## Register instructions -/

namespace Parser

open InstructionUtils

theorem parse_operands_R (m : List Char) (ops : List (List Char)) (labels : LabelMap)
    (pc f : Nat) (hfi : find_instruction m = some (0, f)) :
    parse_operands m ops labels pc = (parse_r_instruction m ops).map Instruction.R := by
  unfold parse_operands detect_instruction_format
  rw [hfi]
  rfl

theorem parse_r_default (m : List Char) (f : Nat) (o0 o1 o2 : List Char) (rd rs rt : Nat)
    (hfi : find_instruction m = some (0, f))
    (h1 : ¬(m = "sll".toList ∨ m = "srl".toList ∨ m = "sra".toList))
    (h2 : ¬(m = "sllv".toList ∨ m = "srlv".toList ∨ m = "srav".toList))
    (h3 : ¬m = "jr".toList) (h4 : ¬m = "jalr".toList)
    (h5 : ¬(m = "mfhi".toList ∨ m = "mflo".toList))
    (h6 : ¬(m = "mthi".toList ∨ m = "mtlo".toList))
    (h7 : ¬(m = "mult".toList ∨ m = "multu".toList ∨ m = "div".toList ∨ m = "divu".toList))
    (hd : parse_register o0 = .ok rd) (hs : parse_register o1 = .ok rs)
    (ht : parse_register o2 = .ok rt) :
    parse_r_instruction m [o0, o1, o2] = .ok ⟨0, rs, rt, rd, 0, f⟩ := by
  unfold parse_r_instruction
  rw [hfi]
  simp only [h1, h2, h3, h4, h5, h6, h7, if_false]
  simp only [get_operand, List.get?, bind, Except.bind, hd, hs, ht, pure, Except.pure,
    RInstruction.make]

theorem parse_r_shift (m : List Char) (f : Nat) (o0 o1 o2 : List Char) (rd rt v : Nat)
    (hfi : find_instruction m = some (0, f))
    (h1 : m = "sll".toList ∨ m = "srl".toList ∨ m = "sra".toList)
    (hd : parse_register o0 = .ok rd) (ht : parse_register o1 = .ok rt)
    (hv : std_stoul o2 0 = .ok v) :
    parse_r_instruction m [o0, o1, o2] = .ok ⟨0, 0, rt, rd, v % 32, f⟩ := by
  unfold parse_r_instruction
  rw [hfi]
  simp only [h1, if_true]
  simp only [get_operand, List.get?, bind, Except.bind, hd, ht, hv, pure, Except.pure,
    RInstruction.make, and_0x1F]

/-- Claim C33. An instruction line whose operands are `o0, o1, o2`: for a 3-register
mnemonic with `o0`, `o1`, `o2` naming the registers rd, rs, rt it parses to the R-form
instruction with those rs, rt, rd, shamt 0 and the function code of the mnemonic in the
instruction table, which is the code the executor dispatches under that name; for `sll`,
`srl`, `sra` with `o0`, `o1` naming rd, rt and `o2` a number it parses to rs = 0, that rt
and rd, and shamt the number modulo 32. -/
theorem three_register_lines (line : List Char) (labels : LabelMap) (pc : Nat)
    (o0 o1 o2 : List Char) (rd : Nat) (hops : instruction_operands line = [o0, o1, o2])
    (hd : parse_register o0 = .ok rd) :
    (∀ rs rt, parse_register o1 = .ok rs → parse_register o2 = .ok rt →
      instruction_mnemonic line ∈ ["add".toList, "addu".toList, "sub".toList, "subu".toList,
        "and".toList, "or".toList, "xor".toList, "nor".toList, "slt".toList, "sltu".toList] →
      ∃ f, find_instruction (instruction_mnemonic line) = some (0, f) ∧
        parse_instruction line labels pc = .ok (.R ⟨0, rs, rt, rd, 0, f⟩) ∧
        (get_name (.R ⟨0, rs, rt, rd, 0, f⟩)).toList = instruction_mnemonic line) ∧
    (∀ rt v, parse_register o1 = .ok rt → std_stoul o2 0 = .ok v →
      instruction_mnemonic line ∈ ["sll".toList, "srl".toList, "sra".toList] →
      ∃ f, find_instruction (instruction_mnemonic line) = some (0, f) ∧
        parse_instruction line labels pc = .ok (.R ⟨0, 0, rt, rd, v % 32, f⟩) ∧
        (get_name (.R ⟨0, 0, rt, rd, v % 32, f⟩)).toList = instruction_mnemonic line) := by
  refine ⟨?_, ?_⟩
  · intro rs rt hs ht hm
    simp only [List.mem_cons, List.mem_singleton, List.not_mem_nil, or_false] at hm
    rw [parse_instruction_operands line labels pc (by
      rcases hm with h | h | h | h | h | h | h | h | h | h <;> rw [h] <;> decide), hops]
    rcases hm with h | h | h | h | h | h | h | h | h | h <;> rw [h] <;>
      refine ⟨_, rfl, ?_, rfl⟩ <;>
      exact (parse_operands_R _ _ _ _ _ (by rfl)).trans
        (congrArg (Except.map Instruction.R)
          (parse_r_default _ _ o0 o1 o2 rd rs rt (by rfl) (by decide) (by decide) (by decide)
            (by decide) (by decide) (by decide) (by decide) hd hs ht))
  · intro rt v ht hv hm
    simp only [List.mem_cons, List.mem_singleton, List.not_mem_nil, or_false] at hm
    rw [parse_instruction_operands line labels pc (by
      rcases hm with h | h | h <;> rw [h] <;> decide), hops]
    rcases hm with h | h | h <;> rw [h] <;>
      refine ⟨_, rfl, ?_, rfl⟩ <;>
      exact (parse_operands_R _ _ _ _ _ (by rfl)).trans
        (congrArg (Except.map Instruction.R)
          (parse_r_shift _ _ o0 o1 o2 rd rt v (by rfl) (by decide) hd ht hv))

/-- Witness of claim C33: `add $t0, $t1, $t2` gives rs = 9, rt = 10, rd = 8 and function
code 0x20; `sll $t0, $t1, 33` gives rs = 0, rt = 9, rd = 8 and shamt 1. -/
theorem three_register_lines_witness :
    parse_instruction "add $t0, $t1, $t2".toList [] 0 = .ok (.R ⟨0, 9, 10, 8, 0, 0x20⟩) ∧
    parse_instruction "sll $t0, $t1, 33".toList [] 0 = .ok (.R ⟨0, 0, 9, 8, 1, 0x00⟩) := by
  obtain ⟨f, hf, hp, _⟩ := (three_register_lines "add $t0, $t1, $t2".toList [] 0
    "$t0".toList "$t1".toList "$t2".toList 8 (by decide) (by decide)).1 9 10
    (by decide) (by decide) (by decide)
  have hf2 : f = 0x20 := by
    have h2 : find_instruction "add".toList = some (0, 0x20) := by decide
    have e : instruction_mnemonic "add $t0, $t1, $t2".toList = "add".toList := by decide
    rw [e, h2] at hf
    cases hf
    rfl
  subst hf2
  exact ⟨hp, by decide⟩

end Parser

namespace InstructionExecutor
open InstructionUtils

/-- The form `decode` gives a 32-bit word, by its top six bits. -/
theorem decode_form (w : Nat) (hw : w < 2 ^ 32) :
    decode w =
      if w >>> 26 = 0 then
        .R ⟨0, w >>> 21 &&& 0x1F, w >>> 16 &&& 0x1F, w >>> 11 &&& 0x1F, w >>> 6 &&& 0x1F,
          w &&& 0x3F⟩
      else if w >>> 26 = 2 ∨ w >>> 26 = 3 then .J ⟨w >>> 26, w &&& 0x3FFFFFF⟩
      else .I ⟨w >>> 26, w >>> 21 &&& 0x1F, w >>> 16 &&& 0x1F, w &&& 0xFFFF⟩ := by
  have h : (w >>> 26) &&& 0x3F = w >>> 26 := by
    rw [and_0x3F, Nat.shiftRight_eq_div_pow]
    omega
  simp only [decode, decode_r_type, decode_i_type, decode_j_type, RInstruction.make,
    IInstruction.make, JInstruction.make, h, Nat.and_assoc, Nat.and_self]

end InstructionExecutor

namespace InstructionUtils

/-- Claim C39. For every 32-bit word `w`, `encode (decode w)` is `w`: decoding loses no bit
of any word, whether or not the word is a defined instruction. -/
theorem encode_decode_word (w : Nat) (hw : w < 2 ^ 32) : encode (decode w) = w := by
  rw [InstructionExecutor.decode_form w hw]
  have hop : w >>> 26 = w / 2 ^ 26 := Nat.shiftRight_eq_div_pow w 26
  by_cases h0 : w >>> 26 = 0
  · rw [if_pos h0]
    simp only [encode, encode_r_type, Nat.shiftLeft_eq, Nat.zero_mul, Nat.zero_mod,
      Nat.zero_or, and_0x1F, and_0x3F, Nat.shiftRight_eq_div_pow]
    have m21 : w / 2 ^ 21 % 32 * 2 ^ 21 % 2 ^ 32 = w / 2 ^ 21 % 32 * 2 ^ 21 :=
      Nat.mod_eq_of_lt (by omega)
    have m16 : w / 2 ^ 16 % 32 * 2 ^ 16 % 2 ^ 32 = w / 2 ^ 16 % 32 * 2 ^ 16 :=
      Nat.mod_eq_of_lt (by omega)
    have m11 : w / 2 ^ 11 % 32 * 2 ^ 11 % 2 ^ 32 = w / 2 ^ 11 % 32 * 2 ^ 11 :=
      Nat.mod_eq_of_lt (by omega)
    have m6 : w / 2 ^ 6 % 32 * 2 ^ 6 % 2 ^ 32 = w / 2 ^ 6 % 32 * 2 ^ 6 :=
      Nat.mod_eq_of_lt (by omega)
    rw [m21, m16, m11, m6]
    have e1 : w / 2 ^ 21 % 32 * 2 ^ 21 ||| w / 2 ^ 16 % 32 * 2 ^ 16 =
        w / 2 ^ 21 % 32 * 2 ^ 21 + w / 2 ^ 16 % 32 * 2 ^ 16 :=
      lor_of_dvd_of_lt _ _ 21 (by omega) (by omega)
    have e2 : (w / 2 ^ 21 % 32 * 2 ^ 21 + w / 2 ^ 16 % 32 * 2 ^ 16) ||| w / 2 ^ 11 % 32 * 2 ^ 11 =
        w / 2 ^ 21 % 32 * 2 ^ 21 + w / 2 ^ 16 % 32 * 2 ^ 16 + w / 2 ^ 11 % 32 * 2 ^ 11 :=
      lor_of_dvd_of_lt _ _ 16 (by omega) (by omega)
    have e3 : (w / 2 ^ 21 % 32 * 2 ^ 21 + w / 2 ^ 16 % 32 * 2 ^ 16 + w / 2 ^ 11 % 32 * 2 ^ 11) |||
          w / 2 ^ 6 % 32 * 2 ^ 6 =
        w / 2 ^ 21 % 32 * 2 ^ 21 + w / 2 ^ 16 % 32 * 2 ^ 16 + w / 2 ^ 11 % 32 * 2 ^ 11 +
          w / 2 ^ 6 % 32 * 2 ^ 6 :=
      lor_of_dvd_of_lt _ _ 11 (by omega) (by omega)
    have e4 : (w / 2 ^ 21 % 32 * 2 ^ 21 + w / 2 ^ 16 % 32 * 2 ^ 16 + w / 2 ^ 11 % 32 * 2 ^ 11 +
          w / 2 ^ 6 % 32 * 2 ^ 6) ||| w % 64 =
        w / 2 ^ 21 % 32 * 2 ^ 21 + w / 2 ^ 16 % 32 * 2 ^ 16 + w / 2 ^ 11 % 32 * 2 ^ 11 +
          w / 2 ^ 6 % 32 * 2 ^ 6 + w % 64 :=
      lor_of_dvd_of_lt _ _ 6 (by omega) (by omega)
    rw [e1, e2, e3, e4]
    omega
  · rw [if_neg h0]
    by_cases h23 : w >>> 26 = 2 ∨ w >>> 26 = 3
    · rw [if_pos h23]
      simp only [encode, encode_j_type, Nat.shiftLeft_eq, and_0x3FFFFFF,
        Nat.shiftRight_eq_div_pow]
      have m26 : w / 2 ^ 26 * 2 ^ 26 % 2 ^ 32 = w / 2 ^ 26 * 2 ^ 26 :=
        Nat.mod_eq_of_lt (by omega)
      rw [m26, lor_of_dvd_of_lt _ _ 26 (by omega) (by omega)]
      omega
    · rw [if_neg h23]
      simp only [encode, encode_i_type, Nat.shiftLeft_eq, and_0x1F, and_0xFFFF,
        Nat.shiftRight_eq_div_pow]
      have m26 : w / 2 ^ 26 * 2 ^ 26 % 2 ^ 32 = w / 2 ^ 26 * 2 ^ 26 :=
        Nat.mod_eq_of_lt (by omega)
      have m21 : w / 2 ^ 21 % 32 * 2 ^ 21 % 2 ^ 32 = w / 2 ^ 21 % 32 * 2 ^ 21 :=
        Nat.mod_eq_of_lt (by omega)
      have m16 : w / 2 ^ 16 % 32 * 2 ^ 16 % 2 ^ 32 = w / 2 ^ 16 % 32 * 2 ^ 16 :=
        Nat.mod_eq_of_lt (by omega)
      rw [m26, m21, m16]
      have e1 : w / 2 ^ 26 * 2 ^ 26 ||| w / 2 ^ 21 % 32 * 2 ^ 21 =
          w / 2 ^ 26 * 2 ^ 26 + w / 2 ^ 21 % 32 * 2 ^ 21 :=
        lor_of_dvd_of_lt _ _ 26 (by omega) (by omega)
      have e2 : (w / 2 ^ 26 * 2 ^ 26 + w / 2 ^ 21 % 32 * 2 ^ 21) ||| w / 2 ^ 16 % 32 * 2 ^ 16 =
          w / 2 ^ 26 * 2 ^ 26 + w / 2 ^ 21 % 32 * 2 ^ 21 + w / 2 ^ 16 % 32 * 2 ^ 16 :=
        lor_of_dvd_of_lt _ _ 21 (by omega) (by omega)
      have e3 : (w / 2 ^ 26 * 2 ^ 26 + w / 2 ^ 21 % 32 * 2 ^ 21 + w / 2 ^ 16 % 32 * 2 ^ 16) |||
            w % 65536 =
          w / 2 ^ 26 * 2 ^ 26 + w / 2 ^ 21 % 32 * 2 ^ 21 + w / 2 ^ 16 % 32 * 2 ^ 16 +
            w % 65536 :=
        lor_of_dvd_of_lt _ _ 16 (by omega) (by omega)
      rw [e1, e2, e3]
      omega

/-- Witness of claim C39 at `0xFFFFFFFF`, a word that is not a defined instruction, and at
`0x0000003F`, opcode 0 with an undefined function code. -/
theorem encode_decode_word_witness :
    (0xFFFFFFFF < 2 ^ 32 ∧ encode (decode 0xFFFFFFFF) = 0xFFFFFFFF) ∧
    (0x0000003F < 2 ^ 32 ∧ encode (decode 0x0000003F) = 0x0000003F) :=
  ⟨⟨by decide, encode_decode_word 0xFFFFFFFF (by decide)⟩,
    ⟨by decide, encode_decode_word 0x0000003F (by decide)⟩⟩

end InstructionUtils

namespace Parser
open InstructionUtils machine_state

theorem encode_lt (i : Instruction) (h : i.typed) : encode i < 2 ^ 32 := by
  cases i with
  | R r =>
    obtain ⟨_, _, _, _, _, hf⟩ := h
    have hf32 : r.funct < 2 ^ 32 := by omega
    simp only [encode, encode_r_type]
    exact Nat.or_lt_two_pow (Nat.or_lt_two_pow (Nat.or_lt_two_pow (Nat.or_lt_two_pow
      (Nat.or_lt_two_pow (Nat.mod_lt _ (by decide)) (Nat.mod_lt _ (by decide)))
      (Nat.mod_lt _ (by decide))) (Nat.mod_lt _ (by decide))) (Nat.mod_lt _ (by decide))) hf32
  | I r =>
    obtain ⟨_, _, _, hi⟩ := h
    have hi32 : r.immediate < 2 ^ 32 := by omega
    simp only [encode, encode_i_type]
    exact Nat.or_lt_two_pow (Nat.or_lt_two_pow (Nat.or_lt_two_pow (Nat.mod_lt _ (by decide))
      (Nat.mod_lt _ (by decide))) (Nat.mod_lt _ (by decide))) hi32
  | J r =>
    simp only [encode, encode_j_type]
    refine Nat.or_lt_two_pow (Nat.mod_lt _ (by decide)) ?_
    rw [and_0x3FFFFFF]
    omega

theorem foldl_emit_instructions (instrs : List Instruction) (b : List Nat) :
    (instrs.map ParsedLine.instruction).foldl emit_line b =
      b ++ (instrs.map (fun i => le_bytes32 (encode i))).flatten := by
  induction instrs generalizing b with
  | nil => simp
  | cons i rest ih =>
    simp only [List.map_cons, List.foldl_cons, List.flatten_cons, emit_line]
    rw [ih, List.append_assoc]

theorem words_length (instrs : List Instruction) :
    ((instrs.map (fun i => le_bytes32 (encode i))).flatten).length = 4 * instrs.length := by
  induction instrs with
  | nil => rfl
  | cons i rest ih =>
    rw [List.map_cons, List.flatten_cons, List.length_append, ih]
    have hlen : (le_bytes32 (encode i)).length = 4 := rfl
    rw [hlen, List.length_cons]
    omega

theorem words_getD (instrs : List Instruction) (k : Nat) (hk : k < instrs.length) (j : Nat)
    (hj : j < 4) :
    ((instrs.map (fun i => le_bytes32 (encode i))).flatten).getD (4 * k + j) 0 =
      (le_bytes32 (encode instrs[k])).getD j 0 := by
  induction instrs generalizing k with
  | nil => simp at hk
  | cons i rest ih =>
    simp only [List.map_cons, List.flatten_cons]
    cases k with
    | zero =>
      rw [List.getD_append _ _ _ _ (by simpa [le_bytes32] using hj), Nat.mul_zero,
        Nat.zero_add]
      rfl
    | succ k =>
      have hlen : (le_bytes32 (encode i)).length = 4 := rfl
      rw [List.getD_append_right _ _ _ _ (by rw [hlen]; omega), hlen]
      have e : 4 * (k + 1) + j - 4 = 4 * k + j := by omega
      rw [e]
      exact ih k (by simpa using hk)

/-- Claim C38. For every `ParseResult` whose lines are the instructions `i_0 .. i_(n-1)`
only, with fields of their C++ types, `load_memory 0 (generate_binary result)` into a memory
of at least `4 n` bytes succeeds, and afterwards `read_memory32 (4 k)` is `encode i_k` for
every `k < n` whose address `4 k` is a `uint32_t`, the type of the argument; decoding the
word read gives `i_k` back whenever `i_k` is well-formed. -/
theorem fetch_recovers_instruction (s : machine_state) (instrs : List Instruction)
    (result : ParseResult) (hl : result.lines = instrs.map ParsedLine.instruction)
    (hty : ∀ i ∈ instrs, i.typed) (hm : 4 * instrs.length ≤ s.memory_size) :
    ∃ s1, s.load_memory 0 (generate_binary result) = .ok s1 ∧
      ∀ (k : Nat) (hk : k < instrs.length), 4 * k < 2 ^ 32 →
        s1.read_memory32 (4 * k) = .ok (encode instrs[k]) ∧
        (instrs[k].well_formed → (s1.read_memory32 (4 * k)).map decode = .ok instrs[k]) := by
  have hg : generate_binary result =
      (instrs.map (fun i => le_bytes32 (encode i))).flatten := by
    unfold generate_binary
    rw [hl, foldl_emit_instructions]
    rfl
  have hlen := words_length instrs
  rw [hg]
  have hload : ∃ s1, s.load_memory 0 (instrs.map (fun i => le_bytes32 (encode i))).flatten =
      .ok s1 ∧ s1.memory_size = s.memory_size ∧
      ∀ a, a < 4 * instrs.length →
        s1.memory a = (instrs.map (fun i => le_bytes32 (encode i))).flatten.getD a 0 := by
    unfold load_memory
    rw [if_neg (by simp [is_valid_address, hlen, hm])]
    exact ⟨_, rfl, rfl, fun a ha => by simp [hlen, ha]⟩
  obtain ⟨s1, hs1, hsize, hmem⟩ := hload
  refine ⟨s1, hs1, ?_⟩
  intro k hk ha
  have hr : s1.read_memory32 (4 * k) = .ok (encode instrs[k]) := by
    have h0 := words_getD instrs k hk 0 (by decide)
    have h1 := words_getD instrs k hk 1 (by decide)
    have h2 := words_getD instrs k hk 2 (by decide)
    have h3 := words_getD instrs k hk 3 (by decide)
    have hv : 4 * k + 4 ≤ s1.memory_size := by omega
    have e1 : (4 * k + 1) % 2 ^ 32 = 4 * k + 1 := Nat.mod_eq_of_lt (by omega)
    have e2 : (4 * k + 2) % 2 ^ 32 = 4 * k + 2 := Nat.mod_eq_of_lt (by omega)
    have e3 : (4 * k + 3) % 2 ^ 32 = 4 * k + 3 := Nat.mod_eq_of_lt (by omega)
    simp only [read_memory32, is_valid_address, hv, decide_True, Bool.not_true,
      Bool.false_eq_true, if_false, e1, e2, e3]
    rw [hmem _ (by omega), hmem _ (by omega), hmem _ (by omega), hmem _ (by omega)]
    rw [Nat.add_zero] at h0
    rw [h0, h1, h2, h3]
    exact congrArg Except.ok (compose32 _ (encode_lt _ (hty _ (List.getElem_mem hk))))
  refine ⟨hr, fun hwf => ?_⟩
  rw [hr]
  exact congrArg Except.ok (decode_of_encode _ hwf)

theorem add_then_trap_typed : ∀ i ∈ add_then_trap, i.typed := by
  intro i hi
  simp only [add_then_trap, List.mem_cons, List.mem_singleton, List.not_mem_nil, or_false] at hi
  rcases hi with rfl | rfl <;> simp [Instruction.typed]

/-- Witness of claim C38 for the two instructions `add $t0, $t1, $t2` and `trap 5` loaded
into a 16-byte memory. -/
theorem fetch_recovers_instruction_witness :
    add_then_trap_result.lines = add_then_trap.map ParsedLine.instruction ∧
    (∀ i ∈ add_then_trap, i.typed) ∧
    4 * add_then_trap.length ≤ (machine_state.init 16).memory_size ∧
    ∃ s1, (machine_state.init 16).load_memory 0 (generate_binary add_then_trap_result) =
        .ok s1 ∧
      ∀ (k : Nat) (hk : k < add_then_trap.length), 4 * k < 2 ^ 32 →
        s1.read_memory32 (4 * k) = .ok (encode add_then_trap[k]) ∧
        (add_then_trap[k].well_formed →
          (s1.read_memory32 (4 * k)).map decode = .ok add_then_trap[k]) :=
  ⟨rfl, add_then_trap_typed, by decide,
    fetch_recovers_instruction (machine_state.init 16) add_then_trap add_then_trap_result rfl
      add_then_trap_typed (by decide)⟩

end Parser

namespace machine_state

theorem low_get_register (s : machine_state) (r : Nat) (h : r < 32) :
    s.low_registers.get_register r = s.get_register r := by
  simp [get_register, low_registers, h]

theorem low_set_register (s : machine_state) (r v : Nat) (h : r < 32) :
    s.low_registers.set_register r v = (s.set_register r v).low_registers := by
  unfold set_register
  split
  · rfl
  · simp only [low_registers]
    congr 1
    funext x
    by_cases hx : x = r
    · simp [hx, h]
    · simp [hx]

theorem low_set_pc (s : machine_state) (v : Nat) :
    s.low_registers.set_pc v = (s.set_pc v).low_registers := rfl

theorem low_set_hi (s : machine_state) (v : Nat) :
    s.low_registers.set_hi v = (s.set_hi v).low_registers := rfl

theorem low_set_lo (s : machine_state) (v : Nat) :
    s.low_registers.set_lo v = (s.set_lo v).low_registers := rfl

theorem low_get_pc (s : machine_state) : s.low_registers.get_pc = s.get_pc := rfl

theorem low_get_hi (s : machine_state) : s.low_registers.get_hi = s.get_hi := rfl

theorem low_get_lo (s : machine_state) : s.low_registers.get_lo = s.get_lo := rfl

theorem low_read_memory8 (s : machine_state) (a : Nat) :
    s.low_registers.read_memory8 a = s.read_memory8 a := rfl

theorem low_read_memory16 (s : machine_state) (a : Nat) :
    s.low_registers.read_memory16 a = s.read_memory16 a := rfl

theorem low_read_memory32 (s : machine_state) (a : Nat) :
    s.low_registers.read_memory32 a = s.read_memory32 a := rfl

theorem low_write_memory8 (s : machine_state) (a v : Nat) :
    s.low_registers.write_memory8 a v = (s.write_memory8 a v).map low_registers := by
  unfold write_memory8
  by_cases h : s.is_valid_address a 1 = true
  · have h1 : s.low_registers.is_valid_address a 1 = true := h
    simp only [h, h1, Bool.not_true, Bool.false_eq_true, if_false]
    rfl
  · have h1 : ¬ s.low_registers.is_valid_address a 1 = true := h
    simp only [h, h1, Bool.not_false, if_true, Bool.not_eq_true] at *
    simp [h, h1, Except.map]

theorem low_write_memory16 (s : machine_state) (a v : Nat) :
    s.low_registers.write_memory16 a v = (s.write_memory16 a v).map low_registers := by
  unfold write_memory16
  by_cases h : s.is_valid_address a 2 = true
  · have h1 : s.low_registers.is_valid_address a 2 = true := h
    simp only [h, h1, Bool.not_true, Bool.false_eq_true, if_false]
    rfl
  · have h1 : ¬ s.low_registers.is_valid_address a 2 = true := h
    simp only [h, h1, Bool.not_false, if_true, Bool.not_eq_true] at *
    simp [h, h1, Except.map]

theorem low_write_memory32 (s : machine_state) (a v : Nat) :
    s.low_registers.write_memory32 a v = (s.write_memory32 a v).map low_registers := by
  unfold write_memory32
  by_cases h : s.is_valid_address a 4 = true
  · have h1 : s.low_registers.is_valid_address a 4 = true := h
    simp only [h, h1, Bool.not_true, Bool.false_eq_true, if_false]
    rfl
  · have h1 : ¬ s.low_registers.is_valid_address a 4 = true := h
    simp only [h, h1, Bool.not_false, if_true, Bool.not_eq_true] at *
    simp [h, h1, Except.map]

theorem set_register_high (s : machine_state) (r v x : Nat) (h : r < 32) (hx : 32 ≤ x) :
    (s.set_register r v).registers x = s.registers x := by
  unfold set_register
  split
  · rfl
  · have : x ≠ r := by omega
    simp [this]

theorem write_memory8_registers (s s1 : machine_state) (a v : Nat)
    (h : s.write_memory8 a v = .ok s1) : s1.registers = s.registers := by
  unfold write_memory8 at h
  split at h
  · cases h
  · cases h; rfl

theorem write_memory16_registers (s s1 : machine_state) (a v : Nat)
    (h : s.write_memory16 a v = .ok s1) : s1.registers = s.registers := by
  unfold write_memory16 at h
  split at h
  · cases h
  · cases h; rfl

theorem write_memory32_registers (s s1 : machine_state) (a v : Nat)
    (h : s.write_memory32 a v = .ok s1) : s1.registers = s.registers := by
  unfold write_memory32 at h
  split at h
  · cases h
  · cases h; rfl

end machine_state
namespace InstructionExecutor
open InstructionUtils machine_state

theorem execute_div_low (s : machine_state) (i : RInstruction) (h1 : i.rs < 32)
    (h2 : i.rt < 32) :
    execute_div s.low_registers i = (execute_div s i).map low_registers := by
  simp only [execute_div, low_get_register _ _ h1, low_get_register _ _ h2]
  split
  · split <;> rfl
  · rfl

theorem execute_low_R (ex : InstructionExecutor) (s : machine_state) (a b c d f : Nat)
    (ha : a < 32) (hb : b < 32) (hc : c < 32) (hf : f < 64) :
    execute ex s.low_registers (.R ⟨0, a, b, c, d, f⟩) =
      (execute ex s (.R ⟨0, a, b, c, d, f⟩)).map low_result := by
  have hra : RA < 32 := by decide
  by_cases h26 : f = 26
  · subst h26
    have hd := execute_div_low s ⟨0, a, b, c, d, 26⟩ ha hb
    simp only [execute, get_instruction_key, get_name, handlers, r_handler_fallible, hd,
      String.reduceEq, if_false, if_true]
    cases execute_div s ⟨0, a, b, c, d, 26⟩ <;> rfl
  interval_cases f <;> first | exact absurd rfl h26 |
    simp [execute, get_instruction_key, get_name, handlers, r_handler, Except.map, low_result,
      execute_sll, execute_srl, execute_sra, execute_sllv, execute_srlv, execute_srav,
      execute_jr, execute_jalr, execute_mfhi, execute_mthi, execute_mflo, execute_mtlo,
      execute_mult, execute_multu, execute_divu, execute_add, execute_addu,
      execute_sub, execute_subu, execute_and, execute_or, execute_xor, execute_nor,
      execute_slt, execute_sltu,
      low_get_register, low_set_register, low_set_pc, low_set_hi, low_set_lo, low_get_pc,
      low_get_hi, low_get_lo,
      ha, hb, hc, hra, apply_ite machine_state.low_registers]

theorem execute_lb_low (s : machine_state) (i : IInstruction) (h1 : i.rs < 32)
    (h2 : i.rt < 32) :
    execute_lb s.low_registers i = (execute_lb s i).map low_registers := by
  simp only [execute_lb, effective_address, low_get_register _ _ h1, low_read_memory8]
  cases s.read_memory8 _ <;> simp [Except.map, low_set_register _ _ _ h2]

theorem execute_lh_low (s : machine_state) (i : IInstruction) (h1 : i.rs < 32)
    (h2 : i.rt < 32) :
    execute_lh s.low_registers i = (execute_lh s i).map low_registers := by
  simp only [execute_lh, effective_address, low_get_register _ _ h1, low_read_memory16]
  cases s.read_memory16 _ <;> simp [Except.map, low_set_register _ _ _ h2]

theorem execute_lw_low (s : machine_state) (i : IInstruction) (h1 : i.rs < 32)
    (h2 : i.rt < 32) :
    execute_lw s.low_registers i = (execute_lw s i).map low_registers := by
  simp only [execute_lw, effective_address, low_get_register _ _ h1, low_read_memory32]
  cases s.read_memory32 _ <;> simp [Except.map, low_set_register _ _ _ h2]

theorem execute_lbu_low (s : machine_state) (i : IInstruction) (h1 : i.rs < 32)
    (h2 : i.rt < 32) :
    execute_lbu s.low_registers i = (execute_lbu s i).map low_registers := by
  simp only [execute_lbu, effective_address, low_get_register _ _ h1, low_read_memory8]
  cases s.read_memory8 _ <;> simp [Except.map, low_set_register _ _ _ h2]

theorem execute_lhu_low (s : machine_state) (i : IInstruction) (h1 : i.rs < 32)
    (h2 : i.rt < 32) :
    execute_lhu s.low_registers i = (execute_lhu s i).map low_registers := by
  simp only [execute_lhu, effective_address, low_get_register _ _ h1, low_read_memory16]
  cases s.read_memory16 _ <;> simp [Except.map, low_set_register _ _ _ h2]

theorem execute_sb_low (s : machine_state) (i : IInstruction) (h1 : i.rs < 32)
    (h2 : i.rt < 32) :
    execute_sb s.low_registers i = (execute_sb s i).map low_registers := by
  simp only [execute_sb, effective_address, low_get_register _ _ h1, low_get_register _ _ h2,
    low_write_memory8]
  cases s.write_memory8 _ _ <;> simp [Except.map]

theorem execute_sh_low (s : machine_state) (i : IInstruction) (h1 : i.rs < 32)
    (h2 : i.rt < 32) :
    execute_sh s.low_registers i = (execute_sh s i).map low_registers := by
  simp only [execute_sh, effective_address, low_get_register _ _ h1, low_get_register _ _ h2,
    low_write_memory16]
  cases s.write_memory16 _ _ <;> simp [Except.map]

theorem execute_sw_low (s : machine_state) (i : IInstruction) (h1 : i.rs < 32)
    (h2 : i.rt < 32) :
    execute_sw s.low_registers i = (execute_sw s i).map low_registers := by
  simp only [execute_sw, effective_address, low_get_register _ _ h1, low_get_register _ _ h2,
    low_write_memory32]
  cases s.write_memory32 _ _ <;> simp [Except.map]

theorem mem_handler_low (f : machine_state → IInstruction → Except Error machine_state)
    (ex : InstructionExecutor) (s : machine_state) (i : IInstruction)
    (hf : f s.low_registers i = (f s i).map low_registers) :
    mem_handler f ex s.low_registers (.I i) = (mem_handler f ex s (.I i)).map low_result := by
  simp only [mem_handler, hf]
  cases f s i <;> rfl

theorem print_string_loop_low (s : machine_state) (fuel addr : Nat) (out : List Nat) :
    print_string_loop s.low_registers fuel addr out = print_string_loop s fuel addr out := by
  induction fuel generalizing addr out with
  | zero => rfl
  | succ n ih =>
    simp only [print_string_loop, low_read_memory8]
    cases s.read_memory8 addr with
    | error e => rfl
    | ok ch =>
      simp only
      split
      · rfl
      · exact ih _ _

theorem execute_trap_low (ex : InstructionExecutor) (s : machine_state) (i : IInstruction) :
    execute_trap ex s.low_registers i = (execute_trap ex s i).map low_result := by
  have ha0 : A0 < 32 := by decide
  have hv0 : V0 < 32 := by decide
  unfold execute_trap handle_syscall
  simp only
  split
  · simp [low_get_register _ _ ha0, Except.map, low_result]
  · simp [low_get_register _ _ ha0, Except.map, low_result]
  · simp only [low_get_register _ _ ha0, print_string_loop_low]
    have hm : s.low_registers.memory_size = s.memory_size := rfl
    rw [hm]
    cases print_string_loop s (s.memory_size + 1) (s.get_register A0) ex.output_stream <;> rfl
  · simp [low_set_register _ _ _ hv0, Except.map, low_result]
  · simp [low_set_register _ _ _ hv0, Except.map, low_result]
  · rfl
  · rfl

theorem execute_low_I (ex : InstructionExecutor) (s : machine_state) (op a b c : Nat)
    (ha : a < 32) (hb : b < 32) (hop : op < 64) :
    execute ex s.low_registers (.I ⟨op, a, b, c⟩) =
      (execute ex s (.I ⟨op, a, b, c⟩)).map low_result := by
  interval_cases op <;>
    simp [execute, get_instruction_key, get_name, handlers, i_handler, Except.map, low_result,
      trap_handler, execute_trap_low, mem_handler_low, branch_taken,
      execute_beq, execute_bne, execute_blez, execute_bgtz, execute_addi, execute_addiu,
      execute_slti, execute_sltiu, execute_andi, execute_ori, execute_xori, execute_llo,
      execute_lhi,
      execute_lb_low, execute_lh_low, execute_lw_low, execute_lbu_low, execute_lhu_low,
      execute_sb_low, execute_sh_low, execute_sw_low,
      low_get_register, low_set_register, low_set_pc, low_set_hi, low_set_lo, low_get_pc,
      low_get_hi, low_get_lo,
      ha, hb, apply_ite machine_state.low_registers]

theorem execute_low_J (ex : InstructionExecutor) (s : machine_state) (op a : Nat)
    (hop : op = 2 ∨ op = 3) :
    execute ex s.low_registers (.J ⟨op, a⟩) = (execute ex s (.J ⟨op, a⟩)).map low_result := by
  have hra : RA < 32 := by decide
  rcases hop with rfl | rfl <;>
    simp [execute, get_instruction_key, get_name, handlers, j_handler, Except.map, low_result,
      execute_j, execute_jal, low_get_pc, low_set_pc, low_set_register, hra]

end InstructionExecutor
namespace InstructionExecutor
open InstructionUtils machine_state

theorem execute_div_frame (s : machine_state) (i : RInstruction) (x : Nat) :
    (execute_div s i).map (fun t => t.registers x) =
      (execute_div s i).map (fun _ => s.registers x) := by
  simp only [execute_div]
  split
  · split <;> rfl
  · rfl

theorem execute_frame_R (ex : InstructionExecutor) (s : machine_state) (a b c d f : Nat)
    (hc : c < 32) (hf : f < 64) (x : Nat) (hx : 32 ≤ x) :
    (execute ex s (.R ⟨0, a, b, c, d, f⟩)).map (fun p => p.1.registers x) =
      (execute ex s (.R ⟨0, a, b, c, d, f⟩)).map (fun _ => s.registers x) := by
  have hra : RA < 32 := by decide
  by_cases h26 : f = 26
  · subst h26
    have hd := execute_div_frame s ⟨0, a, b, c, d, 26⟩ x
    simp only [execute, get_instruction_key, get_name, handlers, r_handler_fallible,
      String.reduceEq, if_false, if_true]
    cases he : execute_div s ⟨0, a, b, c, d, 26⟩ with
    | error e => rfl
    | ok t =>
      rw [he] at hd
      exact hd
  interval_cases f <;> first | exact absurd rfl h26 |
    simp [execute, get_instruction_key, get_name, handlers, r_handler, Except.map,
      execute_sll, execute_srl, execute_sra, execute_sllv, execute_srlv, execute_srav,
      execute_jr, execute_jalr, execute_mfhi, execute_mthi, execute_mflo, execute_mtlo,
      execute_mult, execute_multu, execute_divu, execute_add, execute_addu,
      execute_sub, execute_subu, execute_and, execute_or, execute_xor, execute_nor,
      execute_slt, execute_sltu,
      set_register_high, set_pc, set_hi, set_lo, hc, hra, hx,
      apply_ite (fun t : machine_state => t.registers x)]

theorem execute_lb_frame (s : machine_state) (i : IInstruction) (h2 : i.rt < 32) (x : Nat)
    (hx : 32 ≤ x) :
    (execute_lb s i).map (fun t => t.registers x) =
      (execute_lb s i).map (fun _ => s.registers x) := by
  simp only [execute_lb]
  cases s.read_memory8 _ <;> simp [Except.map, set_register_high _ _ _ _ h2 hx]

theorem execute_lh_frame (s : machine_state) (i : IInstruction) (h2 : i.rt < 32) (x : Nat)
    (hx : 32 ≤ x) :
    (execute_lh s i).map (fun t => t.registers x) =
      (execute_lh s i).map (fun _ => s.registers x) := by
  simp only [execute_lh]
  cases s.read_memory16 _ <;> simp [Except.map, set_register_high _ _ _ _ h2 hx]

theorem execute_lw_frame (s : machine_state) (i : IInstruction) (h2 : i.rt < 32) (x : Nat)
    (hx : 32 ≤ x) :
    (execute_lw s i).map (fun t => t.registers x) =
      (execute_lw s i).map (fun _ => s.registers x) := by
  simp only [execute_lw]
  cases s.read_memory32 _ <;> simp [Except.map, set_register_high _ _ _ _ h2 hx]

theorem execute_lbu_frame (s : machine_state) (i : IInstruction) (h2 : i.rt < 32) (x : Nat)
    (hx : 32 ≤ x) :
    (execute_lbu s i).map (fun t => t.registers x) =
      (execute_lbu s i).map (fun _ => s.registers x) := by
  simp only [execute_lbu]
  cases s.read_memory8 _ <;> simp [Except.map, set_register_high _ _ _ _ h2 hx]

theorem execute_lhu_frame (s : machine_state) (i : IInstruction) (h2 : i.rt < 32) (x : Nat)
    (hx : 32 ≤ x) :
    (execute_lhu s i).map (fun t => t.registers x) =
      (execute_lhu s i).map (fun _ => s.registers x) := by
  simp only [execute_lhu]
  cases s.read_memory16 _ <;> simp [Except.map, set_register_high _ _ _ _ h2 hx]

theorem execute_sb_frame (s : machine_state) (i : IInstruction) (x : Nat) :
    (execute_sb s i).map (fun t => t.registers x) =
      (execute_sb s i).map (fun _ => s.registers x) := by
  simp only [execute_sb]
  cases hw : s.write_memory8 (effective_address s i) (s.get_register i.rt &&& 0xFF) with
  | error e => rfl
  | ok s2 => simp [Except.map, write_memory8_registers _ _ _ _ hw]

theorem execute_sh_frame (s : machine_state) (i : IInstruction) (x : Nat) :
    (execute_sh s i).map (fun t => t.registers x) =
      (execute_sh s i).map (fun _ => s.registers x) := by
  simp only [execute_sh]
  cases hw : s.write_memory16 (effective_address s i) (s.get_register i.rt &&& 0xFFFF) with
  | error e => rfl
  | ok s2 => simp [Except.map, write_memory16_registers _ _ _ _ hw]

theorem execute_sw_frame (s : machine_state) (i : IInstruction) (x : Nat) :
    (execute_sw s i).map (fun t => t.registers x) =
      (execute_sw s i).map (fun _ => s.registers x) := by
  simp only [execute_sw]
  cases hw : s.write_memory32 (effective_address s i) (s.get_register i.rt) with
  | error e => rfl
  | ok s2 => simp [Except.map, write_memory32_registers _ _ _ _ hw]

theorem mem_handler_frame (f : machine_state → IInstruction → Except Error machine_state)
    (ex : InstructionExecutor) (s : machine_state) (i : IInstruction) (x : Nat)
    (hf : (f s i).map (fun t => t.registers x) = (f s i).map (fun _ => s.registers x)) :
    (mem_handler f ex s (.I i)).map (fun p => p.1.registers x) =
      (mem_handler f ex s (.I i)).map (fun _ => s.registers x) := by
  simp only [mem_handler]
  cases hfs : f s i with
  | error e => rfl
  | ok s2 =>
    rw [hfs] at hf
    simpa [Except.map] using hf

theorem execute_trap_frame (ex : InstructionExecutor) (s : machine_state) (i : IInstruction)
    (x : Nat) (hx : 32 ≤ x) :
    (execute_trap ex s i).map (fun p => p.1.registers x) =
      (execute_trap ex s i).map (fun _ => s.registers x) := by
  have hv0 : V0 < 32 := by decide
  unfold execute_trap handle_syscall
  simp only
  split
  · rfl
  · rfl
  · cases print_string_loop s (s.memory_size + 1) (s.get_register A0) ex.output_stream <;> rfl
  · simp [Except.map, set_register_high _ _ _ _ hv0 hx]
  · simp [Except.map, set_register_high _ _ _ _ hv0 hx]
  · rfl
  · rfl

theorem map_ok_eq {α β : Type} (f : α → β) (a : α) :
    (Except.ok a : Except Error α).map f = .ok (f a) := rfl

theorem map_error_eq {α β : Type} (f : α → β) (e : Error) :
    (Except.error e : Except Error α).map f = .error e := rfl

theorem execute_frame_I (ex : InstructionExecutor) (s : machine_state) (op a b c : Nat)
    (hb : b < 32) (hop : op < 64) (x : Nat) (hx : 32 ≤ x) :
    (execute ex s (.I ⟨op, a, b, c⟩)).map (fun p => p.1.registers x) =
      (execute ex s (.I ⟨op, a, b, c⟩)).map (fun _ => s.registers x) := by
  interval_cases op <;>
    simp [execute, get_instruction_key, get_name, handlers, i_handler, map_ok_eq, map_error_eq,
      trap_handler, execute_trap_frame, mem_handler_frame, branch_taken,
      execute_beq, execute_bne, execute_blez, execute_bgtz, execute_addi, execute_addiu,
      execute_slti, execute_sltiu, execute_andi, execute_ori, execute_xori, execute_llo,
      execute_lhi,
      execute_lb_frame, execute_lh_frame, execute_lw_frame, execute_lbu_frame,
      execute_lhu_frame, execute_sb_frame, execute_sh_frame, execute_sw_frame,
      set_register_high, set_pc, hb, hx, apply_ite (fun t : machine_state => t.registers x)]

theorem execute_frame_J (ex : InstructionExecutor) (s : machine_state) (op a : Nat)
    (hop : op = 2 ∨ op = 3) (x : Nat) (hx : 32 ≤ x) :
    (execute ex s (.J ⟨op, a⟩)).map (fun p => p.1.registers x) =
      (execute ex s (.J ⟨op, a⟩)).map (fun _ => s.registers x) := by
  have hra : RA < 32 := by decide
  rcases hop with rfl | rfl <;>
    simp [execute, get_instruction_key, get_name, handlers, j_handler, Except.map,
      execute_j, execute_jal, set_register_high, set_pc, hra, hx]

end InstructionExecutor
namespace InstructionExecutor
open InstructionUtils machine_state

theorem decode_well_formed (w : Nat) (hw : w < 2 ^ 32) : (decode w).well_formed := by
  rw [decode_form w hw]
  have hop : w >>> 26 < 64 := by
    rw [Nat.shiftRight_eq_div_pow]
    omega
  by_cases h0 : w >>> 26 = 0
  · rw [if_pos h0]
    simp only [Instruction.well_formed, and_0x1F, and_0x3F]
    refine ⟨trivial, ?_, ?_, ?_, ?_, ?_⟩ <;> omega
  · rw [if_neg h0]
    by_cases h23 : w >>> 26 = 2 ∨ w >>> 26 = 3
    · rw [if_pos h23]
      simp only [Instruction.well_formed, and_0x3FFFFFF]
      exact ⟨h23, by omega⟩
    · rw [if_neg h23]
      simp only [Instruction.well_formed, and_0x1F, and_0xFFFF]
      refine ⟨hop, h0, fun h => h23 (Or.inl h), fun h => h23 (Or.inr h), ?_, ?_, ?_⟩ <;> omega

theorem execute_low (ex : InstructionExecutor) (s : machine_state) (i : Instruction)
    (h : i.well_formed) :
    execute ex s.low_registers i = (execute ex s i).map low_result := by
  cases i with
  | R r =>
    obtain ⟨op, a, b, c, d, f⟩ := r
    obtain ⟨h0, ha, hb, hc, _, hf⟩ := h
    simp only at h0 ha hb hc hf
    subst h0
    exact execute_low_R ex s a b c d f ha hb hc hf
  | I r =>
    obtain ⟨op, a, b, c⟩ := r
    obtain ⟨hop, _, _, _, ha, hb, _⟩ := h
    exact execute_low_I ex s op a b c ha hb hop
  | J r =>
    obtain ⟨op, a⟩ := r
    exact execute_low_J ex s op a h.1

theorem execute_frame (ex ex1 : InstructionExecutor) (s s1 : machine_state) (i : Instruction)
    (h : i.well_formed) (he : execute ex s i = .ok (s1, ex1)) (x : Nat) (hx : 32 ≤ x) :
    s1.registers x = s.registers x := by
  have key : (execute ex s i).map (fun p => p.1.registers x) =
      (execute ex s i).map (fun _ => s.registers x) := by
    cases i with
    | R r =>
      obtain ⟨op, a, b, c, d, f⟩ := r
      obtain ⟨h0, _, _, hc, _, hf⟩ := h
      simp only at h0 hc hf
      subst h0
      exact execute_frame_R ex s a b c d f hc hf x hx
    | I r =>
      obtain ⟨op, a, b, c⟩ := r
      obtain ⟨hop, _, _, _, _, hb, _⟩ := h
      exact execute_frame_I ex s op a b c hb hop x hx
    | J r =>
      obtain ⟨op, a⟩ := r
      exact execute_frame_J ex s op a h.1 x hx
  rw [he] at key
  exact Except.ok.inj key

/-- Claim C40. For every 32-bit word `w`, `decode w` is R-form iff `w >> 26` is 0, J-form
iff `w >> 26` is 2 or 3, and I-form otherwise, and its fields are in range (register and
shift fields below 32, function code below 64, J address below 2^26); executing it writes
no register cell outside 0..31 and its outcome does not depend on such a cell: two states
that agree on registers 0..31, memory, PC, HI and LO give results that agree in the same
way. -/
theorem decoded_register_indices (ex : InstructionExecutor) (s : machine_state) (w : Nat)
    (hw : w < 2 ^ 32) :
    ((∃ r, decode w = .R r) ↔ w >>> 26 = 0) ∧
    ((∃ j, decode w = .J j) ↔ (w >>> 26 = 2 ∨ w >>> 26 = 3)) ∧
    ((∃ i, decode w = .I i) ↔ (w >>> 26 ≠ 0 ∧ w >>> 26 ≠ 2 ∧ w >>> 26 ≠ 3)) ∧
    (decode w).well_formed ∧
    (∀ s1 ex1, execute ex s (decode w) = .ok (s1, ex1) →
      ∀ x, 32 ≤ x → s1.registers x = s.registers x) ∧
    (∀ t : machine_state, t.low_registers = s.low_registers →
      (execute ex t (decode w)).map low_result = (execute ex s (decode w)).map low_result) := by
  have hwf := decode_well_formed w hw
  refine ⟨?_, ?_, ?_, hwf, fun s1 ex1 he x hx => execute_frame ex ex1 s s1 _ hwf he x hx,
    fun t ht => ?_⟩
  · rw [decode_form w hw]
    by_cases h0 : w >>> 26 = 0
    · simp [h0]
    · by_cases h23 : w >>> 26 = 2 ∨ w >>> 26 = 3 <;> simp [h0, h23]
  · rw [decode_form w hw]
    by_cases h0 : w >>> 26 = 0
    · simp [h0]
    · by_cases h23 : w >>> 26 = 2 ∨ w >>> 26 = 3 <;> simp [h0, h23]
  · rw [decode_form w hw]
    by_cases h0 : w >>> 26 = 0
    · simp [h0]
    · by_cases h23 : w >>> 26 = 2 ∨ w >>> 26 = 3
      · simp [h0, h23]
        omega
      · simp [h0, h23]
        omega
  · rw [← execute_low ex t _ hwf, ← execute_low ex s _ hwf, ht]

/-- Witness of claim C40 at the word `0x012A4020` (`add $t0, $t1, $t2`), in a 16-byte
state with empty streams. -/
theorem decoded_register_indices_witness :
    0x012A4020 < 2 ^ 32 ∧
    ((∃ r, decode 0x012A4020 = .R r) ↔ 0x012A4020 >>> 26 = 0) ∧
    ((∃ j, decode 0x012A4020 = .J j) ↔ (0x012A4020 >>> 26 = 2 ∨ 0x012A4020 >>> 26 = 3)) ∧
    ((∃ i, decode 0x012A4020 = .I i) ↔
      (0x012A4020 >>> 26 ≠ 0 ∧ 0x012A4020 >>> 26 ≠ 2 ∧ 0x012A4020 >>> 26 ≠ 3)) ∧
    (decode 0x012A4020).well_formed ∧
    (∀ s1 ex1, execute no_streams (machine_state.init 16) (decode 0x012A4020) = .ok (s1, ex1) →
      ∀ x, 32 ≤ x → s1.registers x = (machine_state.init 16).registers x) ∧
    (∀ t : machine_state, t.low_registers = (machine_state.init 16).low_registers →
      (execute no_streams t (decode 0x012A4020)).map low_result =
        (execute no_streams (machine_state.init 16) (decode 0x012A4020)).map low_result) :=
  ⟨by decide, decoded_register_indices no_streams (machine_state.init 16) 0x012A4020
    (by decide)⟩

end InstructionExecutor

namespace Parser

theorem map_values_length {α : Type} (f : List Char → Except Error α) :
    ∀ (l : List (List Char)) (xs : List α), map_values f l = .ok xs → xs.length = l.length := by
  intro l
  induction l with
  | nil =>
    intro xs h
    cases h
    rfl
  | cons v vs ih =>
    intro xs h
    unfold map_values at h
    split at h
    · cases h
    · split at h
      · cases h
      · rename_i ys hys
        cases h
        simp [ih ys hys]

theorem dropWhile_of_head {p : Char → Bool} (l : List Char)
    (h : ∀ c, l.head? = some c → p c = false) : l.dropWhile p = l := by
  cases l with
  | nil => rfl
  | cons a as =>
    have := h a rfl
    simp [List.dropWhile_cons, this]

theorem trim_trim (s : List Char) : trim (trim s) = trim s := by
  obtain ⟨_, hhead, hlast⟩ := trim_spec s
  have h1 : (trim s).dropWhile is_trim_char = trim s := dropWhile_of_head _ hhead
  have h2 : (trim s).reverse.dropWhile is_trim_char = (trim s).reverse :=
    dropWhile_of_head _ (by
      intro c hc
      rw [List.head?_reverse] at hc
      exact hlast c hc)
  have e : trim (trim s) =
      (((trim s).dropWhile is_trim_char).reverse.dropWhile is_trim_char).reverse := rfl
  rw [e, h1, h2, List.reverse_reverse]

theorem identifier_start_scan :
    ∀ c ∈ identifier_start, ∀ cs, std_scan_integer (c :: cs) 0 = none := by
  intro c hc cs
  simp only [identifier_start, String.toList, List.mem_cons, List.mem_singleton,
    List.not_mem_nil, or_false] at hc
  rcases hc with rfl | rfl | rfl | rfl | rfl | rfl | rfl | rfl | rfl | rfl | rfl | rfl | rfl |
    rfl | rfl | rfl | rfl | rfl | rfl | rfl | rfl | rfl | rfl | rfl | rfl | rfl | rfl | rfl |
    rfl | rfl | rfl | rfl | rfl | rfl | rfl | rfl | rfl | rfl | rfl | rfl | rfl | rfl | rfl |
    rfl | rfl | rfl | rfl | rfl | rfl | rfl | rfl | rfl | rfl <;> rfl

theorem identifier_not_number (s : List Char) (h : is_identifier s = true) :
    std_stoul s 0 = .error .invalid_argument := by
  cases s with
  | nil => simp [is_identifier] at h
  | cons c cs =>
    simp only [is_identifier, Bool.and_eq_true, decide_eq_true_eq] at h
    unfold std_stoul
    rw [identifier_start_scan c h.1 cs]

theorem stoul_hex_marker (s : List Char) (h : has_hex_marker s = true) :
    std_stoul s 16 = std_stoul s 0 := by
  rcases s with _ | ⟨a, _ | ⟨b, _ | ⟨d, t⟩⟩⟩
  · simp [has_hex_marker] at h
  · simp [has_hex_marker] at h
  · simp [has_hex_marker] at h
  · simp only [has_hex_marker, List.head?_cons, List.get?, Bool.and_eq_true, Bool.or_eq_true,
      decide_eq_true_eq, Option.some.injEq] at h
    obtain ⟨⟨_, rfl⟩, hb⟩ := h
    unfold std_stoul
    have : std_scan_integer ('0' :: b :: d :: t) 16 = std_scan_integer ('0' :: b :: d :: t) 0 := by
      have e1 : std_digit_value 16 '0' = some 0 := by decide
      have e2 : std_digit_value 8 '0' = some 0 := by decide
      have e3 : std_digit_value 16 'x' = none := by decide
      have e4 : std_digit_value 8 'x' = none := by decide
      have e5 : std_digit_value 16 'X' = none := by decide
      have e6 : std_digit_value 8 'X' = none := by decide
      cases hd : (std_digit_value 16 d).isSome <;>
        rcases hb with rfl | rfl <;>
        simp [std_scan_integer, hd, std_isspace_char, std_scan_digits, e1, e2, e3, e4, e5, e6]
    rw [this]

end Parser
namespace Parser

theorem length_flatten_map_const {α : Type} (f : α → List Nat) (k : Nat)
    (hf : ∀ a, (f a).length = k) : ∀ l : List α, ((l.map f).flatten).length = l.length * k := by
  intro l
  induction l with
  | nil => simp
  | cons a as ih =>
    simp only [List.map_cons, List.flatten_cons, List.length_append, ih, hf, List.length_cons]
    rw [Nat.add_mul, Nat.one_mul, Nat.add_comm]

theorem length_words (l : List Nat) : ((l.map le_bytes32).flatten).length = l.length * 4 :=
  length_flatten_map_const le_bytes32 4 (fun _ => rfl) l

theorem length_halves (l : List Nat) :
    ((l.map (fun v =>
      let val := v &&& 0xFFFF
      [val &&& 0xFF, (val >>> 8) &&& 0xFF])).flatten).length = l.length * 2 := by
  apply length_flatten_map_const
  intro a
  rfl

theorem length_doubles (l : List Nat) :
    ((l.map (fun bits =>
      (List.range 8).map (fun i => (bits >>> (i * 8)) &&& 0xFF))).flatten).length =
      l.length * 8 :=
  length_flatten_map_const _ 8 (fun _ => by simp) l

theorem space_operand (labels : LabelMap) (rest : List Char) (n : Nat)
    (hn : std_stoul (trim rest) 0 = .ok n) (hlab : labels.find (trim rest) = none)
    (he : (trim rest).isEmpty = false) :
    parse_immediate (trim rest) labels = .ok (n % 2 ^ 32) := by
  unfold parse_immediate
  simp only [trim_trim, he, Bool.false_eq_true, if_false, hlab]
  by_cases hh : has_hex_marker (trim rest) = true
  · simp only [hh, if_true, stoul_hex_marker _ hh, hn]
  · simp only [hh, if_false, hn, Bool.false_eq_true]

/-- For a directive other than `.align`, the size pass 1 computes is the number of bytes
the parsed directive emits, as a 32-bit value. -/
theorem directive_size_agrees (fc : FloatConversions) (line : List Char) (labels : LabelMap)
    (pc : Nat) (d : AssemblyDirective) (sz : Nat)
    (hp : parse_directive fc line labels = .ok d)
    (hs : get_directive_size_for_first_pass line pc = .ok sz) (hal : d.type ≠ .ALIGN)
    (hlab : ∀ s n, std_stoul s 0 = .ok n → labels.find s = none) :
    sz = (emit_line [] (.directive d)).length % 2 ^ 32 := by
  unfold parse_directive at hp
  unfold get_directive_size_for_first_pass at hs
  generalize std_first_word line = p at hp hs
  obtain ⟨dir, rest⟩ := p
  simp only at hp hs
  by_cases he : (trim rest).isEmpty = true
  · simp only [he, Bool.not_true, Bool.false_eq_true, if_false, if_true] at hp hs
    by_cases h1 : to_lower dir = ".byte".toList
    · simp only [h1, if_true] at hp hs
      cases hp; cases hs; rfl
    simp only [h1, if_false] at hp hs
    by_cases h2 : to_lower dir = ".half".toList
    · simp only [h2, if_true] at hp hs
      cases hp; cases hs; rfl
    simp only [h2, if_false] at hp hs
    by_cases h3 : to_lower dir = ".word".toList
    · simp only [h3, if_true] at hp hs
      cases hp; cases hs; rfl
    simp only [h3, if_false] at hp hs
    by_cases h4 : to_lower dir = ".ascii".toList
    · simp only [h4, if_true, true_or] at hp hs
      cases hp; cases hs; rfl
    simp only [h4, if_false, false_or] at hp hs
    by_cases h5 : to_lower dir = ".asciiz".toList
    · simp only [h5, if_true] at hp hs
      cases hp; cases hs; rfl
    simp only [h5, if_false] at hp hs
    by_cases h6 : to_lower dir = ".space".toList
    · simp only [h6, if_true] at hp hs
      cases hp; cases hs; rfl
    simp only [h6, if_false] at hp hs
    by_cases h7 : to_lower dir = ".align".toList
    · simp only [h7, if_true] at hp hs
      cases hp
      exact absurd rfl hal
    simp only [h7, if_false] at hp hs
    by_cases h8 : to_lower dir = ".text".toList
    · simp only [h8, if_true, true_or] at hp hs
      cases hp; cases hs; rfl
    simp only [h8, if_false, false_or] at hp hs
    by_cases h9 : to_lower dir = ".data".toList
    · simp only [h9, if_true] at hp hs
      cases hp; cases hs; rfl
    simp only [h9, if_false] at hp hs
    by_cases h10 : to_lower dir = ".float".toList
    · simp only [h10, if_true] at hp hs
      cases hp; cases hs; rfl
    simp only [h10, if_false] at hp hs
    by_cases h11 : to_lower dir = ".double".toList
    · simp only [h11, if_true] at hp hs
      cases hp; cases hs; rfl
    simp only [h11, if_false] at hp hs
    cases hp
  · have he2 : (trim rest).isEmpty = false := by simpa using he
    simp only [he2, Bool.not_false, Bool.false_eq_true, if_false, if_true] at hp hs
    by_cases h1 : to_lower dir = ".byte".toList
    · simp only [h1, if_true] at hp hs
      split at hp
      · cases hp
      · rename_i values hv
        cases hp; cases hs
        simp [emit_line, map_values_length _ _ _ hv]
    simp only [h1, if_false] at hp hs
    by_cases h2 : to_lower dir = ".half".toList
    · simp only [h2, if_true] at hp hs
      split at hp
      · cases hp
      · rename_i values hv
        cases hp; cases hs
        simp only [emit_line, List.nil_append]
        rw [length_halves, map_values_length _ _ _ hv]
    simp only [h2, if_false] at hp hs
    by_cases h3 : to_lower dir = ".word".toList
    · simp only [h3, if_true] at hp hs
      split at hp
      · cases hp
      · rename_i values hv
        cases hp; cases hs
        simp only [emit_line, List.nil_append]
        rw [length_words, map_values_length _ _ _ hv]
    simp only [h3, if_false] at hp hs
    by_cases h4 : to_lower dir = ".ascii".toList
    · simp only [h4, if_true, true_or] at hp hs
      split at hp
      · cases hp
      · rename_i text ht
        rw [ht] at hs
        cases hp; cases hs
        simp [emit_line]
    simp only [h4, if_false, false_or] at hp hs
    by_cases h5 : to_lower dir = ".asciiz".toList
    · simp only [h5, if_true] at hp hs
      split at hp
      · cases hp
      · rename_i text ht
        rw [ht] at hs
        cases hp; cases hs
        simp [emit_line]
    simp only [h5, if_false] at hp hs
    by_cases h6 : to_lower dir = ".space".toList
    · simp only [h6, if_true] at hp hs
      split at hs
      · cases hs
      · rename_i n hn
        cases hs
        rw [space_operand labels rest n hn (hlab _ _ hn) he2] at hp
        cases hp
        simp [emit_line]
    simp only [h6, if_false] at hp hs
    by_cases h7 : to_lower dir = ".align".toList
    · simp only [h7, if_true] at hp hs
      split at hp
      · cases hp
      · cases hp
        exact absurd rfl hal
    simp only [h7, if_false] at hp hs
    by_cases h8 : to_lower dir = ".text".toList
    · simp only [h8, if_true, true_or] at hp hs
      cases hp; cases hs; rfl
    simp only [h8, if_false, false_or] at hp hs
    by_cases h9 : to_lower dir = ".data".toList
    · simp only [h9, if_true] at hp hs
      cases hp; cases hs; rfl
    simp only [h9, if_false] at hp hs
    by_cases h10 : to_lower dir = ".float".toList
    · simp only [h10, if_true] at hp hs
      split at hp
      · cases hp
      · rename_i values hv
        cases hp; cases hs
        simp only [emit_line, List.nil_append]
        rw [length_words, map_values_length _ _ _ hv]
    simp only [h10, if_false] at hp hs
    by_cases h11 : to_lower dir = ".double".toList
    · simp only [h11, if_true] at hp hs
      split at hp
      · cases hp
      · rename_i values hv
        cases hp; cases hs
        simp only [emit_line, List.nil_append]
        rw [length_doubles, map_values_length _ _ _ hv]
    simp only [h11, if_false] at hp hs
    cases hp

end Parser
namespace Parser

theorem peel_labels_new (in_text : Bool) (pc : Nat) (fuel : Nat) :
    ∀ (line : List Char) (acc : List RawLabel),
      ∃ new, (peel_labels in_text pc fuel line acc).2 = acc ++ new ∧
        ∀ l ∈ new, l.in_text = in_text ∧ l.offset = pc := by
  induction fuel with
  | zero =>
    intro line acc
    exact ⟨[], by simp [peel_labels], by simp⟩
  | succ n ih =>
    intro line acc
    unfold peel_labels
    split
    · exact ⟨[], by simp, by simp⟩
    · rename_i colon hc
      simp only
      split
      · obtain ⟨new, hnew, hprop⟩ := ih (trim (line.drop (colon + 1)))
          (acc ++ [{ name := trim (line.take colon), in_text := in_text, offset := pc }])
        refine ⟨{ name := trim (line.take colon), in_text := in_text, offset := pc } :: new,
          ?_, ?_⟩
        · rw [hnew, List.append_assoc]
          rfl
        · intro l hl
          rcases List.mem_cons.1 hl with h | h
          · subst h
            exact ⟨rfl, rfl⟩
          · exact hprop l h
      · exact ih _ acc

theorem size_of_section_switch (line : List Char) (pc : Nat)
    (h : to_lower (std_first_word line).1 = ".text".toList ∨
      to_lower (std_first_word line).1 = ".data".toList) :
    get_directive_size_for_first_pass line pc = .ok 0 := by
  unfold get_directive_size_for_first_pass
  generalize std_first_word line = p at h
  obtain ⟨dir, rest⟩ := p
  simp only at h
  rcases h with h | h <;> simp only [h] <;> simp +decide

end Parser
namespace Parser

/-- What one line does to the state of pass 1: it appends the labels declared on the line,
each at the counter of the current section, and at most one item, whose pass 1 size is added
to the counter of the item's section. -/
theorem first_pass_line_step (st st2 : FirstPassState) (raw_line : List Char)
    (h : first_pass_line st raw_line = .ok st2) :
    (∃ new, st2.labels_raw = st.labels_raw ++ new ∧
      ∀ l ∈ new, l.in_text = st.current_in_text ∧
        l.offset = (if st.current_in_text then st.text_pc else st.data_pc)) ∧
    ((st2.items = st.items ∧ st2.text_pc = st.text_pc ∧ st2.data_pc = st.data_pc) ∨
      ∃ it sz, st2.items = st.items ++ [it] ∧ first_pass_size it = .ok sz ∧
        (it.is_directive = false → is_directive it.content = false) ∧
        st2.text_pc % 2 ^ 32 = (st.text_pc + (if it.in_text then sz else 0)) % 2 ^ 32 ∧
        st2.data_pc % 2 ^ 32 = (st.data_pc + (if it.in_text then 0 else sz)) % 2 ^ 32) := by
  have hp := peel_labels_new st.current_in_text
    (if st.current_in_text then st.text_pc else st.data_pc) ((trim raw_line).length + 1)
    (trim raw_line) st.labels_raw
  unfold first_pass_line at h
  simp only at h
  generalize peel_labels st.current_in_text _ ((trim raw_line).length + 1)
    (trim raw_line) st.labels_raw = p at h hp
  obtain ⟨line, lr⟩ := p
  simp only at h hp
  by_cases e1 : (trim raw_line).isEmpty = true
  · simp only [e1, if_true] at h
    cases h
    exact ⟨⟨[], by simp, by simp⟩, Or.inl ⟨rfl, rfl, rfl⟩⟩
  simp only [e1, if_false] at h
  by_cases e2 : line.isEmpty = true
  · simp only [e2, if_true] at h
    cases h
    exact ⟨hp, Or.inl ⟨rfl, rfl, rfl⟩⟩
  simp only [e2, if_false] at h
  by_cases e3 : to_lower (std_first_word line).1 = ".text".toList
  · simp only [e3, if_true] at h
    cases h
    refine ⟨hp, Or.inr ⟨_, 0, rfl, ?_, ?_, ?_, ?_⟩⟩
    · simp only [first_pass_size, if_true]
      exact size_of_section_switch line _ (Or.inl e3)
    · intro hf
      cases hf
    · simp
    · simp
  simp only [e3, if_false] at h
  by_cases e4 : to_lower (std_first_word line).1 = ".data".toList
  · simp only [e4, if_true] at h
    cases h
    refine ⟨hp, Or.inr ⟨_, 0, rfl, ?_, ?_, ?_, ?_⟩⟩
    · simp only [first_pass_size, if_true]
      exact size_of_section_switch line _ (Or.inr e4)
    · intro hf
      cases hf
    · simp
    · simp
  simp only [e4, if_false] at h
  by_cases e5 : is_directive line = true
  · simp only [e5, if_true] at h
    by_cases e6 : st.current_in_text = true
    · simp only [e6, if_true] at h
      cases hsize : get_directive_size_for_first_pass line st.text_pc with
      | error e =>
        rw [hsize] at h
        cases h
      | ok size =>
        rw [hsize] at h
        cases h
        refine ⟨hp, Or.inr ⟨_, size, rfl, ?_, ?_, ?_, ?_⟩⟩
        · simp only [first_pass_size, if_true]
          exact hsize
        · intro hf
          cases hf
        · simp
        · simp
    · have e7 : st.current_in_text = false := by simpa using e6
      simp only [e7, Bool.false_eq_true, if_false] at h
      cases hsize : get_directive_size_for_first_pass line st.data_pc with
      | error e =>
        rw [hsize] at h
        cases h
      | ok size =>
        rw [hsize] at h
        cases h
        refine ⟨hp, Or.inr ⟨_, size, rfl, ?_, ?_, ?_, ?_⟩⟩
        · simp only [first_pass_size, if_true]
          exact hsize
        · intro hf
          cases hf
        · simp
        · simp
  · simp only [e5, if_false] at h
    cases h
    refine ⟨hp, Or.inr ⟨_, 4, rfl, ?_, ?_, ?_, ?_⟩⟩
    · simp [first_pass_size]
    · intro _
      simpa using e5
    · simp
    · simp

end Parser

namespace Parser

theorem size_ok_first_word (line : List Char) (pc sz : Nat)
    (h : get_directive_size_for_first_pass line pc = .ok sz) :
    (to_lower (std_first_word line).1).head? = some '.' := by
  unfold get_directive_size_for_first_pass at h
  generalize std_first_word line = p at h
  obtain ⟨dir, rest⟩ := p
  simp only at h ⊢
  by_cases h1 : to_lower dir = ".byte".toList
  · rw [h1]; rfl
  by_cases h2 : to_lower dir = ".half".toList
  · rw [h2]; rfl
  by_cases h3 : to_lower dir = ".word".toList
  · rw [h3]; rfl
  by_cases h4 : to_lower dir = ".ascii".toList
  · rw [h4]; rfl
  by_cases h5 : to_lower dir = ".asciiz".toList
  · rw [h5]; rfl
  by_cases h6 : to_lower dir = ".space".toList
  · rw [h6]; rfl
  by_cases h7 : to_lower dir = ".align".toList
  · rw [h7]; rfl
  by_cases h8 : to_lower dir = ".text".toList
  · rw [h8]; rfl
  by_cases h9 : to_lower dir = ".data".toList
  · rw [h9]; rfl
  by_cases h10 : to_lower dir = ".float".toList
  · rw [h10]; rfl
  by_cases h11 : to_lower dir = ".double".toList
  · rw [h11]; rfl
  simp only [h1, h2, h3, h4, h5, h6, h7, h8, h9, h10, h11, if_false, or_self] at h
  cases h

theorem toLower_eq_dot (c : Char) (h : c.toLower = '.') : c = '.' := by
  unfold Char.toLower at h
  simp only at h
  split at h
  · rename_i hc
    exfalso
    have h1 := congrArg Char.toNat h
    obtain ⟨hlo, hhi⟩ := hc
    generalize c.toNat = n at h1 hlo hhi
    interval_cases n <;> revert h1 <;> decide
  · exact h

theorem dropWhile_append_of_all {p : Char → Bool} (pre l : List Char)
    (h : ∀ c ∈ pre, p c = true) : (pre ++ l).dropWhile p = l.dropWhile p := by
  induction pre with
  | nil => rfl
  | cons a as ih =>
    have ha := h a (List.mem_cons_self _ _)
    simp only [List.cons_append, List.dropWhile_cons, ha, if_true]
    exact ih (fun c hc => h c (List.mem_cons_of_mem _ hc))

theorem trim_char_is_space (c : Char) (h : is_trim_char c = true) : std_isspace_char c = true := by
  simp only [is_trim_char, Bool.or_eq_true, decide_eq_true_eq] at h
  rcases h with ((h | h) | h) | h <;> subst h <;> rfl

theorem instruction_names_start :
    ∀ e ∈ instruction_map,
      (e.1.toList.head?.map (fun c => std_isspace_char c || c == '.')) = some false := by
  decide

theorem find_instruction_none (c : Char) (m : List Char)
    (h : std_isspace_char c = true ∨ c = '.') : find_instruction (c :: m) = none := by
  unfold find_instruction
  rw [Option.map_eq_none', List.find?_eq_none]
  intro e he heq
  have hs := instruction_names_start e he
  simp only [decide_eq_true_eq] at heq
  rw [heq] at hs
  simp only [List.head?_cons, Option.map_some', Option.some.injEq, Bool.or_eq_false_iff,
    beq_eq_false_iff_ne, ne_eq] at hs
  rcases h with h | h
  · rw [h] at hs
    exact absurd hs.1 (by decide)
  · exact hs.2 h

theorem space_or_dot_toLower (c : Char) (h : std_isspace_char c = true ∨ c = '.') :
    std_isspace_char c.toLower = true ∨ c.toLower = '.' := by
  rcases h with h | h
  · left
    simp only [std_isspace_char, Bool.or_eq_true, decide_eq_true_eq] at h
    rcases h with ((((h | h) | h) | h) | h) | h <;> subst h <;> rfl
  · right
    subst h
    rfl

end Parser
namespace Parser

/-- A line that pass 1 sizes as a directive is rejected by `parse_instruction`: its first
word starts with a dot, so its mnemonic starts with a dot or with a white-space character
that `trim` keeps, and no instruction has such a name. -/
theorem sized_directive_not_instruction (line : List Char) (labels : LabelMap)
    (pc abs sz : Nat) (hs : get_directive_size_for_first_pass line pc = .ok sz) :
    ∃ e, parse_instruction line labels abs = .error e := by
  have h1 := size_ok_first_word line pc sz hs
  have hdrop : ∃ t, line.dropWhile std_isspace_char = '.' :: t := by
    unfold std_first_word at h1
    simp only at h1
    cases hsd : line.dropWhile std_isspace_char with
    | nil =>
      rw [hsd] at h1
      simp [to_lower] at h1
    | cons c t =>
      rw [hsd] at h1
      rw [List.takeWhile_cons] at h1
      split at h1
      · simp only [to_lower, List.map_cons, List.head?_cons, Option.some.injEq] at h1
        rw [toLower_eq_dot c h1]
        exact ⟨t, rfl⟩
      · simp [to_lower] at h1
  obtain ⟨t, ht⟩ := hdrop
  obtain ⟨⟨pre, post, hpre, _, hline⟩, hhead, _⟩ := trim_spec line
  unfold parse_instruction
  cases hs1 : trim line with
  | nil => exact ⟨_, rfl⟩
  | cons b s1 =>
    have hb : is_trim_char b = false := hhead b (by rw [hs1]; rfl)
    have hsd : std_isspace_char b = true ∨ b = '.' := by
      rw [hline, hs1, List.append_assoc,
        dropWhile_append_of_all pre _ (fun c hc => trim_char_is_space c (hpre c hc)),
        List.cons_append, List.dropWhile_cons] at ht
      by_cases hsp : std_isspace_char b = true
      · exact Or.inl hsp
      · right
        simp only [hsp, if_false] at ht
        exact (List.cons.inj ht).1
    have hp : (fun c : Char => decide (c = ' ') || decide (c = '\t')) b = false := by
      simp only [is_trim_char, Bool.or_eq_false_iff] at hb
      simp only [Bool.or_eq_false_iff]
      exact ⟨hb.1.1.1, hb.1.1.2⟩
    have hfind := find_instruction_none b.toLower
    simp only [List.isEmpty_cons, Bool.false_eq_true, if_false, List.findIdx?_cons, hp,
      List.findIdx?_succ]
    cases List.findIdx? (fun c : Char => decide (c = ' ') || decide (c = '\t')) s1 with
    | none =>
      simp only [Option.map_none', to_lower, List.map_cons]
      rw [hfind _ (space_or_dot_toLower b hsd)]
      exact ⟨_, rfl⟩
    | some k =>
      simp only [Option.map_some', List.take_succ_cons, to_lower, List.map_cons]
      rw [hfind _ (space_or_dot_toLower b hsd)]
      exact ⟨_, rfl⟩

end Parser
namespace Parser

theorem item_size_agrees (fc : FloatConversions) (labels : LabelMap) (it : Item) (abs : Nat)
    (p : ParsedLine) (sz : Nat)
    (hp : parse_item fc labels it.content abs = .ok p)
    (hsz : first_pass_size it = .ok sz)
    (hflag : it.is_directive = false → is_directive it.content = false)
    (hal : ∀ d, p = .directive d → d.type ≠ .ALIGN)
    (hlab : ∀ s n, std_stoul s 0 = .ok n → labels.find s = none) :
    sz = emitted_size p % 2 ^ 32 := by
  unfold first_pass_size at hsz
  unfold parse_item at hp
  cases hf : it.is_directive with
  | false =>
    simp only [hf, Bool.false_eq_true, if_false] at hsz
    cases hsz
    simp only [hflag hf, Bool.false_eq_true, if_false] at hp
    cases hi : parse_instruction it.content labels abs with
    | error e =>
      rw [hi] at hp
      cases hp
    | ok i =>
      rw [hi] at hp
      cases hp
      rfl
  | true =>
    simp only [hf, if_true] at hsz
    cases hd : is_directive it.content with
    | false =>
      simp only [hd, Bool.false_eq_true, if_false] at hp
      obtain ⟨e, he⟩ := sized_directive_not_instruction it.content labels it.offset abs sz hsz
      rw [he] at hp
      cases hp
    | true =>
      simp only [hd, if_true] at hp
      cases hpd : parse_directive fc it.content labels with
      | error e =>
        rw [hpd] at hp
        cases hp
      | ok d =>
        rw [hpd] at hp
        cases hp
        exact directive_size_agrees fc it.content labels it.offset d sz hpd hsz (hal d rfl) hlab

theorem emit_line_append (b : List Nat) (p : ParsedLine)
    (h : ∀ d, p = .directive d → d.type ≠ .ALIGN) : emit_line b p = b ++ emit_line [] p := by
  cases p with
  | instruction i => simp [emit_line]
  | directive d =>
    have hd := h d rfl
    obtain ⟨ty, values, fv, dv, text, al, raw⟩ := d
    cases ty <;> simp [emit_line] at hd ⊢
    split <;> simp

theorem foldl_emit_lines (lines : List ParsedLine) :
    (∀ d, ParsedLine.directive d ∈ lines → d.type ≠ .ALIGN) →
    ∀ b, lines.foldl emit_line b = b ++ (lines.map (emit_line [])).flatten := by
  induction lines with
  | nil =>
    intro _ b
    simp
  | cons p ps ih =>
    intro h b
    have hp : ∀ d, p = .directive d → d.type ≠ .ALIGN := by
      intro d hd
      exact h d (by rw [hd]; exact List.mem_cons_self _ _)
    simp only [List.foldl_cons, List.map_cons, List.flatten_cons]
    rw [ih (fun d hd => h d (List.mem_cons_of_mem _ hd)), emit_line_append b p hp,
      List.append_assoc]

theorem generate_length (lines : List ParsedLine)
    (h : ∀ d, ParsedLine.directive d ∈ lines → d.type ≠ .ALIGN) :
    (lines.foldl emit_line []).length = (lines.map emitted_size).sum := by
  rw [foldl_emit_lines lines h, List.nil_append]
  clear h
  induction lines with
  | nil => rfl
  | cons p ps ih =>
    simp only [List.map_cons, List.flatten_cons, List.length_append, List.sum_cons, ih]
    rfl

theorem first_pass_loop_append (pre post : List (List Char)) :
    ∀ st, first_pass_loop (pre ++ post) st =
      match first_pass_loop pre st with
      | .error e => .error e
      | .ok s => first_pass_loop post s := by
  induction pre with
  | nil =>
    intro st
    rfl
  | cons l ls ih =>
    intro st
    simp only [List.cons_append, first_pass_loop]
    cases first_pass_line st l with
    | error e => rfl
    | ok s => exact ih s

theorem section_size_append (b : Bool) (items : List Item) (it : Item) :
    section_size b (items ++ [it]) =
      section_size b items + (if it.in_text = b then item_size it else 0) := by
  unfold section_size
  rw [List.filter_append, List.map_append, List.sum_append]
  by_cases h : it.in_text = b
  · simp [h]
  · simp [h]

end Parser
namespace Parser

theorem first_pass_line_account (st st2 : FirstPassState) (raw_line : List Char)
    (h : first_pass_line st raw_line = .ok st2) (hinv : counters_account st) :
    counters_account st2 ∧ ∃ more, st2.items = st.items ++ more := by
  obtain ⟨ht, hd, hi⟩ := hinv
  obtain ⟨_, hstep⟩ := first_pass_line_step st st2 raw_line h
  rcases hstep with ⟨e1, e2, e3⟩ | ⟨it, sz, e1, hsz, hflag, e2, e3⟩
  · refine ⟨⟨?_, ?_, ?_⟩, [], by rw [e1, List.append_nil]⟩
    · rw [e2, e1]; exact ht
    · rw [e3, e1]; exact hd
    · rw [e1]; exact hi
  · have hsize : item_size it = sz := by
      unfold item_size
      rw [hsz]
    refine ⟨⟨?_, ?_, ?_⟩, [it], e1⟩
    · rw [e2, e1, section_size_append, hsize, Nat.add_mod, ht, ← Nat.add_mod]
    · rw [e3, e1, section_size_append, hsize, Nat.add_mod, hd, ← Nat.add_mod]
      cases it.in_text <;> simp
    · intro x hx
      rw [e1] at hx
      rcases List.mem_append.1 hx with hx | hx
      · exact hi x hx
      · simp only [List.mem_singleton] at hx
        subst hx
        exact ⟨⟨sz, hsz⟩, hflag⟩

theorem first_pass_loop_account (lines : List (List Char)) :
    ∀ (st st1 : FirstPassState), first_pass_loop lines st = .ok st1 → counters_account st →
      counters_account st1 ∧ ∃ more, st1.items = st.items ++ more := by
  induction lines with
  | nil =>
    intro st st1 h hinv
    cases h
    exact ⟨hinv, [], by simp⟩
  | cons l ls ih =>
    intro st st1 h hinv
    unfold first_pass_loop at h
    split at h
    · cases h
    · rename_i st2 h2
      obtain ⟨hinv2, m1, hm1⟩ := first_pass_line_account st st2 l h2 hinv
      obtain ⟨hinv1, m2, hm2⟩ := ih st2 st1 h hinv2
      exact ⟨hinv1, m1 ++ m2, by rw [hm2, hm1, List.append_assoc]⟩

theorem counters_account_init : counters_account {} := by
  refine ⟨rfl, rfl, ?_⟩
  intro it hit
  cases hit

end Parser
namespace Parser

theorem sum_take_le (l : List Nat) (k : Nat) : (l.take k).sum ≤ l.sum := by
  induction l generalizing k with
  | nil => simp
  | cons a as ih =>
    cases k with
    | zero => simp
    | succ k =>
      simp only [List.take_succ_cons, List.sum_cons]
      exact Nat.add_le_add_left (ih k) a

theorem mem_le_sum (l : List Nat) (a : Nat) (h : a ∈ l) : a ≤ l.sum := by
  induction l with
  | nil => cases h
  | cons b bs ih =>
    simp only [List.sum_cons]
    rcases List.mem_cons.1 h with h | h
    · subst h
      exact Nat.le_add_right _ _
    · exact Nat.le_trans (ih h) (Nat.le_add_left _ _)

theorem forall2_sum {α β : Type} (f : α → Nat) (g : β → Nat) (l1 : List α) (l2 : List β)
    (h : List.Forall₂ (fun a b => f a = g b) l1 l2) : (l1.map f).sum = (l2.map g).sum := by
  induction h with
  | nil => rfl
  | cons hab _ ih => simp only [List.map_cons, List.sum_cons, hab, ih]

theorem forall2_with_mem {α β : Type} {R : α → β → Prop} {l1 : List α} {l2 : List β}
    (h : List.Forall₂ R l1 l2) :
    List.Forall₂ (fun a b => R a b ∧ a ∈ l1 ∧ b ∈ l2) l1 l2 := by
  induction h with
  | nil => exact List.Forall₂.nil
  | cons hab _ ih =>
    refine List.Forall₂.cons ⟨hab, List.mem_cons_self _ _, List.mem_cons_self _ _⟩ ?_
    exact ih.imp (fun a b h => ⟨h.1, List.mem_cons_of_mem _ h.2.1, List.mem_cons_of_mem _ h.2.2⟩)

theorem section_size_text (items : List Item) :
    section_size true items = ((items.filter (fun it => it.in_text)).map item_size).sum := by
  unfold section_size
  congr 3
  funext it
  cases it.in_text <;> rfl

theorem section_size_data (items : List Item) :
    section_size false items = ((items.filter (fun it => !it.in_text)).map item_size).sum := by
  unfold section_size
  congr 3
  funext it
  cases it.in_text <;> rfl

theorem image_offset_eq (r : ParseResult)
    (hal : ∀ d, ParsedLine.directive d ∈ r.lines → d.type ≠ .ALIGN) (k : Nat) :
    image_offset r k = ((r.lines.take k).map emitted_size).sum := by
  unfold image_offset generate_binary
  exact generate_length _ (fun d hd => hal d (List.mem_of_mem_take hd))

theorem image_length_eq (r : ParseResult)
    (hal : ∀ d, ParsedLine.directive d ∈ r.lines → d.type ≠ .ALIGN) :
    (generate_binary r).length = (r.lines.map emitted_size).sum :=
  generate_length _ hal

/-- The bytes emitted before the lines that a later item of a section produces, in terms
of the pass 1 sizes of the items seen so far. -/
theorem offsets_of_seen_items (fp_items st_items more : List Item) (lines : List ParsedLine)
    (hF : List.Forall₂ (fun it p => item_size it = emitted_size p)
      (fp_items.filter (fun it => it.in_text) ++ fp_items.filter (fun it => !it.in_text)) lines)
    (hpre : fp_items = st_items ++ more) :
    ((lines.take (st_items.filter (fun it => it.in_text)).length).map emitted_size).sum =
      section_size true st_items ∧
    ((lines.take ((fp_items.filter (fun it => it.in_text)).length +
        (st_items.filter (fun it => !it.in_text)).length)).map emitted_size).sum =
      section_size true fp_items + section_size false st_items := by
  constructor
  · have h1 := List.forall₂_take (st_items.filter (fun it => it.in_text)).length hF
    have e : (fp_items.filter (fun it => it.in_text) ++
        fp_items.filter (fun it => !it.in_text)).take
          (st_items.filter (fun it => it.in_text)).length =
        st_items.filter (fun it => it.in_text) := by
      rw [hpre, List.filter_append, List.append_assoc, List.take_left]
    rw [e] at h1
    rw [section_size_text, forall2_sum _ _ _ _ h1]
  · have h1 := List.forall₂_take ((fp_items.filter (fun it => it.in_text)).length +
      (st_items.filter (fun it => !it.in_text)).length) hF
    have e : (fp_items.filter (fun it => it.in_text) ++
        fp_items.filter (fun it => !it.in_text)).take
          ((fp_items.filter (fun it => it.in_text)).length +
            (st_items.filter (fun it => !it.in_text)).length) =
        fp_items.filter (fun it => it.in_text) ++ st_items.filter (fun it => !it.in_text) := by
      rw [List.take_append]
      congr 1
      rw [hpre, List.filter_append, List.take_left]
    rw [e] at h1
    rw [section_size_text, section_size_data, ← forall2_sum _ _ _ _ h1, List.map_append,
      List.sum_append]

end Parser
namespace Parser

/-- Claim C37 (as amended). For a parseable program with no `.align` directive, whose label
names are identifiers and whose image is shorter than 2^32 bytes: the size pass 1 assigns to
each item (4 for an instruction, `get_directive_size_for_first_pass` for a directive) is the
number of bytes `generate_binary` emits for the parsed line of that item; the image length
is `text_size + data_size`; and a label declared on a source line, after pass 1 has reached
the state `st` on the lines before it, has as absolute address the image offset at which the
line of the next item of the current section begins. -/
theorem pass_one_sizes_match_image (fc : FloatConversions) (text : List Char)
    (r : ParseResult) (fp : FirstPassState)
    (h : parse_assembly fc text = .ok r)
    (hfp : first_pass ((std_getline_all '\n' text []).map remove_comments) = .ok fp)
    (hal : ∀ d, ParsedLine.directive d ∈ r.lines → d.type ≠ .ALIGN)
    (hid : ∀ l ∈ fp.labels_raw, is_identifier l.name = true)
    (hsmall : (generate_binary r).length < 2 ^ 32) :
    List.Forall₂ (fun it p => first_pass_size it = .ok (emitted_size p))
      (fp.items.filter (fun it => it.in_text) ++ fp.items.filter (fun it => !it.in_text))
      r.lines ∧
    (generate_binary r).length = fp.text_pc + fp.data_pc ∧
    ∀ (pre : List (List Char)) (line : List Char) (post : List (List Char))
      (st st2 : FirstPassState),
      (std_getline_all '\n' text []).map remove_comments = pre ++ line :: post →
      first_pass pre = .ok st → first_pass_line st line = .ok st2 →
      ∃ new, st2.labels_raw = st.labels_raw ++ new ∧
        ∀ l ∈ new, label_address fp.text_pc l = image_offset r (next_line_index fp st) := by
  obtain ⟨fp2, hfp2, hlab, hsp⟩ := two_pass_parse_ok fc _ r h
  rw [hfp] at hfp2
  cases hfp2
  have hlabels : r.labels = label_table fp := by
    rw [hlab, labels_fold, List.append_nil]
    rfl
  have hfind : ∀ s n, std_stoul s 0 = .ok n → r.labels.find s = none := by
    intro s n hs
    rw [hlabels]
    apply label_table_find_none
    intro l hl heq
    have := identifier_not_number l.name (hid l hl)
    rw [heq, hs] at this
    cases this
  have h2 := second_pass_forall2 fc r.labels _ _ hsp
  rw [List.filter_map, List.filter_map, ← List.map_append, List.forall₂_map_left_iff] at h2
  have h3 : List.Forall₂
      (fun it p => ∃ abs, parse_item fc r.labels it.content abs = .ok p)
      (fp.items.filter (fun it => it.in_text) ++ fp.items.filter (fun it => !it.in_text))
      r.lines := by
    refine List.Forall₂.imp ?_ h2
    intro it p hp
    exact ⟨_, hp⟩
  obtain ⟨hacct, haccd, hacci⟩ :=
    (first_pass_loop_account _ {} fp hfp counters_account_init).1
  obtain ⟨hbt, hbd, _⟩ := first_pass_bound _ fp hfp
  have htotal := image_length_eq r hal
  have hF : List.Forall₂
      (fun it p => item_size it = emitted_size p ∧ first_pass_size it = .ok (emitted_size p))
      (fp.items.filter (fun it => it.in_text) ++ fp.items.filter (fun it => !it.in_text))
      r.lines := by
    refine List.Forall₂.imp ?_ (forall2_with_mem h3)
    rintro it p ⟨⟨abs, hp⟩, hit, hpm⟩
    have hit2 : it ∈ fp.items := by
      rcases List.mem_append.1 hit with hm | hm
      · exact (List.mem_filter.1 hm).1
      · exact (List.mem_filter.1 hm).1
    obtain ⟨⟨sz, hsz⟩, hflag⟩ := hacci it hit2
    have hagree := item_size_agrees fc r.labels it abs p sz hp hsz hflag
      (fun d hd => hal d (hd ▸ hpm)) hfind
    have hle : emitted_size p ≤ (generate_binary r).length := by
      rw [htotal]
      exact mem_le_sum _ _ (List.mem_map_of_mem _ hpm)
    have hsze : sz = emitted_size p := by
      rw [hagree]
      exact Nat.mod_eq_of_lt (by omega)
    subst hsze
    exact ⟨by unfold item_size; rw [hsz], hsz⟩
  have hF1 : List.Forall₂ (fun it p => item_size it = emitted_size p)
      (fp.items.filter (fun it => it.in_text) ++ fp.items.filter (fun it => !it.in_text))
      r.lines := hF.imp (fun _ _ hx => hx.1)
  have hsum : (generate_binary r).length =
      section_size true fp.items + section_size false fp.items := by
    rw [htotal, ← forall2_sum _ _ _ _ hF1, List.map_append, List.sum_append,
      section_size_text, section_size_data]
  have htext : fp.text_pc = section_size true fp.items := by omega
  have hdata : fp.data_pc = section_size false fp.items := by omega
  refine ⟨hF.imp (fun _ _ hx => hx.2), by omega, ?_⟩
  intro pre line post st st2 hsrc hpre hline
  have hloop : first_pass_loop (pre ++ line :: post) {} = .ok fp := by
    rw [← hsrc]
    exact hfp
  have hpre2 : first_pass_loop pre {} = .ok st := hpre
  rw [first_pass_loop_append, hpre2] at hloop
  simp only [first_pass_loop, hline] at hloop
  obtain ⟨hacc_st, _⟩ := first_pass_loop_account pre {} st hpre2 counters_account_init
  obtain ⟨hacc_st2, m1, hm1⟩ := first_pass_line_account st st2 line hline hacc_st
  obtain ⟨_, m2, hm2⟩ := first_pass_loop_account post st2 fp hloop hacc_st2
  have hitems : fp.items = st.items ++ (m1 ++ m2) := by
    rw [hm2, hm1, List.append_assoc]
  obtain ⟨hst, hsd, _⟩ := first_pass_loop_bound pre {} st hpre2
    ⟨by decide, by decide, by intro l hl; cases hl⟩
  obtain ⟨⟨new, hnew, hprop⟩, _⟩ := first_pass_line_step st st2 line hline
  refine ⟨new, hnew, fun l hl => ?_⟩
  obtain ⟨hin, hoff⟩ := hprop l hl
  obtain ⟨o1, o2⟩ := offsets_of_seen_items fp.items st.items (m1 ++ m2) r.lines hF1 hitems
  obtain ⟨a1, a2, _⟩ := hacc_st
  have le1 := sum_take_le (r.lines.map emitted_size)
    (st.items.filter (fun it => it.in_text)).length
  have le2 := sum_take_le (r.lines.map emitted_size)
    ((fp.items.filter (fun it => it.in_text)).length +
      (st.items.filter (fun it => !it.in_text)).length)
  rw [← List.map_take] at le1 le2
  rw [o1, ← htotal] at le1
  rw [o2, ← htotal] at le2
  rw [image_offset_eq r hal]
  unfold label_address next_line_index
  rw [hin, hoff]
  cases hc : st.current_in_text with
  | false =>
    simp only [Bool.false_eq_true, if_false]
    rw [o2]
    omega
  | true =>
    simp only [if_true]
    rw [o1]
    omega

end Parser
namespace Parser

theorem parser_test_no_align :
    ∀ p ∈ (parsed parser_test_text).lines,
      (match p with
        | .directive d => decide (d.type ≠ .ALIGN)
        | .instruction _ => true) = true := by
  decide

/-- Witness of claim C37 as amended, on the parser test program of the repository: its 10
items are sized in pass 1 as their parsed lines are emitted, and its image has
`text_size + data_size` = 20 + 15 bytes. -/
theorem pass_one_sizes_match_image_witness :
    parse_assembly FloatConversions.none parser_test_text = .ok (parsed parser_test_text) ∧
    first_pass ((std_getline_all '\n' parser_test_text []).map remove_comments) =
      .ok (first_pass_of parser_test_text) ∧
    (∀ l ∈ (first_pass_of parser_test_text).labels_raw, is_identifier l.name = true) ∧
    (generate_binary (parsed parser_test_text)).length < 2 ^ 32 ∧
    List.Forall₂ (fun it p => first_pass_size it = .ok (emitted_size p))
      ((first_pass_of parser_test_text).items.filter (fun it => it.in_text) ++
        (first_pass_of parser_test_text).items.filter (fun it => !it.in_text))
      (parsed parser_test_text).lines ∧
    (generate_binary (parsed parser_test_text)).length =
      (first_pass_of parser_test_text).text_pc + (first_pass_of parser_test_text).data_pc ∧
    (first_pass_of parser_test_text).text_pc = 20 ∧
    (first_pass_of parser_test_text).data_pc = 15 :=
  ⟨by decide, by decide, by decide, by decide,
    (pass_one_sizes_match_image FloatConversions.none parser_test_text
      (parsed parser_test_text) (first_pass_of parser_test_text) (by decide) (by decide)
      (fun d hd => of_decide_eq_true (parser_test_no_align _ hd)) (by decide) (by decide)).1,
    (pass_one_sizes_match_image FloatConversions.none parser_test_text
      (parsed parser_test_text) (first_pass_of parser_test_text) (by decide) (by decide)
      (fun d hd => of_decide_eq_true (parser_test_no_align _ hd)) (by decide) (by decide)).2.1,
    by decide, by decide⟩

theorem two_big_spaces_lines :
    (parsed two_big_spaces_text).lines =
      [.directive big_space, .directive big_space] := by
  decide

theorem space_pair_length (d : AssemblyDirective) (n : Nat) (ht : d.type = .SPACE)
    (hv : d.values = [n]) :
    (List.foldl emit_line [] [.directive d, .directive d]).length = n + n := by
  obtain ⟨ty, values, fv, dv, text, al, raw⟩ := d
  simp only at ht hv
  subst ht hv
  simp [emit_line]

/-- Claim C37, counterexample. The program of two lines `.space 4294967295` is parseable,
has no `.align` and no label; pass 1 sizes each item as the 4294967295 bytes it emits, but
its counter wraps at 2^32: `text_size + data_size` is 4294967294 while the image has
8589934590 bytes. -/
theorem big_spaces_wrap_text_size :
    parse_assembly FloatConversions.none two_big_spaces_text =
      .ok (parsed two_big_spaces_text) ∧
    first_pass ((std_getline_all '\n' two_big_spaces_text []).map remove_comments) =
      .ok (first_pass_of two_big_spaces_text) ∧
    (∀ d, ParsedLine.directive d ∈ (parsed two_big_spaces_text).lines → d.type ≠ .ALIGN) ∧
    (first_pass_of two_big_spaces_text).labels_raw = [] ∧
    (first_pass_of two_big_spaces_text).text_pc +
      (first_pass_of two_big_spaces_text).data_pc = 4294967294 ∧
    (generate_binary (parsed two_big_spaces_text)).length = 8589934590 := by
  refine ⟨by decide, by decide, ?_, by decide, by decide, ?_⟩
  · intro d hd
    rw [two_big_spaces_lines] at hd
    simp only [List.mem_cons, ParsedLine.directive.injEq, List.mem_singleton,
      List.not_mem_nil, or_false, or_self] at hd
    subst hd
    decide
  · unfold generate_binary
    rw [two_big_spaces_lines]
    exact space_pair_length big_space 4294967295 rfl rfl

end Parser

end Mips
